import Mathlib

/-!
Wireup: a shallow embedding of `src/na/wireup/wiring.c`.

The wire table, its two timeout queues, the free list, the request pool, the
per-wire state machine, table growth and the epoch-based reclamation of
`wiring.c` are embedded as pure functions on an explicit state. The macros of
`bits.h`, `fs_proc_string_hash` of `generic_proc.h` and the request header
processing of `mercury_core_header.c` have sections of their own.

Conventions of the embedding.

* A pointer `wire_t *w` into the table is represented by its slot index
  (`wire_index(st, w)`), a `sender_id_t` by `Option Nat` where `none` stands for
  the reserved value `sender_id_nil`.
* `uint64_t` and `size_t` values are natural numbers; arithmetic that can wrap
  is written with an explicit `% 2 ^ 64`.
* Results of calls that leave the program (allocation, the transport, the
  user's callbacks, the clock) are arguments of the embedded functions.
* Loops that the C code does not bound take a `fuel` argument and return
  `none` when it runs out.
* `assert`s are not part of the functions (as under `NDEBUG`).
-/

set_option autoImplicit false

namespace Wireup

/-! ## Constants and plain data -/

/-- Modelled from the spec: `sender_id_t` of `wiring_impl.h` (not among the
sources), a slot index with a reserved nil value; `none` is `sender_id_nil`. -/
abbrev sender_id_t := Option Nat

/-- Modelled from the spec: the reserved nil sender id. -/
def sender_id_nil : sender_id_t := none

/-- Modelled from the spec: the bound on sender ids carried by messages
(`sender_id < 2^31-1`); `wiring_impl.h` is not among the sources. -/
def SENDER_ID_MAX : Nat := 2 ^ 31 - 1

def UINT64_MAX : Nat := 2 ^ 64 - 1

def UINT16_MAX : Nat := 2 ^ 16 - 1

def KEEPALIVE_INTERVAL : Nat := 1000000000

def RETRY_INTERVAL : Nat := 1000000000 / 4

def retry_interval : Nat := RETRY_INTERVAL

def keepalive_interval : Nat := KEEPALIVE_INTERVAL

def timeout_interval : Nat := UINT64_MAX

/-- Modelled from the spec: the opcodes `{ACK, KEEPALIVE, REQ, STOP}` of
`wireup_op_t`, an enumeration of `wiring_impl.h` (not among the sources),
numbered in the order the spec lists them. -/
def OP_ACK : Nat := 0

/-- Modelled from the spec: see `OP_ACK`. -/
def OP_KEEPALIVE : Nat := 1

/-- Modelled from the spec: see `OP_ACK`. -/
def OP_REQ : Nat := 2

/-- Modelled from the spec: see `OP_ACK`. -/
def OP_STOP : Nat := 3

/-- Modelled from the spec: `offsetof(wireup_msg_t, addr[0])`, which is also
`sizeof(wireup_msg_t)`: the 8-byte fixed header of the message layout. -/
def WIREUP_MSG_HDRLEN : Nat := 8

/-- Values of `void *`: `NULL`, the address of the static `wire_no_data`, and
the addresses of other objects. -/
inductive Ptr where
  | null : Ptr
  | wire_no_data : Ptr
  | obj (a : Nat) : Ptr
  deriving DecidableEq, Repr, Inhabited

/-- `void * const wire_data_nil = &wire_no_data;` -/
def wire_data_nil : Ptr := Ptr.wire_no_data

/-- The four states `state[WIRE_S_INITIAL]` ... `state[WIRE_S_FREE]`. -/
inductive wire_state_t where
  | INITIAL : wire_state_t
  | LIVE : wire_state_t
  | CLOSING : wire_state_t
  | FREE : wire_state_t
  deriving DecidableEq, Repr, Inhabited

/-- The two timeout queues, `timo_expire` and `timo_wakeup`. -/
inductive timo_t where
  | timo_expire : timo_t
  | timo_wakeup : timo_t
  deriving DecidableEq, Repr, Inhabited

/-- Modelled from the spec: `wireup_msg_t` of `wiring_impl.h` (not among the
sources): `op` (16 bits), `addrlen` (16 bits), `sender_id` (32 bits) and the
address bytes. -/
structure wireup_msg_t where
  op : Nat
  addrlen : Nat
  sender_id : Nat
  addr : List Nat
  deriving DecidableEq, Repr, Inhabited

/-- Modelled from the spec: `timeout_link_t`, `link = {prev, next, due}`. -/
structure timeout_link_t where
  prev : sender_id_t
  next : sender_id_t
  due : Nat
  deriving DecidableEq, Repr, Inhabited

/-- Modelled from the spec: `timeout_head_t`, `head = {first, last}`. -/
structure timeout_head_t where
  first : sender_id_t
  last : sender_id_t
  deriving DecidableEq, Repr, Inhabited

/-- Modelled from the spec: `wire_t` of `wiring_impl.h` (not among the
sources), with the members `wiring.c` reads and writes. Endpoints and callback
functions are represented by numbers, `none` being `NULL`. -/
structure wire_t where
  tlink_expire : timeout_link_t
  tlink_wakeup : timeout_link_t
  next : sender_id_t
  state : wire_state_t
  ep : Option Nat
  id : sender_id_t
  msg : Option wireup_msg_t
  msglen : Nat
  cb : Option Nat
  cb_arg : Ptr
  deriving DecidableEq, Repr

/-- A zero-filled `wire_t`: what an initializer such as
`(wire_t){.ep = ep, ...}` leaves in the members it does not name. The state
pointer is `NULL` there; every initializer of `wiring.c` names `.state`. -/
def wire_zero : wire_t :=
  { tlink_expire := { prev := some 0, next := some 0, due := 0 }
    tlink_wakeup := { prev := some 0, next := some 0, due := 0 }
    next := some 0
    state := wire_state_t.FREE
    ep := none
    id := some 0
    msg := none
    msglen := 0
    cb := none
    cb_arg := Ptr.null }

instance : Inhabited wire_t := ⟨wire_zero⟩

/-- Modelled from the spec: `wstorage_t`, the header `{count, first_free}` and
the two timeout heads, followed by the array of wires. The count `nwires` is
the length of `wire`. -/
structure wstorage_t where
  first_free : sender_id_t
  thead_expire : timeout_head_t
  thead_wakeup : timeout_head_t
  wire : List wire_t
  deriving DecidableEq, Repr

def wstorage_t.nwires (st : wstorage_t) : Nat := st.wire.length

/-- Read `st->wire[id]`. -/
def wstorage_t.getw (st : wstorage_t) (id : Nat) : wire_t := st.wire.getD id wire_zero

/-- Write `st->wire[id]`. -/
def wstorage_t.setw (st : wstorage_t) (id : Nat) (w : wire_t) : wstorage_t :=
  { st with wire := st.wire.set id w }

/-- Read `w->tlink[which]`. -/
def wire_t.tlink (w : wire_t) : timo_t → timeout_link_t
  | timo_t.timo_expire => w.tlink_expire
  | timo_t.timo_wakeup => w.tlink_wakeup

/-- Write `w->tlink[which]`. -/
def wire_t.set_tlink (w : wire_t) (which : timo_t) (l : timeout_link_t) : wire_t :=
  match which with
  | timo_t.timo_expire => { w with tlink_expire := l }
  | timo_t.timo_wakeup => { w with tlink_wakeup := l }

/-- Read `st->thead[which]`. -/
def wstorage_t.thead (st : wstorage_t) : timo_t → timeout_head_t
  | timo_t.timo_expire => st.thead_expire
  | timo_t.timo_wakeup => st.thead_wakeup

/-- Write `st->thead[which]`. -/
def wstorage_t.set_thead (st : wstorage_t) (which : timo_t) (h : timeout_head_t) : wstorage_t :=
  match which with
  | timo_t.timo_expire => { st with thead_expire := h }
  | timo_t.timo_wakeup => { st with thead_wakeup := h }

/-- Read `st->wire[id].tlink[which]`. -/
def wstorage_t.link (st : wstorage_t) (id : Nat) (which : timo_t) : timeout_link_t :=
  (st.getw id).tlink which

/-- Write `st->wire[id].tlink[which]`. -/
def wstorage_t.set_link (st : wstorage_t) (id : Nat) (which : timo_t) (l : timeout_link_t) :
    wstorage_t :=
  st.setw id ((st.getw id).set_tlink which l)

/-! ## Timeout queues -/

/-- `wiring_timeout_peek`: the wire at the head of a queue, if any. -/
def wiring_timeout_peek (st : wstorage_t) (which : timo_t) : Option Nat :=
  (st.thead which).first

/-- `wiring_timeout_remove`. `link` points at `w->tlink[which]`; the store to
`storage->wire[link->next]` cannot change it, since `link->next != id` there,
so `link->next` and `link->prev` are read once. -/
def wiring_timeout_remove (st : wstorage_t) (id : Nat) (which : timo_t) : wstorage_t :=
  let link := st.link id which
  if link.next = some id then st
  else
    let st1 :=
      match link.next with
      | none => st.set_thead which { (st.thead which) with last := link.prev }
      | some n => st.set_link n which { (st.link n which) with prev := link.prev }
    let st2 :=
      match link.prev with
      | none => st1.set_thead which { (st1.thead which) with first := link.next }
      | some p => st1.set_link p which { (st1.link p which) with next := link.next }
    st2.set_link id which { prev := some id, next := some id, due := 0 }

/-- `wiring_timeout_put`: append wire `id` at the tail with due time `when`. -/
def wiring_timeout_put (st : wstorage_t) (id : Nat) (which : timo_t) (when : Nat) : wstorage_t :=
  let head := st.thead which
  let st1 := st.set_link id which { prev := head.last, next := sender_id_nil, due := when }
  let st2 :=
    match head.last with
    | none => st1.set_thead which { (st1.thead which) with first := some id }
    | some l => st1.set_link l which { (st1.link l which) with next := some id }
  st2.set_thead which { (st2.thead which) with last := some id }

/-- The check `assert(lastlink->due <= when)` of `wiring_timeout_put`. -/
def wiring_timeout_put_assert (st : wstorage_t) (which : timo_t) (when : Nat) : Bool :=
  match (st.thead which).last with
  | none => true
  | some l => decide ((st.link l which).due ≤ when)

def wiring_expiration_put (st : wstorage_t) (id : Nat) (when : Nat) : wstorage_t :=
  wiring_timeout_put st id timo_t.timo_expire when

def wiring_expiration_peek (st : wstorage_t) : Option Nat :=
  wiring_timeout_peek st timo_t.timo_expire

def wiring_expiration_remove (st : wstorage_t) (id : Nat) : wstorage_t :=
  wiring_timeout_remove st id timo_t.timo_expire

def wiring_wakeup_put (st : wstorage_t) (id : Nat) (wakeup : Nat) : wstorage_t :=
  wiring_timeout_put st id timo_t.timo_wakeup wakeup

def wiring_wakeup_peek (st : wstorage_t) : Option Nat :=
  wiring_timeout_peek st timo_t.timo_wakeup

def wiring_wakeup_remove (st : wstorage_t) (id : Nat) : wstorage_t :=
  wiring_timeout_remove st id timo_t.timo_wakeup

/-! ## Free list -/

/-- Modelled from the spec: `wiring_free_get` of `wiring_impl.h` (not among the
sources): take the slot at the head of the singly-linked free list. -/
def wiring_free_get (st : wstorage_t) : sender_id_t × wstorage_t :=
  match st.first_free with
  | none => (sender_id_nil, st)
  | some id =>
    let st1 := { st with first_free := (st.getw id).next }
    (some id, st1.setw id { (st1.getw id) with next := sender_id_nil })

/-- Modelled from the spec: `wiring_free_put` of `wiring_impl.h` (not among the
sources): push slot `id` on the head of the free list. -/
def wiring_free_put (st : wstorage_t) (id : Nat) : wstorage_t :=
  let st1 := st.setw id { (st.getw id) with next := st.first_free }
  { st1 with first_free := some id }

/-! ## The wiring: table, associations, requests, references, garbage bins -/

inductive wire_event_t where
  | wire_ev_estd : wire_event_t
  | wire_ev_closed : wire_event_t
  | wire_ev_reclaimed : wire_event_t
  deriving DecidableEq, Repr, Inhabited

/-- The argument `wire_event_info_t` of a wire's callback. -/
structure wire_event_info_t where
  event : wire_event_t
  ep : Option Nat
  sender_id : sender_id_t
  deriving DecidableEq, Repr, Inhabited

/-- A pointer to a `wiring_ref_t`: `NULL`, the static
`reclaimed_bin_sentinel`, or a reference object of the caller. -/
inductive ref_ptr where
  | null : ref_ptr
  | sentinel : ref_ptr
  | user (n : Nat) : ref_ptr
  deriving DecidableEq, Repr, Inhabited

/-- Modelled from the spec: `wiring_ref_t` of `wiring.h` (not among the
sources), with the members `wiring.c` uses: the stack link, the stored epoch
and the busy flag. -/
structure wiring_ref_t where
  next : ref_ptr
  epoch : Nat
  busy : Bool
  deriving DecidableEq, Repr, Inhabited

/-- The tag of a transmission: `wireup_start_tag`, or
`TAG_CHNL_WIREUP | SHIFTIN(id, TAG_ID_MASK)` for a peer's sender id. -/
inductive tx_tag where
  | start : tx_tag
  | peer (id : sender_id_t) : tx_tag
  deriving DecidableEq, Repr, Inhabited

/-- Calls that leave the wiring, in the order they are made. -/
inductive ext_call where
  | cb (fn : Nat) (info : wire_event_info_t) (arg : Ptr) : ext_call
  | tag_send (ep : Option Nat) (msg : wireup_msg_t) (msglen : Nat) (tag : tx_tag) : ext_call
  | ep_close (ep : Nat) : ext_call
  | ref_reclaim (ref : ref_ptr) : ext_call
  | accept (fn : Nat) (wire_id : Nat) (sender_id : Nat) (ep : Nat) : ext_call
  | ep_create (ep : Nat) : ext_call
  deriving DecidableEq, Repr

/-- Modelled from the spec: `wiring_garbage_bin_t`: a stack of references, a
list of closed wires, at most one retired table and association array. -/
structure wiring_garbage_bin_t where
  first_ref : ref_ptr
  first_closed : sender_id_t
  assoc : Option (List Ptr)
  storage : Option wstorage_t
  deriving DecidableEq, Repr

def bin_zero : wiring_garbage_bin_t :=
  { first_ref := ref_ptr.null, first_closed := some 0, assoc := none, storage := none }

/-- `NELTS(sched->bin)`: the spec's "array of four bins". -/
def NBINS : Nat := 4

/-- Modelled from the spec: `wiring_garbage_schedule_t`: the bins, the epoch
window `[first, last)` and the `work_available` counter. -/
structure wiring_garbage_schedule_t where
  epoch_first : Nat
  epoch_last : Nat
  work_available : Nat
  bin : List wiring_garbage_bin_t
  deriving DecidableEq, Repr

def wiring_garbage_schedule_t.getbin (g : wiring_garbage_schedule_t) (i : Nat) :
    wiring_garbage_bin_t :=
  g.bin.getD i bin_zero

def wiring_garbage_schedule_t.setbin (g : wiring_garbage_schedule_t) (i : Nat)
    (b : wiring_garbage_bin_t) : wiring_garbage_schedule_t :=
  { g with bin := g.bin.set i b }

/-- Modelled from the spec: `wiring_t` of `wiring_impl.h` (not among the
sources), with the members `wiring.c` uses. `req_free` is the stack at
`req_free_head`, `req_outst` the list from `req_outst_head` to the tail.
`refs` and `sentinel` hold the reference objects that bins point to (`refs`
is memory of the callers), `trace` the calls made so far, oldest first. -/
structure wiring_t where
  storage : wstorage_t
  assoc : List Ptr
  garbage_sched : wiring_garbage_schedule_t
  req_free : List Nat
  req_outst : List Nat
  accept_cb : Option Nat
  accept_cb_arg : Ptr
  refs : Nat → wiring_ref_t
  sentinel : wiring_ref_t
  trace : List ext_call

/-- Read `*ref`. -/
def wiring_t.ref (s : wiring_t) : ref_ptr → wiring_ref_t
  | ref_ptr.null => default
  | ref_ptr.sentinel => s.sentinel
  | ref_ptr.user n => s.refs n

/-- Write `*ref`. -/
def wiring_t.set_ref (s : wiring_t) (p : ref_ptr) (r : wiring_ref_t) : wiring_t :=
  match p with
  | ref_ptr.null => s
  | ref_ptr.sentinel => { s with sentinel := r }
  | ref_ptr.user n => { s with refs := fun k => if k = n then r else s.refs k }

def wiring_t.getbin (s : wiring_t) (i : Nat) : wiring_garbage_bin_t := s.garbage_sched.getbin i

def wiring_t.setbin (s : wiring_t) (i : Nat) (b : wiring_garbage_bin_t) : wiring_t :=
  { s with garbage_sched := s.garbage_sched.setbin i b }

def wiring_t.log (s : wiring_t) (c : ext_call) : wiring_t := { s with trace := s.trace ++ [c] }

/-- What `ucp_tag_send_nbx` and `ucp_ep_close_nbx` return: an error
(`UCS_PTR_IS_ERR`), `UCS_OK`, or a request still in progress. -/
inductive ucs_status_ptr_t where
  | err : ucs_status_ptr_t
  | ok : ucs_status_ptr_t
  | pending : ucs_status_ptr_t
  deriving DecidableEq, Repr, Inhabited

/-- Results of the calls one operation makes outside the wiring:
`zalloc` of a message, `header_alloc` of a request (consulted when the request
free list is empty), `ucp_ep_create`, the non-blocking send or close, the two
`malloc`s of `wiring_enlarge`, the value the wire's callback returns, and what
the accept callback returns and stores through its out-parameters. -/
structure env_t where
  zalloc_ok : Bool
  header_alloc : Option Nat
  ep_create : Option Nat
  nbx : ucs_status_ptr_t
  malloc_st_ok : Bool
  malloc_assoc_ok : Bool
  cb_ret : Bool
  accept_data : Ptr
  accept_cb : Option Nat
  accept_cb_arg : Ptr
  deriving DecidableEq, Repr

/-- An environment in which every call succeeds at once. -/
def env_ok : env_t :=
  { zalloc_ok := true, header_alloc := some 0, ep_create := some 1, nbx := ucs_status_ptr_t.ok,
    malloc_st_ok := true, malloc_assoc_ok := true, cb_ret := true,
    accept_data := Ptr.null, accept_cb := none, accept_cb_arg := Ptr.null }

/-! ## Requests -/

/-- `wiring_free_request_get`. -/
def wiring_free_request_get (header_alloc : Option Nat) (s : wiring_t) : Option Nat × wiring_t :=
  match s.req_free with
  | r :: rest => (some r, { s with req_free := rest })
  | [] => (header_alloc, s)

/-- `wiring_outst_request_put`. -/
def wiring_outst_request_put (s : wiring_t) (req : Nat) : wiring_t :=
  { s with req_outst := s.req_outst ++ [req] }

/-- `wiring_free_request_put`. -/
def wiring_free_request_put (s : wiring_t) (req : Nat) : wiring_t :=
  { s with req_free := req :: s.req_free }

/-- The three-way branch that follows every non-blocking call: on an error and
on `UCS_OK` the request goes back to the free list, otherwise onto the
outstanding list. -/
def request_settle (s : wiring_t) (req : Nat) : ucs_status_ptr_t → wiring_t
  | ucs_status_ptr_t.err => wiring_free_request_put s req
  | ucs_status_ptr_t.ok => wiring_free_request_put s req
  | ucs_status_ptr_t.pending => wiring_outst_request_put s req

/-- `wiring_requests_check_status`; `in_progress req` is
`ucp_request_check_status(req) == UCS_INPROGRESS`. -/
def wiring_requests_check_status (in_progress : Nat → Bool) (s : wiring_t) : Bool × wiring_t :=
  let rec go : List Nat → List Nat → Bool × List Nat × List Nat
    | [], free => (false, [], free)
    | req :: rest, free =>
      if in_progress req then (true, req :: rest, free) else go rest (req :: free)
  let r := go s.req_outst s.req_free
  (r.1, { s with req_outst := r.2.1, req_free := r.2.2 })

/-! ## Closing and transitions -/

/-- `wiring_closing_put`. -/
def wiring_closing_put (s : wiring_t) (id : Nat) : wiring_t :=
  let epoch := s.garbage_sched.epoch_last
  let bin := s.getbin (epoch % NBINS)
  let st := s.storage
  let s1 := { s with storage := st.setw id { (st.getw id) with next := bin.first_closed } }
  s1.setbin (epoch % NBINS) { bin with first_closed := some id }

/-- `wiring_close_wire`. -/
def wiring_close_wire (s : wiring_t) (id : Nat) : wiring_t :=
  let s1 := { s with assoc := s.assoc.set id Ptr.null }
  let st := s1.storage
  let st1 := st.setw id { (st.getw id) with id := sender_id_nil }
  let st2 := wiring_expiration_remove st1 id
  let st3 := wiring_wakeup_remove st2 id
  wiring_closing_put { s1 with storage := st3 } id

/-- `wireup_storage_transition`; `cb_ret` is what the callback returns when it
is called. The second component is the call made, if any. -/
def wireup_storage_transition (cb_ret : Bool) (st : wstorage_t) (id : Nat)
    (nstate : wire_state_t) : wstorage_t × Option ext_call :=
  let w0 := st.getw id
  let ostate := w0.state
  let w := { w0 with state := nstate }
  match w.cb with
  | none => (st.setw id w, none)
  | some fn =>
    if ostate = nstate then (st.setw id w, none)
    else
      let info : Option wire_event_info_t :=
        match nstate with
        | wire_state_t.FREE =>
          some { event := wire_event_t.wire_ev_reclaimed, ep := none, sender_id := sender_id_nil }
        | wire_state_t.CLOSING =>
          some { event := wire_event_t.wire_ev_closed, ep := none, sender_id := sender_id_nil }
        | wire_state_t.LIVE =>
          some { event := wire_event_t.wire_ev_estd, ep := w.ep, sender_id := w.id }
        | wire_state_t.INITIAL => none
      match info with
      | none => (st.setw id w, none)
      | some i =>
        let reset_cb := !cb_ret
        let w1 := if reset_cb then { w with cb := none, cb_arg := Ptr.null } else w
        (st.setw id w1, some (ext_call.cb fn i w.cb_arg))

/-- `wireup_transition`. -/
def wireup_transition (cb_ret : Bool) (s : wiring_t) (id : Nat) (nstate : wire_state_t) :
    wiring_t :=
  let r := wireup_storage_transition cb_ret s.storage id nstate
  let s1 := { s with storage := r.1 }
  match r.2 with
  | none => s1
  | some c => s1.log c

/-- `gettimeout`; `nanos1` and `nanos2` are its two readings of the clock. -/
def gettimeout (nanos1 nanos2 : Nat) : Nat :=
  if UINT64_MAX - nanos1 < timeout_interval then UINT64_MAX
  else (nanos2 + timeout_interval) % 2 ^ 64

/-! ## The handlers of the state table

Each handler takes the wiring, the slot of the wire and (for `receive`) the
message, and returns the next state and the wiring. `now` is the reading of
the clock during the operation. -/

/-- `start_life`, the `receive` handler of INITIAL. -/
def start_life (now : Nat) (s : wiring_t) (id : Nat) (msg : wireup_msg_t) :
    wire_state_t × wiring_t :=
  let w := s.storage.getw id
  if msg.sender_id ≥ SENDER_ID_MAX then (w.state, s)
  else if msg.op = OP_STOP then (wire_state_t.CLOSING, wiring_close_wire s id)
  else if msg.op ≠ OP_ACK then (w.state, s)
  else if msg.addrlen ≠ 0 then (w.state, s)
  else
    let st := s.storage
    let st1 := st.setw id { w with id := some msg.sender_id, msg := none, msglen := 0 }
    let st2 := wiring_expiration_remove st1 id
    let st3 := wiring_expiration_put st2 id (gettimeout now now)
    let st4 := wiring_wakeup_remove st3 id
    let st5 := wiring_wakeup_put st4 id ((now + keepalive_interval) % 2 ^ 64)
    (wire_state_t.LIVE, { s with storage := st5 })

/-- `continue_life`, the `receive` handler of LIVE. -/
def continue_life (now : Nat) (s : wiring_t) (id : Nat) (msg : wireup_msg_t) :
    wire_state_t × wiring_t :=
  let w := s.storage.getw id
  if msg.sender_id ≥ SENDER_ID_MAX then (w.state, s)
  else if msg.op = OP_STOP then (wire_state_t.CLOSING, wiring_close_wire s id)
  else if msg.op ≠ OP_KEEPALIVE then (w.state, s)
  else if msg.addrlen ≠ 0 then (w.state, s)
  else if some msg.sender_id ≠ w.id then (wire_state_t.CLOSING, wiring_close_wire s id)
  else
    let st2 := wiring_expiration_remove s.storage id
    let st3 := wiring_expiration_put st2 id (gettimeout now now)
    (wire_state_t.LIVE, { s with storage := st3 })

/-- `send_keepalive`, the `wakeup` handler of LIVE. -/
def send_keepalive (e : env_t) (now : Nat) (s : wiring_t) (id : Nat) : wire_state_t × wiring_t :=
  let w := s.storage.getw id
  if !e.zalloc_ok then (w.state, s)
  else
    let msg : wireup_msg_t := { op := OP_KEEPALIVE, sender_id := id, addrlen := 0, addr := [] }
    match wiring_free_request_get e.header_alloc s with
    | (none, s1) => (w.state, s1)
    | (some req, s1) =>
      let s2 := s1.log (ext_call.tag_send w.ep msg WIREUP_MSG_HDRLEN (tx_tag.peer w.id))
      let s3 := request_settle s2 req e.nbx
      let st := wiring_wakeup_put s3.storage id ((now + keepalive_interval) % 2 ^ 64)
      (w.state, { s3 with storage := st })

/-- `ignore_wakeup`. -/
def ignore_wakeup (s : wiring_t) (id : Nat) : wire_state_t × wiring_t :=
  ((s.storage.getw id).state, s)

/-- `ignore_expire`: returns `&state[WIRE_S_CLOSING]`. -/
def ignore_expire (s : wiring_t) (_id : Nat) : wire_state_t × wiring_t :=
  (wire_state_t.CLOSING, s)

/-- `reject_msg`: returns `&state[WIRE_S_CLOSING]`. -/
def reject_msg (s : wiring_t) (_id : Nat) (_msg : wireup_msg_t) : wire_state_t × wiring_t :=
  (wire_state_t.CLOSING, s)

/-- `wireup_send`: send the wire's stored message to `wireup_start_tag`. -/
def wireup_send (e : env_t) (s : wiring_t) (id : Nat) : Bool × wiring_t :=
  let w := s.storage.getw id
  match wiring_free_request_get e.header_alloc s with
  | (none, s1) => (false, s1)
  | (some req, s1) =>
    let s2 := s1.log (ext_call.tag_send w.ep (w.msg.getD default) w.msglen tx_tag.start)
    match e.nbx with
    | ucs_status_ptr_t.err => (false, wiring_free_request_put s2 req)
    | ucs_status_ptr_t.ok => (true, wiring_free_request_put s2 req)
    | ucs_status_ptr_t.pending => (true, wiring_outst_request_put s2 req)

/-- `retry`, the `wakeup` handler of INITIAL. -/
def retry (e : env_t) (now : Nat) (s : wiring_t) (id : Nat) : wire_state_t × wiring_t :=
  match wireup_send e s id with
  | (false, s1) => (wire_state_t.CLOSING, wiring_close_wire s1 id)
  | (true, s1) =>
    let st := wiring_wakeup_put s1.storage id ((now + retry_interval) % 2 ^ 64)
    (wire_state_t.INITIAL, { s1 with storage := st })

/-- `destroy`, the `expire` handler of LIVE. -/
def destroy (s : wiring_t) (id : Nat) : wire_state_t × wiring_t :=
  (wire_state_t.CLOSING, wiring_close_wire s id)

/-- The member `expire` of `state[]`. -/
def state_expire : wire_state_t → wiring_t → Nat → wire_state_t × wiring_t
  | wire_state_t.INITIAL => ignore_expire
  | wire_state_t.LIVE => destroy
  | wire_state_t.CLOSING => ignore_expire
  | wire_state_t.FREE => ignore_expire

/-- The member `wakeup` of `state[]`. -/
def state_wakeup (e : env_t) (now : Nat) : wire_state_t → wiring_t → Nat → wire_state_t × wiring_t
  | wire_state_t.INITIAL => retry e now
  | wire_state_t.LIVE => send_keepalive e now
  | wire_state_t.CLOSING => ignore_wakeup
  | wire_state_t.FREE => ignore_wakeup

/-- The member `receive` of `state[]`. -/
def state_receive (now : Nat) :
    wire_state_t → wiring_t → Nat → wireup_msg_t → wire_state_t × wiring_t
  | wire_state_t.INITIAL => start_life now
  | wire_state_t.LIVE => continue_life now
  | wire_state_t.CLOSING => reject_msg
  | wire_state_t.FREE => reject_msg

/-! ## Stopping and finalizing wires -/

/-- `wiring_finalize_wire`. -/
def wiring_finalize_wire (e : env_t) (s : wiring_t) (id : Nat) : wiring_t :=
  let w := s.storage.getw id
  let s1 :=
    match w.msg with
    | some _ => { s with storage := s.storage.setw id { w with msg := none, msglen := 0 } }
    | none => s
  match w.ep with
  | none => s1
  | some ep =>
    match wiring_free_request_get e.header_alloc s1 with
    | (none, s2) => s2
    | (some req, s2) =>
      let st := s2.storage
      let s3 := { s2 with storage := st.setw id { (st.getw id) with ep := none } }
      let s4 := s3.log (ext_call.ep_close ep)
      request_settle s4 req e.nbx

/-- `wireup_stop_internal`. -/
def wireup_stop_internal (e : env_t) (s : wiring_t) (id : Nat) (orderly : Bool) : wiring_t :=
  let w := s.storage.getw id
  let tag := tx_tag.peer w.id
  if w.state = wire_state_t.CLOSING ∨ w.state = wire_state_t.FREE then wiring_close_wire s id
  else
    let s1 := wireup_transition e.cb_ret s id wire_state_t.CLOSING
    if !orderly then wiring_close_wire s1 id
    else if !e.zalloc_ok then wiring_close_wire s1 id
    else
      let msg : wireup_msg_t := { op := OP_STOP, sender_id := id, addrlen := 0, addr := [] }
      match wiring_free_request_get e.header_alloc s1 with
      | (none, s2) => wiring_close_wire s2 id
      | (some req, s2) =>
        let s3 := s2.log (ext_call.tag_send (s2.storage.getw id).ep msg WIREUP_MSG_HDRLEN tag)
        let s4 := request_settle s3 req e.nbx
        wiring_close_wire s4 id

/-- `wireup_stop`. -/
def wireup_stop (e : env_t) (s : wiring_t) (wid : sender_id_t) (orderly : Bool) :
    Bool × wiring_t :=
  match wid with
  | none => (false, s)
  | some id =>
    if s.storage.nwires ≤ id then (false, s)
    else (true, wireup_stop_internal e s id orderly)

/-! ## Readers -/

/-- `wire_is_connected`. -/
def wire_is_connected (s : wiring_t) (wid : sender_id_t) : Bool :=
  match wid with
  | none => false
  | some id =>
    if s.storage.nwires ≤ id then false
    else decide ((s.storage.getw id).state = wire_state_t.LIVE)

/-- `wire_get_data`. -/
def wire_get_data (s : wiring_t) (wid : sender_id_t) : Ptr :=
  if !wire_is_connected s wid then wire_data_nil
  else
    match wid with
    | none => wire_data_nil
    | some id => s.assoc.getD id Ptr.null

/-! ## Epoch-based reclamation -/

/-- `wiring_garbage_init`. -/
def wiring_garbage_init (g : wiring_garbage_schedule_t) : wiring_garbage_schedule_t :=
  { g with
    bin := List.replicate NBINS
      { first_ref := ref_ptr.null, first_closed := sender_id_nil, assoc := none, storage := none }
    epoch_first := 0
    epoch_last := 0 }

/-- `wiring_ref_init`, run without interference: the `continue` of the
`do ... while` loop leads to the loop condition, whose compare-and-swap then
succeeds. -/
def wiring_ref_init (s : wiring_t) (ref : ref_ptr) : wiring_t :=
  let s1 := s.set_ref ref { (s.ref ref) with busy := false }
  let epoch := s1.garbage_sched.epoch_last
  let bin := s1.getbin (epoch % NBINS)
  let s2 := s1.set_ref ref { (s1.ref ref) with next := bin.first_ref }
  let s3 :=
    if (s2.ref ref).next = ref_ptr.sentinel then s2
    else s2.set_ref ref { (s2.ref ref) with epoch := epoch }
  s3.setbin (epoch % NBINS) { (s3.getbin (epoch % NBINS)) with first_ref := ref }

/-- Modelled from the spec: `wiring_ref_get` of `wiring.h` (not among the
sources): set the reference's busy flag. -/
def wiring_ref_get (s : wiring_t) (ref : ref_ptr) : wiring_t :=
  s.set_ref ref { (s.ref ref) with busy := true }

/-- Modelled from the spec: `wiring_ref_put` of `wiring.h` (not among the
sources): clear the busy flag and advance the stored epoch to the current
`epoch.last`. -/
def wiring_ref_put (s : wiring_t) (ref : ref_ptr) : wiring_t :=
  s.set_ref ref { (s.ref ref) with busy := false, epoch := s.garbage_sched.epoch_last }

/-- `wiring_ref_holds_epoch`. -/
def wiring_ref_holds_epoch (ref : wiring_ref_t) (epoch_in_past : Nat) : Bool :=
  if ref.epoch > epoch_in_past then false else ref.busy

/-- The first loop of `wiring_reclaim_bin_for_epoch`, over the bin's stack of
references; the result is `ref == NULL` at its exit. -/
def reclaim_bin_refs : Nat → wiring_t → Nat → Nat → Option (Bool × wiring_t)
  | 0, _, _, _ => none
  | fuel + 1, s, epoch, last_epoch =>
    let ref := (s.getbin (epoch % NBINS)).first_ref
    if ref = ref_ptr.null then some (true, s)
    else if wiring_ref_holds_epoch (s.ref ref) epoch then some (false, s)
    else
      let s1 := s.setbin (epoch % NBINS)
        { (s.getbin (epoch % NBINS)) with first_ref := (s.ref ref).next }
      if (s1.ref ref).epoch = UINT64_MAX then
        reclaim_bin_refs fuel (s1.log (ext_call.ref_reclaim ref)) epoch last_epoch
      else
        let s2 := s1.set_ref ref
          { (s1.ref ref) with next := (s1.getbin (last_epoch % NBINS)).first_ref }
        let s3 := s2.setbin (last_epoch % NBINS)
          { (s2.getbin (last_epoch % NBINS)) with first_ref := ref }
        reclaim_bin_refs fuel s3 epoch last_epoch

/-- The second loop of `wiring_reclaim_bin_for_epoch`, over the bin's list of
closed wires; `fenv id` gives the results of the calls made for wire `id`.
The Boolean tells whether a wire was finalized (`*progressp = true`). -/
def reclaim_bin_closed : Nat → (Nat → env_t) → wiring_t → sender_id_t → Option (Bool × wiring_t)
  | 0, _, _, _ => none
  | _ + 1, _, s, none => some (false, s)
  | fuel + 1, fenv, s, some id =>
    let next_id := (s.storage.getw id).next
    let s1 := wiring_finalize_wire (fenv id) s id
    let s2 := wireup_transition (fenv id).cb_ret s1 id wire_state_t.FREE
    let s3 := { s2 with storage := wiring_free_put s2.storage id }
    match reclaim_bin_closed fuel fenv s3 next_id with
    | none => none
    | some r => some (true, r.2)

/-- `wiring_reclaim_bin_for_epoch`: whether the bin was reclaimed, whether a
wire was finalized, and the wiring. -/
def wiring_reclaim_bin_for_epoch (fuel : Nat) (fenv : Nat → env_t) (s : wiring_t)
    (epoch last_epoch : Nat) : Option (Bool × Bool × wiring_t) :=
  match reclaim_bin_refs fuel s epoch last_epoch with
  | none => none
  | some (false, s1) => some (false, false, s1)
  | some (true, s1) =>
    match reclaim_bin_closed fuel fenv s1 (s1.getbin (epoch % NBINS)).first_closed with
    | none => none
    | some (progress, s2) =>
      some (true, progress, s2.setbin (epoch % NBINS)
        { first_closed := sender_id_nil, storage := none, assoc := none,
          first_ref := ref_ptr.sentinel })

/-- The loop `for (epoch = first; epoch != last; epoch++)` of `wiring_reclaim`:
the epoch at which it stops, whether a wire was finalized, and the wiring. -/
def reclaim_epochs (fuel : Nat) (fenv : Nat → env_t) :
    Nat → wiring_t → Nat → Nat → Option (Nat × Bool × wiring_t)
  | 0, _, _, _ => none
  | k + 1, s, epoch, last =>
    if epoch = last then some (epoch, false, s)
    else
      match wiring_reclaim_bin_for_epoch fuel fenv s epoch last with
      | none => none
      | some (false, progress, s1) => some (epoch, progress, s1)
      | some (true, progress, s1) =>
        match reclaim_epochs fuel fenv k s1 (epoch + 1) last with
        | none => none
        | some (e, progress1, s2) => some (e, progress || progress1, s2)

/-- `wiring_reclaim`: its return value, whether a wire was finalized, and the
wiring. -/
def wiring_reclaim (fuel : Nat) (fenv : Nat → env_t) (s : wiring_t) (finalize : Bool) :
    Option (Bool × Bool × wiring_t) :=
  let work_available := s.garbage_sched.work_available
  if !finalize && work_available == 0 then some (true, false, s)
  else
    let first := s.garbage_sched.epoch_first
    let last := s.garbage_sched.epoch_last
    match reclaim_epochs fuel fenv fuel s first last with
    | none => none
    | some (epoch, progress, s1) =>
      let g := s1.garbage_sched
      let s2 := { s1 with garbage_sched :=
        { g with epoch_first := epoch
                 work_available := (g.work_available + 2 ^ 64 - work_available) % 2 ^ 64 } }
      if !finalize then some (true, progress, s2)
      else if s2.garbage_sched.epoch_first < s2.garbage_sched.epoch_last then
        some (false, progress, s2)
      else
        match wiring_reclaim_bin_for_epoch fuel fenv s2 epoch epoch with
        | none => none
        | some (r, progress1, s3) => some (r, progress || progress1, s3)

/-- The loop `while (last - first == NELTS(bin)) wiring_reclaim(...)` at the
head of `wiring_garbage_add`. -/
def garbage_make_room (fuel : Nat) (fenv : Nat → env_t) : Nat → wiring_t → Option wiring_t
  | 0, _ => none
  | k + 1, s =>
    if s.garbage_sched.epoch_last - s.garbage_sched.epoch_first = NBINS then
      match wiring_reclaim fuel fenv s false with
      | none => none
      | some r => garbage_make_room fuel fenv k r.2.2
    else some s

/-- `wiring_garbage_add`. -/
def wiring_garbage_add (fuel : Nat) (fenv : Nat → env_t) (s : wiring_t)
    (storage : wstorage_t) (assoc : List Ptr) : Option wiring_t :=
  match garbage_make_room fuel fenv fuel s with
  | none => none
  | some s1 =>
    let last := s1.garbage_sched.epoch_last
    let bin := s1.getbin (last % NBINS)
    let s2 := s1.setbin (last % NBINS) { bin with storage := some storage, assoc := some assoc }
    let g := s2.garbage_sched
    some { s2 with garbage_sched :=
      { g with epoch_last := last + 1, work_available := (g.work_available + 1) % 2 ^ 64 } }

/-! ## Growth of the table -/

/-- Sizes that `wiring_impl.h` and the platform fix: `sizeof(wstorage_t)`,
`sizeof(wire_t)` and `SIZE_MAX`. -/
structure layout_t where
  sizeof_wstorage_t : Nat
  sizeof_wire_t : Nat
  SIZE_MAX : Nat
  deriving DecidableEq, Repr

/-- Modelled from the spec: `twice_or_max` of `util.h` (not among the
sources): twice the size, clamped to `SIZE_MAX`. -/
def twice_or_max (L : layout_t) (sz : Nat) : Nat :=
  if sz > L.SIZE_MAX / 2 then L.SIZE_MAX else 2 * sz

/-- The initializer of a fresh slot `i`, as in `wiring_init` and
`wiring_enlarge`. -/
def wire_fresh (i : Nat) : wire_t :=
  { next := some (i + 1)
    state := wire_state_t.FREE
    tlink_expire := { prev := some i, next := some i, due := 0 }
    tlink_wakeup := { prev := some i, next := some i, due := 0 }
    ep := none
    id := sender_id_nil
    msg := none
    msglen := 0
    cb := none
    cb_arg := Ptr.null }

/-- The number of wires `wiring_enlarge` computes for the new table. The old
table fits `size_t`, so the sums below do not wrap. -/
def enlarge_nwires (L : layout_t) (old_n : Nat) : Nat :=
  let hdrsize := L.sizeof_wstorage_t
  let osize := hdrsize + old_n * L.sizeof_wire_t
  let proto_nsize := twice_or_max L osize - hdrsize
  min (SENDER_ID_MAX - 1) ((proto_nsize - hdrsize) / L.sizeof_wire_t)

/-- The new table and association array of `wiring_enlarge`, before they are
installed. -/
def enlarge_tables (L : layout_t) (ost : wstorage_t) (oassoc : List Ptr) :
    wstorage_t × List Ptr :=
  let old_n := ost.nwires
  let nwires := enlarge_nwires L old_n
  let nassoc := oassoc.take old_n ++ List.replicate (nwires - old_n) Ptr.null
  let wires := ost.wire ++ (List.range' old_n (nwires - old_n)).map wire_fresh
  let nst : wstorage_t := { ost with wire := wires }
  let nst1 := nst.setw (nwires - 1) { (nst.getw (nwires - 1)) with next := ost.first_free }
  ({ nst1 with first_free := some old_n }, nassoc)

/-- `wiring_enlarge`: `none` when the loop of `wiring_garbage_add` does not
end, `some (false, _)` when it returns `NULL`, otherwise the wiring with the
new table installed. -/
def wiring_enlarge (L : layout_t) (fuel : Nat) (e : env_t) (fenv : Nat → env_t) (s : wiring_t) :
    Option (Bool × wiring_t) :=
  let ost := s.storage
  let oassoc := s.assoc
  let hdrsize := L.sizeof_wstorage_t
  let osize := hdrsize + ost.nwires * L.sizeof_wire_t
  let nwires := enlarge_nwires L ost.nwires
  let nsize := hdrsize + nwires * L.sizeof_wire_t
  if nsize ≤ osize then some (false, s)
  else if !e.malloc_st_ok then some (false, s)
  else if !e.malloc_assoc_ok then some (false, s)
  else
    let t := enlarge_tables L ost oassoc
    let s1 := { s with assoc := t.2, storage := t.1 }
    match wiring_garbage_add fuel fenv s1 ost oassoc with
    | none => none
    | some s2 => some (true, s2)

/-- The slot acquisition shared by `wireup_respond` and `wireup_start`:
`wiring_free_get`, and after a failure `wiring_enlarge` and `wiring_free_get`
again. -/
def acquire_slot (L : layout_t) (fuel : Nat) (e : env_t) (fenv : Nat → env_t) (s : wiring_t) :
    Option (sender_id_t × wiring_t) :=
  match wiring_free_get s.storage with
  | (some id, st) => some (some id, { s with storage := st })
  | (none, _) =>
    match wiring_enlarge L fuel e fenv s with
    | none => none
    | some (false, s1) => some (none, s1)
    | some (true, s1) =>
      let r := wiring_free_get s1.storage
      some (r.1, { s1 with storage := r.2 })

/-! ## Answering and originating wires -/

/-- `wireup_respond`: the slot of the new wire (`none` for `NULL`). -/
def wireup_respond (L : layout_t) (fuel : Nat) (e : env_t) (fenv : Nat → env_t) (now : Nat)
    (s : wiring_t) (rid : Nat) (_raddr : List Nat) : Option (Option Nat × wiring_t) :=
  if !e.zalloc_ok then some (none, s)
  else
    match acquire_slot L fuel e fenv s with
    | none => none
    | some (none, s1) => some (none, s1)
    | some (some id, s1) =>
      let msg : wireup_msg_t := { op := OP_ACK, sender_id := id, addrlen := 0, addr := [] }
      match e.ep_create with
      | none => some (none, { s1 with storage := wiring_free_put s1.storage id })
      | some ep =>
        let s2 := s1.log (ext_call.ep_create ep)
        let st := s2.storage.setw id
          { wire_zero with ep := some ep, id := some rid, state := wire_state_t.LIVE }
        let st1 := wiring_expiration_put st id (gettimeout now now)
        let st2 := wiring_wakeup_put st1 id ((now + keepalive_interval) % 2 ^ 64)
        let s3 := { s2 with storage := st2 }
        match wiring_free_request_get e.header_alloc s3 with
        | (none, s4) => some (none, wiring_close_wire s4 id)
        | (some req, s4) =>
          let s5 := s4.log (ext_call.tag_send (some ep) msg WIREUP_MSG_HDRLEN
            (tx_tag.peer (some rid)))
          match e.nbx with
          | ucs_status_ptr_t.err => some (none, wiring_close_wire (wiring_free_request_put s5 req) id)
          | r =>
            let s6 := request_settle s5 req r
            match s6.accept_cb with
            | none => some (some id, s6)
            | some fn =>
              let s7 := s6.log (ext_call.accept fn id rid ep)
              let st7 := s7.storage
              let s8 := { s7 with
                assoc := s7.assoc.set id e.accept_data
                storage := st7.setw id
                  { (st7.getw id) with cb := e.accept_cb, cb_arg := e.accept_cb_arg } }
              some (some id, s8)

/-- `wireup_start`: the wire id returned (`none` for the nil id). -/
def wireup_start (L : layout_t) (fuel : Nat) (e : env_t) (fenv : Nat → env_t) (now : Nat)
    (s : wiring_t) (laddr : List Nat) (cb : Option Nat) (cb_arg : Ptr) (data : Ptr) :
    Option (sender_id_t × wiring_t) :=
  let laddrlen := laddr.length
  let msglen := WIREUP_MSG_HDRLEN + laddrlen
  if UINT16_MAX < laddrlen then some (sender_id_nil, s)
  else if !e.zalloc_ok then some (sender_id_nil, s)
  else
    match e.ep_create with
    | none => some (sender_id_nil, s)
    | some ep =>
      let s0 := s.log (ext_call.ep_create ep)
      match acquire_slot L fuel e fenv s0 with
      | none => none
      | some (none, s1) => some (sender_id_nil, s1)
      | some (some id, s1) =>
        let msg : wireup_msg_t :=
          { op := OP_REQ, sender_id := id, addrlen := laddrlen % 2 ^ 16, addr := laddr }
        let s2 := { s1 with assoc := s1.assoc.set id data }
        let st := s2.storage.setw id
          { wire_zero with ep := some ep, id := sender_id_nil, state := wire_state_t.INITIAL,
                           msg := some msg, msglen := msglen, cb := cb, cb_arg := cb_arg }
        let st1 := wiring_expiration_put st id (gettimeout now now)
        let st2 := wiring_wakeup_put st1 id ((now + retry_interval) % 2 ^ 64)
        let s3 := { s2 with storage := st2 }
        match wireup_send e s3 id with
        | (false, s4) =>
          let st4 := s4.storage
          let s5 := { s4 with
            storage := st4.setw id { (st4.getw id) with state := wire_state_t.CLOSING } }
          some (sender_id_nil, wiring_close_wire s5 id)
        | (true, s4) => some (some id, s4)

/-! ## Receiving -/

/-- A 16-bit member of a message at byte offset `off`, in host byte order
(least significant byte first). -/
def rd16 (buf : List Nat) (off : Nat) : Nat :=
  buf.getD off 0 + 256 * buf.getD (off + 1) 0

/-- A 32-bit member of a message at byte offset `off`. -/
def rd32 (buf : List Nat) (off : Nat) : Nat :=
  rd16 buf off + 65536 * rd16 buf (off + 2)

/-- The bytes of a 16-bit member. -/
def wr16 (v : Nat) : List Nat := [v % 256, v / 256 % 256]

/-- The bytes of a 32-bit member. -/
def wr32 (v : Nat) : List Nat := wr16 (v % 65536) ++ wr16 (v / 65536 % 65536)

/-- The message a buffer holds, `msg = buf`: `op` at offset 0, `addrlen` at
offset 2, `sender_id` at offset 4 and the address from offset 8. -/
def wireup_msg_view (buf : List Nat) : wireup_msg_t :=
  { op := rd16 buf 0
    addrlen := rd16 buf 2
    sender_id := rd32 buf 4
    addr := (buf.drop WIREUP_MSG_HDRLEN).take (rd16 buf 2) }

/-- The bytes of a message as a sender lays them out in memory. -/
def wireup_msg_bytes (m : wireup_msg_t) : List Nat :=
  wr16 m.op ++ wr16 m.addrlen ++ wr32 m.sender_id ++ m.addr

/-- The checks of `wireup_rx_msg`: the message it goes on to dispatch, or
`none` when it drops the buffer. -/
def wireup_rx_msg_check (buf : List Nat) (buflen : Nat) : Option wireup_msg_t :=
  if buflen < WIREUP_MSG_HDRLEN then none
  else
    let msg := wireup_msg_view buf
    if msg.op = OP_ACK ∨ msg.op = OP_KEEPALIVE ∨ msg.op = OP_REQ ∨ msg.op = OP_STOP then
      if buflen < WIREUP_MSG_HDRLEN + msg.addrlen then none
      else some msg
    else none

/-- `wireup_msg_transition`; `proto_id` is `TAG_GET_ID(sender_tag)` (`tag.h` is
not among the sources). -/
def wireup_msg_transition (e : env_t) (now : Nat) (s : wiring_t) (proto_id : Nat)
    (msg : wireup_msg_t) : wiring_t :=
  if proto_id ≥ SENDER_ID_MAX then s
  else if proto_id ≥ s.storage.nwires then s
  else
    let r := state_receive now (s.storage.getw proto_id).state s proto_id msg
    wireup_transition e.cb_ret r.2 proto_id r.1

/-- `wireup_rx_req`. -/
def wireup_rx_req (L : layout_t) (fuel : Nat) (e : env_t) (fenv : Nat → env_t) (now : Nat)
    (s : wiring_t) (msg : wireup_msg_t) : Option wiring_t :=
  if msg.addrlen = 0 then some s
  else if SENDER_ID_MAX ≤ msg.sender_id then some s
  else
    match wireup_respond L fuel e fenv now s msg.sender_id msg.addr with
    | none => none
    | some r => some r.2

/-- `wireup_rx_msg`; `proto_id` is `TAG_GET_ID(sender_tag)`. -/
def wireup_rx_msg (L : layout_t) (fuel : Nat) (e : env_t) (fenv : Nat → env_t) (now : Nat)
    (s : wiring_t) (proto_id : Nat) (buf : List Nat) (buflen : Nat) : Option wiring_t :=
  match wireup_rx_msg_check buf buflen with
  | none => some s
  | some msg =>
    if msg.op = OP_REQ then wireup_rx_req L fuel e fenv now s msg
    else some (wireup_msg_transition e now s proto_id msg)

/-! ## The driver -/

/-- `wireup_wakeup_transition`; `env k` gives the results of the calls made
for the `k`-th wire woken. -/
def wireup_wakeup_transition : Nat → (Nat → env_t) → Nat → wiring_t → Option wiring_t
  | 0, _, _, _ => none
  | fuel + 1, env, now, s =>
    match wiring_wakeup_peek s.storage with
    | none => some s
    | some id =>
      if (s.storage.link id timo_t.timo_wakeup).due > now then some s
      else
        let s1 := { s with storage := wiring_wakeup_remove s.storage id }
        let r := state_wakeup (env 0) now (s1.storage.getw id).state s1 id
        let s2 := wireup_transition (env 0).cb_ret r.2 id r.1
        wireup_wakeup_transition fuel (fun k => env (k + 1)) now s2

/-- `wireup_expire_transition`: its return value `progress` and the wiring. -/
def wireup_expire_transition : Nat → (Nat → env_t) → Nat → wiring_t → Option (Bool × wiring_t)
  | 0, _, _, _ => none
  | fuel + 1, env, now, s =>
    match wiring_expiration_peek s.storage with
    | none => some (false, s)
    | some id =>
      if (s.storage.link id timo_t.timo_expire).due > now then some (false, s)
      else
        let s1 := { s with storage := wiring_expiration_remove s.storage id }
        let r := state_expire (s1.storage.getw id).state s1 id
        let s2 := wireup_transition (env 0).cb_ret r.2 id r.1
        match wireup_expire_transition fuel (fun k => env (k + 1)) now s2 with
        | none => none
        | some r1 => some (true, r1.2)

/-- A receive descriptor `rxdesc_t`: whether `status == UCS_OK`, the id field
of `sender_tag`, the buffer and `rxlen`. -/
structure rxdesc_t where
  status_ok : Bool
  sender_tag_id : Nat
  buf : List Nat
  rxlen : Nat
  deriving DecidableEq, Repr

/-- Results of the calls one pass of the driver makes: for the wires woken,
for the wires expired, for the requests checked, for the wires finalized, and
for the message received. -/
structure once_env_t where
  wakeup : Nat → env_t
  expire : Nat → env_t
  in_progress : Nat → Bool
  finalize : Nat → env_t
  rx : env_t

/-- `wireup_once_locked`. -/
def wireup_once_locked (L : layout_t) (fuel : Nat) (E : once_env_t) (now : Nat) (s : wiring_t)
    (rdesc : Option rxdesc_t) : Option (Int × wiring_t) :=
  match wireup_wakeup_transition fuel E.wakeup now s with
  | none => none
  | some s1 =>
    match wireup_expire_transition fuel E.expire now s1 with
    | none => none
    | some (progress, s2) =>
      let s3 := (wiring_requests_check_status E.in_progress s2).2
      match wiring_reclaim fuel E.finalize s3 false with
      | none => none
      | some (_, progress1, s4) =>
        match rdesc with
        | none => some (if progress || progress1 then 1 else 0, s4)
        | some d =>
          if !d.status_ok then some (-1, s4)
          else
            match wireup_rx_msg L fuel E.rx E.finalize now s4 d.sender_tag_id d.buf d.rxlen with
            | none => none
            | some s5 => some (1, s5)

/-- One round of the loop of `wireup_wakeup_transition`, for the wire `id` at
the head of the wakeup queue: remove it, call the `wakeup` handler of its
state, make the transition. -/
def wakeup_step (e : env_t) (now : Nat) (s : wiring_t) (id : Nat) : wiring_t :=
  let s1 := { s with storage := wiring_wakeup_remove s.storage id }
  let r := state_wakeup e now (s1.storage.getw id).state s1 id
  wireup_transition e.cb_ret r.2 id r.1

/-- One round of the loop of `wireup_expire_transition`, for the wire `id` at
the head of the expire queue. -/
def expire_step (e : env_t) (s : wiring_t) (id : Nat) : wiring_t :=
  let s1 := { s with storage := wiring_expiration_remove s.storage id }
  let r := state_expire (s1.storage.getw id).state s1 id
  wireup_transition e.cb_ret r.2 id r.1

/-- The loop `while ((ret = wireup_once_locked(wiring, rdesc)) > 0)` of
`wireup_once`. `E k` gives the results of the calls of the `k`-th pass, `rx`
the descriptors that the following calls of `rxpool_next` yield (`NULL` after
the last), `progress` the variable of that name. -/
def wireup_once_loop (L : layout_t) (fuel : Nat) (now : Nat) :
    Nat → (Nat → once_env_t) → wiring_t → Option rxdesc_t → List rxdesc_t → Bool →
      Option (Int × wiring_t)
  | 0, _, _, _, _, _ => none
  | k + 1, E, s, rdesc, rx, progress =>
    match wireup_once_locked L fuel (E 0) now s rdesc with
    | none => none
    | some (ret, s1) =>
      if ret > 0 then wireup_once_loop L fuel now k (fun i => E (i + 1)) s1 rx.head? rx.tail true
      else if ret < 0 then some (ret, s1)
      else some (if progress then 1 else 0, s1)

/-- `wireup_once`. `rx` lists the descriptors that `rxpool_next` yields during
the call (`rxpool.h` is not among the sources); `ready` is the member
`ready_to_progress` of the wiring, which `wiring.c` only reads and clears here.
The result is the return value, `ready_to_progress` and the wiring. -/
def wireup_once (L : layout_t) (fuel : Nat) (E : Nat → once_env_t) (now : Nat) (s : wiring_t)
    (rx : List rxdesc_t) (ready : Bool) : Option (Int × Bool × wiring_t) :=
  if rx.head? = none ∧ ready = false then some (0, ready, s)
  else
    match wireup_once_loop L fuel now fuel E s rx.head? rx.tail false with
    | none => none
    | some (ret, s1) => some (ret, false, s1)

/-! ## Initialization -/

/-- The file-static object `reclaimed_bin_sentinel` as the program is loaded:
all zero. This is its value at the first `wiring_init` of a process. -/
def reclaimed_bin_sentinel_initial : wiring_ref_t :=
  { next := ref_ptr.null, epoch := 0, busy := false }

/-- `wiring_init`, when its allocations and `rxpool_create` succeed.
`work_available`, the reference objects `refs` and the file-static object
`reclaimed_bin_sentinel`, whose value is `sentinel`, are memory that
`wiring_init` does not write. -/
def wiring_init (work_available : Nat) (refs : Nat → wiring_ref_t) (sentinel : wiring_ref_t)
    (accept_cb : Option Nat) (accept_cb_arg : Ptr) : wiring_t :=
  let nwires := 1
  let wires := (List.range' 0 nwires).map wire_fresh
  let st : wstorage_t :=
    { first_free := some 0
      thead_expire := { first := sender_id_nil, last := sender_id_nil }
      thead_wakeup := { first := sender_id_nil, last := sender_id_nil }
      wire := wires }
  let st1 := st.setw (nwires - 1) { (st.getw (nwires - 1)) with next := sender_id_nil }
  { storage := st1
    assoc := List.replicate nwires Ptr.null
    garbage_sched := wiring_garbage_init
      { epoch_first := 0, epoch_last := 0, work_available := work_available, bin := [] }
    req_free := []
    req_outst := []
    accept_cb := accept_cb
    accept_cb_arg := accept_cb_arg
    refs := refs
    sentinel := sentinel
    trace := [] }

/-! ## Observations used to state properties -/

/-- The slots met by following `next` links of queue `which` from `start`, at
most `fuel` of them. -/
def queue_walk (st : wstorage_t) (which : timo_t) : Nat → sender_id_t → List Nat
  | 0, _ => []
  | _ + 1, none => []
  | fuel + 1, some id => id :: queue_walk st which fuel (st.link id which).next

/-- The `due` values of queue `which` from head to tail. -/
def queue_dues (st : wstorage_t) (which : timo_t) : List Nat :=
  (queue_walk st which st.nwires (st.thead which).first).map (fun id => (st.link id which).due)

/-- The slots met by following the `next` member from `start`, at most `fuel`
of them: the free list from `first_free`, a closing list from a bin's
`first_closed`. -/
def next_walk (st : wstorage_t) : Nat → sender_id_t → List Nat
  | 0, _ => []
  | _ + 1, none => []
  | fuel + 1, some id => id :: next_walk st fuel (st.getw id).next

/-- The free list. -/
def free_list (s : wiring_t) : List Nat :=
  next_walk s.storage s.storage.nwires s.storage.first_free

/-- The closing list of bin `b`. -/
def closing_list (s : wiring_t) (b : Nat) : List Nat :=
  next_walk s.storage s.storage.nwires (s.getbin b).first_closed

/-! ## Concrete wirings -/

/-- A layout with a 32-byte table header and 120-byte wires. -/
def layout_example : layout_t :=
  { sizeof_wstorage_t := 32, sizeof_wire_t := 120, SIZE_MAX := 2 ^ 64 - 1 }

/-- The wiring `wiring_init` leaves. -/
def wiring_example : wiring_t := wiring_init 0 (fun _ => default) reclaimed_bin_sentinel_initial none Ptr.null

/-- A request from a peer whose slot is 0 and whose address is the byte 7. -/
def req_example : wireup_msg_t := { op := OP_REQ, addrlen := 1, sender_id := 0, addr := [7] }

/-- `wireup_start` at time 0 with a two-byte local address, no callback and
the data pointer `Ptr.obj 5`, every call it makes succeeding at once. -/
def start_example (s : wiring_t) : Option (sender_id_t × wiring_t) :=
  wireup_start layout_example 8 env_ok (fun _ => env_ok) 0 s [1, 2] none Ptr.null (Ptr.obj 5)

/-- The wiring after `n` calls of `start_example`. -/
def starts_example : Nat → wiring_t → Option wiring_t
  | 0, s => some s
  | n + 1, s =>
    match start_example s with
    | none => none
    | some r => starts_example n r.2

/-- After `wiring_init`: a REQ is received and answered at time 0, then
`wireup_start` is called at time 0. -/
def respond_then_start : Option (sender_id_t × wiring_t) :=
  match wireup_rx_msg layout_example 8 env_ok (fun _ => env_ok) 0 wiring_example 0
      (wireup_msg_bytes req_example) 9 with
  | none => none
  | some s => start_example s

/-- After `wiring_init`: `wireup_stop` on slot 0, which is free. -/
def stop_free_slot : Bool × wiring_t := wireup_stop env_ok wiring_example (some 0) false

/-- Queue `which` of table `st` holds exactly the wires `q`, head first. -/
structure queue_wf (st : wstorage_t) (which : timo_t) (q : List Nat) : Prop where
  nodup : q.Nodup
  bound : ∀ i ∈ q, i < st.nwires
  first : (st.thead which).first = q.head?
  last : (st.thead which).last = q.getLast?
  next : ∀ k a, q[k]? = some a → (st.link a which).next = q[k + 1]?
  prev_head : ∀ a, q[0]? = some a → (st.link a which).prev = none
  prev : ∀ k a, q[k + 1]? = some a → (st.link a which).prev = q[k]?
  off : ∀ i, i < st.nwires → i ∉ q →
    (st.link i which).next = some i ∧ (st.link i which).prev = some i

/-- The table after `respond_then_start`: wires 0 and 1 are on both queues. -/
def queue_example : wstorage_t :=
  match respond_then_start with
  | some r => r.2.storage
  | none => wiring_example.storage

/-- An ACK from a peer whose slot is 9. -/
def ack_example : wireup_msg_t := { op := OP_ACK, addrlen := 0, sender_id := 9, addr := [] }

/-- A reader pins epoch 1 and the epoch window fills up. After `wiring_init`:
`wireup_start` (wire 0), an ACK for wire 0 (now LIVE), `wireup_start` (wire 1,
first growth), `wiring_ref_init` and `wiring_ref_get` of reference 0, then
seven more `wireup_start` (wires 2 to 8, three more growths), with no driver
pass in between. -/
def reader_scenario : Option wiring_t :=
  match start_example wiring_example with
  | none => none
  | some r1 =>
    match start_example (wireup_msg_transition env_ok 0 r1.2 0 ack_example) with
    | none => none
    | some r2 =>
      starts_example 7 (wiring_ref_get (wiring_ref_init r2.2 (ref_ptr.user 0)) (ref_ptr.user 0))

/-- An idle reference and eight wires. After `wiring_init`: `wiring_ref_init`
of reference 0, which is never acquired, then eight `wireup_start` (wires 0 to
7, three growths), with no driver pass in between. -/
def idle_ref_scenario : Option wiring_t :=
  starts_example 8 (wiring_ref_init wiring_example (ref_ptr.user 0))

/-- After `idle_ref_scenario`: `wireup_stop` of wire 0, then a ninth
`wireup_start`, which grows the table a fourth time. -/
def idle_ref_stop_grow : Option (sender_id_t × wiring_t) :=
  match idle_ref_scenario with
  | none => none
  | some s => start_example (wireup_stop env_ok s (some 0) true).2

/-- The slot indices the wiring stores designate slots of the table: the
table is not empty and smaller than `SENDER_ID_MAX`, the association array is
as long as the table, there are `NBINS` bins, and the head of the free list,
every `next` member and the head of every closing list are below the table
count. -/
structure ids_ok (s : wiring_t) : Prop where
  pos : 0 < s.storage.nwires
  max : s.storage.nwires < SENDER_ID_MAX
  assoc : s.assoc.length = s.storage.nwires
  bins : s.garbage_sched.bin.length = NBINS
  free : ∀ id, s.storage.first_free = some id → id < s.storage.nwires
  next : ∀ i id, (s.storage.getw i).next = some id → id < s.storage.nwires
  closed : ∀ b id, (s.getbin b).first_closed = some id → id < s.storage.nwires

/-- Two tables with the same count, free-list head and queue heads whose wires
agree on the timeout links, the sender id and `next`. -/
structure same_links (st st' : wstorage_t) : Prop where
  nwires : st'.nwires = st.nwires
  first_free : st'.first_free = st.first_free
  thead_expire : st'.thead_expire = st.thead_expire
  thead_wakeup : st'.thead_wakeup = st.thead_wakeup
  wires : ∀ i, (st'.getw i).tlink_expire = (st.getw i).tlink_expire ∧
    (st'.getw i).tlink_wakeup = (st.getw i).tlink_wakeup ∧
    (st'.getw i).id = (st.getw i).id ∧ (st'.getw i).next = (st.getw i).next

/-- What reclamation leaves alone: the association array, the table count,
the heads and links of both timeout queues, and the sender ids. -/
structure reclaim_rel (s s' : wiring_t) : Prop where
  assoc : s'.assoc = s.assoc
  nwires : s'.storage.nwires = s.storage.nwires
  thead : ∀ which, s'.storage.thead which = s.storage.thead which
  link : ∀ i which, s'.storage.link i which = s.storage.link i which
  sender_id : ∀ i, (s'.storage.getw i).id = (s.storage.getw i).id

/-- One round of the loop over a closing list: finalize, transition to FREE,
`wiring_free_put`. -/
def closed_step (e : env_t) (s : wiring_t) (id : Nat) : wiring_t :=
  { wireup_transition e.cb_ret (wiring_finalize_wire e s id) id wire_state_t.FREE with
    storage := wiring_free_put
      (wireup_transition e.cb_ret (wiring_finalize_wire e s id) id wire_state_t.FREE).storage id }

/-- What the loop over a bin's references leaves alone: the table, the
associations, the epoch window, and in every bin all but `first_ref`. -/
structure refs_rel (s s' : wiring_t) : Prop where
  storage : s'.storage = s.storage
  assoc : s'.assoc = s.assoc
  bins_len : s'.garbage_sched.bin.length = s.garbage_sched.bin.length
  epoch_first : s'.garbage_sched.epoch_first = s.garbage_sched.epoch_first
  epoch_last : s'.garbage_sched.epoch_last = s.garbage_sched.epoch_last
  closed : ∀ b, (s'.getbin b).first_closed = (s.getbin b).first_closed

/-- Within `reclaim_rel` and keeping `ids_ok`. -/
def reclaim_good (s s' : wiring_t) : Prop := reclaim_rel s s' ∧ (ids_ok s → ids_ok s')

/-- The wiring with the tables of `wiring_enlarge` installed, before
`wiring_garbage_add` is called. -/
def enlarge_install (L : layout_t) (s : wiring_t) : wiring_t :=
  { s with assoc := (enlarge_tables L s.storage s.assoc).2
           storage := (enlarge_tables L s.storage s.assoc).1 }

/-- Nine wires are started (the epoch window becomes `[0, 4)`), wire 0 is
stopped, and seven more wires are started, which uses up the table of 16. -/
def full_window_scenario : Option wiring_t :=
  match starts_example 9 wiring_example with
  | none => none
  | some s => starts_example 7 (wireup_stop env_ok s (some 0) true).2

/-- The wiring after a REQ was answered: one wire, LIVE, and no free slot. -/
def one_live_wire : wiring_t :=
  match wireup_rx_msg layout_example 8 env_ok (fun _ => env_ok) 0 wiring_example 0
      (wireup_msg_bytes req_example) 9 with
  | some s => s
  | none => wiring_example

/-- A wire without its timeout links. -/
def wire_t.core (w : wire_t) : wire_t :=
  { w with tlink_expire := default, tlink_wakeup := default }

/-- Two tables with the same count and free-list head whose wires agree on
everything but the timeout links. -/
structure same_core (st st' : wstorage_t) : Prop where
  nwires : st'.nwires = st.nwires
  first_free : st'.first_free = st.first_free
  wires : ∀ i, (st'.getw i).core = (st.getw i).core

/-- The wiring `wireup_start` has built, for the slot `id` it acquired in `s1`
and the endpoint `ep`, when it calls `wireup_send`: the association set, the
wire initialized and put on both timeout queues. -/
def start_install (now : Nat) (s1 : wiring_t) (id ep : Nat) (laddr : List Nat) (cb : Option Nat)
    (cb_arg : Ptr) (data : Ptr) : wiring_t :=
  let msg : wireup_msg_t :=
    { op := OP_REQ, sender_id := id, addrlen := laddr.length % 2 ^ 16, addr := laddr }
  let s2 := { s1 with assoc := s1.assoc.set id data }
  let st := s2.storage.setw id
    { wire_zero with ep := some ep, id := sender_id_nil, state := wire_state_t.INITIAL,
                     msg := some msg, msglen := WIREUP_MSG_HDRLEN + laddr.length, cb := cb,
                     cb_arg := cb_arg }
  let st1 := wiring_expiration_put st id (gettimeout now now)
  let st2 := wiring_wakeup_put st1 id ((now + retry_interval) % 2 ^ 64)
  { s2 with storage := st2 }

/-- An environment in which `malloc` of a new table fails and the endpoint
created is number 2. -/
def env_no_table : env_t := { env_ok with malloc_st_ok := false, ep_create := some 2 }

/-- After `wiring_init` and one `wireup_start` (which takes the only slot): a
second `wireup_start` whose endpoint is created but whose table cannot
grow. -/
def start_without_slot : Option (sender_id_t × wiring_t) :=
  match start_example wiring_example with
  | none => none
  | some r =>
    wireup_start layout_example 8 env_no_table (fun _ => env_ok) 0 r.2 [1, 2] none Ptr.null
      (Ptr.obj 5)

/-- An environment in which the transport refuses the send. -/
def env_send_err : env_t := { env_ok with nbx := ucs_status_ptr_t.err }

/-- A KEEPALIVE from a peer whose slot is 9. -/
def keepalive_example : wireup_msg_t :=
  { op := OP_KEEPALIVE, addrlen := 0, sender_id := 9, addr := [] }

/-- A wire with a persistent callback is reclaimed and then receives a message.
After `wiring_init`: `wireup_start` with callback 7 (wire 0; the callback
returns true whenever it is called), `wireup_stop` of wire 0, a second
`wireup_start` (wire 1, which grows the table), one driver pass without a
descriptor at time 0 (wire 0 is finalized), then a KEEPALIVE whose tag selects
slot 0. -/
def message_after_reclaim : Option wiring_t :=
  match wireup_start layout_example 8 env_ok (fun _ => env_ok) 0 wiring_example [1, 2] (some 7)
      Ptr.null (Ptr.obj 5) with
  | none => none
  | some r1 =>
    match start_example (wireup_stop env_ok r1.2 (some 0) false).2 with
    | none => none
    | some r2 =>
      match wireup_once_locked layout_example 8
          { wakeup := fun _ => env_ok, expire := fun _ => env_ok, in_progress := fun _ => false,
            finalize := fun _ => env_ok, rx := env_ok } 0 r2.2 none with
      | none => none
      | some r3 =>
        wireup_rx_msg layout_example 8 env_ok (fun _ => env_ok) 0 r3.2 0
          (wireup_msg_bytes keepalive_example) 8

/-- The calls to callback `fn` in a trace, oldest first, by event. -/
def cb_events (fn : Nat) : List ext_call → List wire_event_t
  | [] => []
  | ext_call.cb f info _ :: rest =>
    if f = fn then info.event :: cb_events fn rest else cb_events fn rest
  | _ :: rest => cb_events fn rest

/-- A driver pass in which a retry fails. After `wiring_init` and
`wireup_start` at time 0 (wire 0, wakeup due `retry_interval`): one driver
pass at time `retry_interval`, without a descriptor, in which the transport
refuses the send of the retry. -/
def pass_with_failed_retry : Option (Int × wiring_t) :=
  match start_example wiring_example with
  | none => none
  | some r =>
    wireup_once_locked layout_example 8
      { wakeup := fun _ => env_send_err, expire := fun _ => env_ok,
        in_progress := fun _ => false, finalize := fun _ => env_ok, rx := env_ok }
      retry_interval r.2 none

/-- The table after `wiring_init` and a `wireup_start` with callback 7 and
callback argument 3. -/
def storage_with_callback : wstorage_t :=
  match wireup_start layout_example 8 env_ok (fun _ => env_ok) 0 wiring_example [1, 2] (some 7)
      (Ptr.obj 3) (Ptr.obj 5) with
  | none => wiring_example.storage
  | some r => r.2.storage

/-- The check `assert((link->next == id) == (link->prev == id))` of
`wiring_timeout_remove`. -/
def wiring_timeout_remove_assert (st : wstorage_t) (id : Nat) (which : timo_t) : Bool :=
  decide ((st.link id which).next = some id) == decide ((st.link id which).prev = some id)

/-- The wiring after `wiring_init` and a `wireup_start` at time 0 with callback
7 and callback argument `Ptr.obj 3`: wire 0 is INITIAL with endpoint 1. -/
def started_with_callback : wiring_t :=
  match wireup_start layout_example 8 env_ok (fun _ => env_ok) 0 wiring_example [1, 2] (some 7)
      (Ptr.obj 3) (Ptr.obj 5) with
  | none => wiring_example
  | some r => r.2

/-- The wiring `wireup_respond` has built, for the slot `id` it acquired in
`s1` and the endpoint `ep` it created, when it asks for a request: the wire
initialized and put on both timeout queues. -/
def respond_install (now : Nat) (s1 : wiring_t) (id ep rid : Nat) : wiring_t :=
  let s2 := s1.log (ext_call.ep_create ep)
  let st := s2.storage.setw id
    { wire_zero with ep := some ep, id := some rid, state := wire_state_t.LIVE }
  let st1 := wiring_expiration_put st id (gettimeout now now)
  let st2 := wiring_wakeup_put st1 id ((now + keepalive_interval) % 2 ^ 64)
  { s2 with storage := st2 }

/-- The last step of `wireup_respond`: the call of the accept callback, if one
is registered. -/
def respond_accept (e : env_t) (s6 : wiring_t) (id rid ep : Nat) : wiring_t :=
  match s6.accept_cb with
  | none => s6
  | some fn =>
    let s7 := s6.log (ext_call.accept fn id rid ep)
    let st7 := s7.storage
    { s7 with
      assoc := s7.assoc.set id e.accept_data
      storage := st7.setw id
        { (st7.getw id) with cb := e.accept_cb, cb_arg := e.accept_cb_arg } }

/-- A wiring with accept callback 4, and an environment in which that callback
returns the data pointer `Ptr.obj 6` and installs wire callback 7. -/
def wiring_accepting : wiring_t := wiring_init 0 (fun _ => default) reclaimed_bin_sentinel_initial (some 4) Ptr.null

def env_accept : env_t :=
  { env_ok with accept_data := Ptr.obj 6, accept_cb := some 7, accept_cb_arg := Ptr.obj 3 }

/-- The results of a driver pass in which every call succeeds at once. -/
def once_env_ok : once_env_t :=
  { wakeup := fun _ => env_ok, expire := fun _ => env_ok, in_progress := fun _ => false,
    finalize := fun _ => env_ok, rx := env_ok }

/-- A driver pass at time 0 without a descriptor in which every call succeeds
at once. -/
def pass_example (s : wiring_t) : Option wiring_t :=
  match wireup_once_locked layout_example 8 once_env_ok 0 s none with
  | none => none
  | some r => some r.2

/-- `n` calls of `start_example`, then `pass_example`. -/
def starts_then_pass (n : Nat) (s : wiring_t) : Option wiring_t :=
  match starts_example n s with
  | none => none
  | some s1 => pass_example s1

/-- The table grows five times and is reclaimed twice. After `wiring_init`:
nine `wireup_start` (four growths, window `[0, 4)`) and a driver pass, eight
more `wireup_start` (fifth growth) and a driver pass. No reference is ever
initialized. -/
def five_growths : Option wiring_t :=
  match starts_then_pass 9 wiring_example with
  | none => none
  | some s => starts_then_pass 8 s

/-- After `five_growths`: sixteen more `wireup_start`, the last of which grows
the table a sixth time. -/
def six_growths : Option wiring_t :=
  match five_growths with
  | none => none
  | some s => starts_example 16 s

/-- After `wiring_init`: `wiring_ref_init` of reference 0, which is never
acquired nor freed. -/
def idle_ref_wiring : wiring_t := wiring_ref_init wiring_example (ref_ptr.user 0)

/-- The wiring `wiring_init` leaves when the memory of the reference objects
holds a stored epoch of 77 and a set busy flag. -/
def wiring_stale_refs : wiring_t :=
  wiring_init 0 (fun _ => { next := ref_ptr.null, epoch := 77, busy := true })
    reclaimed_bin_sentinel_initial none Ptr.null

/-- Four growths and a driver pass: after `wiring_init`, nine `wireup_start`
(window `[0, 4)`), then a driver pass, which reclaims the four epochs. -/
def reclaimed_window : Option wiring_t := starts_then_pass 9 wiring_stale_refs

/-- After `reclaimed_window`: `wiring_ref_init` of reference 0. -/
def ref_init_on_sentinel : Option wiring_t :=
  match reclaimed_window with
  | none => none
  | some s => some (wiring_ref_init s (ref_ptr.user 0))

/-- After `wiring_init`: a REQ is received at time 0 and the transport refuses
the send of the ACK. -/
def respond_send_fails : Option (Option Nat × wiring_t) :=
  wireup_respond layout_example 8 env_send_err (fun _ => env_ok) 0 wiring_example 0 [7]

/-- An environment in which `zalloc` fails. -/
def env_no_memory : env_t := { env_ok with zalloc_ok := false }

/-- An environment in which no request can be allocated. -/
def env_no_request : env_t := { env_ok with header_alloc := none }

/-! ## The bit-field macros of `bits.h`

The operands are `uintmax_t` values, 64 bits wide. -/

/-- `LOWEST_SET_BIT(mask)`: `(((mask) - 1) & (mask)) ^ (mask)`. -/
def LOWEST_SET_BIT (mask : Nat) : Nat :=
  (((mask + 2 ^ 64 - 1) % 2 ^ 64) &&& mask) ^^^ mask

/-- `SHIFTOUT(x, mask)`: `((x) & (mask)) / LOWEST_SET_BIT(mask)`. -/
def SHIFTOUT (x mask : Nat) : Nat := (x &&& mask) / LOWEST_SET_BIT mask

/-- `SHIFTIN(x, mask)`: `(x) * LOWEST_SET_BIT(mask)`. -/
def SHIFTIN (x mask : Nat) : Nat := (x * LOWEST_SET_BIT mask) % 2 ^ 64

/-- `SHIFTOUT_MASK(mask)`. -/
def SHIFTOUT_MASK (mask : Nat) : Nat := SHIFTOUT mask mask

/-- Modelled from the spec: `TAG_GET_ID` of `tag.h` (not among the sources),
the id field of a tag; `id_mask` is `TAG_ID_MASK`. -/
def TAG_GET_ID (id_mask tag : Nat) : Nat := SHIFTOUT tag id_mask

/-- The mask of `k` consecutive bits starting at bit `j`. -/
def bit_run (j k : Nat) : Nat := 2 ^ j * (2 ^ k - 1)

/-- The wirings reachable from `wiring_garbage_init` by `wiring_garbage_add` and
`wiring_reclaim`, and by steps (`other`) that leave the epochs and the retired
tables of the bins alone, as every other operation of `wiring.c` does. -/
inductive garbage_reach : wiring_t → Prop
  | init (s : wiring_t) (g : wiring_garbage_schedule_t)
      (h : s.garbage_sched = wiring_garbage_init g) : garbage_reach s
  | add (fuel : Nat) (fenv : Nat → env_t) (s s' : wiring_t) (storage : wstorage_t)
      (assoc : List Ptr) (hr : garbage_reach s)
      (h : wiring_garbage_add fuel fenv s storage assoc = some s') : garbage_reach s'
  | reclaim (fuel : Nat) (fenv : Nat → env_t) (s : wiring_t) (finalize : Bool)
      (r : Bool × Bool × wiring_t) (hr : garbage_reach s)
      (h : wiring_reclaim fuel fenv s finalize = some r) : garbage_reach r.2.2
  | other (s s' : wiring_t) (hr : garbage_reach s)
      (hlen : s'.garbage_sched.bin.length = s.garbage_sched.bin.length)
      (hf : s'.garbage_sched.epoch_first = s.garbage_sched.epoch_first)
      (hl : s'.garbage_sched.epoch_last = s.garbage_sched.epoch_last)
      (hb : ∀ b, (s'.getbin b).storage = (s.getbin b).storage ∧
        (s'.getbin b).assoc = (s.getbin b).assoc) : garbage_reach s'

/-- The epoch window is ordered and holds at most `NBINS` epochs, there are
`NBINS` bins, and a bin that belongs to no epoch of the window holds no
retired table and no retired association array. -/
structure window_ok (s : wiring_t) : Prop where
  le : s.garbage_sched.epoch_first ≤ s.garbage_sched.epoch_last
  bound : s.garbage_sched.epoch_last - s.garbage_sched.epoch_first ≤ NBINS
  bins : s.garbage_sched.bin.length = NBINS
  empty : ∀ b, b < NBINS →
    (∀ e, s.garbage_sched.epoch_first ≤ e → e < s.garbage_sched.epoch_last → e % NBINS ≠ b) →
    (s.getbin b).storage = none ∧ (s.getbin b).assoc = none

/-- Two wirings with the same epochs and number of bins whose bins hold the
same retired tables. -/
structure bins_kept (s s' : wiring_t) : Prop where
  len : s'.garbage_sched.bin.length = s.garbage_sched.bin.length
  first : s'.garbage_sched.epoch_first = s.garbage_sched.epoch_first
  last : s'.garbage_sched.epoch_last = s.garbage_sched.epoch_last
  bin : ∀ b, (s'.getbin b).storage = (s.getbin b).storage ∧
    (s'.getbin b).assoc = (s.getbin b).assoc

/-- Two wirings with the same epochs and number of bins, the second of which
has in every bin the retired tables of the first, or none. -/
structure bins_shrunk (s s' : wiring_t) : Prop where
  len : s'.garbage_sched.bin.length = s.garbage_sched.bin.length
  first : s'.garbage_sched.epoch_first = s.garbage_sched.epoch_first
  last : s'.garbage_sched.epoch_last = s.garbage_sched.epoch_last
  bin : ∀ b, ((s'.getbin b).storage = (s.getbin b).storage ∧
      (s'.getbin b).assoc = (s.getbin b).assoc) ∨
    ((s'.getbin b).storage = none ∧ (s'.getbin b).assoc = none)

/-- The wiring after `wiring_init` and one `wiring_garbage_add` that retires
the initial table and association array. -/
def one_retired : wiring_t :=
  (wiring_garbage_add 1 (fun _ => env_ok) wiring_example wiring_example.storage
    wiring_example.assoc).getD wiring_example

/-- A STOP message from the peer whose slot is 4. -/
def stop_example : wireup_msg_t := { op := OP_STOP, addrlen := 0, sender_id := 4, addr := [] }

/-- An ACK that carries a one-byte address, which `start_life` does not
accept. -/
def ack_with_address : wireup_msg_t := { op := OP_ACK, addrlen := 1, sender_id := 4, addr := [9] }

/-- A KEEPALIVE from the peer whose slot is 0, the peer of the wire of
`one_live_wire`. -/
def keepalive_from_peer : wireup_msg_t :=
  { op := OP_KEEPALIVE, addrlen := 0, sender_id := 0, addr := [] }

/-- The references met from the head of the stack of bin `b` by following
`next`, at most `fuel` of them. -/
def ref_stack (s : wiring_t) (b : Nat) (fuel : Nat) : List ref_ptr :=
  let rec go : Nat → ref_ptr → List ref_ptr
    | 0, _ => []
    | _ + 1, ref_ptr.null => []
    | k + 1, p => p :: go k (s.ref p).next
  go fuel (s.getbin b).first_ref

/-- A reference that is initialized once and never acquired, and a table that
grows four times with a driver pass after each growth. After `wiring_init`
and `wiring_ref_init` of reference 0: two `wireup_start` and a pass, one
`wireup_start` and a pass, two `wireup_start` and a pass, four `wireup_start`
and a pass. -/
def four_growths_with_ref : Option wiring_t :=
  match starts_then_pass 2 idle_ref_wiring with
  | none => none
  | some s1 =>
    match starts_then_pass 1 s1 with
    | none => none
    | some s2 =>
      match starts_then_pass 2 s2 with
      | none => none
      | some s3 => starts_then_pass 4 s3

/-- After `four_growths_with_ref`: eight more `wireup_start`, the last of which
grows the table a fifth time, and a driver pass. -/
def five_growths_with_ref : Option wiring_t :=
  match four_growths_with_ref with
  | none => none
  | some s => starts_then_pass 8 s

/-- The wiring after `wireup_start` with a callback and one orderly
`wireup_stop` of wire 0. -/
def stopped_once : wiring_t := (wireup_stop env_ok started_with_callback (some 0) true).2

/-- The wiring after a second `wireup_stop` of wire 0. -/
def stopped_twice : wiring_t := (wireup_stop env_ok stopped_once (some 0) true).2

/-- A wire that is closed early, and a table that fills up. After
`wiring_init`: two `wireup_start` (the table grows to 2 wires, window
`[0, 1)`), an orderly `wireup_stop` of wire 0 (put on the closing list of bin
`1 % 4`), fourteen more `wireup_start` and no driver pass (the table grows to
16 wires, all in use; window `[0, 4)`). -/
def early_stop_scenario : Option wiring_t :=
  match starts_example 2 wiring_example with
  | none => none
  | some s => starts_example 14 (wireup_stop env_ok s (some 0) true).2

/-! ## `fs_proc_string_hash` of `generic_proc.h`

A string is the list of the bytes at `string`; the loop ends at the first
`'\0'` (or at the end of the list). -/

/-- The loop of `fs_proc_string_hash`: `result = (result << 5) + result + *p`
in `unsigned int` arithmetic of 32 bits, until `*p == '\0'`. -/
def fs_proc_string_hash_loop : List Nat → Nat → Nat
  | [], result => result
  | c :: p, result =>
    if c = 0 then result
    else fs_proc_string_hash_loop p (((result <<< 5) % 2 ^ 32 + result + c) % 2 ^ 32)

/-- The conversion of the `unsigned int` to the return type `int` at
`return result;`: the value modulo `2 ^ 32` that lies in the range of `int`. -/
def int_of_unsigned (r : Nat) : Int :=
  if r < 2 ^ 31 then (r : Int) else (r : Int) - 2 ^ 32

/-- `fs_proc_string_hash`. -/
def fs_proc_string_hash (string : List Nat) : Int :=
  int_of_unsigned (fs_proc_string_hash_loop string 5381)

/-- The djb2 hash as the claim words it: start at 5381, then
`h := h * 33 + c` for each byte, modulo `2 ^ 32`. -/
def djb2 (bytes : List Nat) : Nat :=
  bytes.foldl (fun h c => (h * 33 + c) % 2 ^ 32) 5381

/-- The string `"commit"` with its terminator. -/
def commit_string : List Nat := [99, 111, 109, 109, 105, 116, 0]

/-! ## The request header of `mercury_core_header.c`

A buffer is the list of its bytes. `be` tells whether the host stores the most
significant byte of an integer first; `htonl` and `ntohl` are the identity on
such a host and reverse the four bytes on the others. Checksums are disabled:
the macro `HG_CORE_HEADER_CHECKSUM_UPDATE` expands to nothing. -/

/-- The `n` bytes of `v`, least significant first. -/
def bytes_le : Nat → Nat → List Nat
  | 0, _ => []
  | n + 1, v => v % 256 :: bytes_le n (v / 256)

/-- The value of bytes, least significant first. -/
def val_le : List Nat → Nat
  | [] => 0
  | b :: l => b + 256 * val_le l

/-- The object representation of an `n`-byte unsigned integer on the host. -/
def bytes_of (be : Bool) (n : Nat) (v : Nat) : List Nat :=
  if be then (bytes_le n v).reverse else bytes_le n v

/-- The unsigned integer that bytes represent on the host. -/
def val_of (be : Bool) (l : List Nat) : Nat :=
  if be then val_le l.reverse else val_le l

/-- `htonl` of `arpa/inet.h`, on a 32-bit argument. -/
def htonl (be : Bool) (x : Nat) : Nat :=
  if be then x % 2 ^ 32 else val_le (bytes_le 4 x).reverse

/-- `ntohl` of `arpa/inet.h`. -/
def ntohl (be : Bool) (x : Nat) : Nat := htonl be x

/-- `hg_core_header_proc_hg_uint8_t_enc(x)`: `(x & 0xff)`. -/
def hg_core_header_proc_hg_uint8_t_enc (x : Nat) : Nat := x &&& 0xff

/-- `hg_core_header_proc_hg_uint8_t_dec(x)`: `(x & 0xff)`. -/
def hg_core_header_proc_hg_uint8_t_dec (x : Nat) : Nat := x &&& 0xff

/-- `hg_core_header_proc_hg_uint64_t_enc(x)`:
`(((hg_uint64_t) htonl(x & 0xffffffff) << 32) | htonl((hg_uint32_t) (x >> 32)))`. -/
def hg_core_header_proc_hg_uint64_t_enc (be : Bool) (x : Nat) : Nat :=
  ((htonl be (x &&& 0xffffffff) <<< 32) % 2 ^ 64) ||| htonl be ((x >>> 32) % 2 ^ 32)

/-- `hg_core_header_proc_hg_uint64_t_dec(x)`:
`(((hg_uint64_t) ntohl(x & 0xffffffff) << 32) | ntohl((hg_uint32_t) (x >> 32)))`. -/
def hg_core_header_proc_hg_uint64_t_dec (be : Bool) (x : Nat) : Nat :=
  ((ntohl be (x &&& 0xffffffff) <<< 32) % 2 ^ 64) ||| ntohl be ((x >>> 32) % 2 ^ 32)

/-- Modelled from the spec: `hg_proc_op_t` of `mercury_proc.h` (not among the
sources), with the operations `mercury_core_header.c` is called with. -/
inductive hg_proc_op_t where
  | HG_ENCODE : hg_proc_op_t
  | HG_DECODE : hg_proc_op_t
  deriving DecidableEq, Repr

/-- Modelled from the spec: the values of `hg_return_t` (`mercury_core_types.h`
is not among the sources) that `hg_core_header_request_proc` returns. -/
inductive hg_return_t where
  | HG_SUCCESS : hg_return_t
  | HG_INVALID_ARG : hg_return_t
  | HG_CHECKSUM_ERROR : hg_return_t
  deriving DecidableEq, Repr

/-- Modelled from the spec: `struct hg_core_header_request` of
`mercury_core_header.h` (not among the sources), with the members that
`hg_core_header_request_proc` processes: `hg`, `protocol`, `flags` and `cookie`
of type `hg_uint8_t`, `id` of type `hg_uint64_t`. -/
structure hg_core_header_request where
  hg : Nat
  protocol : Nat
  id : Nat
  flags : Nat
  cookie : Nat
  deriving DecidableEq, Repr

/-- `memcpy(buf_ptr, &__tmp, sizeof(type))`: store `bytes` at offset `off`. -/
def memcpy_in (buf : List Nat) (off : Nat) (bytes : List Nat) : List Nat :=
  buf.take off ++ bytes ++ buf.drop (off + bytes.length)

/-- `memcpy(&__tmp, buf_ptr, sizeof(type))`: the `n` bytes at offset `off`. -/
def memcpy_out (buf : List Nat) (off : Nat) (n : Nat) : List Nat :=
  (buf.drop off).take n

/-- `HG_CORE_HEADER_PROC_TYPE(buf_ptr, data, hg_uint8_t, op)`: the buffer, the
offset `buf_ptr - buf` and `data`, before and after. -/
def proc_hg_uint8_t (be : Bool) (op : hg_proc_op_t) (st : List Nat × Nat) (data : Nat) :
    (List Nat × Nat) × Nat :=
  match op with
  | hg_proc_op_t.HG_ENCODE =>
    ((memcpy_in st.1 st.2 (bytes_of be 1 (hg_core_header_proc_hg_uint8_t_enc data)), st.2 + 1),
      data)
  | hg_proc_op_t.HG_DECODE =>
    ((st.1, st.2 + 1), hg_core_header_proc_hg_uint8_t_dec (val_of be (memcpy_out st.1 st.2 1)))

/-- `HG_CORE_HEADER_PROC_TYPE(buf_ptr, data, hg_uint64_t, op)`. -/
def proc_hg_uint64_t (be : Bool) (op : hg_proc_op_t) (st : List Nat × Nat) (data : Nat) :
    (List Nat × Nat) × Nat :=
  match op with
  | hg_proc_op_t.HG_ENCODE =>
    ((memcpy_in st.1 st.2 (bytes_of be 8 (hg_core_header_proc_hg_uint64_t_enc be data)),
      st.2 + 8), data)
  | hg_proc_op_t.HG_DECODE =>
    ((st.1, st.2 + 8),
      hg_core_header_proc_hg_uint64_t_dec be (val_of be (memcpy_out st.1 st.2 8)))

/-- `hg_core_header_request_proc` without checksums: the return value, the
buffer and the header. `sizeof_request` is
`sizeof(struct hg_core_header_request)`. -/
def hg_core_header_request_proc (be : Bool) (sizeof_request : Nat) (op : hg_proc_op_t)
    (buf : List Nat) (buf_size : Nat) (header : hg_core_header_request) :
    hg_return_t × List Nat × hg_core_header_request :=
  if buf_size < sizeof_request then (hg_return_t.HG_INVALID_ARG, buf, header)
  else
    let r1 := proc_hg_uint8_t be op (buf, 0) header.hg
    let r2 := proc_hg_uint8_t be op r1.1 header.protocol
    let r3 := proc_hg_uint64_t be op r2.1 header.id
    let r4 := proc_hg_uint8_t be op r3.1 header.flags
    let r5 := proc_hg_uint8_t be op r4.1 header.cookie
    (hg_return_t.HG_SUCCESS, r5.1.1,
      { hg := r1.2, protocol := r2.2, id := r3.2, flags := r4.2, cookie := r5.2 })

/-- A request header. -/
def header_example : hg_core_header_request :=
  { hg := 0xd3, protocol := 4, id := 0x1122334455667788, flags := 1, cookie := 0xff }

/-! ## The request lists with their pointers

`wiring_t` keeps the free requests on a stack at `req_free_head` and the
outstanding ones on a queue from `req_outst_head` whose end is
`req_outst_tailp`. Here the lists are the `next` members of the requests,
which are designated by numbers. -/

/-- The location `wiring->req_outst_tailp` points to: `&wiring->req_outst_head`
or `&req->next`. -/
inductive tailp_t where
  | head : tailp_t
  | next_of (req : Nat) : tailp_t
  deriving DecidableEq, Repr

/-- Modelled from the spec: the members of `wiring_t` (`wiring_impl.h` is not
among the sources) that hold the request lists, and the member `next` of each
`wiring_request_t`. -/
structure req_lists_t where
  next : Nat → Option Nat
  req_free_head : Option Nat
  req_outst_head : Option Nat
  req_outst_tailp : tailp_t

/-- Write `req->next`. -/
def req_lists_t.set_next (m : req_lists_t) (req : Nat) (v : Option Nat) : req_lists_t :=
  { m with next := fun r => if r = req then v else m.next r }

/-- The store `*wiring->req_outst_tailp = req`. -/
def req_lists_t.store_tailp (m : req_lists_t) (req : Nat) : req_lists_t :=
  match m.req_outst_tailp with
  | tailp_t.head => { m with req_outst_head := some req }
  | tailp_t.next_of r => m.set_next r (some req)

/-- `wiring_outst_request_put`, on the pointers. -/
def req_lists_t.wiring_outst_request_put (m : req_lists_t) (req : Nat) : req_lists_t :=
  let m1 := m.set_next req none
  let m2 := m1.store_tailp req
  { m2 with req_outst_tailp := tailp_t.next_of req }

/-- `wiring_free_request_put`, on the pointers. -/
def req_lists_t.wiring_free_request_put (m : req_lists_t) (req : Nat) : req_lists_t :=
  let m1 := m.set_next req m.req_free_head
  { m1 with req_free_head := some req }

/-- `wiring_free_request_get`, on the pointers; `header_alloc` is the result
of the allocation made when the free list is empty. -/
def req_lists_t.wiring_free_request_get (header_alloc : Option Nat) (m : req_lists_t) :
    Option Nat × req_lists_t :=
  match m.req_free_head with
  | some req => (some req, { m with req_free_head := m.next req })
  | none => (header_alloc, m)

/-- `wiring_requests_check_status`, on the pointers; `in_progress req` is
`ucp_request_check_status(req) == UCS_INPROGRESS`. -/
def req_lists_t.wiring_requests_check_status (in_progress : Nat → Bool) :
    Nat → req_lists_t → Option (Bool × req_lists_t)
  | 0, _ => none
  | fuel + 1, m =>
    match m.req_outst_head with
    | none => some (false, m)
    | some req =>
      if in_progress req then some (true, m)
      else
        let m1 := { m with req_outst_head := m.next req }
        let m2 :=
          if m1.req_outst_tailp = tailp_t.next_of req then
            { m1 with req_outst_tailp := tailp_t.head }
          else m1
        req_lists_t.wiring_requests_check_status in_progress fuel (m2.wiring_free_request_put req)

/-- The request lists that `wiring_init` leaves: both heads `NULL`, the tail
pointer at `&wiring->req_outst_head`. -/
def req_lists_init (next : Nat → Option Nat) : req_lists_t :=
  { next := next, req_free_head := none, req_outst_head := none,
    req_outst_tailp := tailp_t.head }

/-- The requests met from `p` by following `next` are those of `l`, in order,
and the last one has a `NULL` `next`. -/
def req_chain (next : Nat → Option Nat) : Option Nat → List Nat → Prop
  | p, [] => p = none
  | p, r :: l => p = some r ∧ req_chain next (next r) l

/-- Where the tail pointer of the queue `l` belongs: at the `next` member of
the last request, or at the head when there is none. -/
def tail_of (l : List Nat) : tailp_t :=
  match l.getLast? with
  | none => tailp_t.head
  | some r => tailp_t.next_of r

/-- The pointers represent the queue `outst` of outstanding requests and the
stack `free` of free requests: the chains from both heads, no request twice,
and the tail pointer at the end of the queue. -/
structure req_lists_ok (m : req_lists_t) (outst free : List Nat) : Prop where
  outst_chain : req_chain m.next m.req_outst_head outst
  free_chain : req_chain m.next m.req_free_head free
  nodup : (outst ++ free).Nodup
  tailp : m.req_outst_tailp = tail_of outst

/-- Requests 3 and 5 are put on the outstanding queue, in this order. -/
def two_outstanding : req_lists_t :=
  ((req_lists_init (fun _ => none)).wiring_outst_request_put 3).wiring_outst_request_put 5

/-! ## Predicates and wirings for the queue contents and for growth -/

/-- The conditions of `queue_wf`, computed: the links are checked at every
position of `q` and at every slot of the table. -/
def queue_wf_check (st : wstorage_t) (which : timo_t) (q : List Nat) : Bool :=
  decide q.Nodup && q.all (fun i => decide (i < st.nwires)) &&
    decide ((st.thead which).first = q.head?) && decide ((st.thead which).last = q.getLast?) &&
    (List.range q.length).all (fun k =>
      match q[k]? with
      | none => true
      | some a =>
        decide ((st.link a which).next = q[k + 1]?) &&
          decide ((st.link a which).prev = if k = 0 then none else q[k - 1]?)) &&
    (List.range st.nwires).all (fun i =>
      decide (i ∈ q) ||
        (decide ((st.link i which).next = some i) && decide ((st.link i which).prev = some i)))

/-- The wiring after `wireup_respond` at time 0 on `wiring_accepting`, for a
peer whose slot is 0, in the environment `env_accept`. -/
def accepted_example : wiring_t :=
  match wireup_respond layout_example 8 env_accept (fun _ => env_ok) 0 wiring_accepting 0 [7] with
  | some r => r.2
  | none => wiring_accepting

/-- A wire with its `next` member cleared: all of the wire but `next`. -/
def wire_t.without_next (w : wire_t) : wire_t := { w with next := none }

/-- A wire that is FREE, has no endpoint and holds no message: the loop of
`wiring_reclaim_bin_for_epoch` over the closed wires finds nothing to release
in it. -/
def wire_idle (w : wire_t) : Prop :=
  w.state = wire_state_t.FREE ∧ w.ep = none ∧ w.msg = none

instance (w : wire_t) : Decidable (wire_idle w) := by
  unfold wire_idle
  infer_instance

/-- Slot `i` is on the list that starts at `p` and is linked by the `next`
members of table `st`. -/
inductive next_reach (st : wstorage_t) : sender_id_t → Nat → Prop
  | head (i : Nat) : next_reach st (some i) i
  | tail (i k : Nat) (h : next_reach st (st.getw i).next k) : next_reach st (some i) k

/-- Slot `i` is on the free list of `s`, or on the closing list of the bin of
an epoch from `epoch.first` of `s` up to, but not including, `first`: with
`first` the value of `epoch.first` after a reclamation, the bins that the
reclamation has emptied. -/
def reclaim_reach (s : wiring_t) (first : Nat) (i : Nat) : Prop :=
  next_reach s.storage s.storage.first_free i ∨
    ∃ ep, s.garbage_sched.epoch_first ≤ ep ∧ ep < first ∧
      next_reach s.storage (s.getbin (ep % NBINS)).first_closed i

/-- The set `T` holds the free list and the closing lists of the bins in `B`:
their heads are in `T`, and `T` is closed under `next`. -/
structure touch_inv (T : Nat → Prop) (B : Nat → Prop) (s : wiring_t) : Prop where
  free : ∀ id, s.storage.first_free = some id → T id
  closed : ∀ b, B b → ∀ id, (s.getbin b).first_closed = some id → T id
  next : ∀ i, T i → ∀ j, (s.storage.getw i).next = some j → T j

/-- From `s` to `s'` the wires outside `T` are unchanged, an idle wire has
changed in `next` at most, and `T` still holds the free list and the closing
lists of the bins in `B`. -/
structure touch_rel (T : Nat → Prop) (B : Nat → Prop) (s s' : wiring_t) : Prop where
  keep : ∀ i, ¬ T i → s'.storage.getw i = s.storage.getw i
  idle : ∀ i, wire_idle (s.storage.getw i) →
    (s'.storage.getw i).without_next = (s.storage.getw i).without_next
  inv : touch_inv T B s → touch_inv T B s'

/-- The wiring of `full_window_scenario`. -/
def full_window_wiring : wiring_t := full_window_scenario.getD wiring_example

/-- The wiring of `full_window_scenario` after `wiring_enlarge`. -/
def full_window_grown : wiring_t :=
  match wiring_enlarge layout_example 8 env_ok (fun _ => env_ok) full_window_wiring with
  | some r => r.2
  | none => full_window_wiring

end Wireup

/-! # Properties -/

namespace Wireup

/-- C1: timeout monotonicity fails on the wakeup queue. After `wiring_init`, a
REQ answered at time 0 puts wire 0 (LIVE) on the wakeup queue with due
`keepalive_interval`; `wireup_start` at time 0 then appends wire 1 (INITIAL)
with due `retry_interval`, so the dues from head to tail are decreasing and
the check `lastlink->due <= when` of `wiring_timeout_put`, made against the
tail the REQ left, is false. -/
theorem wakeup_queue_not_monotone :
    ∃ s1 r, wireup_rx_msg layout_example 8 env_ok (fun _ => env_ok) 0 wiring_example 0
        (wireup_msg_bytes req_example) 9 = some s1 ∧
      respond_then_start = some r ∧ r.1 = some 1 ∧
      queue_dues r.2.storage timo_t.timo_wakeup = [1000000000, 250000000] ∧
      wiring_timeout_put_assert s1.storage timo_t.timo_wakeup
        ((0 + retry_interval) % 2 ^ 64) = false := by
  refine ⟨_, _, rfl, rfl, ?_, ?_, ?_⟩ <;> decide

/-- C2: the slot partition fails. After `wiring_init`, `wireup_stop` on slot
0, which is free and below the table count, returns true and leaves slot 0
both on the free list and on the closing list of bin 0. -/
theorem stop_free_slot_on_two_lists :
    stop_free_slot.1 = true ∧
      (wiring_example.storage.getw 0).state = wire_state_t.FREE ∧
      free_list stop_free_slot.2 = [0] ∧ closing_list stop_free_slot.2 0 = [0] := by
  decide

theorem getw_setw (st : wstorage_t) (id i : Nat) (w : wire_t) :
    (st.setw id w).getw i = if i = id ∧ id < st.nwires then w else st.getw i := by
  by_cases h : i = id
  · subst h
    by_cases h2 : i < st.nwires
    · simp [h2, wstorage_t.getw, wstorage_t.setw, wstorage_t.nwires] at *
      simp [List.getD_eq_getElem?_getD, h2]
    · simp only [h2, and_false, if_false]
      simp only [wstorage_t.getw, wstorage_t.setw, wstorage_t.nwires] at *
      rw [List.set_eq_of_length_le (by omega)]
  · simp [h, wstorage_t.getw, wstorage_t.setw, List.getD_eq_getElem?_getD, List.getElem?_set,
      Ne.symm h]

@[simp] theorem nwires_setw (st : wstorage_t) (id : Nat) (w : wire_t) :
    (st.setw id w).nwires = st.nwires := by
  simp [wstorage_t.setw, wstorage_t.nwires]

@[simp] theorem thead_setw (st : wstorage_t) (id : Nat) (w : wire_t) (which : timo_t) :
    (st.setw id w).thead which = st.thead which := by
  cases which <;> rfl

@[simp] theorem first_free_setw (st : wstorage_t) (id : Nat) (w : wire_t) :
    (st.setw id w).first_free = st.first_free := rfl

@[simp] theorem tlink_set_tlink (w : wire_t) (which which' : timo_t) (l : timeout_link_t) :
    (w.set_tlink which l).tlink which' = if which' = which then l else w.tlink which' := by
  cases which <;> cases which' <;> simp [wire_t.set_tlink, wire_t.tlink]

theorem link_set_link (st : wstorage_t) (id i : Nat) (which which' : timo_t) (l : timeout_link_t) :
    (st.set_link id which l).link i which' =
      if i = id ∧ id < st.nwires ∧ which' = which then l else st.link i which' := by
  unfold wstorage_t.set_link wstorage_t.link
  rw [getw_setw]
  by_cases h : i = id ∧ id < st.nwires
  · rw [if_pos h, tlink_set_tlink]
    obtain ⟨h1, h2⟩ := h
    subst h1
    by_cases hw : which' = which <;> simp [hw, h2]
  · rw [if_neg h]
    have : ¬ (i = id ∧ id < st.nwires ∧ which' = which) := fun hh => h ⟨hh.1, hh.2.1⟩
    rw [if_neg this]

@[simp] theorem nwires_set_link (st : wstorage_t) (id : Nat) (which : timo_t) (l : timeout_link_t) :
    (st.set_link id which l).nwires = st.nwires := by
  simp [wstorage_t.set_link]

@[simp] theorem thead_set_link (st : wstorage_t) (id : Nat) (which which' : timo_t)
    (l : timeout_link_t) : (st.set_link id which l).thead which' = st.thead which' := by
  simp [wstorage_t.set_link]

@[simp] theorem nwires_set_thead (st : wstorage_t) (which : timo_t) (h : timeout_head_t) :
    (st.set_thead which h).nwires = st.nwires := by
  cases which <;> rfl

@[simp] theorem getw_set_thead (st : wstorage_t) (which : timo_t) (h : timeout_head_t) (i : Nat) :
    (st.set_thead which h).getw i = st.getw i := by
  cases which <;> rfl

@[simp] theorem link_set_thead (st : wstorage_t) (which which' : timo_t) (h : timeout_head_t)
    (i : Nat) : (st.set_thead which h).link i which' = st.link i which' := by
  simp [wstorage_t.link]

theorem thead_set_thead (st : wstorage_t) (which which' : timo_t) (h : timeout_head_t) :
    (st.set_thead which h).thead which' = if which' = which then h else st.thead which' := by
  cases which <;> cases which' <;> simp [wstorage_t.set_thead, wstorage_t.thead]

@[simp] theorem nwires_timeout_remove (st : wstorage_t) (id : Nat) (which : timo_t) :
    (wiring_timeout_remove st id which).nwires = st.nwires := by
  unfold wiring_timeout_remove
  simp only
  split
  · rfl
  · split <;> split <;> simp

/-- The links of queue `which` after `wiring_timeout_remove` of an enqueued wire. -/
theorem link_timeout_remove (st : wstorage_t) (id : Nat) (which : timo_t) (hid : id < st.nwires)
    (hne : (st.link id which).next ≠ some id)
    (hn : ∀ n, (st.link id which).next = some n → n < st.nwires)
    (hp : ∀ p, (st.link id which).prev = some p → p < st.nwires) (j : Nat) :
    (wiring_timeout_remove st id which).link j which =
      if j = id then { prev := some id, next := some id, due := 0 }
      else
        { prev := if (st.link id which).next = some j then (st.link id which).prev
                  else (st.link j which).prev
          next := if (st.link id which).prev = some j then (st.link id which).next
                  else (st.link j which).next
          due := (st.link j which).due } := by
  unfold wiring_timeout_remove
  simp only [if_neg hne]
  rcases hnx : (st.link id which).next with _ | n <;> rcases hpv : (st.link id which).prev with _ | p
  all_goals simp only [link_set_link, link_set_thead, nwires_set_link, nwires_set_thead, hid]
  · split_ifs <;> simp_all
  · have h2 := hp p hpv
    split_ifs <;> simp_all
  · have h1 := hn n hnx
    split_ifs <;> simp_all
  · have h1 := hn n hnx
    have h2 := hp p hpv
    by_cases e1 : p = n
    · subst e1
      split_ifs <;> simp_all
    · have e2 : ¬ n = p := fun h => e1 h.symm
      split_ifs <;> simp_all

theorem thead_timeout_remove (st : wstorage_t) (id : Nat) (which : timo_t)
    (hne : (st.link id which).next ≠ some id) :
    (wiring_timeout_remove st id which).thead which =
      { first := if (st.link id which).prev = none then (st.link id which).next
                 else (st.thead which).first
        last := if (st.link id which).next = none then (st.link id which).prev
                else (st.thead which).last } := by
  unfold wiring_timeout_remove
  simp only [if_neg hne]
  rcases hnx : (st.link id which).next with _ | n <;>
    rcases hpv : (st.link id which).prev with _ | p <;>
    simp [thead_set_thead]

theorem getElem?_nodup_inj {q : List Nat} (hq : q.Nodup) {i j a : Nat} (hi : q[i]? = some a)
    (hj : q[j]? = some a) : i = j := by
  have hlt : i < q.length := by
    rcases List.getElem?_eq_some.mp hi with ⟨h, _⟩
    exact h
  exact List.getElem?_inj hlt hq (hi.trans hj.symm)

theorem erase_eq_eraseIdx_of_getElem? {q : List Nat} (hq : q.Nodup) {m a : Nat}
    (hm : q[m]? = some a) : q.erase a = q.eraseIdx m := by
  have hmem : a ∈ q := List.mem_iff_getElem?.mpr ⟨m, hm⟩
  have h1 : q[q.indexOf a]? = some a := List.getElem?_indexOf hmem
  have h2 : q.indexOf a = m := getElem?_nodup_inj hq h1 hm
  rw [← List.eraseIdx_indexOf_eq_erase, h2]

/-- Removing the wire at position `m` of a well-formed queue leaves the queue
without that wire. -/
theorem queue_wf_timeout_remove (st : wstorage_t) (which : timo_t) (q : List Nat) (id m : Nat)
    (hq : queue_wf st which q) (hm : q[m]? = some id) :
    queue_wf (wiring_timeout_remove st id which) which (q.eraseIdx m) ∧
      (wiring_timeout_remove st id which).link id which =
        { prev := some id, next := some id, due := 0 } ∧
      ∀ j, j ≠ id → ((wiring_timeout_remove st id which).link j which).due =
        (st.link j which).due := by
  have hmem : id ∈ q := List.mem_iff_getElem?.mpr ⟨m, hm⟩
  have hid : id < st.nwires := hq.bound id hmem
  have inj : ∀ {i j a : Nat}, q[i]? = some a → q[j]? = some a → i = j :=
    fun h1 h2 => getElem?_nodup_inj hq.nodup h1 h2
  have hnext : (st.link id which).next = q[m + 1]? := hq.next m id hm
  have hprev : (st.link id which).prev = if m = 0 then none else q[m - 1]? := by
    cases m with
    | zero => simpa using hq.prev_head id hm
    | succ k => simpa using hq.prev k id hm
  have hne : (st.link id which).next ≠ some id := by
    rw [hnext]
    intro h
    have := inj h hm
    omega
  have hn : ∀ n, (st.link id which).next = some n → n < st.nwires := by
    intro n h
    rw [hnext] at h
    exact hq.bound n (List.mem_iff_getElem?.mpr ⟨_, h⟩)
  have hp : ∀ p, (st.link id which).prev = some p → p < st.nwires := by
    intro p h
    rw [hprev] at h
    split at h
    · cases h
    · exact hq.bound p (List.mem_iff_getElem?.mpr ⟨_, h⟩)
  have L := link_timeout_remove st id which hid hne hn hp
  have T := thead_timeout_remove st id which hne
  have hlen : m < q.length := by
    rcases List.getElem?_eq_some.mp hm with ⟨h, _⟩
    exact h
  -- whether the old neighbours of `id` are a given wire
  have prev_eq : ∀ {k a : Nat}, q[k]? = some a →
      ((st.link id which).prev = some a ↔ k + 1 = m) := by
    intro k a hk
    rw [hprev]
    constructor
    · intro h
      split at h
      · cases h
      · have := inj h hk
        omega
    · intro h
      have h0 : m ≠ 0 := by omega
      rw [if_neg h0]
      have : m - 1 = k := by omega
      rw [this, hk]
  have next_eq : ∀ {k a : Nat}, q[k]? = some a →
      ((st.link id which).next = some a ↔ k = m + 1) := by
    intro k a hk
    rw [hnext]
    constructor
    · intro h
      exact (inj h hk).symm
    · intro h
      rw [← h, hk]
  refine ⟨?_, ?_, ?_⟩
  · refine
      { nodup := hq.nodup.eraseIdx m
        bound := ?_
        first := ?_
        last := ?_
        next := ?_
        prev_head := ?_
        prev := ?_
        off := ?_ }
    · intro i hi
      rw [nwires_timeout_remove]
      rw [← erase_eq_eraseIdx_of_getElem? hq.nodup hm] at hi
      exact hq.bound i (List.mem_of_mem_erase hi)
    · rw [T, List.head?_eq_getElem?, List.getElem?_eraseIdx, hq.first, List.head?_eq_getElem?,
        hprev, hnext]
      by_cases h0 : m = 0
      · subst h0
        simp
      · have : ∃ b, q[m - 1]? = some b := by
          have : m - 1 < q.length := by omega
          exact ⟨q[m - 1], List.getElem?_eq_getElem this⟩
        obtain ⟨b, hb⟩ := this
        have hpos : 0 < m := by omega
        simp [h0, hb, hpos]
    · rw [T, List.getLast?_eq_getElem?, List.getElem?_eraseIdx, hq.last,
        List.getLast?_eq_getElem?, hprev, hnext, List.length_eraseIdx]
      simp only [if_pos hlen]
      by_cases h1 : m + 1 < q.length
      · have : ∃ b, q[m + 1]? = some b := ⟨q[m + 1], List.getElem?_eq_getElem h1⟩
        obtain ⟨b, hb⟩ := this
        have h2 : ¬ (q.length - 1 - 1 < m) := by omega
        have h3 : q.length - 1 - 1 + 1 = q.length - 1 := by omega
        simp [hb, h2, h3]
      · have h2 : q[m + 1]? = none := List.getElem?_eq_none (by omega)
        have h3 : m = q.length - 1 := by omega
        by_cases h0 : m = 0
        · have h4 : q.length - 1 - 1 = 0 := by omega
          have h5 : q[0 + 1]? = none := List.getElem?_eq_none (by omega)
          simp [h2, h0, h4, h5]
        · have h4 : q.length - 1 - 1 < m := by omega
          have h5 : q.length - 1 - 1 = m - 1 := by omega
          have h6 : 0 < m := by omega
          simp [h2, h0, h5, h6]
    · intro k a hk
      rw [List.getElem?_eraseIdx] at hk
      rw [List.getElem?_eraseIdx, L]
      by_cases hkm : k < m
      · rw [if_pos hkm] at hk
        have ha : a ≠ id := fun h => by
          subst h
          have := inj hk hm
          omega
        have hpe := prev_eq hk
        have hold := hq.next k a hk
        by_cases hk1 : k + 1 = m
        · have h1 : ¬ (k + 1 < m) := by omega
          simp only [if_neg ha, if_pos (hpe.mpr hk1), if_neg h1, hnext]
          rw [← hk1]
        · have h1 : k + 1 < m := by omega
          have h2 : ¬ (st.link id which).prev = some a := fun h => hk1 (hpe.mp h)
          simp only [if_neg ha, if_neg h2, if_pos h1, hold]
      · rw [if_neg hkm] at hk
        have ha : a ≠ id := fun h => by
          subst h
          have := inj hk hm
          omega
        have h1 : ¬ (k + 1 < m) := by omega
        have h2 : ¬ (st.link id which).prev = some a := fun h => by
          have := (prev_eq hk).mp h
          omega
        simp only [if_neg ha, if_neg h2, if_neg h1, hq.next (k + 1) a hk]
    · intro a ha0
      rw [List.getElem?_eraseIdx] at ha0
      rw [L]
      by_cases h0 : 0 < m
      · rw [if_pos h0] at ha0
        have ha : a ≠ id := fun h => by
          subst h
          have := inj ha0 hm
          omega
        have h2 : ¬ (st.link id which).next = some a := fun h => by
          have := (next_eq ha0).mp h
          omega
        simp only [if_neg ha, if_neg h2, hq.prev_head a ha0]
      · rw [if_neg h0] at ha0
        have hm0 : m = 0 := by omega
        subst hm0
        have ha : a ≠ id := fun h => by
          subst h
          have := inj ha0 hm
          omega
        have h2 : (st.link id which).next = some a := (next_eq ha0).mpr rfl
        simp only [if_neg ha, if_pos h2, hprev]
        simp
    · intro k a hk
      rw [List.getElem?_eraseIdx] at hk
      rw [List.getElem?_eraseIdx, L]
      by_cases hkm : k + 1 < m
      · rw [if_pos hkm] at hk
        have ha : a ≠ id := fun h => by
          subst h
          have := inj hk hm
          omega
        have h2 : ¬ (st.link id which).next = some a := fun h => by
          have := (next_eq hk).mp h
          omega
        have h1 : k < m := by omega
        simp only [if_neg ha, if_neg h2, if_pos h1, hq.prev k a hk]
      · rw [if_neg hkm] at hk
        have ha : a ≠ id := fun h => by
          subst h
          have := inj hk hm
          omega
        by_cases hk1 : k + 1 = m
        · have h2 : (st.link id which).next = some a := (next_eq hk).mpr (by omega)
          have h1 : k < m := by omega
          have h0 : m ≠ 0 := by omega
          have h3 : m - 1 = k := by omega
          simp only [if_neg ha, if_pos h2, if_pos h1, hprev, if_neg h0, h3]
        · have h2 : ¬ (st.link id which).next = some a := fun h => by
            have := (next_eq hk).mp h
            omega
          have h1 : ¬ k < m := by omega
          simp only [if_neg ha, if_neg h2, if_neg h1, hq.prev (k + 1) a hk]
    · intro i hi hnot
      rw [nwires_timeout_remove] at hi
      rw [L]
      by_cases hii : i = id
      · subst hii
        simp
      · have hiq : i ∉ q := by
          intro h
          apply hnot
          rw [← erase_eq_eraseIdx_of_getElem? hq.nodup hm]
          exact (List.mem_erase_of_ne hii).mpr h
        have h1 : ¬ (st.link id which).next = some i := by
          rw [hnext]
          intro h
          exact hiq (List.mem_iff_getElem?.mpr ⟨_, h⟩)
        have h2 : ¬ (st.link id which).prev = some i := by
          rw [hprev]
          intro h
          split at h
          · cases h
          · exact hiq (List.mem_iff_getElem?.mpr ⟨_, h⟩)
        simp only [if_neg hii, if_neg h1, if_neg h2]
        exact hq.off i hi hiq
  · rw [L, if_pos rfl]
  · intro j hj
    rw [L, if_neg hj]

/-- C7: self-loop sentinel. For a table whose queue `which` is well formed
and holds the wires `q`, and a slot `id` below the table count, after
`wiring_timeout_remove` the link of `id` has `prev == next == id`; if `id` was
enqueued its due is 0, the queue holds `q` without `id` in the same order and
the dues of the other wires are unchanged; if `id` was not enqueued the table
is unchanged. -/
theorem timeout_remove_self_loop (st : wstorage_t) (which : timo_t) (q : List Nat) (id : Nat)
    (hq : queue_wf st which q) (hid : id < st.nwires) :
    ((wiring_timeout_remove st id which).link id which).prev = some id ∧
      ((wiring_timeout_remove st id which).link id which).next = some id ∧
      (id ∈ q →
        ((wiring_timeout_remove st id which).link id which).due = 0 ∧
        queue_wf (wiring_timeout_remove st id which) which (q.erase id) ∧
        ∀ j, j ≠ id → ((wiring_timeout_remove st id which).link j which).due =
          (st.link j which).due) ∧
      (id ∉ q → wiring_timeout_remove st id which = st) := by
  by_cases hmem : id ∈ q
  · obtain ⟨m, hm⟩ := List.mem_iff_getElem?.mp hmem
    obtain ⟨h1, h2, h3⟩ := queue_wf_timeout_remove st which q id m hq hm
    rw [erase_eq_eraseIdx_of_getElem? hq.nodup hm]
    refine ⟨by rw [h2], by rw [h2], fun _ => ⟨by rw [h2], h1, h3⟩, fun h => absurd hmem h⟩
  · have hoff := hq.off id hid hmem
    have hst : wiring_timeout_remove st id which = st := by
      unfold wiring_timeout_remove
      simp only [hoff.1, if_true]
    rw [hst]
    exact ⟨hoff.2, hoff.1, fun h => absurd h hmem, fun _ => rfl⟩

theorem queue_example_wf : queue_wf queue_example timo_t.timo_wakeup [0, 1] where
  nodup := by decide
  bound := by decide
  first := by decide
  last := by decide
  next := by
    intro k a h
    match k with
    | 0 => simp at h; subst h; decide
    | 1 => simp at h; subst h; decide
    | k + 2 => simp at h
  prev_head := by
    intro a h
    simp at h
    subst h
    decide
  prev := by
    intro k a h
    match k with
    | 0 => simp at h; subst h; decide
    | k + 1 => simp at h
  off := by
    intro i hi hnot
    have h2 : queue_example.nwires = 2 := by decide
    rw [h2] at hi
    simp at hnot
    omega

theorem timeout_remove_self_loop_witness :
    queue_wf queue_example timo_t.timo_wakeup [0, 1] ∧ 0 < queue_example.nwires ∧
      ((wiring_timeout_remove queue_example 0 timo_t.timo_wakeup).link 0
        timo_t.timo_wakeup).prev = some 0 ∧
      ((wiring_timeout_remove queue_example 0 timo_t.timo_wakeup).link 0
        timo_t.timo_wakeup).next = some 0 ∧
      queue_wf (wiring_timeout_remove queue_example 0 timo_t.timo_wakeup) timo_t.timo_wakeup
        ([0, 1].erase 0) :=
  have h := timeout_remove_self_loop queue_example timo_t.timo_wakeup [0, 1] 0 queue_example_wf
    (by decide)
  ⟨queue_example_wf, by decide, h.1, h.2.1, (h.2.2.1 (by decide)).2.1⟩

/-- C8: `wire_get_data` returns the association pointer `assoc[id]` when the
wire id is not nil, is below the table count and the wire at that slot is
LIVE, and returns `wire_data_nil` in every other case. -/
theorem wire_get_data_connected (s : wiring_t) (wid : sender_id_t) :
    (∀ id, wid = some id → id < s.storage.nwires →
        (s.storage.getw id).state = wire_state_t.LIVE →
        wire_get_data s wid = s.assoc.getD id Ptr.null) ∧
      ((¬ ∃ id, wid = some id ∧ id < s.storage.nwires ∧
          (s.storage.getw id).state = wire_state_t.LIVE) →
        wire_get_data s wid = wire_data_nil) := by
  constructor
  · intro id hw hlt hst
    subst hw
    have : ¬ s.storage.nwires ≤ id := by omega
    simp [wire_get_data, wire_is_connected, this, hst]
  · intro h
    cases wid with
    | none => simp [wire_get_data, wire_is_connected]
    | some id =>
      by_cases hle : s.storage.nwires ≤ id
      · simp [wire_get_data, wire_is_connected, hle]
      · have hst : (s.storage.getw id).state ≠ wire_state_t.LIVE := by
          intro hst
          exact h ⟨id, rfl, by omega, hst⟩
        simp [wire_get_data, wire_is_connected, hle, hst]

theorem getbin_setbin (s : wiring_t) (i j : Nat) (b : wiring_garbage_bin_t) :
    (s.setbin i b).getbin j =
      if j = i ∧ i < s.garbage_sched.bin.length then b else s.getbin j := by
  unfold wiring_t.setbin wiring_t.getbin wiring_garbage_schedule_t.setbin
    wiring_garbage_schedule_t.getbin
  simp only [List.getD_eq_getElem?_getD, List.getElem?_set]
  by_cases h : i = j
  · subst h
    by_cases h2 : i < s.garbage_sched.bin.length
    · simp [h2]
    · have h3 : s.garbage_sched.bin[i]? = none := List.getElem?_eq_none (by omega)
      simp [h2, h3]
  · have h' : ¬ j = i := fun e => h e.symm
    simp [h, h']

@[simp] theorem bin_length_setbin (s : wiring_t) (i : Nat) (b : wiring_garbage_bin_t) :
    (s.setbin i b).garbage_sched.bin.length = s.garbage_sched.bin.length := by
  simp [wiring_t.setbin, wiring_garbage_schedule_t.setbin]

@[simp] theorem ref_setbin (s : wiring_t) (i : Nat) (b : wiring_garbage_bin_t) (p : ref_ptr) :
    (s.setbin i b).ref p = s.ref p := by
  cases p <;> rfl

@[simp] theorem getbin_set_ref (s : wiring_t) (p : ref_ptr) (r : wiring_ref_t) (i : Nat) :
    (s.set_ref p r).getbin i = s.getbin i := by
  cases p <;> rfl

@[simp] theorem bin_length_set_ref (s : wiring_t) (p : ref_ptr) (r : wiring_ref_t) :
    (s.set_ref p r).garbage_sched.bin.length = s.garbage_sched.bin.length := by
  cases p <;> rfl

theorem ref_set_ref_user (s : wiring_t) (n : Nat) (r : wiring_ref_t) :
    (s.set_ref (ref_ptr.user n) r).ref (ref_ptr.user n) = r := by
  simp [wiring_t.set_ref, wiring_t.ref]

/-- A reference that is idle, not freed and alone on the stack of a bin is
popped and pushed back for ever when the bin of the epoch under reclamation
is also the bin of `last_epoch`. -/
theorem reclaim_bin_refs_spins (n epoch last_epoch : Nat)
    (hb : epoch % NBINS = last_epoch % NBINS) :
    ∀ (fuel : Nat) (s : wiring_t), epoch % NBINS < s.garbage_sched.bin.length →
      (s.getbin (epoch % NBINS)).first_ref = ref_ptr.user n →
      (s.ref (ref_ptr.user n)).busy = false →
      (s.ref (ref_ptr.user n)).epoch ≠ UINT64_MAX →
      (s.ref (ref_ptr.user n)).next = ref_ptr.null →
      reclaim_bin_refs fuel s epoch last_epoch = none := by
  intro fuel
  induction fuel with
  | zero => intro s _ _ _ _ _; rfl
  | succ k ih =>
    intro s hlen hfirst hbusy hepoch hnext
    unfold reclaim_bin_refs
    have hholds : wiring_ref_holds_epoch (s.ref (ref_ptr.user n)) epoch = false := by
      simp [wiring_ref_holds_epoch, hbusy]
    simp only [hfirst, reduceCtorEq, if_false, hholds, Bool.false_eq_true, ref_setbin, hepoch,
      ← hb, hnext]
    apply ih
    · simpa using hlen
    · simp [getbin_setbin, hlen]
    · simp [ref_set_ref_user, hbusy]
    · simpa [ref_set_ref_user] using hepoch
    · simp [ref_set_ref_user, getbin_setbin, hlen]

/-- When the loop over the references of the first epoch of the window never
ends, neither does `wiring_reclaim`. -/
theorem wiring_reclaim_spins (s : wiring_t) (hw : s.garbage_sched.work_available ≠ 0)
    (hne : s.garbage_sched.epoch_first ≠ s.garbage_sched.epoch_last)
    (hspin : ∀ fuel, reclaim_bin_refs fuel s s.garbage_sched.epoch_first
      s.garbage_sched.epoch_last = none)
    (fuel : Nat) (fenv : Nat → env_t) : wiring_reclaim fuel fenv s false = none := by
  unfold wiring_reclaim
  have h1 : (s.garbage_sched.work_available == 0) = false := by simpa using hw
  simp only [Bool.not_false, h1, Bool.and_false, Bool.false_eq_true, if_false]
  cases fuel with
  | zero => rfl
  | succ k =>
    unfold reclaim_epochs
    simp only [if_neg hne]
    unfold wiring_reclaim_bin_for_epoch
    rw [hspin]

/-- C3: epoch safety fails once the epoch window is full. In
`reader_scenario` reference 0 is busy with stored epoch 1, sees wire 0 LIVE
(`wire_get_data` returns its data pointer) and the window is `[0, 4)`.
`wireup_stop` of wire 0 then puts it on the closing list of bin `4 % 4 = 0`,
the bin of epoch 0, and a `wiring_reclaim` pass reclaims epoch 0: wire 0,
closed at epoch 4, is finalized (endpoint closed, state FREE, head of the free
list) while reference 0 is still busy with epoch 1. -/
theorem epoch_safety_fails :
    ∃ s s', reader_scenario = some s ∧
      (s.ref (ref_ptr.user 0)).busy = true ∧ (s.ref (ref_ptr.user 0)).epoch = 1 ∧
      wire_get_data s (some 0) = Ptr.obj 5 ∧
      s.garbage_sched.epoch_first = 0 ∧ s.garbage_sched.epoch_last = 4 ∧
      wiring_reclaim 8 (fun _ => env_ok) (wireup_stop env_ok s (some 0) true).2 false =
        some (true, true, s') ∧
      (s'.ref (ref_ptr.user 0)).busy = true ∧ (s'.ref (ref_ptr.user 0)).epoch = 1 ∧
      (s'.storage.getw 0).state = wire_state_t.FREE ∧ (s'.storage.getw 0).ep = none ∧
      s'.storage.first_free = some 0 ∧ ext_call.ep_close 1 ∈ s'.trace := by
  refine ⟨_, _, rfl, ?_, ?_, ?_, ?_, ?_, rfl, ?_, ?_, ?_, ?_, ?_, ?_⟩ <;> decide

/-- C4: a stopped wire is not returned to the free list when the reclaim pass
does not end. In `idle_ref_scenario` wire 0 is INITIAL and the only reference
is idle. After `wireup_stop` of wire 0 and one more growth of the table (to 16
wires, window `[0, 4)`), `wiring_reclaim` returns for no amount of fuel and no
results of the calls it makes: the idle reference on bin 0 is popped and
pushed back on bin `4 % 4 = 0` for ever, and wire 0 stays CLOSING. -/
theorem stopped_wire_not_reclaimed :
    ∃ s r, idle_ref_scenario = some s ∧
      (s.storage.getw 0).state = wire_state_t.INITIAL ∧
      (s.ref (ref_ptr.user 0)).busy = false ∧ s.sentinel.busy = false ∧
      idle_ref_stop_grow = some r ∧ r.2.storage.nwires = 16 ∧
      (r.2.storage.getw 0).state = wire_state_t.CLOSING ∧
      r.2.garbage_sched.epoch_first = 0 ∧ r.2.garbage_sched.epoch_last = 4 ∧
      ∀ (fuel : Nat) (fenv : Nat → env_t), wiring_reclaim fuel fenv r.2 false = none := by
  refine ⟨_, _, rfl, ?_, ?_, ?_, rfl, ?_, ?_, ?_, ?_, ?_⟩
  · decide
  · decide
  · decide
  · decide
  · decide
  · decide
  · decide
  · apply wiring_reclaim_spins
    · decide
    · decide
    · intro fuel
      apply reclaim_bin_refs_spins 0
      · decide
      · decide
      · decide
      · decide
      · decide
      · decide

theorem reclaim_rel.rel_refl (s : wiring_t) : reclaim_rel s s :=
  ⟨rfl, rfl, fun _ => rfl, fun _ _ => rfl, fun _ => rfl⟩

theorem reclaim_rel.rel_trans {s1 s2 s3 : wiring_t} (h1 : reclaim_rel s1 s2) (h2 : reclaim_rel s2 s3) :
    reclaim_rel s1 s3 :=
  ⟨h2.assoc.trans h1.assoc, h2.nwires.trans h1.nwires,
    fun w => (h2.thead w).trans (h1.thead w),
    fun i w => (h2.link i w).trans (h1.link i w),
    fun i => (h2.sender_id i).trans (h1.sender_id i)⟩

theorem same_links.links_refl (st : wstorage_t) : same_links st st :=
  ⟨rfl, rfl, rfl, rfl, fun _ => ⟨rfl, rfl, rfl, rfl⟩⟩

theorem same_links.links_trans {a b c : wstorage_t} (h1 : same_links a b) (h2 : same_links b c) :
    same_links a c :=
  ⟨h2.nwires.trans h1.nwires, h2.first_free.trans h1.first_free,
    h2.thead_expire.trans h1.thead_expire, h2.thead_wakeup.trans h1.thead_wakeup,
    fun i => ⟨(h2.wires i).1.trans (h1.wires i).1, (h2.wires i).2.1.trans (h1.wires i).2.1,
      (h2.wires i).2.2.1.trans (h1.wires i).2.2.1, (h2.wires i).2.2.2.trans (h1.wires i).2.2.2⟩⟩

/-- Writing a wire that agrees with the old one on the links, the sender id
and `next`. -/
theorem same_links_setw (st : wstorage_t) (id : Nat) (w : wire_t)
    (h1 : w.tlink_expire = (st.getw id).tlink_expire)
    (h2 : w.tlink_wakeup = (st.getw id).tlink_wakeup) (h3 : w.id = (st.getw id).id)
    (h4 : w.next = (st.getw id).next) : same_links st (st.setw id w) where
  nwires := nwires_setw st id w
  first_free := rfl
  thead_expire := rfl
  thead_wakeup := rfl
  wires := by
    intro i
    rw [getw_setw]
    split
    · rename_i h
      rw [h.1]
      exact ⟨h1, h2, h3, h4⟩
    · exact ⟨rfl, rfl, rfl, rfl⟩

theorem link_eq_of_tlink_eq {st st' : wstorage_t} {i : Nat}
    (h1 : (st'.getw i).tlink_expire = (st.getw i).tlink_expire)
    (h2 : (st'.getw i).tlink_wakeup = (st.getw i).tlink_wakeup) (which : timo_t) :
    st'.link i which = st.link i which := by
  cases which <;> simp [wstorage_t.link, wire_t.tlink, h1, h2]

theorem thead_eq_of {st st' : wstorage_t} (h1 : st'.thead_expire = st.thead_expire)
    (h2 : st'.thead_wakeup = st.thead_wakeup) (which : timo_t) :
    st'.thead which = st.thead which := by
  cases which <;> simp [wstorage_t.thead, h1, h2]

/-- A change of the table within `same_links`, with unchanged associations,
is within `reclaim_rel`. -/
theorem reclaim_rel_of_same_links (s s' : wiring_t) (ha : s'.assoc = s.assoc)
    (hl : same_links s.storage s'.storage) : reclaim_rel s s' where
  assoc := ha
  nwires := hl.nwires
  thead := thead_eq_of hl.thead_expire hl.thead_wakeup
  link := fun i which => link_eq_of_tlink_eq (hl.wires i).1 (hl.wires i).2.1 which
  sender_id := fun i => (hl.wires i).2.2.1

theorem getbin_congr {s s' : wiring_t} (hg : s'.garbage_sched = s.garbage_sched) (b : Nat) :
    s'.getbin b = s.getbin b := by
  simp [wiring_t.getbin, hg]

/-- A change of the table within `same_links`, with unchanged associations
and bins, keeps `ids_ok`. -/
theorem ids_ok_of_same_links (s s' : wiring_t) (ha : s'.assoc = s.assoc)
    (hg : s'.garbage_sched = s.garbage_sched) (hl : same_links s.storage s'.storage)
    (h : ids_ok s) : ids_ok s' where
  pos := by rw [hl.nwires]; exact h.pos
  max := by rw [hl.nwires]; exact h.max
  assoc := by rw [ha, hl.nwires]; exact h.assoc
  bins := by rw [hg]; exact h.bins
  free := by
    intro id hid
    rw [hl.nwires]
    rw [hl.first_free] at hid
    exact h.free id hid
  next := by
    intro i id hid
    rw [hl.nwires]
    rw [(hl.wires i).2.2.2] at hid
    exact h.next i id hid
  closed := by
    intro b id hid
    rw [hl.nwires]
    rw [getbin_congr hg] at hid
    exact h.closed b id hid

@[simp] theorem storage_log (s : wiring_t) (c : ext_call) : (s.log c).storage = s.storage := rfl

@[simp] theorem assoc_log (s : wiring_t) (c : ext_call) : (s.log c).assoc = s.assoc := rfl

@[simp] theorem garbage_log (s : wiring_t) (c : ext_call) :
    (s.log c).garbage_sched = s.garbage_sched := rfl

@[simp] theorem storage_request_settle (s : wiring_t) (req : Nat) (r : ucs_status_ptr_t) :
    (request_settle s req r).storage = s.storage := by
  cases r <;> rfl

@[simp] theorem assoc_request_settle (s : wiring_t) (req : Nat) (r : ucs_status_ptr_t) :
    (request_settle s req r).assoc = s.assoc := by
  cases r <;> rfl

@[simp] theorem garbage_request_settle (s : wiring_t) (req : Nat) (r : ucs_status_ptr_t) :
    (request_settle s req r).garbage_sched = s.garbage_sched := by
  cases r <;> rfl

@[simp] theorem storage_free_request_get (s : wiring_t) (h : Option Nat) :
    (wiring_free_request_get h s).2.storage = s.storage := by
  unfold wiring_free_request_get
  split <;> rfl

@[simp] theorem assoc_free_request_get (s : wiring_t) (h : Option Nat) :
    (wiring_free_request_get h s).2.assoc = s.assoc := by
  unfold wiring_free_request_get
  split <;> rfl

@[simp] theorem garbage_free_request_get (s : wiring_t) (h : Option Nat) :
    (wiring_free_request_get h s).2.garbage_sched = s.garbage_sched := by
  unfold wiring_free_request_get
  split <;> rfl

/-- `wiring_finalize_wire` keeps the links, sender ids and `next` members, the
associations and the bins. -/
theorem finalize_wire_frame (e : env_t) (s : wiring_t) (id : Nat) :
    same_links s.storage (wiring_finalize_wire e s id).storage ∧
      (wiring_finalize_wire e s id).assoc = s.assoc ∧
      (wiring_finalize_wire e s id).garbage_sched = s.garbage_sched := by
  have key : ∀ s1 : wiring_t, same_links s.storage s1.storage → s1.assoc = s.assoc →
      s1.garbage_sched = s.garbage_sched → ∀ ep : Nat,
      same_links s.storage
          (match wiring_free_request_get e.header_alloc s1 with
            | (none, s2) => s2
            | (some req, s2) =>
              request_settle
                (({ s2 with storage := s2.storage.setw id { (s2.storage.getw id) with ep := none } } :
                  wiring_t).log (ext_call.ep_close ep)) req e.nbx).storage ∧
        (match wiring_free_request_get e.header_alloc s1 with
            | (none, s2) => s2
            | (some req, s2) =>
              request_settle
                (({ s2 with storage := s2.storage.setw id { (s2.storage.getw id) with ep := none } } :
                  wiring_t).log (ext_call.ep_close ep)) req e.nbx).assoc = s.assoc ∧
        (match wiring_free_request_get e.header_alloc s1 with
            | (none, s2) => s2
            | (some req, s2) =>
              request_settle
                (({ s2 with storage := s2.storage.setw id { (s2.storage.getw id) with ep := none } } :
                  wiring_t).log (ext_call.ep_close ep)) req e.nbx).garbage_sched =
          s.garbage_sched := by
    intro s1 hl ha hg ep
    have h1 := storage_free_request_get s1 e.header_alloc
    have h2 := assoc_free_request_get s1 e.header_alloc
    have h3 := garbage_free_request_get s1 e.header_alloc
    rcases heq : wiring_free_request_get e.header_alloc s1 with ⟨_ | req, s2⟩
    all_goals rw [heq] at h1 h2 h3
    all_goals simp only at h1 h2 h3
    · simp only [h1, h2, h3]
      exact ⟨hl, ha, hg⟩
    · simp only [storage_request_settle, assoc_request_settle, garbage_request_settle,
        storage_log, assoc_log, garbage_log, h1, h2, h3]
      exact ⟨hl.links_trans (same_links_setw _ _ _ rfl rfl rfl rfl), ha, hg⟩
  rcases hmsg : (s.storage.getw id).msg with _ | m <;>
    rcases hep : (s.storage.getw id).ep with _ | ep
  · simp only [wiring_finalize_wire, hmsg, hep]
    exact ⟨same_links.links_refl _, trivial, trivial⟩
  · simp only [wiring_finalize_wire, hmsg, hep]
    exact key _ (same_links.links_refl _) rfl rfl ep
  · simp only [wiring_finalize_wire, hmsg, hep]
    exact ⟨same_links_setw _ _ _ rfl rfl rfl rfl, trivial, trivial⟩
  · simp only [wiring_finalize_wire, hmsg, hep]
    refine key _ ?_ ?_ ?_ ep
    · exact same_links_setw _ _ _ rfl rfl rfl rfl
    · rfl
    · rfl

theorem storage_transition_same_links (cb_ret : Bool) (st : wstorage_t) (id : Nat)
    (nstate : wire_state_t) : same_links st (wireup_storage_transition cb_ret st id nstate).1 := by
  unfold wireup_storage_transition
  simp only
  split
  · exact same_links_setw _ _ _ rfl rfl rfl rfl
  · split
    · exact same_links_setw _ _ _ rfl rfl rfl rfl
    · split
      · exact same_links_setw _ _ _ rfl rfl rfl rfl
      · simp only
        split <;> exact same_links_setw _ _ _ rfl rfl rfl rfl

/-- `wireup_transition` keeps the links, sender ids and `next` members, the
associations and the bins. -/
theorem transition_frame (cb_ret : Bool) (s : wiring_t) (id : Nat) (nstate : wire_state_t) :
    same_links s.storage (wireup_transition cb_ret s id nstate).storage ∧
      (wireup_transition cb_ret s id nstate).assoc = s.assoc ∧
      (wireup_transition cb_ret s id nstate).garbage_sched = s.garbage_sched := by
  unfold wireup_transition
  simp only
  split
  · exact ⟨storage_transition_same_links cb_ret s.storage id nstate, rfl, rfl⟩
  · exact ⟨storage_transition_same_links cb_ret s.storage id nstate, rfl, rfl⟩

/-- The wires after `wiring_free_put`. -/
theorem getw_free_put (st : wstorage_t) (id i : Nat) :
    (wiring_free_put st id).getw i =
      if i = id ∧ id < st.nwires then { (st.getw id) with next := st.first_free }
      else st.getw i := by
  unfold wiring_free_put
  simp only
  have : ∀ st1 : wstorage_t, ({ st1 with first_free := some id } : wstorage_t).getw i =
      st1.getw i := fun _ => rfl
  rw [this, getw_setw]

@[simp] theorem nwires_free_put (st : wstorage_t) (id : Nat) :
    (wiring_free_put st id).nwires = st.nwires := by
  unfold wiring_free_put
  simp only
  have : ∀ st1 : wstorage_t, ({ st1 with first_free := some id } : wstorage_t).nwires =
      st1.nwires := fun _ => rfl
  rw [this, nwires_setw]

@[simp] theorem thead_free_put (st : wstorage_t) (id : Nat) (which : timo_t) :
    (wiring_free_put st id).thead which = st.thead which := by
  cases which <;> rfl

theorem closed_step_frame (e : env_t) (s : wiring_t) (id : Nat) :
    ∃ s2 : wiring_t, closed_step e s id = { s2 with storage := wiring_free_put s2.storage id } ∧
      same_links s.storage s2.storage ∧ s2.assoc = s.assoc ∧
      s2.garbage_sched = s.garbage_sched := by
  obtain ⟨f1, f2, f3⟩ := finalize_wire_frame e s id
  obtain ⟨t1, t2, t3⟩ := transition_frame e.cb_ret (wiring_finalize_wire e s id) id
    wire_state_t.FREE
  exact ⟨_, rfl, f1.links_trans t1, t2.trans f2, t3.trans f3⟩

theorem closed_step_garbage (e : env_t) (s : wiring_t) (id : Nat) :
    (closed_step e s id).garbage_sched = s.garbage_sched := by
  obtain ⟨s2, h, _, _, hg⟩ := closed_step_frame e s id
  rw [h]
  exact hg

theorem closed_step_rel (e : env_t) (s : wiring_t) (id : Nat) :
    reclaim_rel s (closed_step e s id) := by
  obtain ⟨s2, h, hl, ha, hg⟩ := closed_step_frame e s id
  rw [h]
  refine
    { assoc := ha
      nwires := by simp only [nwires_free_put]; exact hl.nwires
      thead := ?_
      link := ?_
      sender_id := ?_ }
  · intro which
    simp only [thead_free_put]
    exact thead_eq_of hl.thead_expire hl.thead_wakeup which
  · intro i which
    apply link_eq_of_tlink_eq
    · simp only [getw_free_put]
      split
      · rename_i h
        rw [h.1]
        exact (hl.wires id).1
      · exact (hl.wires i).1
    · simp only [getw_free_put]
      split
      · rename_i h
        rw [h.1]
        exact (hl.wires id).2.1
      · exact (hl.wires i).2.1
  · intro i
    simp only [getw_free_put]
    split
    · rename_i h
      rw [h.1]
      exact (hl.wires id).2.2.1
    · exact (hl.wires i).2.2.1

theorem closed_step_ok (e : env_t) (s : wiring_t) (id : Nat) (hok : ids_ok s)
    (hid : id < s.storage.nwires) : ids_ok (closed_step e s id) := by
  obtain ⟨s2, h, hl, ha, hg⟩ := closed_step_frame e s id
  rw [h]
  have hnw : (wiring_free_put s2.storage id).nwires = s.storage.nwires := by
    rw [nwires_free_put, hl.nwires]
  refine
    { pos := by simp only [hnw]; exact hok.pos
      max := by simp only [hnw]; exact hok.max
      assoc := by simp only [hnw, ha]; exact hok.assoc
      bins := by simp only [hg]; exact hok.bins
      free := ?_
      next := ?_
      closed := ?_ }
  · intro j hj
    simp only [hnw]
    have : (wiring_free_put s2.storage id).first_free = some id := rfl
    simp only [this] at hj
    cases hj
    exact hid
  · intro i j hj
    simp only [hnw]
    simp only [getw_free_put] at hj
    split at hj
    · simp only at hj
      rw [hl.first_free] at hj
      exact hok.free j hj
    · rw [(hl.wires i).2.2.2] at hj
      exact hok.next i j hj
  · intro b j hj
    simp only [hnw]
    have hb : ({ s2 with storage := wiring_free_put s2.storage id } : wiring_t).getbin b =
        s.getbin b := getbin_congr hg b
    rw [hb] at hj
    exact hok.closed b j hj

theorem reclaim_bin_closed_succ (fuel : Nat) (fenv : Nat → env_t) (s : wiring_t) (id : Nat) :
    reclaim_bin_closed (fuel + 1) fenv s (some id) =
      match reclaim_bin_closed fuel fenv (closed_step (fenv id) s id)
          (s.storage.getw id).next with
      | none => none
      | some r => some (true, r.2) := rfl

/-- The loop over a closing list stays within `reclaim_rel` and leaves the
bins alone. -/
theorem reclaim_bin_closed_rel (fenv : Nat → env_t) :
    ∀ (fuel : Nat) (s : wiring_t) (p : sender_id_t) (r : Bool × wiring_t),
      reclaim_bin_closed fuel fenv s p = some r →
      reclaim_rel s r.2 ∧ r.2.garbage_sched = s.garbage_sched := by
  intro fuel
  induction fuel with
  | zero => intro s p r h; simp [reclaim_bin_closed] at h
  | succ k ih =>
    intro s p r h
    cases p with
    | none =>
      simp only [reclaim_bin_closed, Option.some.injEq] at h
      subst h
      exact ⟨reclaim_rel.rel_refl s, rfl⟩
    | some id =>
      rw [reclaim_bin_closed_succ] at h
      split at h
      · cases h
      · rename_i r1 hr1
        simp only [Option.some.injEq] at h
        subst h
        obtain ⟨h1, h2⟩ := ih _ _ r1 hr1
        exact ⟨(closed_step_rel (fenv id) s id).rel_trans h1, h2.trans (closed_step_garbage _ _ _)⟩

/-- The loop over a closing list keeps `ids_ok`. -/
theorem reclaim_bin_closed_ok (fenv : Nat → env_t) :
    ∀ (fuel : Nat) (s : wiring_t) (p : sender_id_t) (r : Bool × wiring_t),
      reclaim_bin_closed fuel fenv s p = some r → ids_ok s →
      (∀ id, p = some id → id < s.storage.nwires) → ids_ok r.2 := by
  intro fuel
  induction fuel with
  | zero => intro s p r h; simp [reclaim_bin_closed] at h
  | succ k ih =>
    intro s p r h hok hp
    cases p with
    | none =>
      simp only [reclaim_bin_closed, Option.some.injEq] at h
      subst h
      exact hok
    | some id =>
      rw [reclaim_bin_closed_succ] at h
      split at h
      · cases h
      · rename_i r1 hr1
        simp only [Option.some.injEq] at h
        subst h
        have hid := hp id rfl
        refine ih _ _ r1 hr1 (closed_step_ok (fenv id) s id hok hid) ?_
        intro j hj
        rw [(closed_step_rel (fenv id) s id).nwires]
        exact hok.next id j hj

theorem refs_rel.refs_refl (s : wiring_t) : refs_rel s s := ⟨rfl, rfl, rfl, rfl, rfl, fun _ => rfl⟩

theorem refs_rel.refs_trans {a b c : wiring_t} (h1 : refs_rel a b) (h2 : refs_rel b c) :
    refs_rel a c :=
  ⟨h2.storage.trans h1.storage, h2.assoc.trans h1.assoc, h2.bins_len.trans h1.bins_len,
    h2.epoch_first.trans h1.epoch_first, h2.epoch_last.trans h1.epoch_last,
    fun b => (h2.closed b).trans (h1.closed b)⟩

theorem reclaim_good.good_refl (s : wiring_t) : reclaim_good s s := ⟨reclaim_rel.rel_refl s, fun h => h⟩

theorem reclaim_good.good_trans {a b c : wiring_t} (h1 : reclaim_good a b) (h2 : reclaim_good b c) :
    reclaim_good a c :=
  ⟨h1.1.rel_trans h2.1, fun h => h2.2 (h1.2 h)⟩

/-- Changing `first_ref` of a bin. -/
theorem refs_rel_setbin (s : wiring_t) (i : Nat) (p : ref_ptr) :
    refs_rel s (s.setbin i { (s.getbin i) with first_ref := p }) where
  storage := rfl
  assoc := rfl
  bins_len := bin_length_setbin _ _ _
  epoch_first := rfl
  epoch_last := rfl
  closed := by
    intro b
    rw [getbin_setbin]
    split
    · rename_i h
      rw [h.1]
    · rfl

theorem refs_rel_set_ref (s : wiring_t) (p : ref_ptr) (r : wiring_ref_t) :
    refs_rel s (s.set_ref p r) := by
  cases p <;> exact ⟨rfl, rfl, rfl, rfl, rfl, fun _ => rfl⟩

theorem refs_rel_log (s : wiring_t) (c : ext_call) : refs_rel s (s.log c) :=
  ⟨rfl, rfl, rfl, rfl, rfl, fun _ => rfl⟩

/-- The loop over a bin's references stays within `refs_rel`. -/
theorem reclaim_bin_refs_rel (epoch last_epoch : Nat) :
    ∀ (fuel : Nat) (s : wiring_t) (r : Bool × wiring_t),
      reclaim_bin_refs fuel s epoch last_epoch = some r → refs_rel s r.2 := by
  intro fuel
  induction fuel with
  | zero => intro s r h; simp [reclaim_bin_refs] at h
  | succ k ih =>
    intro s r h
    unfold reclaim_bin_refs at h
    simp only at h
    split at h
    · simp only [Option.some.injEq] at h
      subst h
      exact refs_rel.refs_refl s
    · split at h
      · simp only [Option.some.injEq] at h
        subst h
        exact refs_rel.refs_refl s
      · split at h
        · exact ((refs_rel_setbin s _ _).refs_trans (refs_rel_log _ _)).refs_trans (ih _ _ h)
        · exact (((refs_rel_setbin s _ _).refs_trans (refs_rel_set_ref _ _ _)).refs_trans
            (refs_rel_setbin _ _ _)).refs_trans (ih _ _ h)

/-- A change that keeps the table, the associations, the number of bins and
the head of every closing list. -/
theorem reclaim_good_of_closed_eq {s s' : wiring_t} (hs : s'.storage = s.storage)
    (ha : s'.assoc = s.assoc)
    (hl : s'.garbage_sched.bin.length = s.garbage_sched.bin.length)
    (hc : ∀ b, (s'.getbin b).first_closed = (s.getbin b).first_closed) :
    reclaim_good s s' := by
  refine ⟨⟨ha, by rw [hs], fun w => by rw [hs], fun i w => by rw [hs],
    fun i => by rw [hs]⟩, fun hok => ?_⟩
  exact
    { pos := by rw [hs]; exact hok.pos
      max := by rw [hs]; exact hok.max
      assoc := by rw [hs, ha]; exact hok.assoc
      bins := by rw [hl]; exact hok.bins
      free := by rw [hs]; exact hok.free
      next := by rw [hs]; exact hok.next
      closed := by
        intro b id hid
        rw [hs]
        rw [hc b] at hid
        exact hok.closed b id hid }

theorem reclaim_good_of_refs_rel {s s' : wiring_t} (h : refs_rel s s') : reclaim_good s s' :=
  reclaim_good_of_closed_eq h.storage h.assoc h.bins_len h.closed

/-- Resetting a bin (no closed wires) keeps `reclaim_rel` and `ids_ok`. -/
theorem reclaim_good_reset_bin (s : wiring_t) (i : Nat) (b : wiring_garbage_bin_t)
    (hb : b.first_closed = none) : reclaim_good s (s.setbin i b) := by
  refine ⟨⟨rfl, rfl, fun _ => rfl, fun _ _ => rfl, fun _ => rfl⟩, fun hok => ?_⟩
  exact
    { pos := hok.pos
      max := hok.max
      assoc := hok.assoc
      bins := by rw [bin_length_setbin]; exact hok.bins
      free := hok.free
      next := hok.next
      closed := by
        intro b' id hid
        rw [getbin_setbin] at hid
        split at hid
        · rw [hb] at hid
          cases hid
        · exact hok.closed b' id hid }

/-- `wiring_reclaim_bin_for_epoch` stays within `reclaim_rel`, keeps `ids_ok`,
the number of bins and the epoch window. -/
theorem reclaim_bin_for_epoch_good (fuel : Nat) (fenv : Nat → env_t) (s : wiring_t)
    (epoch last_epoch : Nat) (r : Bool × Bool × wiring_t)
    (h : wiring_reclaim_bin_for_epoch fuel fenv s epoch last_epoch = some r) :
    reclaim_good s r.2.2 ∧ r.2.2.garbage_sched.epoch_first = s.garbage_sched.epoch_first ∧
      r.2.2.garbage_sched.epoch_last = s.garbage_sched.epoch_last := by
  unfold wiring_reclaim_bin_for_epoch at h
  split at h
  · cases h
  · rename_i s1 h1
    simp only [Option.some.injEq] at h
    subst h
    have hr := reclaim_bin_refs_rel epoch last_epoch fuel s _ h1
    exact ⟨reclaim_good_of_refs_rel hr, hr.epoch_first, hr.epoch_last⟩
  · rename_i s1 h1
    have hr : refs_rel s s1 := reclaim_bin_refs_rel epoch last_epoch fuel s _ h1
    have g1 := reclaim_good_of_refs_rel hr
    split at h
    · cases h
    · rename_i progress s2 h2
      simp only [Option.some.injEq] at h
      subst h
      obtain ⟨c1, c2⟩ := reclaim_bin_closed_rel fenv fuel s1 _ _ h2
      have g2 : reclaim_good s1 s2 := by
        refine ⟨c1, fun hok => ?_⟩
        exact reclaim_bin_closed_ok fenv fuel s1 _ _ h2 hok (fun id hid => hok.closed _ id hid)
      have g3 := reclaim_good_reset_bin s2 (epoch % NBINS)
        { first_closed := sender_id_nil, storage := none, assoc := none,
          first_ref := ref_ptr.sentinel } rfl
      refine ⟨(g1.good_trans g2).good_trans g3, ?_, ?_⟩
      · show s2.garbage_sched.epoch_first = _
        rw [c2, hr.epoch_first]
      · show s2.garbage_sched.epoch_last = _
        rw [c2, hr.epoch_last]

/-- Replacing a bin by one whose closing list starts in range. -/
theorem reclaim_good_setbin (s : wiring_t) (i : Nat) (b : wiring_garbage_bin_t)
    (hb : ids_ok s → ∀ id, b.first_closed = some id → id < s.storage.nwires) :
    reclaim_good s (s.setbin i b) := by
  refine ⟨⟨rfl, rfl, fun _ => rfl, fun _ _ => rfl, fun _ => rfl⟩, fun hok => ?_⟩
  exact
    { pos := hok.pos
      max := hok.max
      assoc := hok.assoc
      bins := by rw [bin_length_setbin]; exact hok.bins
      free := hok.free
      next := hok.next
      closed := by
        intro b' id hid
        rw [getbin_setbin] at hid
        split at hid
        · exact hb hok id hid
        · exact hok.closed b' id hid }

/-- A change of the epoch window and of `work_available` only. -/
theorem reclaim_good_of_bin_eq (s s' : wiring_t) (hs : s'.storage = s.storage)
    (ha : s'.assoc = s.assoc) (hb : s'.garbage_sched.bin = s.garbage_sched.bin) :
    reclaim_good s s' :=
  reclaim_good_of_closed_eq hs ha (by rw [hb])
    (fun b => by simp [wiring_t.getbin, wiring_garbage_schedule_t.getbin, hb])

/-- The loop over the epochs of `wiring_reclaim`. -/
theorem reclaim_epochs_good (fuel : Nat) (fenv : Nat → env_t) :
    ∀ (k : Nat) (s : wiring_t) (epoch last : Nat) (r : Nat × Bool × wiring_t),
      reclaim_epochs fuel fenv k s epoch last = some r →
      reclaim_good s r.2.2 ∧ r.2.2.garbage_sched.epoch_last = s.garbage_sched.epoch_last := by
  intro k
  induction k with
  | zero => intro s epoch last r h; simp [reclaim_epochs] at h
  | succ k ih =>
    intro s epoch last r h
    unfold reclaim_epochs at h
    split at h
    · simp only [Option.some.injEq] at h
      subst h
      exact ⟨reclaim_good.good_refl s, rfl⟩
    · split at h
      · cases h
      · rename_i progress s1 h1
        simp only [Option.some.injEq] at h
        subst h
        obtain ⟨g, _, gl⟩ := reclaim_bin_for_epoch_good fuel fenv s epoch last _ h1
        exact ⟨g, gl⟩
      · rename_i progress s1 h1
        obtain ⟨g, _, gl⟩ := reclaim_bin_for_epoch_good fuel fenv s epoch last _ h1
        split at h
        · cases h
        · rename_i e progress1 s2 h2
          simp only [Option.some.injEq] at h
          subst h
          obtain ⟨g2, gl2⟩ := ih _ _ _ _ h2
          exact ⟨g.good_trans g2, gl2.trans gl⟩

/-- `wiring_reclaim` stays within `reclaim_rel`, keeps `ids_ok` and
`epoch.last`. -/
theorem wiring_reclaim_good (fuel : Nat) (fenv : Nat → env_t) (s : wiring_t) (finalize : Bool)
    (r : Bool × Bool × wiring_t) (h : wiring_reclaim fuel fenv s finalize = some r) :
    reclaim_good s r.2.2 ∧ r.2.2.garbage_sched.epoch_last = s.garbage_sched.epoch_last := by
  unfold wiring_reclaim at h
  simp only at h
  split at h
  · simp only [Option.some.injEq] at h
    subst h
    exact ⟨reclaim_good.good_refl s, rfl⟩
  · split at h
    · cases h
    · rename_i epoch progress s1 h1
      obtain ⟨g1, gl1⟩ := reclaim_epochs_good fuel fenv _ _ _ _ _ h1
      have g2 : reclaim_good s1
          { s1 with garbage_sched :=
            { s1.garbage_sched with
              epoch_first := epoch
              work_available := (s1.garbage_sched.work_available + 2 ^ 64 -
                s.garbage_sched.work_available) % 2 ^ 64 } } :=
        reclaim_good_of_bin_eq _ _ rfl rfl rfl
      split at h
      · simp only [Option.some.injEq] at h
        subst h
        exact ⟨g1.good_trans g2, gl1⟩
      · split at h
        · simp only [Option.some.injEq] at h
          subst h
          exact ⟨g1.good_trans g2, gl1⟩
        · split at h
          · cases h
          · rename_i r1 progress1 s3 h3
            simp only [Option.some.injEq] at h
            subst h
            obtain ⟨g3, _, gl3⟩ := reclaim_bin_for_epoch_good fuel fenv _ _ _ _ h3
            exact ⟨(g1.good_trans g2).good_trans g3, gl3.trans gl1⟩

/-- The loop at the head of `wiring_garbage_add`. -/
theorem garbage_make_room_good (fuel : Nat) (fenv : Nat → env_t) :
    ∀ (k : Nat) (s s' : wiring_t), garbage_make_room fuel fenv k s = some s' →
      reclaim_good s s' ∧ s'.garbage_sched.epoch_last = s.garbage_sched.epoch_last := by
  intro k
  induction k with
  | zero => intro s s' h; simp [garbage_make_room] at h
  | succ k ih =>
    intro s s' h
    unfold garbage_make_room at h
    split at h
    · split at h
      · cases h
      · rename_i r hr
        obtain ⟨g1, gl1⟩ := wiring_reclaim_good fuel fenv s false r hr
        obtain ⟨g2, gl2⟩ := ih _ _ h
        exact ⟨g1.good_trans g2, gl2.trans gl1⟩
    · simp only [Option.some.injEq] at h
      subst h
      exact ⟨reclaim_good.good_refl s, rfl⟩

/-- `wiring_garbage_add` stays within `reclaim_rel` and keeps `ids_ok`. -/
theorem garbage_add_good (fuel : Nat) (fenv : Nat → env_t) (s s' : wiring_t)
    (storage : wstorage_t) (assoc : List Ptr)
    (h : wiring_garbage_add fuel fenv s storage assoc = some s') : reclaim_good s s' := by
  unfold wiring_garbage_add at h
  split at h
  · cases h
  · rename_i s1 h1
    simp only [Option.some.injEq] at h
    subst h
    obtain ⟨g1, _⟩ := garbage_make_room_good fuel fenv _ _ _ h1
    have g2 := reclaim_good_setbin s1 (s1.garbage_sched.epoch_last % NBINS)
      { (s1.getbin (s1.garbage_sched.epoch_last % NBINS)) with
        storage := some storage, assoc := some assoc }
      (fun hok id hid => hok.closed _ id hid)
    refine (g1.good_trans g2).good_trans ?_
    exact reclaim_good_of_bin_eq _ _ rfl rfl rfl

/-- When the window is not full `wiring_garbage_add` changes the garbage
schedule only. -/
theorem garbage_add_not_full (fuel : Nat) (fenv : Nat → env_t) (s s' : wiring_t)
    (storage : wstorage_t) (assoc : List Ptr)
    (hfull : s.garbage_sched.epoch_last - s.garbage_sched.epoch_first ≠ NBINS)
    (h : wiring_garbage_add fuel fenv s storage assoc = some s') :
    s'.storage = s.storage ∧ s'.assoc = s.assoc := by
  unfold wiring_garbage_add at h
  cases fuel with
  | zero => simp [garbage_make_room] at h
  | succ k =>
    unfold garbage_make_room at h
    simp only [if_neg hfull] at h
    simp only [Option.some.injEq] at h
    subst h
    exact ⟨rfl, rfl⟩

theorem nwires_enlarge_tables (L : layout_t) (ost : wstorage_t) (oassoc : List Ptr)
    (hgt : ost.nwires < enlarge_nwires L ost.nwires) :
    (enlarge_tables L ost oassoc).1.nwires = enlarge_nwires L ost.nwires := by
  simp only [enlarge_tables, wstorage_t.nwires, wstorage_t.setw, List.length_set,
    List.length_append, List.length_map, List.length_range']
  simp only [wstorage_t.nwires] at hgt
  omega

/-- The wires of the table `wiring_enlarge` builds: the old wires, then fresh
ones, the last of which is linked to the old free list. -/
theorem getw_enlarge_tables (L : layout_t) (ost : wstorage_t) (oassoc : List Ptr)
    (hgt : ost.nwires < enlarge_nwires L ost.nwires) (i : Nat) :
    (enlarge_tables L ost oassoc).1.getw i =
      if i < ost.nwires then ost.getw i
      else if i + 1 = enlarge_nwires L ost.nwires then
        { wire_fresh i with next := ost.first_free }
      else if i < enlarge_nwires L ost.nwires then wire_fresh i
      else wire_zero := by
  have hlen : (ost.wire ++ (List.range' ost.nwires
      (enlarge_nwires L ost.nwires - ost.nwires)).map wire_fresh).length =
      enlarge_nwires L ost.nwires := by
    simp only [List.length_append, List.length_map, List.length_range']
    simp only [wstorage_t.nwires] at hgt ⊢
    omega
  have hget : ∀ j, ({ ost with wire := ost.wire ++ (List.range' ost.nwires
      (enlarge_nwires L ost.nwires - ost.nwires)).map wire_fresh } : wstorage_t).getw j =
      if j < ost.nwires then ost.getw j
      else if j < enlarge_nwires L ost.nwires then wire_fresh j else wire_zero := by
    intro j
    simp only [wstorage_t.getw, List.getD_eq_getElem?_getD, wstorage_t.nwires]
    by_cases h1 : j < ost.wire.length
    · simp [h1, List.getElem?_append_left h1]
    · simp only [h1, if_false]
      rw [List.getElem?_append_right (by omega)]
      by_cases h2 : j < enlarge_nwires L ost.wire.length
      · have h3 : j - ost.wire.length < enlarge_nwires L ost.wire.length - ost.wire.length := by
          omega
        simp only [h2, if_true, List.getElem?_map, List.getElem?_range' _ _ h3]
        simp only [Option.map_some', Option.getD_some, Nat.one_mul]
        congr 1
        omega
      · simp only [h2, if_false]
        rw [List.getElem?_eq_none]
        · rfl
        · simp only [List.length_map, List.length_range']
          omega
  have hff : ∀ (st : wstorage_t) (f : sender_id_t) (j : Nat),
      ({ st with first_free := f } : wstorage_t).getw j = st.getw j := fun _ _ _ => rfl
  simp only [enlarge_tables]
  rw [hff, getw_setw]
  have hnw : ({ ost with wire := ost.wire ++ (List.range' ost.nwires
      (enlarge_nwires L ost.nwires - ost.nwires)).map wire_fresh } : wstorage_t).nwires =
      enlarge_nwires L ost.nwires := hlen
  rw [hnw]
  by_cases h1 : i < ost.nwires
  · have h2 : ¬ (i = enlarge_nwires L ost.nwires - 1 ∧
        enlarge_nwires L ost.nwires - 1 < enlarge_nwires L ost.nwires) := by omega
    rw [if_neg h2, hget, if_pos h1, if_pos h1]
  · by_cases h2 : i + 1 = enlarge_nwires L ost.nwires
    · have h3 : i = enlarge_nwires L ost.nwires - 1 ∧
          enlarge_nwires L ost.nwires - 1 < enlarge_nwires L ost.nwires := by omega
      have h4 : ¬ (enlarge_nwires L ost.nwires - 1 < ost.nwires) := by omega
      have h5 : enlarge_nwires L ost.nwires - 1 < enlarge_nwires L ost.nwires := by omega
      have h6 : enlarge_nwires L ost.nwires - 1 = i := by omega
      rw [if_pos h3, hget, if_neg h4, if_pos h5, if_neg h1, if_pos h2, h6]
    · have h3 : ¬ (i = enlarge_nwires L ost.nwires - 1 ∧
          enlarge_nwires L ost.nwires - 1 < enlarge_nwires L ost.nwires) := by omega
      rw [if_neg h3, hget, if_neg h1, if_neg h1, if_neg h2]

theorem thead_enlarge_tables (L : layout_t) (ost : wstorage_t) (oassoc : List Ptr)
    (which : timo_t) : (enlarge_tables L ost oassoc).1.thead which = ost.thead which := by
  simp only [enlarge_tables]
  cases which <;> rfl

theorem first_free_enlarge_tables (L : layout_t) (ost : wstorage_t) (oassoc : List Ptr) :
    (enlarge_tables L ost oassoc).1.first_free = some ost.nwires := rfl

theorem assoc_enlarge_tables (L : layout_t) (ost : wstorage_t) (oassoc : List Ptr) (i : Nat)
    (hi : i < ost.nwires) :
    (enlarge_tables L ost oassoc).2.getD i Ptr.null = oassoc.getD i Ptr.null := by
  simp only [enlarge_tables, List.getD_eq_getElem?_getD]
  by_cases h : i < oassoc.length
  · have h2 : i < (oassoc.take ost.nwires).length := by
      simp only [List.length_take]
      omega
    rw [List.getElem?_append_left h2, List.getElem?_take_of_lt hi]
  · have h2 : (oassoc.take ost.nwires).length ≤ i := by
      simp only [List.length_take]
      omega
    rw [List.getElem?_append_right h2, List.getElem?_eq_none (l := oassoc) (by omega)]
    simp only [Option.getD_none]
    cases h3 : (List.replicate (enlarge_nwires L ost.nwires - ost.nwires) Ptr.null)[i -
        (oassoc.take ost.nwires).length]? with
    | none => rfl
    | some v =>
      have := List.mem_iff_getElem?.mpr ⟨_, h3⟩
      simp only [List.mem_replicate] at this
      simp [this.2]

theorem length_assoc_enlarge_tables (L : layout_t) (ost : wstorage_t) (oassoc : List Ptr)
    (hl : oassoc.length = ost.nwires) (hgt : ost.nwires < enlarge_nwires L ost.nwires) :
    (enlarge_tables L ost oassoc).2.length = enlarge_nwires L ost.nwires := by
  simp only [enlarge_tables, List.length_append, List.length_take, List.length_replicate]
  omega

theorem enlarge_nwires_lt_max (L : layout_t) (n : Nat) : enlarge_nwires L n < SENDER_ID_MAX := by
  unfold enlarge_nwires
  have : SENDER_ID_MAX = 2147483647 := by decide
  simp only
  omega

/-- What a successful `wiring_enlarge` did. -/
theorem wiring_enlarge_success (L : layout_t) (fuel : Nat) (e : env_t) (fenv : Nat → env_t)
    (s s' : wiring_t) (h : wiring_enlarge L fuel e fenv s = some (true, s')) :
    s.storage.nwires < enlarge_nwires L s.storage.nwires ∧
      wiring_garbage_add fuel fenv (enlarge_install L s) s.storage s.assoc = some s' := by
  unfold wiring_enlarge at h
  simp only at h
  split at h
  · simp at h
  · rename_i hsz
    split at h
    · simp at h
    · split at h
      · simp at h
      · split at h
        · cases h
        · rename_i s2 h2
          simp only [Option.some.injEq, Prod.mk.injEq, true_and] at h
          subst h
          refine ⟨?_, h2⟩
          by_contra hle
          apply hsz
          have : enlarge_nwires L s.storage.nwires ≤ s.storage.nwires := by omega
          have := Nat.mul_le_mul_right L.sizeof_wire_t this
          omega

theorem ids_ok_enlarge_install (L : layout_t) (s : wiring_t) (hok : ids_ok s)
    (hgt : s.storage.nwires < enlarge_nwires L s.storage.nwires) :
    ids_ok (enlarge_install L s) := by
  have hnw : (enlarge_install L s).storage.nwires = enlarge_nwires L s.storage.nwires :=
    nwires_enlarge_tables L s.storage s.assoc hgt
  refine
    { pos := by rw [hnw]; omega
      max := by rw [hnw]; exact enlarge_nwires_lt_max L _
      assoc := by
        rw [hnw]
        exact length_assoc_enlarge_tables L s.storage s.assoc hok.assoc hgt
      bins := hok.bins
      free := ?_
      next := ?_
      closed := ?_ }
  · intro id hid
    rw [hnw]
    have : (enlarge_install L s).storage.first_free = some s.storage.nwires := rfl
    rw [this] at hid
    cases hid
    exact hgt
  · intro i id hid
    rw [hnw]
    have hg : (enlarge_install L s).storage.getw i = _ :=
      getw_enlarge_tables L s.storage s.assoc hgt i
    rw [hg] at hid
    split at hid
    · have := hok.next i id hid
      omega
    · split at hid
      · simp only at hid
        have := hok.free id hid
        omega
      · split at hid
        · simp only [wire_fresh, Option.some.injEq] at hid
          omega
        · simp only [wire_zero, Option.some.injEq] at hid
          omega
  · intro b id hid
    rw [hnw]
    have : (enlarge_install L s).getbin b = s.getbin b := rfl
    rw [this] at hid
    have := hok.closed b id hid
    omega

/-- `wiring_enlarge` keeps `ids_ok`. -/
theorem wiring_enlarge_ok (L : layout_t) (fuel : Nat) (e : env_t) (fenv : Nat → env_t)
    (s s' : wiring_t) (h : wiring_enlarge L fuel e fenv s = some (true, s')) (hok : ids_ok s) :
    ids_ok s' := by
  obtain ⟨hgt, hadd⟩ := wiring_enlarge_success L fuel e fenv s s' h
  exact (garbage_add_good fuel fenv _ _ _ _ hadd).2 (ids_ok_enlarge_install L s hok hgt)

/-- What a successful `wiring_enlarge` keeps of the old slots: the queue heads,
the timeout links, the sender ids and the associations, and the whole wire
when the epoch window was not full at the call. -/
theorem enlarge_old_slots (L : layout_t) (fuel : Nat) (e : env_t) (fenv : Nat → env_t)
    (s s' : wiring_t) (h : wiring_enlarge L fuel e fenv s = some (true, s')) :
    s.storage.nwires < s'.storage.nwires ∧
      (∀ which, s'.storage.thead which = s.storage.thead which) ∧
      ∀ i, i < s.storage.nwires →
        (∀ which, s'.storage.link i which = s.storage.link i which) ∧
        (s'.storage.getw i).id = (s.storage.getw i).id ∧
        s'.assoc.getD i Ptr.null = s.assoc.getD i Ptr.null ∧
        (s.garbage_sched.epoch_last - s.garbage_sched.epoch_first ≠ NBINS →
          s'.storage.getw i = s.storage.getw i) := by
  obtain ⟨hgt, hadd⟩ := wiring_enlarge_success L fuel e fenv s s' h
  have hrel := (garbage_add_good fuel fenv _ _ _ _ hadd).1
  have hnw : (enlarge_install L s).storage.nwires = enlarge_nwires L s.storage.nwires :=
    nwires_enlarge_tables L s.storage s.assoc hgt
  have hold : ∀ i, i < s.storage.nwires →
      (enlarge_install L s).storage.getw i = s.storage.getw i := by
    intro i hi
    have hg : (enlarge_install L s).storage.getw i = _ :=
      getw_enlarge_tables L s.storage s.assoc hgt i
    rw [hg, if_pos hi]
  refine ⟨?_, ?_, ?_⟩
  · rw [hrel.nwires, hnw]
    exact hgt
  · intro which
    rw [hrel.thead which]
    exact thead_enlarge_tables L s.storage s.assoc which
  · intro i hi
    refine ⟨?_, ?_, ?_, ?_⟩
    · intro which
      rw [hrel.link i which]
      simp only [wstorage_t.link, hold i hi]
    · rw [hrel.sender_id i, hold i hi]
    · rw [hrel.assoc]
      exact assoc_enlarge_tables L s.storage s.assoc i hi
    · intro hfull
      have hfull' : (enlarge_install L s).garbage_sched.epoch_last -
          (enlarge_install L s).garbage_sched.epoch_first ≠ NBINS := hfull
      have := garbage_add_not_full fuel fenv (enlarge_install L s) s' _ _ hfull' hadd
      rw [this.1]
      exact hold i hi

/-- C5 as stated fails when the epoch window is full. In
`full_window_scenario` wire 0 is CLOSING with its endpoint open, no slot is
free and the window is `[0, 4)`; `wiring_enlarge` succeeds, and its `wiring_garbage_add` first
reclaims, which finalizes wire 0: in the new table slot 0 is FREE with a null
endpoint. -/
theorem enlarge_changes_closing_wire :
    ∃ s s', full_window_scenario = some s ∧
      s.storage.first_free = none ∧
      s.garbage_sched.epoch_first = 0 ∧ s.garbage_sched.epoch_last = 4 ∧
      wiring_enlarge layout_example 8 env_ok (fun _ => env_ok) s = some (true, s') ∧
      0 < s.storage.nwires ∧
      (s.storage.getw 0).state = wire_state_t.CLOSING ∧ (s.storage.getw 0).ep = some 1 ∧
      (s'.storage.getw 0).state = wire_state_t.FREE ∧ (s'.storage.getw 0).ep = none := by
  refine ⟨_, _, rfl, ?_, ?_, ?_, rfl, ?_, ?_, ?_, ?_, ?_⟩ <;> decide

theorem same_core.core_refl (st : wstorage_t) : same_core st st := ⟨rfl, rfl, fun _ => rfl⟩

theorem same_core.core_trans {a b c : wstorage_t} (h1 : same_core a b) (h2 : same_core b c) :
    same_core a c :=
  ⟨h2.nwires.trans h1.nwires, h2.first_free.trans h1.first_free,
    fun i => (h2.wires i).trans (h1.wires i)⟩

@[simp] theorem core_set_tlink (w : wire_t) (which : timo_t) (l : timeout_link_t) :
    (w.set_tlink which l).core = w.core := by
  cases which <;> rfl

theorem getw_set_link (st : wstorage_t) (j i : Nat) (which : timo_t) (l : timeout_link_t) :
    (st.set_link j which l).getw i =
      if i = j ∧ j < st.nwires then (st.getw j).set_tlink which l else st.getw i := by
  unfold wstorage_t.set_link
  rw [getw_setw]

theorem same_core_set_link (st : wstorage_t) (j : Nat) (which : timo_t) (l : timeout_link_t) :
    same_core st (st.set_link j which l) := by
  refine ⟨nwires_set_link _ _ _ _, rfl, fun i => ?_⟩
  rw [getw_set_link]
  split
  · rename_i h
    rw [core_set_tlink, h.1]
  · rfl

theorem same_core_set_thead (st : wstorage_t) (which : timo_t) (h : timeout_head_t) :
    same_core st (st.set_thead which h) := by
  refine ⟨nwires_set_thead _ _ _, ?_, fun i => by rw [getw_set_thead]⟩
  cases which <;> rfl

theorem same_core_timeout_remove (st : wstorage_t) (id : Nat) (which : timo_t) :
    same_core st (wiring_timeout_remove st id which) := by
  unfold wiring_timeout_remove
  simp only
  split
  · exact same_core.core_refl st
  · rcases hnx : (st.link id which).next with _ | n <;>
      rcases hpv : (st.link id which).prev with _ | p <;> simp only
    · exact ((same_core_set_thead _ _ _).core_trans (same_core_set_thead _ _ _)).core_trans
        (same_core_set_link _ _ _ _)
    · exact ((same_core_set_thead _ _ _).core_trans (same_core_set_link _ _ _ _)).core_trans
        (same_core_set_link _ _ _ _)
    · exact ((same_core_set_link _ _ _ _).core_trans (same_core_set_thead _ _ _)).core_trans
        (same_core_set_link _ _ _ _)
    · exact ((same_core_set_link _ _ _ _).core_trans (same_core_set_link _ _ _ _)).core_trans
        (same_core_set_link _ _ _ _)

theorem same_core_timeout_put (st : wstorage_t) (id : Nat) (which : timo_t) (when : Nat) :
    same_core st (wiring_timeout_put st id which when) := by
  unfold wiring_timeout_put
  simp only
  rcases hl : (st.thead which).last with _ | l <;> simp only
  · exact ((same_core_set_link _ _ _ _).core_trans (same_core_set_thead _ _ _)).core_trans
      (same_core_set_thead _ _ _)
  · exact ((same_core_set_link _ _ _ _).core_trans (same_core_set_link _ _ _ _)).core_trans
      (same_core_set_thead _ _ _)

/-- After `wiring_timeout_put` the wire is the last of the queue, with the due
time given. -/
theorem timeout_put_tail (st : wstorage_t) (id : Nat) (which : timo_t) (when : Nat)
    (hid : id < st.nwires) :
    ((wiring_timeout_put st id which when).thead which).last = some id ∧
      ((wiring_timeout_put st id which when).link id which).due = when := by
  unfold wiring_timeout_put
  simp only
  constructor
  · rw [thead_set_thead, if_pos rfl]
  · rw [link_set_thead]
    rcases hl : (st.thead which).last with _ | l <;> simp only
    · rw [link_set_thead, link_set_link]
      simp [hid]
    · rw [link_set_link]
      split
      · rename_i h
        rw [link_set_link]
        simp [hid, h.1.symm]
      · rw [link_set_link]
        simp [hid]

/-- `wiring_timeout_put` on one queue leaves the other queue alone. -/
theorem timeout_put_other (st : wstorage_t) (id : Nat) (which which' : timo_t) (when : Nat)
    (hne : which' ≠ which) (i : Nat) :
    (wiring_timeout_put st id which when).thead which' = st.thead which' ∧
      (wiring_timeout_put st id which when).link i which' = st.link i which' := by
  unfold wiring_timeout_put
  simp only
  constructor
  · rw [thead_set_thead, if_neg hne]
    rcases hl : (st.thead which).last with _ | l <;> simp only
    · rw [thead_set_thead, if_neg hne, thead_set_link]
    · rw [thead_set_link, thead_set_link]
  · rw [link_set_thead]
    rcases hl : (st.thead which).last with _ | l <;> simp only
    · rw [link_set_thead, link_set_link]
      simp [hne]
    · rw [link_set_link]
      simp only [hne, and_false, if_false]
      rw [link_set_link]
      simp [hne]

theorem gettimeout_saturates (now : Nat) :
    gettimeout now now = min (now + timeout_interval) UINT64_MAX := by
  unfold gettimeout
  have h1 : timeout_interval = 18446744073709551615 := by decide
  have h2 : UINT64_MAX = 18446744073709551615 := by decide
  rw [h1, h2]
  split <;> omega

theorem ids_ok_log (s : wiring_t) (c : ext_call) (h : ids_ok s) : ids_ok (s.log c) :=
  ⟨h.pos, h.max, h.assoc, h.bins, h.free, h.next, h.closed⟩

theorem wiring_free_get_none (st : wstorage_t) (h : st.first_free = none) :
    wiring_free_get st = (none, st) := by
  simp [wiring_free_get, h, sender_id_nil]

theorem wiring_free_get_some (st : wstorage_t) (id : Nat) (h : st.first_free = some id) :
    (wiring_free_get st).1 = some id ∧ (wiring_free_get st).2.nwires = st.nwires := by
  simp only [wiring_free_get, h]
  refine ⟨trivial, ?_⟩
  rw [nwires_setw]
  rfl

/-- The slot `acquire_slot` returns is the head of the free list, of the
enlarged table when the list was empty, and is below the table count. -/
theorem acquire_slot_spec (L : layout_t) (fuel : Nat) (e : env_t) (fenv : Nat → env_t)
    (s0 s1 : wiring_t) (id : Nat) (hok : ids_ok s0)
    (h : acquire_slot L fuel e fenv s0 = some (some id, s1)) :
    id < s1.storage.nwires ∧ s1.assoc.length = s1.storage.nwires ∧
      s1.storage.nwires < SENDER_ID_MAX ∧
      (s0.storage.first_free = some id ∨
        (s0.storage.first_free = none ∧ ∃ s2, wiring_enlarge L fuel e fenv s0 = some (true, s2) ∧
          s2.storage.first_free = some id)) := by
  unfold acquire_slot at h
  rcases hff : s0.storage.first_free with _ | id0
  · rw [wiring_free_get_none _ hff] at h
    simp only at h
    split at h
    · cases h
    · simp at h
    · rename_i s2 h2
      have hok2 := wiring_enlarge_ok L fuel e fenv s0 s2 h2 hok
      simp only [Option.some.injEq, Prod.mk.injEq] at h
      obtain ⟨h3, h4⟩ := h
      rcases hff2 : s2.storage.first_free with _ | id2
      · rw [wiring_free_get_none _ hff2] at h3
        cases h3
      · obtain ⟨g1, g2⟩ := wiring_free_get_some _ _ hff2
        rw [g1] at h3
        cases h3
        subst h4
        refine ⟨?_, ?_, ?_, Or.inr ⟨rfl, s2, h2, hff2⟩⟩
        · show id < (wiring_free_get s2.storage).2.nwires
          rw [g2]
          exact hok2.free _ hff2
        · show s2.assoc.length = (wiring_free_get s2.storage).2.nwires
          rw [g2]
          exact hok2.assoc
        · show (wiring_free_get s2.storage).2.nwires < SENDER_ID_MAX
          rw [g2]
          exact hok2.max
  · obtain ⟨g1, g2⟩ := wiring_free_get_some _ _ hff
    rcases hfg : wiring_free_get s0.storage with ⟨r1, st⟩
    rw [hfg] at g1 g2 h
    simp only at g1 g2
    subst g1
    simp only [Option.some.injEq, Prod.mk.injEq] at h
    obtain ⟨h3, h4⟩ := h
    subst h3 h4
    refine ⟨?_, ?_, ?_, Or.inl rfl⟩
    · show id0 < st.nwires
      rw [g2]
      exact hok.free _ hff
    · show s0.assoc.length = st.nwires
      rw [g2]
      exact hok.assoc
    · show st.nwires < SENDER_ID_MAX
      rw [g2]
      exact hok.max

@[simp] theorem storage_wireup_send (e : env_t) (s : wiring_t) (id : Nat) :
    (wireup_send e s id).2.storage = s.storage := by
  unfold wireup_send
  simp only
  have h1 := storage_free_request_get s e.header_alloc
  rcases hfg : wiring_free_request_get e.header_alloc s with ⟨_ | req, s1⟩
  · rw [hfg] at h1
    exact h1
  · rw [hfg] at h1
    simp only at h1 ⊢
    cases e.nbx <;> exact h1

@[simp] theorem assoc_wireup_send (e : env_t) (s : wiring_t) (id : Nat) :
    (wireup_send e s id).2.assoc = s.assoc := by
  unfold wireup_send
  simp only
  have h1 := assoc_free_request_get s e.header_alloc
  rcases hfg : wiring_free_request_get e.header_alloc s with ⟨_ | req, s1⟩
  · rw [hfg] at h1
    exact h1
  · rw [hfg] at h1
    simp only at h1 ⊢
    cases e.nbx <;> exact h1

/-- What a successful `wireup_start` did. -/
theorem wireup_start_some (L : layout_t) (fuel : Nat) (e : env_t) (fenv : Nat → env_t)
    (now : Nat) (s : wiring_t) (laddr : List Nat) (cb : Option Nat) (cb_arg data : Ptr)
    (id : Nat) (s' : wiring_t)
    (h : wireup_start L fuel e fenv now s laddr cb cb_arg data = some (some id, s')) :
    laddr.length ≤ UINT16_MAX ∧
      ∃ ep s1, e.ep_create = some ep ∧
        acquire_slot L fuel e fenv (s.log (ext_call.ep_create ep)) = some (some id, s1) ∧
        s'.storage = (start_install now s1 id ep laddr cb cb_arg data).storage ∧
        s'.assoc = (start_install now s1 id ep laddr cb cb_arg data).assoc := by
  unfold wireup_start at h
  simp only at h
  split at h
  · simp [sender_id_nil] at h
  · rename_i hlen
    split at h
    · simp [sender_id_nil] at h
    · split at h
      · simp [sender_id_nil] at h
      · rename_i ep hep
        split at h
        · cases h
        · simp [sender_id_nil] at h
        · rename_i id1 s1 hacq
          have hs := storage_wireup_send e (start_install now s1 id1 ep laddr cb cb_arg data) id1
          have ha := assoc_wireup_send e (start_install now s1 id1 ep laddr cb cb_arg data) id1
          split at h
          · simp [sender_id_nil] at h
          · rename_i s4 hsend
            simp only [Option.some.injEq, Prod.mk.injEq] at h
            obtain ⟨h1, h2⟩ := h
            subst h1 h2
            have hsend' : wireup_send e (start_install now s1 id1 ep laddr cb cb_arg data) id1 =
                (true, s4) := hsend
            rw [hsend'] at hs ha
            exact ⟨by omega, ep, s1, hep, hacq, hs, ha⟩

/-- `wiring_init` establishes `ids_ok`. -/
theorem ids_ok_wiring_init (work_available : Nat) (refs : Nat → wiring_ref_t)
    (sentinel : wiring_ref_t) (accept_cb : Option Nat) (accept_cb_arg : Ptr) :
    ids_ok (wiring_init work_available refs sentinel accept_cb accept_cb_arg) := by
  have hn : (wiring_init work_available refs sentinel accept_cb accept_cb_arg).storage.nwires = 1 := rfl
  have hmax : 1 < SENDER_ID_MAX := by decide
  refine
    { pos := by rw [hn]; exact Nat.one_pos
      max := by rw [hn]; exact hmax
      assoc := rfl
      bins := rfl
      free := ?_
      next := ?_
      closed := ?_ }
  · intro id h
    have : (wiring_init work_available refs sentinel accept_cb accept_cb_arg).storage.first_free =
        some 0 := rfl
    rw [this] at h
    cases h
    rw [hn]
    exact Nat.one_pos
  · intro i id h
    rw [hn]
    match i with
    | 0 =>
      have : ((wiring_init work_available refs sentinel accept_cb accept_cb_arg).storage.getw 0).next =
          none := rfl
      rw [this] at h
      cases h
    | i + 1 =>
      have : ((wiring_init work_available refs sentinel accept_cb accept_cb_arg).storage.getw (i + 1)).next =
          some 0 := rfl
      rw [this] at h
      cases h
      exact Nat.one_pos
  · intro b id h
    rw [hn]
    match b with
    | 0 =>
      have : ((wiring_init work_available refs sentinel accept_cb accept_cb_arg).getbin 0).first_closed =
          none := rfl
      rw [this] at h
      cases h
    | 1 =>
      have : ((wiring_init work_available refs sentinel accept_cb accept_cb_arg).getbin 1).first_closed =
          none := rfl
      rw [this] at h
      cases h
    | 2 =>
      have : ((wiring_init work_available refs sentinel accept_cb accept_cb_arg).getbin 2).first_closed =
          none := rfl
      rw [this] at h
      cases h
    | 3 =>
      have : ((wiring_init work_available refs sentinel accept_cb accept_cb_arg).getbin 3).first_closed =
          none := rfl
      rw [this] at h
      cases h
    | b + 4 =>
      have : ((wiring_init work_available refs sentinel accept_cb accept_cb_arg).getbin (b + 4)).first_closed =
          some 0 := rfl
      rw [this] at h
      cases h
      exact Nat.one_pos

/-- The wiring `wireup_start` has built for a slot below the table count. -/
theorem start_install_spec (now : Nat) (s1 : wiring_t) (id ep : Nat) (laddr : List Nat)
    (cb : Option Nat) (cb_arg data : Ptr) (hid : id < s1.storage.nwires)
    (ha : s1.assoc.length = s1.storage.nwires) :
    (start_install now s1 id ep laddr cb cb_arg data).storage.nwires = s1.storage.nwires ∧
      (start_install now s1 id ep laddr cb cb_arg data).assoc.getD id Ptr.null = data ∧
      ((start_install now s1 id ep laddr cb cb_arg data).storage.getw id).core =
        { wire_zero with
          ep := some ep, id := sender_id_nil, state := wire_state_t.INITIAL
          msg := some { op := OP_REQ, sender_id := id, addrlen := laddr.length % 2 ^ 16,
                        addr := laddr }
          msglen := WIREUP_MSG_HDRLEN + laddr.length, cb := cb, cb_arg := cb_arg,
          tlink_expire := default, tlink_wakeup := default } ∧
      ((start_install now s1 id ep laddr cb cb_arg data).storage.thead timo_t.timo_expire).last =
        some id ∧
      ((start_install now s1 id ep laddr cb cb_arg data).storage.link id timo_t.timo_expire).due =
        gettimeout now now ∧
      ((start_install now s1 id ep laddr cb cb_arg data).storage.thead timo_t.timo_wakeup).last =
        some id ∧
      ((start_install now s1 id ep laddr cb cb_arg data).storage.link id timo_t.timo_wakeup).due =
        (now + retry_interval) % 2 ^ 64 := by
  unfold start_install
  simp only
  generalize hW : ({ wire_zero with
      ep := some ep, id := sender_id_nil, state := wire_state_t.INITIAL
      msg := some { op := OP_REQ, sender_id := id, addrlen := laddr.length % 2 ^ 16,
                    addr := laddr }
      msglen := WIREUP_MSG_HDRLEN + laddr.length, cb := cb, cb_arg := cb_arg } : wire_t) = W
  have hn0 : (s1.storage.setw id W).nwires = s1.storage.nwires := nwires_setw _ _ _
  have c1 := same_core_timeout_put (s1.storage.setw id W) id timo_t.timo_expire
    (gettimeout now now)
  have hid1 : id < (wiring_expiration_put (s1.storage.setw id W) id (gettimeout now now)).nwires := by
    unfold wiring_expiration_put
    rw [c1.nwires, hn0]
    exact hid
  have c2 := same_core_timeout_put
    (wiring_expiration_put (s1.storage.setw id W) id (gettimeout now now)) id
    timo_t.timo_wakeup ((now + retry_interval) % 2 ^ 64)
  have t1 := timeout_put_tail (s1.storage.setw id W) id timo_t.timo_expire (gettimeout now now)
    (by rw [hn0]; exact hid)
  have t2 := timeout_put_tail
    (wiring_expiration_put (s1.storage.setw id W) id (gettimeout now now)) id
    timo_t.timo_wakeup ((now + retry_interval) % 2 ^ 64) hid1
  have o2 := timeout_put_other
    (wiring_expiration_put (s1.storage.setw id W) id (gettimeout now now)) id
    timo_t.timo_wakeup timo_t.timo_expire ((now + retry_interval) % 2 ^ 64) (by decide) id
  refine ⟨?_, ?_, ?_, ?_, ?_, t2.1, t2.2⟩
  · unfold wiring_wakeup_put
    rw [c2.nwires]
    unfold wiring_expiration_put
    rw [c1.nwires, hn0]
  · simp only [List.getD_eq_getElem?_getD]
    rw [List.getElem?_set_self (by omega)]
    rfl
  · unfold wiring_wakeup_put
    rw [c2.wires id]
    unfold wiring_expiration_put
    rw [c1.wires id, getw_setw, if_pos ⟨rfl, hid⟩, ← hW]
    rfl
  · unfold wiring_wakeup_put
    rw [o2.1]
    exact t1.1
  · unfold wiring_wakeup_put
    rw [o2.2]
    exact t1.2

theorem wire_get_data_live (s : wiring_t) (id : Nat) (hlt : id < s.storage.nwires)
    (hst : (s.storage.getw id).state = wire_state_t.LIVE) :
    wire_get_data s (some id) = s.assoc.getD id Ptr.null := by
  have : ¬ s.storage.nwires ≤ id := by omega
  simp [wire_get_data, wire_is_connected, this, hst]

theorem wire_get_data_not_live (s : wiring_t) (id : Nat)
    (hst : (s.storage.getw id).state ≠ wire_state_t.LIVE) :
    wire_get_data s (some id) = wire_data_nil := by
  by_cases hle : s.storage.nwires ≤ id
  · simp [wire_get_data, wire_is_connected, hle]
  · simp [wire_get_data, wire_is_connected, hle, hst]

/-- After `wireup_transition` the wire is in the new state. -/
theorem state_wireup_transition (cb_ret : Bool) (s : wiring_t) (id : Nat) (nstate : wire_state_t)
    (hid : id < s.storage.nwires) :
    ((wireup_transition cb_ret s id nstate).storage.getw id).state = nstate := by
  have key : ((wireup_storage_transition cb_ret s.storage id nstate).1.getw id).state = nstate := by
    unfold wireup_storage_transition
    simp only
    split
    · rw [getw_setw, if_pos ⟨rfl, hid⟩]
    · split
      · rw [getw_setw, if_pos ⟨rfl, hid⟩]
      · split
        · rw [getw_setw, if_pos ⟨rfl, hid⟩]
        · simp only
          rw [getw_setw, if_pos ⟨rfl, hid⟩]
          split <;> rfl
  unfold wireup_transition
  simp only
  split <;> exact key

/-- The wire a successful `wireup_start` returns: its slot, its members, its
dues and its association. -/
theorem wireup_start_fields (L : layout_t) (fuel : Nat) (e : env_t) (fenv : Nat → env_t)
    (now : Nat) (s : wiring_t) (laddr : List Nat) (cb : Option Nat) (cb_arg data : Ptr)
    (id : Nat) (s' : wiring_t) (hok : ids_ok s)
    (h : wireup_start L fuel e fenv now s laddr cb cb_arg data = some (some id, s')) :
    laddr.length ≤ UINT16_MAX ∧
      (s.storage.first_free = some id ∨
        (s.storage.first_free = none ∧ ∃ ep s2, e.ep_create = some ep ∧
          wiring_enlarge L fuel e fenv (s.log (ext_call.ep_create ep)) = some (true, s2) ∧
          s2.storage.first_free = some id)) ∧
      id < s'.storage.nwires ∧
      (s'.storage.getw id).state = wire_state_t.INITIAL ∧
      (s'.storage.getw id).id = sender_id_nil ∧
      (s'.storage.getw id).cb = cb ∧ (s'.storage.getw id).cb_arg = cb_arg ∧
      (s'.storage.getw id).msg =
        some { op := OP_REQ, sender_id := id, addrlen := laddr.length, addr := laddr } ∧
      (s'.storage.getw id).msglen = WIREUP_MSG_HDRLEN + laddr.length ∧
      (s'.storage.thead timo_t.timo_expire).last = some id ∧
      (s'.storage.link id timo_t.timo_expire).due = min (now + timeout_interval) UINT64_MAX ∧
      (s'.storage.thead timo_t.timo_wakeup).last = some id ∧
      (s'.storage.link id timo_t.timo_wakeup).due = (now + retry_interval) % 2 ^ 64 ∧
      (now + retry_interval < 2 ^ 64 →
        (s'.storage.link id timo_t.timo_wakeup).due = now + retry_interval) ∧
      s'.assoc.getD id Ptr.null = data := by
  obtain ⟨hlen, ep, s1, hep, hacq, hst, has⟩ :=
    wireup_start_some L fuel e fenv now s laddr cb cb_arg data id s' h
  obtain ⟨hid, hal, _, hhead⟩ :=
    acquire_slot_spec L fuel e fenv _ s1 id (ids_ok_log s (ext_call.ep_create ep) hok) hacq
  obtain ⟨i1, i2, i3, i4, i5, i6, i7⟩ :=
    start_install_spec now s1 id ep laddr cb cb_arg data hid hal
  rw [← hst] at i1 i3 i4 i5 i6 i7
  rw [← has] at i2
  have hmod : laddr.length % 2 ^ 16 = laddr.length := by
    have : UINT16_MAX = 65535 := by decide
    apply Nat.mod_eq_of_lt
    omega
  refine ⟨hlen, ?_, by rw [i1]; exact hid, congrArg wire_t.state i3, congrArg wire_t.id i3,
    congrArg wire_t.cb i3, congrArg wire_t.cb_arg i3, ?_, congrArg wire_t.msglen i3, i4, ?_, i6,
    i7, ?_, i2⟩
  · rcases hhead with h1 | ⟨h1, s2, h2, h3⟩
    · exact Or.inl h1
    · exact Or.inr ⟨h1, ep, s2, hep, h2, h3⟩
  · have := congrArg wire_t.msg i3
    simp only [wire_t.core] at this
    rw [this, hmod]
  · rw [i5, gettimeout_saturates]
  · intro hlt
    rw [i7, Nat.mod_eq_of_lt hlt]

/-- C9: the data of a started wire. After a successful `wireup_start` with
data pointer `data` that returns wire id `id`, `wire_get_data` returns
`wire_data_nil`, as it does in every wiring in which that wire is INITIAL; and
once an ACK with `sender_id < SENDER_ID_MAX` and `addrlen = 0` addressed to
`id` has been dispatched, the wire is LIVE and `wire_get_data` returns
`data`. -/
theorem start_then_ack (L : layout_t) (fuel : Nat) (e : env_t) (fenv : Nat → env_t)
    (now : Nat) (s : wiring_t) (laddr : List Nat) (cb : Option Nat) (cb_arg data : Ptr)
    (id : Nat) (s' : wiring_t) (hok : ids_ok s)
    (h : wireup_start L fuel e fenv now s laddr cb cb_arg data = some (some id, s')) :
    wire_get_data s' (some id) = wire_data_nil ∧
      (∀ t : wiring_t, (t.storage.getw id).state = wire_state_t.INITIAL →
        wire_get_data t (some id) = wire_data_nil) ∧
      ∀ (e2 : env_t) (now2 : Nat) (msg : wireup_msg_t), msg.op = OP_ACK →
        msg.sender_id < SENDER_ID_MAX → msg.addrlen = 0 →
        ((wireup_msg_transition e2 now2 s' id msg).storage.getw id).state = wire_state_t.LIVE ∧
        wire_get_data (wireup_msg_transition e2 now2 s' id msg) (some id) = data := by
  have hnil : ∀ t : wiring_t, (t.storage.getw id).state = wire_state_t.INITIAL →
      wire_get_data t (some id) = wire_data_nil := by
    intro t ht
    apply wire_get_data_not_live
    rw [ht]
    decide
  obtain ⟨hlen, ep, s1, hep, hacq, hst, has⟩ :=
    wireup_start_some L fuel e fenv now s laddr cb cb_arg data id s' h
  obtain ⟨hid, hal, hmax, _⟩ :=
    acquire_slot_spec L fuel e fenv _ s1 id (ids_ok_log s (ext_call.ep_create ep) hok) hacq
  obtain ⟨i1, i2, i3, _⟩ := start_install_spec now s1 id ep laddr cb cb_arg data hid hal
  rw [← hst] at i1 i3
  rw [← has] at i2
  have hstate : (s'.storage.getw id).state = wire_state_t.INITIAL := congrArg wire_t.state i3
  have hid' : id < s'.storage.nwires := by rw [i1]; exact hid
  refine ⟨hnil s' hstate, hnil, ?_⟩
  intro e2 now2 msg hop hsid hlen0
  have h1 : ¬ id ≥ SENDER_ID_MAX := by omega
  have h2 : ¬ id ≥ s'.storage.nwires := by omega
  have h3 : ¬ msg.sender_id ≥ SENDER_ID_MAX := by omega
  have h4 : ¬ msg.op = OP_STOP := by rw [hop]; decide
  have h5 : ¬ msg.op ≠ OP_ACK := fun hne => hne hop
  have h6 : ¬ msg.addrlen ≠ 0 := fun hne => hne hlen0
  have hrecv : state_receive now2 (s'.storage.getw id).state s' id msg = start_life now2 s' id msg := by
    rw [hstate]
    rfl
  have hlive : (start_life now2 s' id msg).1 = wire_state_t.LIVE := by
    unfold start_life
    rw [if_neg h3, if_neg h4, if_neg h5, if_neg h6]
  have hassoc : (start_life now2 s' id msg).2.assoc = s'.assoc := by
    unfold start_life
    rw [if_neg h3, if_neg h4, if_neg h5, if_neg h6]
  have hnw : (start_life now2 s' id msg).2.storage.nwires = s'.storage.nwires := by
    unfold start_life
    rw [if_neg h3, if_neg h4, if_neg h5, if_neg h6]
    unfold wiring_wakeup_put wiring_wakeup_remove wiring_expiration_put wiring_expiration_remove
    rw [(same_core_timeout_put _ _ _ _).nwires, (same_core_timeout_remove _ _ _).nwires,
      (same_core_timeout_put _ _ _ _).nwires, (same_core_timeout_remove _ _ _).nwires, nwires_setw]
  have htr : wireup_msg_transition e2 now2 s' id msg =
      wireup_transition e2.cb_ret (start_life now2 s' id msg).2 id wire_state_t.LIVE := by
    unfold wireup_msg_transition
    simp only [if_neg h1, if_neg h2, hrecv, hlive]
  have hfinal : ((wireup_msg_transition e2 now2 s' id msg).storage.getw id).state =
      wire_state_t.LIVE := by
    rw [htr]
    exact state_wireup_transition _ _ _ _ (by rw [hnw]; exact hid')
  refine ⟨hfinal, ?_⟩
  have hnw2 : (wireup_msg_transition e2 now2 s' id msg).storage.nwires = s'.storage.nwires := by
    rw [htr, (transition_frame _ _ _ _).1.nwires, hnw]
  have := wire_get_data_live (wireup_msg_transition e2 now2 s' id msg) id
    (by rw [hnw2]; exact hid') hfinal
  rw [this, htr, (transition_frame _ _ _ _).2.1, hassoc]
  exact i2

theorem start_then_ack_witness :
    ∃ s', start_example wiring_example = some (some 0, s') ∧
      wire_get_data s' (some 0) = wire_data_nil ∧
      wire_get_data (wireup_msg_transition env_ok 0 s' 0 ack_example) (some 0) = Ptr.obj 5 :=
  have h := start_then_ack layout_example 8 env_ok (fun _ => env_ok) 0 wiring_example
    [1, 2] none Ptr.null (Ptr.obj 5) 0 _ (ids_ok_wiring_init 0 (fun _ => default) reclaimed_bin_sentinel_initial none Ptr.null)
    rfl
  ⟨_, rfl, h.1, (h.2.2 env_ok 0 ack_example (by decide) (by decide) (by decide)).2⟩

/-- C11: a failed `wireup_start` leaves an endpoint open. After `wiring_init`
and one `wireup_start` (which takes the only slot), a second `wireup_start`
creates endpoint 2, finds the free list empty and cannot grow the table: it
returns the nil wire id with the table, the association array and the
garbage schedule unchanged, but endpoint 2 is in no wire and was never
closed. -/
theorem start_without_slot_leaks_endpoint :
    ∃ s1 s2, start_example wiring_example = some (some 0, s1) ∧
      start_without_slot = some (sender_id_nil, s2) ∧
      s2.storage = s1.storage ∧ s2.assoc = s1.assoc ∧ s2.garbage_sched = s1.garbage_sched ∧
      s2.trace = s1.trace ++ [ext_call.ep_create 2] ∧
      ext_call.ep_close 2 ∉ s2.trace ∧
      ∀ w ∈ s2.storage.wire, w.ep ≠ some 2 := by
  refine ⟨_, _, rfl, rfl, ?_, ?_, ?_, ?_, ?_, ?_⟩ <;> decide

/-- C13: `wireup_stop` on a slot that holds no wire. After `wiring_init`, slot
0 is FREE and below the table count; `wireup_stop` on it returns true and
changes the wiring: slot 0 is put on the closing list of bin 0. -/
theorem stop_free_slot_returns_true :
    (wiring_example.storage.getw 0).state = wire_state_t.FREE ∧
      0 < wiring_example.storage.nwires ∧
      (wireup_stop env_ok wiring_example (some 0) true).1 = true ∧
      (wireup_stop env_ok wiring_example (some 0) false).1 = true ∧
      closing_list wiring_example 0 = [] ∧
      closing_list (wireup_stop env_ok wiring_example (some 0) false).2 0 = [0] ∧
      (wireup_stop env_ok wiring_example (some 0) false).2.garbage_sched ≠
        wiring_example.garbage_sched := by
  decide

/-- C18: a callback fires after `reclaimed`. Wire 0 is started with callback 7
(which returns true at every call), stopped and reclaimed; a KEEPALIVE whose
tag selects slot 0 then arrives. Callback 7 is called with `closed`, with
`reclaimed`, and then once more with `closed`, although no `wireup_start` or
`wireup_respond` took slot 0 again. -/
theorem callback_after_reclaimed :
    ∃ s, message_after_reclaim = some s ∧
      cb_events 7 s.trace =
        [wire_event_t.wire_ev_closed, wire_event_t.wire_ev_reclaimed,
          wire_event_t.wire_ev_closed] ∧
      (s.storage.getw 0).state = wire_state_t.CLOSING := by
  refine ⟨_, rfl, ?_, ?_⟩ <;> decide

/-- C19: a driver pass in which a wire changes state returns 0. Wire 0 is
INITIAL with its wakeup due; the pass, without a descriptor, retries the
request, the send is refused and wire 0 moves to CLOSING, yet the pass
returns 0. -/
theorem pass_with_failed_retry_returns_zero :
    ∃ s1 s2, start_example wiring_example = some (some 0, s1) ∧
      pass_with_failed_retry = some (0, s2) ∧
      (s1.storage.getw 0).state = wire_state_t.INITIAL ∧
      (s2.storage.getw 0).state = wire_state_t.CLOSING ∧
      closing_list s2 0 = [0] := by
  refine ⟨_, _, rfl, rfl, ?_, ?_, ?_⟩ <;> decide

/-- C17: `wireup_storage_transition` on a wire of the table sets the wire's
state to the new state and makes at most one callback call. When a callback
is installed and the new state differs from the old one, the call is made
with `estd`, the wire's endpoint and sender id for LIVE, with `closed` for
CLOSING and with `reclaimed` for FREE; no call is made when no callback is
installed, when the state is unchanged, or when the new state is INITIAL. The
callback and its argument are cleared when a call was made and returned
false, and are left as they were otherwise. -/
theorem storage_transition_callback (cb_ret : Bool) (st : wstorage_t) (id : Nat)
    (nstate : wire_state_t) (hid : id < st.nwires) :
    ((wireup_storage_transition cb_ret st id nstate).1.getw id).state = nstate ∧
      (∀ fn, (st.getw id).cb = some fn → (st.getw id).state ≠ nstate →
        (nstate = wire_state_t.LIVE →
          (wireup_storage_transition cb_ret st id nstate).2 =
            some (ext_call.cb fn
              { event := wire_event_t.wire_ev_estd, ep := (st.getw id).ep,
                sender_id := (st.getw id).id } (st.getw id).cb_arg)) ∧
        (nstate = wire_state_t.CLOSING →
          (wireup_storage_transition cb_ret st id nstate).2 =
            some (ext_call.cb fn
              { event := wire_event_t.wire_ev_closed, ep := none, sender_id := sender_id_nil }
              (st.getw id).cb_arg)) ∧
        (nstate = wire_state_t.FREE →
          (wireup_storage_transition cb_ret st id nstate).2 =
            some (ext_call.cb fn
              { event := wire_event_t.wire_ev_reclaimed, ep := none,
                sender_id := sender_id_nil } (st.getw id).cb_arg))) ∧
      ((st.getw id).cb = none ∨ (st.getw id).state = nstate ∨ nstate = wire_state_t.INITIAL →
        (wireup_storage_transition cb_ret st id nstate).2 = none) ∧
      ((wireup_storage_transition cb_ret st id nstate).2 ≠ none ∧ cb_ret = false →
        ((wireup_storage_transition cb_ret st id nstate).1.getw id).cb = none ∧
        ((wireup_storage_transition cb_ret st id nstate).1.getw id).cb_arg = Ptr.null) ∧
      (¬ ((wireup_storage_transition cb_ret st id nstate).2 ≠ none ∧ cb_ret = false) →
        ((wireup_storage_transition cb_ret st id nstate).1.getw id).cb = (st.getw id).cb ∧
        ((wireup_storage_transition cb_ret st id nstate).1.getw id).cb_arg =
          (st.getw id).cb_arg) := by
  have hg : ∀ w : wire_t, (st.setw id w).getw id = w := by
    intro w
    rw [getw_setw, if_pos ⟨rfl, hid⟩]
  rcases hcb : (st.getw id).cb with _ | fn
  · simp [wireup_storage_transition, hcb, hg]
  · by_cases hs : (st.getw id).state = nstate
    · simp [wireup_storage_transition, hcb, hg, hs]
    · cases nstate <;> cases cb_ret <;> simp [wireup_storage_transition, hcb, hg, hs]

theorem storage_transition_callback_witness :
    ((wireup_storage_transition false storage_with_callback 0 wire_state_t.LIVE).1.getw 0).state =
        wire_state_t.LIVE ∧
      (wireup_storage_transition false storage_with_callback 0 wire_state_t.LIVE).2 =
        some (ext_call.cb 7
          { event := wire_event_t.wire_ev_estd, ep := some 1, sender_id := sender_id_nil }
          (Ptr.obj 3)) ∧
      ((wireup_storage_transition false storage_with_callback 0 wire_state_t.LIVE).1.getw 0).cb =
        none :=
  have h := storage_transition_callback false storage_with_callback 0 wire_state_t.LIVE
    (by decide)
  have h2 := (h.2.1 7 (by decide) (by decide)).1 rfl
  ⟨h.1, h2, (h.2.2.2.1 ⟨by rw [h2]; exact Option.some_ne_none _, rfl⟩).1⟩

/-- `wiring_timeout_remove` on one queue leaves the other queue alone. -/
theorem timeout_remove_other (st : wstorage_t) (id : Nat) (which which' : timo_t)
    (hne : which' ≠ which) (i : Nat) :
    (wiring_timeout_remove st id which).thead which' = st.thead which' ∧
      (wiring_timeout_remove st id which).link i which' = st.link i which' := by
  unfold wiring_timeout_remove
  simp only
  split
  · exact ⟨rfl, rfl⟩
  · rcases hnx : (st.link id which).next with _ | n <;>
      rcases hpv : (st.link id which).prev with _ | p <;>
      simp only [thead_set_link, thead_set_thead, link_set_thead, link_set_link, if_neg hne, hne,
        and_false, if_false] <;> exact ⟨trivial, trivial⟩

/-- After `wiring_timeout_remove` both links of the wire designate the wire
itself, when the check of the function holds. -/
theorem timeout_remove_self (st : wstorage_t) (id : Nat) (which : timo_t) (hid : id < st.nwires)
    (hs : wiring_timeout_remove_assert st id which = true) :
    ((wiring_timeout_remove st id which).link id which).next = some id ∧
      ((wiring_timeout_remove st id which).link id which).prev = some id := by
  by_cases h : (st.link id which).next = some id
  · have hp : (st.link id which).prev = some id := by
      simpa [wiring_timeout_remove_assert, h] using hs
    simp only [wiring_timeout_remove, if_pos h]
    exact ⟨h, hp⟩
  · simp only [wiring_timeout_remove, if_neg h]
    rw [link_set_link]
    rcases hnx : (st.link id which).next with _ | n <;>
      rcases hpv : (st.link id which).prev with _ | p <;>
      simp [hid]

/-- The state `wiring_close_wire` leaves: the wire keeps its state, endpoint,
message and callback, loses its sender id, is off both timeout queues and is
the head of the closing list of bin `epoch.last % NBINS`, linked to the
previous head; the association is cleared. -/
theorem close_wire_spec (s : wiring_t) (id : Nat) (hid : id < s.storage.nwires)
    (hbins : s.garbage_sched.bin.length = NBINS)
    (he : wiring_timeout_remove_assert s.storage id timo_t.timo_expire = true)
    (hw : wiring_timeout_remove_assert s.storage id timo_t.timo_wakeup = true) :
    (wiring_close_wire s id).storage.nwires = s.storage.nwires ∧
      ((wiring_close_wire s id).storage.getw id).core =
        { (s.storage.getw id).core with
          id := sender_id_nil
          next := (s.getbin (s.garbage_sched.epoch_last % NBINS)).first_closed } ∧
      (∀ which, ((wiring_close_wire s id).storage.link id which).next = some id ∧
        ((wiring_close_wire s id).storage.link id which).prev = some id) ∧
      ((wiring_close_wire s id).getbin (s.garbage_sched.epoch_last % NBINS)).first_closed =
        some id ∧
      (wiring_close_wire s id).garbage_sched.epoch_last = s.garbage_sched.epoch_last ∧
      (wiring_close_wire s id).assoc = s.assoc.set id Ptr.null ∧
      (wiring_close_wire s id).trace = s.trace := by
  have hl1 : ∀ which, (s.storage.setw id { (s.storage.getw id) with id := sender_id_nil }).link id
      which = s.storage.link id which := by
    intro which
    unfold wstorage_t.link
    rw [getw_setw, if_pos ⟨rfl, hid⟩]
    cases which <;> rfl
  have he1 : wiring_timeout_remove_assert
      (s.storage.setw id { (s.storage.getw id) with id := sender_id_nil }) id
      timo_t.timo_expire = true := by
    unfold wiring_timeout_remove_assert
    rw [hl1]
    exact he
  have hw2 : wiring_timeout_remove_assert
      (wiring_timeout_remove (s.storage.setw id { (s.storage.getw id) with id := sender_id_nil })
        id timo_t.timo_expire) id timo_t.timo_wakeup = true := by
    unfold wiring_timeout_remove_assert
    rw [(timeout_remove_other _ id timo_t.timo_expire timo_t.timo_wakeup (by decide) id).2, hl1]
    exact hw
  have hx := timeout_remove_self _ id timo_t.timo_expire
    (by rw [nwires_setw]; exact hid) he1
  have hy := timeout_remove_self _ id timo_t.timo_wakeup
    (by rw [nwires_timeout_remove, nwires_setw]; exact hid) hw2
  have hb : s.garbage_sched.epoch_last % NBINS < s.garbage_sched.bin.length := by
    rw [hbins]
    exact Nat.mod_lt _ (by decide)
  unfold wiring_close_wire wiring_closing_put
  simp only [wiring_expiration_remove, wiring_wakeup_remove]
  refine ⟨?_, ?_, ?_, ?_, rfl, rfl, rfl⟩
  · show (wstorage_t.setw _ _ _).nwires = _
    rw [nwires_setw, nwires_timeout_remove, nwires_timeout_remove, nwires_setw]
  · show ((wstorage_t.setw _ _ _).getw id).core = _
    rw [getw_setw, if_pos ⟨rfl, by
      rw [nwires_timeout_remove, nwires_timeout_remove, nwires_setw]; exact hid⟩]
    have hc := ((same_core_timeout_remove
      (s.storage.setw id { (s.storage.getw id) with id := sender_id_nil }) id
      timo_t.timo_expire).core_trans
      (same_core_timeout_remove _ id timo_t.timo_wakeup)).wires id
    rw [getw_setw, if_pos ⟨rfl, hid⟩] at hc
    show ({ (wstorage_t.getw _ id).core with next := _ } : wire_t) = _
    rw [hc]
    rfl
  · intro which
    have hlk : ∀ (st : wstorage_t) (n : sender_id_t), id < st.nwires →
        (st.setw id { (st.getw id) with next := n }).link id which = st.link id which := by
      intro st n hn
      unfold wstorage_t.link
      rw [getw_setw, if_pos ⟨rfl, hn⟩]
      cases which <;> rfl
    show ((wstorage_t.setw _ _ _).link id which).next = some id ∧
      ((wstorage_t.setw _ _ _).link id which).prev = some id
    rw [hlk _ _ (by rw [nwires_timeout_remove, nwires_timeout_remove, nwires_setw]; exact hid)]
    cases which
    · rw [(timeout_remove_other _ id timo_t.timo_wakeup timo_t.timo_expire (by decide) id).2]
      exact hx
    · exact hy
  · rw [getbin_setbin, if_pos ⟨rfl, hb⟩]

theorem ep_storage_transition (cb_ret : Bool) (st : wstorage_t) (id : Nat)
    (nstate : wire_state_t) (i : Nat) :
    ((wireup_storage_transition cb_ret st id nstate).1.getw i).ep = (st.getw i).ep := by
  have hg : ∀ w : wire_t, w.ep = (st.getw id).ep → ((st.setw id w).getw i).ep = (st.getw i).ep := by
    intro w hw
    rw [getw_setw]
    split
    · rename_i h
      rw [hw, h.1]
    · rfl
  rcases hcb : (st.getw id).cb with _ | fn
  · simp only [wireup_storage_transition, hcb]
    exact hg _ rfl
  · by_cases hs : (st.getw id).state = nstate
    · simp only [wireup_storage_transition, hcb, hs, if_true]
      exact hg _ rfl
    · cases nstate <;> cases cb_ret <;>
        simp only [wireup_storage_transition, hcb, hs, if_false] <;> exact hg _ rfl

theorem storage_wireup_transition (cb_ret : Bool) (s : wiring_t) (id : Nat)
    (nstate : wire_state_t) :
    (wireup_transition cb_ret s id nstate).storage =
      (wireup_storage_transition cb_ret s.storage id nstate).1 := by
  unfold wireup_transition
  simp only
  split <;> rfl

theorem getD_set_null (l : List Ptr) (id : Nat) :
    (l.set id Ptr.null).getD id Ptr.null = Ptr.null := by
  simp only [List.getD_eq_getElem?_getD, List.getElem?_set]
  by_cases h : id < l.length
  · simp [h]
  · simp [h]

theorem trace_wireup_transition (cb_ret : Bool) (s : wiring_t) (id : Nat)
    (nstate : wire_state_t) :
    (wireup_transition cb_ret s id nstate).trace =
      s.trace ++ (wireup_storage_transition cb_ret s.storage id nstate).2.toList := by
  unfold wireup_transition
  simp only
  rcases h : (wireup_storage_transition cb_ret s.storage id nstate).2 with _ | c
  · simp
  · simp [wiring_t.log]

theorem storage_transition_call (cb_ret : Bool) (st : wstorage_t) (id : Nat)
    (nstate : wire_state_t) (c : ext_call)
    (h : c ∈ (wireup_storage_transition cb_ret st id nstate).2.toList) :
    ∃ fn info arg, c = ext_call.cb fn info arg := by
  rcases hcb : (st.getw id).cb with _ | fn
  · simp [wireup_storage_transition, hcb] at h
  · by_cases hs : (st.getw id).state = nstate
    · simp [wireup_storage_transition, hcb, hs] at h
    · cases nstate <;> simp [wireup_storage_transition, hcb, hs] at h <;>
        exact ⟨_, _, _, h⟩

/-- What `wireup_stop_internal` does to a wire in INITIAL or LIVE before it
calls `wiring_close_wire`: the transition to CLOSING, and calls that close no
endpoint. -/
theorem stop_internal_close (e : env_t) (s : wiring_t) (id : Nat) (orderly : Bool)
    (hst : (s.storage.getw id).state = wire_state_t.INITIAL ∨
      (s.storage.getw id).state = wire_state_t.LIVE) :
    ∃ t, wireup_stop_internal e s id orderly = wiring_close_wire t id ∧
      t.storage = (wireup_transition e.cb_ret s id wire_state_t.CLOSING).storage ∧
      t.assoc = s.assoc ∧ t.garbage_sched = s.garbage_sched ∧
      ∀ ep, ext_call.ep_close ep ∈ t.trace → ext_call.ep_close ep ∈ s.trace := by
  have hns : ¬ ((s.storage.getw id).state = wire_state_t.CLOSING ∨
      (s.storage.getw id).state = wire_state_t.FREE) := by
    rcases hst with h | h <;> rw [h] <;> decide
  have htr : ∀ ep, ext_call.ep_close ep ∈
      (wireup_transition e.cb_ret s id wire_state_t.CLOSING).trace →
      ext_call.ep_close ep ∈ s.trace := by
    intro ep hep
    rw [trace_wireup_transition, List.mem_append] at hep
    rcases hep with hep | hep
    · exact hep
    · obtain ⟨fn, info, arg, hc⟩ := storage_transition_call _ _ _ _ _ hep
      cases hc
  obtain ⟨-, fa, fg⟩ := transition_frame e.cb_ret s id wire_state_t.CLOSING
  unfold wireup_stop_internal
  simp only [if_neg hns]
  by_cases ho : orderly = true
  · by_cases hz : e.zalloc_ok = true
    · simp only [ho, hz, Bool.not_true, Bool.false_eq_true, if_false]
      have h1 := storage_free_request_get
        (wireup_transition e.cb_ret s id wire_state_t.CLOSING) e.header_alloc
      have h2 := assoc_free_request_get
        (wireup_transition e.cb_ret s id wire_state_t.CLOSING) e.header_alloc
      have h3 := garbage_free_request_get
        (wireup_transition e.cb_ret s id wire_state_t.CLOSING) e.header_alloc
      have h4 : (wiring_free_request_get e.header_alloc
          (wireup_transition e.cb_ret s id wire_state_t.CLOSING)).2.trace =
          (wireup_transition e.cb_ret s id wire_state_t.CLOSING).trace := by
        unfold wiring_free_request_get
        split <;> rfl
      rcases heq : wiring_free_request_get e.header_alloc
        (wireup_transition e.cb_ret s id wire_state_t.CLOSING) with ⟨_ | req, s2⟩
      all_goals rw [heq] at h1 h2 h3 h4
      all_goals simp only at h1 h2 h3 h4 ⊢
      · exact ⟨s2, rfl, h1, h2.trans fa, h3.trans fg, fun ep hep => htr ep (h4 ▸ hep)⟩
      · refine ⟨_, rfl, ?_, ?_, ?_, ?_⟩
        · rw [storage_request_settle, storage_log, h1]
        · rw [assoc_request_settle, assoc_log, h2, fa]
        · rw [garbage_request_settle, garbage_log, h3, fg]
        · intro ep hep
          have ht : (request_settle (s2.log (ext_call.tag_send (s2.storage.getw id).ep
              { op := OP_STOP, sender_id := id, addrlen := 0, addr := [] } WIREUP_MSG_HDRLEN
              (tx_tag.peer (s.storage.getw id).id))) req e.nbx).trace =
              s2.trace ++ [ext_call.tag_send (s2.storage.getw id).ep
              { op := OP_STOP, sender_id := id, addrlen := 0, addr := [] } WIREUP_MSG_HDRLEN
              (tx_tag.peer (s.storage.getw id).id)] := by
            cases e.nbx <;> rfl
          rw [ht, List.mem_append] at hep
          rcases hep with hep | hep
          · exact htr ep (h4 ▸ hep)
          · simp at hep
    · simp only [ho, hz, Bool.not_true, Bool.not_false, Bool.false_eq_true, if_false, if_true]
      exact ⟨_, rfl, rfl, fa, fg, htr⟩
  · have ho2 : orderly = false := by simpa using ho
    simp only [ho2, Bool.not_false, if_true]
    exact ⟨_, rfl, rfl, fa, fg, htr⟩

/-- C12: stopping a wire. For a wire of the table in INITIAL or LIVE, after
`wireup_stop`, for either value of `orderly` and whatever the allocation, the
request pool, the send and the callback return, the call returns true and the
wire is in CLOSING, both of its timeout links designate the wire itself, its
association is NULL, its sender id is nil, it is the head of the closing list
of bin `epoch.last % NBINS` with `next` the previous head, and its endpoint
is the one it had, with no `ucp_ep_close_nbx` call made. -/
theorem wireup_stop_closes (e : env_t) (s : wiring_t) (id : Nat) (orderly : Bool)
    (hid : id < s.storage.nwires)
    (hst : (s.storage.getw id).state = wire_state_t.INITIAL ∨
      (s.storage.getw id).state = wire_state_t.LIVE)
    (hbins : s.garbage_sched.bin.length = NBINS)
    (he : wiring_timeout_remove_assert s.storage id timo_t.timo_expire = true)
    (hw : wiring_timeout_remove_assert s.storage id timo_t.timo_wakeup = true) :
    (wireup_stop e s (some id) orderly).1 = true ∧
      ((wireup_stop e s (some id) orderly).2.storage.getw id).state = wire_state_t.CLOSING ∧
      (∀ which,
        ((wireup_stop e s (some id) orderly).2.storage.link id which).next = some id ∧
        ((wireup_stop e s (some id) orderly).2.storage.link id which).prev = some id) ∧
      (wireup_stop e s (some id) orderly).2.assoc.getD id Ptr.null = Ptr.null ∧
      ((wireup_stop e s (some id) orderly).2.storage.getw id).id = sender_id_nil ∧
      ((wireup_stop e s (some id) orderly).2.getbin
        (s.garbage_sched.epoch_last % NBINS)).first_closed = some id ∧
      ((wireup_stop e s (some id) orderly).2.storage.getw id).next =
        (s.getbin (s.garbage_sched.epoch_last % NBINS)).first_closed ∧
      (wireup_stop e s (some id) orderly).2.garbage_sched.epoch_last =
        s.garbage_sched.epoch_last ∧
      ((wireup_stop e s (some id) orderly).2.storage.getw id).ep = (s.storage.getw id).ep ∧
      ∀ ep, ext_call.ep_close ep ∈ (wireup_stop e s (some id) orderly).2.trace →
        ext_call.ep_close ep ∈ s.trace := by
  have hstop : wireup_stop e s (some id) orderly = (true, wireup_stop_internal e s id orderly) := by
    simp only [wireup_stop, if_neg (Nat.not_le.mpr hid)]
  obtain ⟨t, ht, tst, tas, tga, ttr⟩ := stop_internal_close e s id orderly hst
  obtain ⟨fl, -, -⟩ := transition_frame e.cb_ret s id wire_state_t.CLOSING
  have hnw : t.storage.nwires = s.storage.nwires := by rw [tst, fl.nwires]
  have hlk : ∀ which, t.storage.link id which = s.storage.link id which := by
    intro which
    rw [tst]
    exact link_eq_of_tlink_eq (fl.wires id).1 (fl.wires id).2.1 which
  have hstate : (t.storage.getw id).state = wire_state_t.CLOSING := by
    rw [tst]
    exact state_wireup_transition _ _ _ _ hid
  have hep : (t.storage.getw id).ep = (s.storage.getw id).ep := by
    rw [tst, storage_wireup_transition]
    exact ep_storage_transition _ _ _ _ _
  have hbin : ∀ b, t.getbin b = s.getbin b := by
    intro b
    unfold wiring_t.getbin
    rw [tga]
  obtain ⟨c1, c2, c3, c4, c5, c6, c7⟩ := close_wire_spec t id (by rw [hnw]; exact hid)
    (by rw [tga]; exact hbins)
    (by unfold wiring_timeout_remove_assert; rw [hlk]; exact he)
    (by unfold wiring_timeout_remove_assert; rw [hlk]; exact hw)
  rw [tga] at c4 c5
  rw [tga, hbin] at c2
  rw [hstop]
  simp only
  rw [ht]
  refine ⟨trivial, ?_, c3, ?_, ?_, c4, ?_, c5, ?_, ?_⟩
  · exact (congrArg wire_t.state c2).trans hstate
  · rw [c6]
    exact getD_set_null _ _
  · exact congrArg wire_t.id c2
  · exact congrArg wire_t.next c2
  · exact (congrArg wire_t.ep c2).trans hep
  · intro ep h
    rw [c7] at h
    exact ttr ep h

theorem wireup_stop_closes_witness :
    (wireup_stop env_ok one_live_wire (some 0) true).1 = true ∧
      ((wireup_stop env_ok one_live_wire (some 0) true).2.storage.getw 0).state =
        wire_state_t.CLOSING ∧
      ((wireup_stop env_ok one_live_wire (some 0) true).2.getbin 0).first_closed = some 0 ∧
      ((wireup_stop env_ok one_live_wire (some 0) true).2.storage.getw 0).ep =
        (one_live_wire.storage.getw 0).ep :=
  have h := wireup_stop_closes env_ok one_live_wire 0 true (by decide) (by decide) (by decide)
    (by decide) (by decide)
  ⟨h.1, h.2.1, h.2.2.2.2.2.1, h.2.2.2.2.2.2.2.2.1⟩

/-- The call `wireup_storage_transition` makes for a move to CLOSING. -/
theorem storage_transition_closing (cb_ret : Bool) (st : wstorage_t) (id : Nat)
    (hs : (st.getw id).state ≠ wire_state_t.CLOSING) :
    (wireup_storage_transition cb_ret st id wire_state_t.CLOSING).2.toList =
      match (st.getw id).cb with
      | none => []
      | some fn =>
        [ext_call.cb fn
          { event := wire_event_t.wire_ev_closed, ep := none, sender_id := sender_id_nil }
          (st.getw id).cb_arg] := by
  rcases hcb : (st.getw id).cb with _ | fn
  · simp [wireup_storage_transition, hcb]
  · cases cb_ret <;> simp [wireup_storage_transition, hcb, hs]

/-- C16: a keepalive from the wrong peer. For a LIVE wire of the table whose
peer sender id is `p`, dispatching a KEEPALIVE with `addrlen = 0` and a
`sender_id` below `SENDER_ID_MAX` other than `p` leaves the wire in CLOSING,
with both timeout links designating the wire itself, at the head of the
closing list of bin `epoch.last % NBINS` (linked to the previous head), and
makes exactly one call, the wire's callback with event `closed`, when a
callback is installed and no call otherwise. -/
theorem mismatched_keepalive_closes (e : env_t) (now : Nat) (s : wiring_t) (id p : Nat)
    (msg : wireup_msg_t) (hid : id < s.storage.nwires) (hmax : id < SENDER_ID_MAX)
    (hst : (s.storage.getw id).state = wire_state_t.LIVE)
    (hp : (s.storage.getw id).id = some p)
    (hop : msg.op = OP_KEEPALIVE) (hlen : msg.addrlen = 0)
    (hq : msg.sender_id < SENDER_ID_MAX) (hne : msg.sender_id ≠ p)
    (hbins : s.garbage_sched.bin.length = NBINS)
    (he : wiring_timeout_remove_assert s.storage id timo_t.timo_expire = true)
    (hw : wiring_timeout_remove_assert s.storage id timo_t.timo_wakeup = true) :
    ((wireup_msg_transition e now s id msg).storage.getw id).state = wire_state_t.CLOSING ∧
      (∀ which,
        ((wireup_msg_transition e now s id msg).storage.link id which).next = some id ∧
        ((wireup_msg_transition e now s id msg).storage.link id which).prev = some id) ∧
      ((wireup_msg_transition e now s id msg).getbin
        (s.garbage_sched.epoch_last % NBINS)).first_closed = some id ∧
      ((wireup_msg_transition e now s id msg).storage.getw id).next =
        (s.getbin (s.garbage_sched.epoch_last % NBINS)).first_closed ∧
      (wireup_msg_transition e now s id msg).garbage_sched.epoch_last =
        s.garbage_sched.epoch_last ∧
      (wireup_msg_transition e now s id msg).trace =
        s.trace ++
          match (s.storage.getw id).cb with
          | none => []
          | some fn =>
            [ext_call.cb fn
              { event := wire_event_t.wire_ev_closed, ep := none, sender_id := sender_id_nil }
              (s.storage.getw id).cb_arg] := by
  have h1 : ¬ id ≥ SENDER_ID_MAX := by omega
  have h2 : ¬ id ≥ s.storage.nwires := by omega
  have h3 : ¬ msg.sender_id ≥ SENDER_ID_MAX := by omega
  have h4 : ¬ msg.op = OP_STOP := by rw [hop]; decide
  have h5 : ¬ msg.op ≠ OP_KEEPALIVE := fun hn => hn hop
  have h6 : ¬ msg.addrlen ≠ 0 := fun hn => hn hlen
  have h7 : some msg.sender_id ≠ (s.storage.getw id).id := by
    rw [hp]
    intro h
    exact hne (Option.some.inj h)
  have hrecv : state_receive now (s.storage.getw id).state s id msg =
      (wire_state_t.CLOSING, wiring_close_wire s id) := by
    rw [hst]
    show continue_life now s id msg = _
    unfold continue_life
    rw [if_neg h3, if_neg h4, if_neg h5, if_neg h6, if_pos h7]
  have htr : wireup_msg_transition e now s id msg =
      wireup_transition e.cb_ret (wiring_close_wire s id) id wire_state_t.CLOSING := by
    unfold wireup_msg_transition
    simp only [if_neg h1, if_neg h2, hrecv]
  obtain ⟨c1, c2, c3, c4, c5, c6, c7⟩ := close_wire_spec s id hid hbins he hw
  obtain ⟨fl, -, fg⟩ := transition_frame e.cb_ret (wiring_close_wire s id) id wire_state_t.CLOSING
  have ks : ((wiring_close_wire s id).storage.getw id).state = (s.storage.getw id).state := by
    have := congrArg wire_t.state c2
    exact this
  have kc : ((wiring_close_wire s id).storage.getw id).cb = (s.storage.getw id).cb := by
    have := congrArg wire_t.cb c2
    exact this
  have ka : ((wiring_close_wire s id).storage.getw id).cb_arg = (s.storage.getw id).cb_arg := by
    have := congrArg wire_t.cb_arg c2
    exact this
  have hlive : ((wiring_close_wire s id).storage.getw id).state ≠ wire_state_t.CLOSING := by
    rw [ks, hst]
    decide
  rw [htr]
  refine ⟨state_wireup_transition _ _ _ _ (by rw [c1]; exact hid), ?_, ?_, ?_, ?_, ?_⟩
  · intro which
    rw [link_eq_of_tlink_eq (fl.wires id).1 (fl.wires id).2.1 which]
    exact c3 which
  · unfold wiring_t.getbin
    rw [fg]
    exact c4
  · rw [(fl.wires id).2.2.2]
    exact congrArg wire_t.next c2
  · rw [fg]
    exact c5
  · rw [trace_wireup_transition, c7, storage_transition_closing _ _ _ hlive, kc, ka]

theorem mismatched_keepalive_closes_witness :
    ((wireup_msg_transition env_ok 0 one_live_wire 0 keepalive_example).storage.getw 0).state =
        wire_state_t.CLOSING ∧
      ((wireup_msg_transition env_ok 0 one_live_wire 0 keepalive_example).getbin 0).first_closed =
        some 0 ∧
      (wireup_msg_transition env_ok 0 one_live_wire 0 keepalive_example).trace =
        one_live_wire.trace :=
  have h := mismatched_keepalive_closes env_ok 0 one_live_wire 0 0 keepalive_example
    (by decide) (by decide) (by decide) (by decide) (by decide) (by decide) (by decide)
    (by decide) (by decide) (by decide) (by decide)
  ⟨h.1, h.2.2.1, h.2.2.2.2.2.trans (List.append_nil _)⟩

/-- The call `wireup_storage_transition` makes for a move to LIVE. -/
theorem storage_transition_live (cb_ret : Bool) (st : wstorage_t) (id : Nat)
    (hs : (st.getw id).state ≠ wire_state_t.LIVE) :
    (wireup_storage_transition cb_ret st id wire_state_t.LIVE).2.toList =
      match (st.getw id).cb with
      | none => []
      | some fn =>
        [ext_call.cb fn
          { event := wire_event_t.wire_ev_estd, ep := (st.getw id).ep,
            sender_id := (st.getw id).id }
          (st.getw id).cb_arg] := by
  rcases hcb : (st.getw id).cb with _ | fn
  · simp [wireup_storage_transition, hcb]
  · cases cb_ret <;> simp [wireup_storage_transition, hcb, hs]

theorem core_eq_fields (w w' : wire_t) (h : w'.core = w.core) :
    w'.state = w.state ∧ w'.id = w.id ∧ w'.msg = w.msg ∧ w'.msglen = w.msglen ∧
      w'.cb = w.cb ∧ w'.cb_arg = w.cb_arg ∧ w'.ep = w.ep ∧ w'.next = w.next := by
  have a1 := congrArg wire_t.state h
  have a2 := congrArg wire_t.id h
  have a3 := congrArg wire_t.msg h
  have a4 := congrArg wire_t.msglen h
  have a5 := congrArg wire_t.cb h
  have a6 := congrArg wire_t.cb_arg h
  have a7 := congrArg wire_t.ep h
  have a8 := congrArg wire_t.next h
  exact ⟨a1, a2, a3, a4, a5, a6, a7, a8⟩

/-- The wire after `start_life` has accepted an ACK, and the calls of the
transition that follows. -/
theorem start_life_fields (now : Nat) (s : wiring_t) (id : Nat) (msg : wireup_msg_t) (ep : Nat)
    (cb_ret : Bool) (hid : id < s.storage.nwires)
    (hst : (s.storage.getw id).state = wire_state_t.INITIAL)
    (hep : (s.storage.getw id).ep = some ep)
    (hop : msg.op = OP_ACK) (hsid : msg.sender_id < SENDER_ID_MAX) (hlen : msg.addrlen = 0) :
    (start_life now s id msg).1 = wire_state_t.LIVE ∧
      ((start_life now s id msg).2.storage.getw id).id = some msg.sender_id ∧
      ((start_life now s id msg).2.storage.getw id).msg = none ∧
      ((start_life now s id msg).2.storage.getw id).msglen = 0 ∧
      ((start_life now s id msg).2.storage.thead timo_t.timo_expire).last = some id ∧
      ((start_life now s id msg).2.storage.link id timo_t.timo_expire).due =
        min (now + timeout_interval) UINT64_MAX ∧
      ((start_life now s id msg).2.storage.thead timo_t.timo_wakeup).last = some id ∧
      ((start_life now s id msg).2.storage.link id timo_t.timo_wakeup).due =
        (now + keepalive_interval) % 2 ^ 64 ∧
      (now + keepalive_interval < 2 ^ 64 →
        ((start_life now s id msg).2.storage.link id timo_t.timo_wakeup).due =
          now + keepalive_interval) ∧
      ((wireup_transition cb_ret (start_life now s id msg).2 id
        (start_life now s id msg).1).storage.getw id).state = wire_state_t.LIVE ∧
      (wireup_transition cb_ret (start_life now s id msg).2 id (start_life now s id msg).1).trace =
        s.trace ++
          (match (s.storage.getw id).cb with
          | none => []
          | some fn =>
            [ext_call.cb fn
              { event := wire_event_t.wire_ev_estd, ep := some ep,
                sender_id := some msg.sender_id }
              (s.storage.getw id).cb_arg]) ∧
      ∀ e : env_t, id < SENDER_ID_MAX → e.cb_ret = cb_ret →
        wireup_msg_transition e now s id msg =
          wireup_transition cb_ret (start_life now s id msg).2 id (start_life now s id msg).1 := by
  have hdisp : ∀ e : env_t, id < SENDER_ID_MAX → e.cb_ret = cb_ret →
      wireup_msg_transition e now s id msg =
        wireup_transition cb_ret (start_life now s id msg).2 id (start_life now s id msg).1 := by
    intro e hmax hcr
    have h1 : ¬ id ≥ SENDER_ID_MAX := by omega
    have h2 : ¬ id ≥ s.storage.nwires := by omega
    unfold wireup_msg_transition
    simp only [if_neg h1, if_neg h2, hst, hcr]
    rfl
  revert hdisp
  have h3 : ¬ msg.sender_id ≥ SENDER_ID_MAX := by omega
  have h4 : ¬ msg.op = OP_STOP := by rw [hop]; decide
  have h5 : ¬ msg.op ≠ OP_ACK := fun hn => hn hop
  have h6 : ¬ msg.addrlen ≠ 0 := fun hn => hn hlen
  have hsl : start_life now s id msg = (wire_state_t.LIVE,
      { s with storage :=
        wiring_wakeup_put (wiring_wakeup_remove (wiring_expiration_put (wiring_expiration_remove
          (s.storage.setw id
            { (s.storage.getw id) with id := some msg.sender_id, msg := none, msglen := 0 }) id)
          id (gettimeout now now)) id) id ((now + keepalive_interval) % 2 ^ 64) }) := by
    unfold start_life
    rw [if_neg h3, if_neg h4, if_neg h5, if_neg h6]
  rw [hsl]
  simp only
  unfold wiring_wakeup_put wiring_wakeup_remove wiring_expiration_put wiring_expiration_remove
  intro hdisp
  have hc := ((((same_core_timeout_remove (s.storage.setw id
      { (s.storage.getw id) with id := some msg.sender_id, msg := none, msglen := 0 }) id
      timo_t.timo_expire).core_trans
    (same_core_timeout_put _ id timo_t.timo_expire (gettimeout now now))).core_trans
    (same_core_timeout_remove _ id timo_t.timo_wakeup)).core_trans
    (same_core_timeout_put _ id timo_t.timo_wakeup ((now + keepalive_interval) % 2 ^ 64)))
  have hw := hc.wires id
  rw [getw_setw, if_pos ⟨rfl, hid⟩] at hw
  have hn1 : id < (wiring_timeout_remove (s.storage.setw id
      { (s.storage.getw id) with id := some msg.sender_id, msg := none, msglen := 0 }) id
      timo_t.timo_expire).nwires := by
    rw [nwires_timeout_remove, nwires_setw]
    exact hid
  have hn3 : id < (wiring_timeout_remove (wiring_timeout_put (wiring_timeout_remove
      (s.storage.setw id
        { (s.storage.getw id) with id := some msg.sender_id, msg := none, msglen := 0 }) id
      timo_t.timo_expire) id timo_t.timo_expire (gettimeout now now)) id
      timo_t.timo_wakeup).nwires := by
    rw [nwires_timeout_remove, (same_core_timeout_put _ _ _ _).nwires]
    exact hn1
  have t1 := timeout_put_tail _ id timo_t.timo_expire (gettimeout now now) hn1
  have t2 := timeout_put_tail _ id timo_t.timo_wakeup ((now + keepalive_interval) % 2 ^ 64) hn3
  have hex : ∀ (st : wstorage_t) (k : Nat),
      (wiring_timeout_put (wiring_timeout_remove st id timo_t.timo_wakeup) id timo_t.timo_wakeup
        k).thead timo_t.timo_expire = st.thead timo_t.timo_expire ∧
      (wiring_timeout_put (wiring_timeout_remove st id timo_t.timo_wakeup) id timo_t.timo_wakeup
        k).link id timo_t.timo_expire = st.link id timo_t.timo_expire := by
    intro st k
    have a := timeout_put_other (wiring_timeout_remove st id timo_t.timo_wakeup) id
      timo_t.timo_wakeup timo_t.timo_expire k (by decide) id
    have b := timeout_remove_other st id timo_t.timo_wakeup timo_t.timo_expire (by decide) id
    exact ⟨a.1.trans b.1, a.2.trans b.2⟩
  obtain ⟨w1, w2, w3, w4, w5, w6, w7, -⟩ := core_eq_fields _ _ hw
  simp only at w1 w2 w3 w4 w5 w6 w7
  refine ⟨trivial, w2, w3, w4, ?_, ?_, t2.1, t2.2, ?_, ?_, ?_, hdisp⟩
  · rw [(hex _ _).1]
    exact t1.1
  · rw [(hex _ _).2, t1.2]
    exact gettimeout_saturates now
  · intro hlt
    rw [t2.2]
    exact Nat.mod_eq_of_lt hlt
  · exact state_wireup_transition _ _ _ _ (by
      show id < (wiring_timeout_put _ _ _ _).nwires
      rw [(same_core_timeout_put _ _ _ _).nwires]
      exact hn3)
  · rw [trace_wireup_transition]
    have hne : ((wiring_timeout_put (wiring_timeout_remove (wiring_timeout_put
        (wiring_timeout_remove (s.storage.setw id
          { (s.storage.getw id) with id := some msg.sender_id, msg := none, msglen := 0 }) id
        timo_t.timo_expire) id timo_t.timo_expire (gettimeout now now)) id timo_t.timo_wakeup)
        id timo_t.timo_wakeup ((now + keepalive_interval) % 2 ^ 64)).getw id).state ≠
        wire_state_t.LIVE := by
      rw [w1, hst]
      decide
    show s.trace ++ (wireup_storage_transition cb_ret _ id wire_state_t.LIVE).2.toList = _
    rw [storage_transition_live _ _ _ hne, w5, w6, w7, w2, hep]

theorem accept_set_ref (s : wiring_t) (p : ref_ptr) (r : wiring_ref_t) :
    (s.set_ref p r).accept_cb = s.accept_cb := by
  cases p <;> rfl

theorem accept_wireup_transition (cb_ret : Bool) (s : wiring_t) (id : Nat)
    (nstate : wire_state_t) : (wireup_transition cb_ret s id nstate).accept_cb = s.accept_cb := by
  unfold wireup_transition
  simp only
  split <;> rfl

theorem accept_free_request_get (s : wiring_t) (h : Option Nat) :
    (wiring_free_request_get h s).2.accept_cb = s.accept_cb := by
  unfold wiring_free_request_get
  split <;> rfl

theorem accept_request_settle (s : wiring_t) (req : Nat) (r : ucs_status_ptr_t) :
    (request_settle s req r).accept_cb = s.accept_cb := by
  cases r <;> rfl

theorem accept_finalize_wire (e : env_t) (s : wiring_t) (id : Nat) :
    (wiring_finalize_wire e s id).accept_cb = s.accept_cb := by
  have key : ∀ s1 : wiring_t, s1.accept_cb = s.accept_cb → ∀ ep : Nat,
      (match wiring_free_request_get e.header_alloc s1 with
        | (none, s2) => s2
        | (some req, s2) =>
          request_settle
            (({ s2 with storage := s2.storage.setw id { (s2.storage.getw id) with ep := none } } :
              wiring_t).log (ext_call.ep_close ep)) req e.nbx).accept_cb = s.accept_cb := by
    intro s1 h1 ep
    have h2 := accept_free_request_get s1 e.header_alloc
    rcases heq : wiring_free_request_get e.header_alloc s1 with ⟨_ | req, s2⟩
    all_goals rw [heq] at h2
    all_goals simp only at h2 ⊢
    · exact h2.trans h1
    · rw [accept_request_settle]
      exact h2.trans h1
  rcases hmsg : (s.storage.getw id).msg with _ | m <;>
    rcases hep : (s.storage.getw id).ep with _ | ep
  · simp only [wiring_finalize_wire, hmsg, hep]
  · simp only [wiring_finalize_wire, hmsg, hep]
    refine key _ ?_ ep
    rfl
  · simp only [wiring_finalize_wire, hmsg, hep]
  · simp only [wiring_finalize_wire, hmsg, hep]
    refine key _ ?_ ep
    rfl

theorem accept_closed_step (e : env_t) (s : wiring_t) (id : Nat) :
    (closed_step e s id).accept_cb = s.accept_cb := by
  show (wireup_transition e.cb_ret (wiring_finalize_wire e s id) id wire_state_t.FREE).accept_cb = _
  rw [accept_wireup_transition, accept_finalize_wire]

theorem accept_reclaim_bin_refs (epoch last_epoch : Nat) :
    ∀ (fuel : Nat) (s : wiring_t) (r : Bool × wiring_t),
      reclaim_bin_refs fuel s epoch last_epoch = some r → r.2.accept_cb = s.accept_cb := by
  intro fuel
  induction fuel with
  | zero => intro s r h; simp [reclaim_bin_refs] at h
  | succ k ih =>
    intro s r h
    unfold reclaim_bin_refs at h
    simp only at h
    split at h
    · simp only [Option.some.injEq] at h
      subst h
      rfl
    · split at h
      · simp only [Option.some.injEq] at h
        subst h
        rfl
      · split at h
        · have h1 := ih _ _ h
          exact h1
        · have h1 := ih _ _ h
          rw [h1]
          show (wiring_t.set_ref _ _ _).accept_cb = _
          rw [accept_set_ref]
          rfl

theorem accept_reclaim_bin_closed (fenv : Nat → env_t) :
    ∀ (fuel : Nat) (s : wiring_t) (p : sender_id_t) (r : Bool × wiring_t),
      reclaim_bin_closed fuel fenv s p = some r → r.2.accept_cb = s.accept_cb := by
  intro fuel
  induction fuel with
  | zero => intro s p r h; simp [reclaim_bin_closed] at h
  | succ k ih =>
    intro s p r h
    cases p with
    | none =>
      simp only [reclaim_bin_closed, Option.some.injEq] at h
      subst h
      rfl
    | some id =>
      rw [reclaim_bin_closed_succ] at h
      split at h
      · cases h
      · rename_i r1 hr1
        simp only [Option.some.injEq] at h
        subst h
        exact (ih _ _ r1 hr1).trans (accept_closed_step _ _ _)

theorem accept_reclaim_bin_for_epoch (fuel : Nat) (fenv : Nat → env_t) (s : wiring_t)
    (epoch last_epoch : Nat) (r : Bool × Bool × wiring_t)
    (h : wiring_reclaim_bin_for_epoch fuel fenv s epoch last_epoch = some r) :
    r.2.2.accept_cb = s.accept_cb := by
  unfold wiring_reclaim_bin_for_epoch at h
  split at h
  · cases h
  · rename_i s1 h1
    simp only [Option.some.injEq] at h
    subst h
    exact accept_reclaim_bin_refs epoch last_epoch fuel s _ h1
  · rename_i s1 h1
    have hr := accept_reclaim_bin_refs epoch last_epoch fuel s _ h1
    split at h
    · cases h
    · rename_i progress s2 h2
      simp only [Option.some.injEq] at h
      subst h
      exact (accept_reclaim_bin_closed fenv fuel s1 _ _ h2).trans hr

theorem accept_reclaim_epochs (fuel : Nat) (fenv : Nat → env_t) :
    ∀ (k : Nat) (s : wiring_t) (epoch last : Nat) (r : Nat × Bool × wiring_t),
      reclaim_epochs fuel fenv k s epoch last = some r → r.2.2.accept_cb = s.accept_cb := by
  intro k
  induction k with
  | zero => intro s epoch last r h; simp [reclaim_epochs] at h
  | succ k ih =>
    intro s epoch last r h
    unfold reclaim_epochs at h
    split at h
    · simp only [Option.some.injEq] at h
      subst h
      rfl
    · split at h
      · cases h
      · rename_i progress s1 h1
        simp only [Option.some.injEq] at h
        subst h
        exact accept_reclaim_bin_for_epoch fuel fenv s epoch last _ h1
      · rename_i progress s1 h1
        have g := accept_reclaim_bin_for_epoch fuel fenv s epoch last _ h1
        split at h
        · cases h
        · rename_i e progress1 s2 h2
          simp only [Option.some.injEq] at h
          subst h
          exact (ih _ _ _ _ h2).trans g

theorem accept_wiring_reclaim (fuel : Nat) (fenv : Nat → env_t) (s : wiring_t) (finalize : Bool)
    (r : Bool × Bool × wiring_t) (h : wiring_reclaim fuel fenv s finalize = some r) :
    r.2.2.accept_cb = s.accept_cb := by
  unfold wiring_reclaim at h
  simp only at h
  split at h
  · simp only [Option.some.injEq] at h
    subst h
    rfl
  · split at h
    · cases h
    · rename_i epoch progress s1 h1
      have g1 := accept_reclaim_epochs fuel fenv _ _ _ _ _ h1
      split at h
      · simp only [Option.some.injEq] at h
        subst h
        exact g1
      · split at h
        · simp only [Option.some.injEq] at h
          subst h
          exact g1
        · split at h
          · cases h
          · rename_i r3 p3 s3 h3
            simp only [Option.some.injEq] at h
            subst h
            exact (accept_reclaim_bin_for_epoch fuel fenv _ _ _ _ h3).trans g1

theorem accept_garbage_make_room (fuel : Nat) (fenv : Nat → env_t) :
    ∀ (k : Nat) (s s' : wiring_t), garbage_make_room fuel fenv k s = some s' →
      s'.accept_cb = s.accept_cb := by
  intro k
  induction k with
  | zero => intro s s' h; simp [garbage_make_room] at h
  | succ k ih =>
    intro s s' h
    unfold garbage_make_room at h
    split at h
    · split at h
      · cases h
      · rename_i r hr
        exact (ih _ _ h).trans (accept_wiring_reclaim fuel fenv s false r hr)
    · simp only [Option.some.injEq] at h
      subst h
      rfl

theorem accept_garbage_add (fuel : Nat) (fenv : Nat → env_t) (s s' : wiring_t)
    (storage : wstorage_t) (assoc : List Ptr)
    (h : wiring_garbage_add fuel fenv s storage assoc = some s') :
    s'.accept_cb = s.accept_cb := by
  unfold wiring_garbage_add at h
  split at h
  · cases h
  · rename_i s1 h1
    simp only [Option.some.injEq] at h
    subst h
    have h2 := accept_garbage_make_room fuel fenv _ _ _ h1
    exact h2

theorem accept_wiring_enlarge (L : layout_t) (fuel : Nat) (e : env_t) (fenv : Nat → env_t)
    (s : wiring_t) (r : Bool × wiring_t) (h : wiring_enlarge L fuel e fenv s = some r) :
    r.2.accept_cb = s.accept_cb := by
  unfold wiring_enlarge at h
  simp only at h
  split at h
  · cases h; rfl
  · split at h
    · cases h; rfl
    · split at h
      · cases h; rfl
      · split at h
        · cases h
        · rename_i s2 h2
          cases h
          have h3 := accept_garbage_add fuel fenv _ _ _ _ h2
          exact h3

theorem accept_acquire_slot (L : layout_t) (fuel : Nat) (e : env_t) (fenv : Nat → env_t)
    (s : wiring_t) (r : sender_id_t × wiring_t) (h : acquire_slot L fuel e fenv s = some r) :
    r.2.accept_cb = s.accept_cb := by
  unfold acquire_slot at h
  split at h
  · cases h; rfl
  · split at h
    · cases h
    · rename_i s1 h1
      cases h
      exact accept_wiring_enlarge L fuel e fenv s _ h1
    · rename_i s1 h1
      cases h
      exact accept_wiring_enlarge L fuel e fenv s _ h1

theorem wireup_respond_some (L : layout_t) (fuel : Nat) (e : env_t) (fenv : Nat → env_t)
    (now : Nat) (s : wiring_t) (rid : Nat) (raddr : List Nat) (id : Nat) (s' : wiring_t)
    (h : wireup_respond L fuel e fenv now s rid raddr = some (some id, s')) :
    ∃ ep s1 req s4, acquire_slot L fuel e fenv s = some (some id, s1) ∧
      e.ep_create = some ep ∧
      wiring_free_request_get e.header_alloc (respond_install now s1 id ep rid) =
        (some req, s4) ∧
      s' = respond_accept e
        (request_settle
          (s4.log (ext_call.tag_send (some ep)
            { op := OP_ACK, sender_id := id, addrlen := 0, addr := [] } WIREUP_MSG_HDRLEN
            (tx_tag.peer (some rid)))) req e.nbx) id rid ep := by
  unfold wireup_respond at h
  split at h
  · simp at h
  · split at h
    · cases h
    · simp at h
    · rename_i id1 s1 hacq
      simp only at h
      split at h
      · simp at h
      · rename_i ep hep
        split at h
        · simp at h
        · rename_i req s4 hreq
          split at h
          · simp at h
          · rename_i r hr
            split at h <;> rename_i hac <;> simp only [Option.some.injEq, Prod.mk.injEq] at h <;>
              obtain ⟨h1, h2⟩ := h <;> subst h1 <;> subst h2 <;>
              refine ⟨ep, s1, req, s4, hacq, hep, hreq, ?_⟩ <;>
              simp only [respond_accept, hac]

theorem trace_free_request_get (s : wiring_t) (h : Option Nat) :
    (wiring_free_request_get h s).2.trace = s.trace := by
  unfold wiring_free_request_get
  split <;> rfl

theorem trace_request_settle (s : wiring_t) (req : Nat) (r : ucs_status_ptr_t) :
    (request_settle s req r).trace = s.trace := by
  cases r <;> rfl

theorem respond_install_spec (now : Nat) (s1 : wiring_t) (id ep rid : Nat)
    (hid : id < s1.storage.nwires) :
    (respond_install now s1 id ep rid).storage.nwires = s1.storage.nwires ∧
      ((respond_install now s1 id ep rid).storage.getw id).core =
        { wire_zero with
          ep := some ep, id := some rid, state := wire_state_t.LIVE
          tlink_expire := default, tlink_wakeup := default } ∧
      ((respond_install now s1 id ep rid).storage.thead timo_t.timo_expire).last = some id ∧
      ((respond_install now s1 id ep rid).storage.link id timo_t.timo_expire).due =
        gettimeout now now ∧
      ((respond_install now s1 id ep rid).storage.thead timo_t.timo_wakeup).last = some id ∧
      ((respond_install now s1 id ep rid).storage.link id timo_t.timo_wakeup).due =
        (now + keepalive_interval) % 2 ^ 64 ∧
      (respond_install now s1 id ep rid).assoc = s1.assoc ∧
      (respond_install now s1 id ep rid).accept_cb = s1.accept_cb ∧
      (respond_install now s1 id ep rid).trace = s1.trace ++ [ext_call.ep_create ep] := by
  unfold respond_install
  simp only [storage_log]
  generalize hW : ({ wire_zero with
      ep := some ep, id := some rid, state := wire_state_t.LIVE } : wire_t) = W
  have hn0 : (s1.storage.setw id W).nwires = s1.storage.nwires := nwires_setw _ _ _
  have c1 := same_core_timeout_put (s1.storage.setw id W) id timo_t.timo_expire
    (gettimeout now now)
  have hid1 : id < (wiring_expiration_put (s1.storage.setw id W) id (gettimeout now now)).nwires := by
    unfold wiring_expiration_put
    rw [c1.nwires, hn0]
    exact hid
  have c2 := same_core_timeout_put
    (wiring_expiration_put (s1.storage.setw id W) id (gettimeout now now)) id
    timo_t.timo_wakeup ((now + keepalive_interval) % 2 ^ 64)
  have t1 := timeout_put_tail (s1.storage.setw id W) id timo_t.timo_expire (gettimeout now now)
    (by rw [hn0]; exact hid)
  have t2 := timeout_put_tail
    (wiring_expiration_put (s1.storage.setw id W) id (gettimeout now now)) id
    timo_t.timo_wakeup ((now + keepalive_interval) % 2 ^ 64) hid1
  have o2 := timeout_put_other
    (wiring_expiration_put (s1.storage.setw id W) id (gettimeout now now)) id
    timo_t.timo_wakeup timo_t.timo_expire ((now + keepalive_interval) % 2 ^ 64) (by decide) id
  refine ⟨?_, ?_, ?_, ?_, t2.1, t2.2, rfl, rfl, rfl⟩
  · unfold wiring_wakeup_put
    rw [c2.nwires]
    unfold wiring_expiration_put
    rw [c1.nwires, hn0]
  · unfold wiring_wakeup_put
    rw [c2.wires id]
    unfold wiring_expiration_put
    rw [c1.wires id, getw_setw, if_pos ⟨rfl, hid⟩, ← hW]
    rfl
  · unfold wiring_wakeup_put
    rw [o2.1]
    exact t1.1
  · unfold wiring_wakeup_put
    rw [o2.2]
    exact t1.2

theorem respond_accept_spec (e : env_t) (s6 : wiring_t) (id rid ep : Nat)
    (hid : id < s6.storage.nwires) (hlen : id < s6.assoc.length) :
    (respond_accept e s6 id rid ep).storage.nwires = s6.storage.nwires ∧
      (∀ which, (respond_accept e s6 id rid ep).storage.thead which = s6.storage.thead which) ∧
      (∀ which, (respond_accept e s6 id rid ep).storage.link id which =
        s6.storage.link id which) ∧
      ((respond_accept e s6 id rid ep).storage.getw id).state = (s6.storage.getw id).state ∧
      ((respond_accept e s6 id rid ep).storage.getw id).ep = (s6.storage.getw id).ep ∧
      ((respond_accept e s6 id rid ep).storage.getw id).id = (s6.storage.getw id).id ∧
      (respond_accept e s6 id rid ep).trace =
        s6.trace ++ (match s6.accept_cb with
          | none => []
          | some fn => [ext_call.accept fn id rid ep]) ∧
      ∀ fn, s6.accept_cb = some fn →
        (respond_accept e s6 id rid ep).assoc.getD id Ptr.null = e.accept_data := by
  rcases hac : s6.accept_cb with _ | fn
  · simp only [respond_accept, hac]
    simp
  · simp only [respond_accept, hac, storage_log, assoc_log]
    refine ⟨nwires_setw _ _ _, fun which => thead_setw _ _ _ _, ?_, ?_, ?_, ?_, ?_, ?_⟩
    · intro which
      unfold wstorage_t.link
      rw [getw_setw, if_pos ⟨rfl, hid⟩]
      cases which <;> rfl
    · rw [getw_setw, if_pos ⟨rfl, hid⟩]
    · rw [getw_setw, if_pos ⟨rfl, hid⟩]
    · rw [getw_setw, if_pos ⟨rfl, hid⟩]
    · rfl
    · intro fn2 _
      simp only [List.getD_eq_getElem?_getD]
      rw [List.getElem?_set_self hlen]
      rfl

theorem free_request_get_some (h : Option Nat) (s : wiring_t)
    (hreq : s.req_free ≠ [] ∨ h ≠ none) : (wiring_free_request_get h s).1 ≠ none := by
  unfold wiring_free_request_get
  rcases hf : s.req_free with _ | ⟨r, rest⟩
  · rcases hreq with h1 | h1
    · exact absurd hf h1
    · exact h1
  · simp

/-- When every step succeeds `wireup_respond` returns the wire. -/
theorem wireup_respond_returns (L : layout_t) (fuel : Nat) (e : env_t) (fenv : Nat → env_t)
    (now : Nat) (s : wiring_t) (rid : Nat) (raddr : List Nat) (id ep : Nat) (s1 : wiring_t)
    (hz : e.zalloc_ok = true) (hacq : acquire_slot L fuel e fenv s = some (some id, s1))
    (hep : e.ep_create = some ep) (hreq : s1.req_free ≠ [] ∨ e.header_alloc ≠ none)
    (hnbx : e.nbx ≠ ucs_status_ptr_t.err) :
    ∃ s', wireup_respond L fuel e fenv now s rid raddr = some (some id, s') := by
  have hne := free_request_get_some e.header_alloc (respond_install now s1 id ep rid) hreq
  unfold wireup_respond
  simp only [hz, Bool.not_true, Bool.false_eq_true, if_false, hacq, hep]
  split
  · rename_i s4 heq
    exact absurd (congrArg Prod.fst heq) hne
  · rcases hn : e.nbx with _ | _ | _
    · exact absurd hn hnbx
    · split <;> exact ⟨_, rfl⟩
    · split <;> exact ⟨_, rfl⟩

/-- The wire a successful `wireup_respond` returns: its slot, its members,
its dues, the calls made and the association. -/
theorem wireup_respond_fields (L : layout_t) (fuel : Nat) (e : env_t) (fenv : Nat → env_t)
    (now : Nat) (s : wiring_t) (rid : Nat) (raddr : List Nat) (id ep : Nat) (s1 : wiring_t)
    (hok : ids_ok s) (hz : e.zalloc_ok = true)
    (hacq : acquire_slot L fuel e fenv s = some (some id, s1))
    (hep : e.ep_create = some ep) (hreq : s1.req_free ≠ [] ∨ e.header_alloc ≠ none)
    (hnbx : e.nbx ≠ ucs_status_ptr_t.err) :
    (s.storage.first_free = some id ∨
        (s.storage.first_free = none ∧ ∃ s2, wiring_enlarge L fuel e fenv s = some (true, s2) ∧
          s2.storage.first_free = some id)) ∧
      ∃ s', wireup_respond L fuel e fenv now s rid raddr = some (some id, s') ∧
        id < s'.storage.nwires ∧
        (s'.storage.getw id).state = wire_state_t.LIVE ∧
        (s'.storage.getw id).ep = some ep ∧
        (s'.storage.getw id).id = some rid ∧
        (s'.storage.thead timo_t.timo_expire).last = some id ∧
        (s'.storage.link id timo_t.timo_expire).due = min (now + timeout_interval) UINT64_MAX ∧
        (s'.storage.thead timo_t.timo_wakeup).last = some id ∧
        (s'.storage.link id timo_t.timo_wakeup).due = (now + keepalive_interval) % 2 ^ 64 ∧
        (now + keepalive_interval < 2 ^ 64 →
          (s'.storage.link id timo_t.timo_wakeup).due = now + keepalive_interval) ∧
        s'.trace = s1.trace ++
          [ext_call.ep_create ep,
            ext_call.tag_send (some ep)
              { op := OP_ACK, sender_id := id, addrlen := 0, addr := [] } WIREUP_MSG_HDRLEN
              (tx_tag.peer (some rid))] ++
          (match s.accept_cb with
            | none => []
            | some fn => [ext_call.accept fn id rid ep]) ∧
        (∀ fn, s.accept_cb = some fn → s'.assoc.getD id Ptr.null = e.accept_data) ∧
        ∀ msg : wireup_msg_t, msg.addrlen ≠ 0 → msg.sender_id < SENDER_ID_MAX →
          msg.sender_id = rid → msg.addr = raddr →
          wireup_rx_req L fuel e fenv now s msg = some s' := by
  obtain ⟨s', h⟩ := wireup_respond_returns L fuel e fenv now s rid raddr id ep s1 hz hacq hep
    hreq hnbx
  have hrx : ∀ msg : wireup_msg_t, msg.addrlen ≠ 0 → msg.sender_id < SENDER_ID_MAX →
      msg.sender_id = rid → msg.addr = raddr →
      wireup_rx_req L fuel e fenv now s msg = some s' := by
    intro msg h1 h2 h3 h4
    unfold wireup_rx_req
    rw [if_neg h1, if_neg (by omega), h3, h4, h]
  obtain ⟨ep', s1', req, s4, hacq', hep', hreq', hs'⟩ :=
    wireup_respond_some L fuel e fenv now s rid raddr id s' h
  have e1 : ep' = ep := Option.some.inj (hep'.symm.trans hep)
  have e2 : s1' = s1 := by
    have := hacq'.symm.trans hacq
    simp only [Option.some.injEq, Prod.mk.injEq, true_and] at this
    exact this
  subst e1 e2
  clear hacq' hep'
  obtain ⟨hid, hal, _, hhead⟩ := acquire_slot_spec L fuel e fenv s s1' id hok hacq
  have hacc : s1'.accept_cb = s.accept_cb := accept_acquire_slot L fuel e fenv s _ hacq
  obtain ⟨i1, i2, i3, i4, i5, i6, i7, i8, i9⟩ := respond_install_spec now s1' id ep' rid hid
  have f1 := storage_free_request_get (respond_install now s1' id ep' rid) e.header_alloc
  have f2 := assoc_free_request_get (respond_install now s1' id ep' rid) e.header_alloc
  have f3 := accept_free_request_get (respond_install now s1' id ep' rid) e.header_alloc
  have f4 := trace_free_request_get (respond_install now s1' id ep' rid) e.header_alloc
  rw [hreq'] at f1 f2 f3 f4
  simp only at f1 f2 f3 f4
  generalize hs6 : request_settle
    (s4.log (ext_call.tag_send (some ep')
      { op := OP_ACK, sender_id := id, addrlen := 0, addr := [] } WIREUP_MSG_HDRLEN
      (tx_tag.peer (some rid)))) req e.nbx = s6 at hs'
  have g1 : s6.storage = (respond_install now s1' id ep' rid).storage := by
    rw [← hs6, storage_request_settle, storage_log, f1]
  have g2 : s6.assoc = s1'.assoc := by
    rw [← hs6, assoc_request_settle, assoc_log, f2, i7]
  have g3 : s6.accept_cb = s.accept_cb := by
    rw [← hs6, accept_request_settle]
    show s4.accept_cb = _
    rw [f3, i8, hacc]
  have g4 : s6.trace = s1'.trace ++ [ext_call.ep_create ep'] ++
      [ext_call.tag_send (some ep')
        { op := OP_ACK, sender_id := id, addrlen := 0, addr := [] } WIREUP_MSG_HDRLEN
        (tx_tag.peer (some rid))] := by
    rw [← hs6, trace_request_settle]
    show s4.trace ++ _ = _
    rw [f4, i9]
  obtain ⟨a1, a2, a3, a4, a5, a6, a7, a8⟩ := respond_accept_spec e s6 id rid ep'
    (by rw [g1, i1]; exact hid) (by rw [g2, hal]; exact hid)
  rw [← hs'] at a1 a2 a3 a4 a5 a6 a7 a8
  rw [g1] at a1 a2 a3 a4 a5 a6
  have w1 : ((respond_install now s1' id ep' rid).storage.getw id).state = wire_state_t.LIVE := by
    have := congrArg wire_t.state i2
    exact this
  have w2 : ((respond_install now s1' id ep' rid).storage.getw id).id = some rid := by
    have := congrArg wire_t.id i2
    exact this
  have w7 : ((respond_install now s1' id ep' rid).storage.getw id).ep = some ep' := by
    have := congrArg wire_t.ep i2
    exact this
  refine ⟨hhead, s', h, by rw [a1, i1]; exact hid, a4.trans w1, a5.trans w7, a6.trans w2,
    ?_, ?_, ?_, ?_, ?_, ?_, ?_, hrx⟩
  · rw [a2]
    exact i3
  · rw [a3, i4]
    exact gettimeout_saturates now
  · rw [a2]
    exact i5
  · rw [a3]
    exact i6
  · intro hlt
    rw [a3, i6]
    exact Nat.mod_eq_of_lt hlt
  · rw [a7, g4, g3]
    simp
  · intro fn hfn
    exact a8 fn (g3.trans hfn)

theorem trace_log (s : wiring_t) (c : ext_call) : s.trace <+: (s.log c).trace :=
  List.prefix_append _ _

theorem trace_set_ref (s : wiring_t) (p : ref_ptr) (r : wiring_ref_t) :
    (s.set_ref p r).trace = s.trace := by
  cases p <;> rfl

theorem trace_le_wireup_transition (cb_ret : Bool) (s : wiring_t) (id : Nat)
    (nstate : wire_state_t) : s.trace <+: (wireup_transition cb_ret s id nstate).trace := by
  rw [trace_wireup_transition]
  exact List.prefix_append _ _

theorem trace_le_finalize_wire (e : env_t) (s : wiring_t) (id : Nat) :
    s.trace <+: (wiring_finalize_wire e s id).trace := by
  have key : ∀ s1 : wiring_t, s1.trace = s.trace → ∀ ep : Nat,
      s.trace <+: (match wiring_free_request_get e.header_alloc s1 with
        | (none, s2) => s2
        | (some req, s2) =>
          request_settle
            (({ s2 with storage := s2.storage.setw id { (s2.storage.getw id) with ep := none } } :
              wiring_t).log (ext_call.ep_close ep)) req e.nbx).trace := by
    intro s1 h1 ep
    have h2 := trace_free_request_get s1 e.header_alloc
    rcases heq : wiring_free_request_get e.header_alloc s1 with ⟨_ | req, s2⟩
    all_goals rw [heq] at h2
    all_goals simp only at h2 ⊢
    · rw [h2, h1]
    · rw [trace_request_settle]
      show s.trace <+: s2.trace ++ _
      rw [h2, h1]
      exact List.prefix_append _ _
  rcases hmsg : (s.storage.getw id).msg with _ | m <;>
    rcases hep : (s.storage.getw id).ep with _ | ep
  · simp only [wiring_finalize_wire, hmsg, hep]
    exact List.prefix_refl _
  · simp only [wiring_finalize_wire, hmsg, hep]
    refine key _ ?_ ep
    rfl
  · simp only [wiring_finalize_wire, hmsg, hep]
    exact List.prefix_refl _
  · simp only [wiring_finalize_wire, hmsg, hep]
    refine key _ ?_ ep
    rfl

theorem trace_le_closed_step (e : env_t) (s : wiring_t) (id : Nat) :
    s.trace <+: (closed_step e s id).trace := by
  show s.trace <+:
    (wireup_transition e.cb_ret (wiring_finalize_wire e s id) id wire_state_t.FREE).trace
  exact (trace_le_finalize_wire e s id).trans (trace_le_wireup_transition _ _ _ _)

theorem trace_le_reclaim_bin_refs (epoch last_epoch : Nat) :
    ∀ (fuel : Nat) (s : wiring_t) (r : Bool × wiring_t),
      reclaim_bin_refs fuel s epoch last_epoch = some r → s.trace <+: r.2.trace := by
  intro fuel
  induction fuel with
  | zero => intro s r h; simp [reclaim_bin_refs] at h
  | succ k ih =>
    intro s r h
    unfold reclaim_bin_refs at h
    simp only at h
    split at h
    · simp only [Option.some.injEq] at h
      subst h
      exact List.prefix_refl _
    · split at h
      · simp only [Option.some.injEq] at h
        subst h
        exact List.prefix_refl _
      · split at h
        · have h1 := ih _ _ h
          exact (List.prefix_append _ _).trans h1
        · have h1 := ih _ _ h
          have h2 : ∀ (t : wiring_t) (p : ref_ptr) (x : wiring_ref_t) (i : Nat)
              (b : wiring_garbage_bin_t), ((t.set_ref p x).setbin i b).trace = t.trace := by
            intro t p x i b
            show (t.set_ref p x).trace = _
            exact trace_set_ref _ _ _
          rw [h2] at h1
          exact h1

theorem trace_le_reclaim_bin_closed (fenv : Nat → env_t) :
    ∀ (fuel : Nat) (s : wiring_t) (p : sender_id_t) (r : Bool × wiring_t),
      reclaim_bin_closed fuel fenv s p = some r → s.trace <+: r.2.trace := by
  intro fuel
  induction fuel with
  | zero => intro s p r h; simp [reclaim_bin_closed] at h
  | succ k ih =>
    intro s p r h
    cases p with
    | none =>
      simp only [reclaim_bin_closed, Option.some.injEq] at h
      subst h
      exact List.prefix_refl _
    | some id =>
      rw [reclaim_bin_closed_succ] at h
      split at h
      · cases h
      · rename_i r1 hr1
        simp only [Option.some.injEq] at h
        subst h
        exact (trace_le_closed_step _ _ _).trans (ih _ _ r1 hr1)

theorem trace_le_reclaim_bin_for_epoch (fuel : Nat) (fenv : Nat → env_t) (s : wiring_t)
    (epoch last_epoch : Nat) (r : Bool × Bool × wiring_t)
    (h : wiring_reclaim_bin_for_epoch fuel fenv s epoch last_epoch = some r) :
    s.trace <+: r.2.2.trace := by
  unfold wiring_reclaim_bin_for_epoch at h
  split at h
  · cases h
  · rename_i s1 h1
    simp only [Option.some.injEq] at h
    subst h
    exact trace_le_reclaim_bin_refs epoch last_epoch fuel s _ h1
  · rename_i s1 h1
    have hr := trace_le_reclaim_bin_refs epoch last_epoch fuel s _ h1
    split at h
    · cases h
    · rename_i progress s2 h2
      simp only [Option.some.injEq] at h
      subst h
      have h3 := trace_le_reclaim_bin_closed fenv fuel s1 _ _ h2
      exact hr.trans h3

theorem trace_le_reclaim_epochs (fuel : Nat) (fenv : Nat → env_t) :
    ∀ (k : Nat) (s : wiring_t) (epoch last : Nat) (r : Nat × Bool × wiring_t),
      reclaim_epochs fuel fenv k s epoch last = some r → s.trace <+: r.2.2.trace := by
  intro k
  induction k with
  | zero => intro s epoch last r h; simp [reclaim_epochs] at h
  | succ k ih =>
    intro s epoch last r h
    unfold reclaim_epochs at h
    split at h
    · simp only [Option.some.injEq] at h
      subst h
      exact List.prefix_refl _
    · split at h
      · cases h
      · rename_i progress s1 h1
        simp only [Option.some.injEq] at h
        subst h
        exact trace_le_reclaim_bin_for_epoch fuel fenv s epoch last _ h1
      · rename_i progress s1 h1
        have g := trace_le_reclaim_bin_for_epoch fuel fenv s epoch last _ h1
        split at h
        · cases h
        · rename_i e progress1 s2 h2
          simp only [Option.some.injEq] at h
          subst h
          have h3 := ih _ _ _ _ h2
          exact g.trans h3

theorem trace_le_wiring_reclaim (fuel : Nat) (fenv : Nat → env_t) (s : wiring_t)
    (finalize : Bool) (r : Bool × Bool × wiring_t)
    (h : wiring_reclaim fuel fenv s finalize = some r) : s.trace <+: r.2.2.trace := by
  unfold wiring_reclaim at h
  simp only at h
  split at h
  · simp only [Option.some.injEq] at h
    subst h
    exact List.prefix_refl _
  · split at h
    · cases h
    · rename_i epoch progress s1 h1
      have g1 := trace_le_reclaim_epochs fuel fenv _ _ _ _ _ h1
      split at h
      · simp only [Option.some.injEq] at h
        subst h
        exact g1
      · split at h
        · simp only [Option.some.injEq] at h
          subst h
          exact g1
        · split at h
          · cases h
          · rename_i r3 p3 s3 h3
            simp only [Option.some.injEq] at h
            subst h
            have g2 := trace_le_reclaim_bin_for_epoch fuel fenv _ _ _ _ h3
            exact g1.trans g2

theorem trace_le_garbage_make_room (fuel : Nat) (fenv : Nat → env_t) :
    ∀ (k : Nat) (s s' : wiring_t), garbage_make_room fuel fenv k s = some s' →
      s.trace <+: s'.trace := by
  intro k
  induction k with
  | zero => intro s s' h; simp [garbage_make_room] at h
  | succ k ih =>
    intro s s' h
    unfold garbage_make_room at h
    split at h
    · split at h
      · cases h
      · rename_i r hr
        exact (trace_le_wiring_reclaim fuel fenv s false r hr).trans (ih _ _ h)
    · simp only [Option.some.injEq] at h
      subst h
      exact List.prefix_refl _

theorem trace_le_garbage_add (fuel : Nat) (fenv : Nat → env_t) (s s' : wiring_t)
    (storage : wstorage_t) (assoc : List Ptr)
    (h : wiring_garbage_add fuel fenv s storage assoc = some s') : s.trace <+: s'.trace := by
  unfold wiring_garbage_add at h
  split at h
  · cases h
  · rename_i s1 h1
    simp only [Option.some.injEq] at h
    subst h
    have h2 := trace_le_garbage_make_room fuel fenv _ _ _ h1
    exact h2

theorem trace_le_wiring_enlarge (L : layout_t) (fuel : Nat) (e : env_t) (fenv : Nat → env_t)
    (s : wiring_t) (r : Bool × wiring_t) (h : wiring_enlarge L fuel e fenv s = some r) :
    s.trace <+: r.2.trace := by
  unfold wiring_enlarge at h
  simp only at h
  split at h
  · cases h; exact List.prefix_refl _
  · split at h
    · cases h; exact List.prefix_refl _
    · split at h
      · cases h; exact List.prefix_refl _
      · split at h
        · cases h
        · rename_i s2 h2
          cases h
          have h3 := trace_le_garbage_add fuel fenv _ _ _ _ h2
          exact h3

theorem trace_le_acquire_slot (L : layout_t) (fuel : Nat) (e : env_t) (fenv : Nat → env_t)
    (s : wiring_t) (r : sender_id_t × wiring_t) (h : acquire_slot L fuel e fenv s = some r) :
    s.trace <+: r.2.trace := by
  unfold acquire_slot at h
  split at h
  · cases h; exact List.prefix_refl _
  · split at h
    · cases h
    · rename_i s1 h1
      cases h
      exact trace_le_wiring_enlarge L fuel e fenv s _ h1
    · rename_i s1 h1
      cases h
      exact trace_le_wiring_enlarge L fuel e fenv s _ h1

theorem trace_close_wire (s : wiring_t) (id : Nat) : (wiring_close_wire s id).trace = s.trace :=
  rfl

theorem trace_le_wireup_send (e : env_t) (s : wiring_t) (id : Nat) :
    s.trace <+: (wireup_send e s id).2.trace := by
  unfold wireup_send
  have h2 := trace_free_request_get s e.header_alloc
  rcases heq : wiring_free_request_get e.header_alloc s with ⟨_ | req, s1⟩
  all_goals rw [heq] at h2
  all_goals simp only at h2 ⊢
  · rw [h2]
  · cases e.nbx <;> simp only <;> rw [← h2] <;> exact List.prefix_append _ _

theorem trace_le_retry (e : env_t) (now : Nat) (s : wiring_t) (id : Nat) :
    s.trace <+: (retry e now s id).2.trace := by
  unfold retry
  have h := trace_le_wireup_send e s id
  rcases heq : wireup_send e s id with ⟨_ | _, s1⟩
  all_goals rw [heq] at h
  all_goals exact h

theorem trace_le_send_keepalive (e : env_t) (now : Nat) (s : wiring_t) (id : Nat) :
    s.trace <+: (send_keepalive e now s id).2.trace := by
  unfold send_keepalive
  simp only
  split
  · exact List.prefix_refl _
  · have h2 := trace_free_request_get s e.header_alloc
    rcases heq : wiring_free_request_get e.header_alloc s with ⟨_ | req, s1⟩
    all_goals rw [heq] at h2
    all_goals simp only at h2 ⊢
    · rw [h2]
    · rw [trace_request_settle]
      rw [← h2]
      exact List.prefix_append _ _

theorem trace_le_state_wakeup (e : env_t) (now : Nat) (st : wire_state_t) (s : wiring_t)
    (id : Nat) : s.trace <+: (state_wakeup e now st s id).2.trace := by
  cases st
  · exact trace_le_retry e now s id
  · exact trace_le_send_keepalive e now s id
  · exact List.prefix_refl _
  · exact List.prefix_refl _

theorem trace_state_expire (st : wire_state_t) (s : wiring_t) (id : Nat) :
    (state_expire st s id).2.trace = s.trace := by
  cases st <;> rfl

theorem trace_start_life (now : Nat) (s : wiring_t) (id : Nat) (msg : wireup_msg_t) :
    (start_life now s id msg).2.trace = s.trace := by
  unfold start_life
  simp only
  split
  · rfl
  · split
    · rfl
    · split
      · rfl
      · split <;> rfl

theorem trace_continue_life (now : Nat) (s : wiring_t) (id : Nat) (msg : wireup_msg_t) :
    (continue_life now s id msg).2.trace = s.trace := by
  unfold continue_life
  simp only
  split
  · rfl
  · split
    · rfl
    · split
      · rfl
      · split
        · rfl
        · split <;> rfl

theorem trace_state_receive (now : Nat) (st : wire_state_t) (s : wiring_t) (id : Nat)
    (msg : wireup_msg_t) : (state_receive now st s id msg).2.trace = s.trace := by
  cases st
  · exact trace_start_life now s id msg
  · exact trace_continue_life now s id msg
  · rfl
  · rfl

theorem trace_le_wakeup_step (e : env_t) (now : Nat) (s : wiring_t) (id : Nat) :
    s.trace <+: (wakeup_step e now s id).trace := by
  unfold wakeup_step
  simp only
  refine List.IsPrefix.trans ?_ (trace_le_wireup_transition _ _ _ _)
  have h := trace_le_state_wakeup e now
    ((wiring_wakeup_remove s.storage id).getw id).state
    { s with storage := wiring_wakeup_remove s.storage id } id
  exact h

theorem trace_le_expire_step (e : env_t) (s : wiring_t) (id : Nat) :
    s.trace <+: (expire_step e s id).trace := by
  unfold expire_step
  simp only
  refine List.IsPrefix.trans ?_ (trace_le_wireup_transition _ _ _ _)
  rw [trace_state_expire]

theorem wakeup_transition_succ (fuel : Nat) (env : Nat → env_t) (now : Nat) (s : wiring_t)
    (id : Nat) (hhead : wiring_wakeup_peek s.storage = some id)
    (hdue : (s.storage.link id timo_t.timo_wakeup).due ≤ now) :
    wireup_wakeup_transition (fuel + 1) env now s =
      wireup_wakeup_transition fuel (fun k => env (k + 1)) now (wakeup_step (env 0) now s id) := by
  rw [wireup_wakeup_transition]
  simp only [hhead, if_neg (Nat.not_lt.mpr hdue)]
  rfl

theorem expire_transition_succ (fuel : Nat) (env : Nat → env_t) (now : Nat) (s : wiring_t)
    (id : Nat) (hhead : wiring_expiration_peek s.storage = some id)
    (hdue : (s.storage.link id timo_t.timo_expire).due ≤ now) :
    wireup_expire_transition (fuel + 1) env now s =
      match wireup_expire_transition fuel (fun k => env (k + 1)) now
          (expire_step (env 0) s id) with
      | none => none
      | some r1 => some (true, r1.2) := by
  rw [wireup_expire_transition]
  simp only [hhead, if_neg (Nat.not_lt.mpr hdue)]
  rfl

theorem trace_le_wakeup_transition :
    ∀ (fuel : Nat) (env : Nat → env_t) (now : Nat) (s s' : wiring_t),
      wireup_wakeup_transition fuel env now s = some s' → s.trace <+: s'.trace := by
  intro fuel
  induction fuel with
  | zero => intro env now s s' h; simp [wireup_wakeup_transition] at h
  | succ k ih =>
    intro env now s s' h
    rcases hhead : wiring_wakeup_peek s.storage with _ | id
    · simp only [wireup_wakeup_transition, hhead, Option.some.injEq] at h
      subst h
      exact List.prefix_refl _
    · by_cases hdue : (s.storage.link id timo_t.timo_wakeup).due ≤ now
      · rw [wakeup_transition_succ k env now s id hhead hdue] at h
        exact (trace_le_wakeup_step _ _ _ _).trans (ih _ _ _ _ h)
      · simp only [wireup_wakeup_transition, hhead, if_pos (Nat.not_le.mp hdue),
          Option.some.injEq] at h
        subst h
        exact List.prefix_refl _

theorem trace_le_expire_transition :
    ∀ (fuel : Nat) (env : Nat → env_t) (now : Nat) (s : wiring_t) (r : Bool × wiring_t),
      wireup_expire_transition fuel env now s = some r → s.trace <+: r.2.trace := by
  intro fuel
  induction fuel with
  | zero => intro env now s r h; simp [wireup_expire_transition] at h
  | succ k ih =>
    intro env now s r h
    rcases hhead : wiring_expiration_peek s.storage with _ | id
    · simp only [wireup_expire_transition, hhead, Option.some.injEq] at h
      subst h
      exact List.prefix_refl _
    · by_cases hdue : (s.storage.link id timo_t.timo_expire).due ≤ now
      · rw [expire_transition_succ k env now s id hhead hdue] at h
        split at h
        · cases h
        · rename_i r1 hr1
          simp only [Option.some.injEq] at h
          subst h
          have h3 := ih _ _ _ _ hr1
          exact (trace_le_expire_step _ _ _).trans h3
      · simp only [wireup_expire_transition, hhead, if_pos (Nat.not_le.mp hdue),
          Option.some.injEq] at h
        subst h
        exact List.prefix_refl _

theorem trace_requests_check_status (in_progress : Nat → Bool) (s : wiring_t) :
    (wiring_requests_check_status in_progress s).2.trace = s.trace := rfl

theorem trace_le_msg_transition (e : env_t) (now : Nat) (s : wiring_t) (proto_id : Nat)
    (msg : wireup_msg_t) : s.trace <+: (wireup_msg_transition e now s proto_id msg).trace := by
  unfold wireup_msg_transition
  split
  · exact List.prefix_refl _
  · split
    · exact List.prefix_refl _
    · simp only
      refine List.IsPrefix.trans ?_ (trace_le_wireup_transition _ _ _ _)
      rw [trace_state_receive]

theorem trace_le_respond_accept (e : env_t) (s6 : wiring_t) (id rid ep : Nat) :
    s6.trace <+: (respond_accept e s6 id rid ep).trace := by
  unfold respond_accept
  split
  · exact List.prefix_refl _
  · exact List.prefix_append _ _

theorem trace_le_wireup_respond (L : layout_t) (fuel : Nat) (e : env_t) (fenv : Nat → env_t)
    (now : Nat) (s : wiring_t) (rid : Nat) (raddr : List Nat) (r : Option Nat × wiring_t)
    (h : wireup_respond L fuel e fenv now s rid raddr = some r) : s.trace <+: r.2.trace := by
  rcases r with ⟨_ | id, s'⟩
  · unfold wireup_respond at h
    split at h
    · cases h
      exact List.prefix_refl _
    · split at h
      · cases h
      · rename_i s1 hacq
        cases h
        exact trace_le_acquire_slot L fuel e fenv s _ hacq
      · rename_i id1 s1 hacq
        have ha := trace_le_acquire_slot L fuel e fenv s _ hacq
        simp only at h ha
        split at h
        · cases h
          exact ha
        · rename_i ep hep
          have hf := trace_free_request_get (respond_install now s1 id1 ep rid) e.header_alloc
          have hi : (respond_install now s1 id1 ep rid).trace = s1.trace ++ [ext_call.ep_create ep] :=
            rfl
          split at h
          · rename_i s4 hreq
            have hreq' : wiring_free_request_get e.header_alloc
                (respond_install now s1 id1 ep rid) = (none, s4) := hreq
            rw [hreq'] at hf
            simp only at hf
            cases h
            rw [trace_close_wire, hf, hi]
            exact ha.trans (List.prefix_append _ _)
          · rename_i req s4 hreq
            have hreq' : wiring_free_request_get e.header_alloc
                (respond_install now s1 id1 ep rid) = (some req, s4) := hreq
            rw [hreq'] at hf
            simp only at hf
            split at h
            · cases h
              rw [trace_close_wire]
              show s.trace <+: s4.trace ++ _
              rw [hf, hi]
              exact ha.trans ((List.prefix_append _ _).trans (List.prefix_append _ _))
            · split at h <;> simp at h
  · obtain ⟨ep, s1, req, s4, hacq, hep, hreq, hs'⟩ :=
      wireup_respond_some L fuel e fenv now s rid raddr id s' h
    have ha := trace_le_acquire_slot L fuel e fenv s _ hacq
    have hf := trace_free_request_get (respond_install now s1 id ep rid) e.header_alloc
    rw [hreq] at hf
    simp only at hf ha
    have hi : (respond_install now s1 id ep rid).trace = s1.trace ++ [ext_call.ep_create ep] :=
      rfl
    show s.trace <+: s'.trace
    rw [hs']
    refine List.IsPrefix.trans ?_ (trace_le_respond_accept _ _ _ _ _)
    rw [trace_request_settle]
    show s.trace <+: s4.trace ++ _
    rw [hf, hi]
    exact ha.trans ((List.prefix_append _ _).trans (List.prefix_append _ _))

theorem trace_le_rx_req (L : layout_t) (fuel : Nat) (e : env_t) (fenv : Nat → env_t)
    (now : Nat) (s : wiring_t) (msg : wireup_msg_t) (s' : wiring_t)
    (h : wireup_rx_req L fuel e fenv now s msg = some s') : s.trace <+: s'.trace := by
  unfold wireup_rx_req at h
  split at h
  · cases h
    exact List.prefix_refl _
  · split at h
    · cases h
      exact List.prefix_refl _
    · split at h
      · cases h
      · rename_i r hr
        cases h
        exact trace_le_wireup_respond L fuel e fenv now s _ _ r hr

theorem trace_le_rx_msg (L : layout_t) (fuel : Nat) (e : env_t) (fenv : Nat → env_t)
    (now : Nat) (s : wiring_t) (proto_id : Nat) (buf : List Nat) (buflen : Nat) (s' : wiring_t)
    (h : wireup_rx_msg L fuel e fenv now s proto_id buf buflen = some s') :
    s.trace <+: s'.trace := by
  unfold wireup_rx_msg at h
  split at h
  · cases h
    exact List.prefix_refl _
  · split at h
    · exact trace_le_rx_req L fuel e fenv now s _ s' h
    · cases h
      exact trace_le_msg_transition _ _ _ _ _

theorem trace_le_once_locked (L : layout_t) (fuel : Nat) (E : once_env_t) (now : Nat)
    (s : wiring_t) (rdesc : Option rxdesc_t) (r : Int × wiring_t)
    (h : wireup_once_locked L fuel E now s rdesc = some r) :
    ∃ s1, wireup_wakeup_transition fuel E.wakeup now s = some s1 ∧ s1.trace <+: r.2.trace := by
  unfold wireup_once_locked at h
  split at h
  · cases h
  · rename_i s1 h1
    refine ⟨s1, h1, ?_⟩
    split at h
    · cases h
    · rename_i progress s2 h2
      have g2 := trace_le_expire_transition fuel E.expire now s1 _ h2
      simp only at h g2
      split at h
      · cases h
      · rename_i x progress1 s4 h4
        have g4 := trace_le_wiring_reclaim fuel E.finalize _ false _ h4
        simp only at g4
        rw [trace_requests_check_status] at g4
        split at h
        · cases h
          exact g2.trans g4
        · split at h
          · cases h
            exact g2.trans g4
          · split at h
            · cases h
            · rename_i s5 h5
              cases h
              exact (g2.trans g4).trans (trace_le_rx_msg L fuel E.rx E.finalize now s4 _ _ _ s5 h5)

theorem trace_le_once_loop (L : layout_t) (fuel : Nat) (now : Nat) :
    ∀ (k : Nat) (E : Nat → once_env_t) (s : wiring_t) (rdesc : Option rxdesc_t)
      (rx : List rxdesc_t) (progress : Bool) (r : Int × wiring_t),
      wireup_once_loop L fuel now k E s rdesc rx progress = some r →
      ∃ s1, wireup_wakeup_transition fuel (E 0).wakeup now s = some s1 ∧
        s1.trace <+: r.2.trace := by
  intro k
  induction k with
  | zero => intro E s rdesc rx progress r h; simp [wireup_once_loop] at h
  | succ k ih =>
    intro E s rdesc rx progress r h
    unfold wireup_once_loop at h
    split at h
    · cases h
    · rename_i ret s1 h1
      obtain ⟨t, ht, hpre⟩ := trace_le_once_locked L fuel (E 0) now s rdesc _ h1
      refine ⟨t, ht, ?_⟩
      simp only at hpre
      split at h
      · obtain ⟨t2, ht2, hpre2⟩ := ih _ _ _ _ _ _ h
        exact (hpre.trans (trace_le_wakeup_transition _ _ _ _ _ ht2)).trans hpre2
      · split at h
        · cases h
          exact hpre
        · cases h
          exact hpre

/-- The KEEPALIVE that `send_keepalive` sends for a LIVE wire is among the
calls of the round of the wakeup loop. -/
theorem wakeup_step_keepalive (e : env_t) (now : Nat) (s : wiring_t) (id : Nat)
    (hst : (s.storage.getw id).state = wire_state_t.LIVE) (hz : e.zalloc_ok = true)
    (hreq : s.req_free ≠ [] ∨ e.header_alloc ≠ none) :
    ext_call.tag_send (s.storage.getw id).ep
      { op := OP_KEEPALIVE, sender_id := id, addrlen := 0, addr := [] } WIREUP_MSG_HDRLEN
      (tx_tag.peer (s.storage.getw id).id) ∈ (wakeup_step e now s id).trace := by
  have hc := (same_core_timeout_remove s.storage id timo_t.timo_wakeup).wires id
  obtain ⟨c1, c2, -, -, -, -, c7, -⟩ := core_eq_fields _ _ hc
  unfold wakeup_step
  simp only
  refine (trace_le_wireup_transition _ _ _ _).subset ?_
  unfold wiring_wakeup_remove
  rw [c1, hst]
  show _ ∈ (send_keepalive e now _ id).2.trace
  unfold send_keepalive
  simp only [hz, Bool.not_true, Bool.false_eq_true, if_false]
  rw [c2, c7]
  rcases hf : s.req_free with _ | ⟨r, rest⟩
  · rcases hh : e.header_alloc with _ | r
    · rcases hreq with h | h
      · exact absurd hf h
      · exact absurd hh h
    · simp only [wiring_free_request_get, hf, hh, trace_request_settle]
      exact List.mem_append_right _ (List.mem_singleton.mpr rfl)
  · simp only [wiring_free_request_get, hf, trace_request_settle]
    exact List.mem_append_right _ (List.mem_singleton.mpr rfl)

/-- C20: `wireup_once` does not run the timers when the receive pool yields
no descriptor and `ready_to_progress` is clear. Wire 0 is LIVE and at the head
of the wakeup queue with due `keepalive_interval`; at that time its wakeup
handler would send a KEEPALIVE, but `wireup_once` returns 0 with the table and
the trace as they were. So it is for every wiring, at every time and however
often it is called: without a descriptor and with the flag clear,
`wireup_once` returns 0, the flag clear and the wiring it was given. -/
theorem wireup_once_skips_timers :
    wiring_wakeup_peek one_live_wire.storage = some 0 ∧
      (one_live_wire.storage.link 0 timo_t.timo_wakeup).due ≤ keepalive_interval ∧
      (one_live_wire.storage.getw 0).state = wire_state_t.LIVE ∧
      (wakeup_step env_ok keepalive_interval one_live_wire 0).trace =
        one_live_wire.trace ++
          [ext_call.tag_send (some 1)
            { op := OP_KEEPALIVE, sender_id := 0, addrlen := 0, addr := [] } WIREUP_MSG_HDRLEN
            (tx_tag.peer (some 0))] ∧
      (∃ s', wireup_once layout_example 8 (fun _ => once_env_ok) keepalive_interval one_live_wire
          [] false = some (0, false, s') ∧
        s'.storage = one_live_wire.storage ∧ s'.trace = one_live_wire.trace) ∧
      ∀ (L : layout_t) (fuel : Nat) (E : Nat → once_env_t) (now : Nat) (s : wiring_t),
        wireup_once L fuel E now s [] false = some (0, false, s) := by
  refine ⟨by decide, by decide, by decide, by decide, ⟨_, rfl, rfl, rfl⟩,
    fun _ _ _ _ _ => rfl⟩

/-- The gate of `wireup_once` and the timers behind it. When
`rxpool_next` yields no descriptor and `ready_to_progress` is clear,
`wireup_once` returns 0 and leaves the flag and the wiring as they were.
Otherwise it clears the flag and makes driver passes, the first on the wiring
as it is. In a pass, a wire at the head of the wakeup queue with `due <= now`
is removed and its wakeup handler and the transition are applied before the
drain goes on, and likewise for the expire queue of the wiring the wakeup
drain leaves. When the call returns, the calls of that first wakeup handler
are among the calls made: for a LIVE wire, when message memory and a request
are available, a KEEPALIVE to its peer. -/
theorem wireup_once_gate (L : layout_t) (fuel : Nat) (E : Nat → once_env_t) (now : Nat)
    (s : wiring_t) (rx : List rxdesc_t) (ready : Bool) (id : Nat)
    (hhead : wiring_wakeup_peek s.storage = some id)
    (hdue : (s.storage.link id timo_t.timo_wakeup).due ≤ now) :
    (rx = [] → ready = false →
        wireup_once L (fuel + 1) E now s rx ready = some (0, false, s)) ∧
      (rx ≠ [] ∨ ready = true →
        wireup_once L (fuel + 1) E now s rx ready =
          (wireup_once_loop L (fuel + 1) now (fuel + 1) E s rx.head? rx.tail false).map
            (fun r => (r.1, false, r.2)) ∧
        ∀ ret b s', wireup_once L (fuel + 1) E now s rx ready = some (ret, b, s') →
          b = false ∧
          (wakeup_step ((E 0).wakeup 0) now s id).trace <+: s'.trace ∧
          ((s.storage.getw id).state = wire_state_t.LIVE →
            ((E 0).wakeup 0).zalloc_ok = true →
            s.req_free ≠ [] ∨ ((E 0).wakeup 0).header_alloc ≠ none →
            ext_call.tag_send (s.storage.getw id).ep
              { op := OP_KEEPALIVE, sender_id := id, addrlen := 0, addr := [] }
              WIREUP_MSG_HDRLEN (tx_tag.peer (s.storage.getw id).id) ∈ s'.trace)) ∧
      wireup_wakeup_transition (fuel + 1) (E 0).wakeup now s =
        wireup_wakeup_transition fuel (fun k => (E 0).wakeup (k + 1)) now
          (wakeup_step ((E 0).wakeup 0) now s id) ∧
      ∀ (t : wiring_t) (j : Nat), wiring_expiration_peek t.storage = some j →
        (t.storage.link j timo_t.timo_expire).due ≤ now →
        wireup_expire_transition (fuel + 1) (E 0).expire now t =
          match wireup_expire_transition fuel (fun k => (E 0).expire (k + 1)) now
              (expire_step ((E 0).expire 0) t j) with
          | none => none
          | some r1 => some (true, r1.2) := by
  have hw := wakeup_transition_succ fuel (E 0).wakeup now s id hhead hdue
  refine ⟨?_, ?_, hw, fun t j h1 h2 => expire_transition_succ fuel _ now t j h1 h2⟩
  · intro h1 h2
    subst h1 h2
    rfl
  · intro hg
    have hng : ¬ (rx.head? = none ∧ ready = false) := by
      rintro ⟨h1, h2⟩
      rcases hg with h | h
      · exact h (List.head?_eq_none_iff.mp h1)
      · rw [h2] at h
        cases h
    have heq : wireup_once L (fuel + 1) E now s rx ready =
        (wireup_once_loop L (fuel + 1) now (fuel + 1) E s rx.head? rx.tail false).map
          (fun r => (r.1, false, r.2)) := by
      unfold wireup_once
      rw [if_neg hng]
      rcases wireup_once_loop L (fuel + 1) now (fuel + 1) E s rx.head? rx.tail false with
        _ | ⟨ret, s1⟩ <;> rfl
    refine ⟨heq, ?_⟩
    intro ret b s' hr
    rw [heq] at hr
    rcases hl : wireup_once_loop L (fuel + 1) now (fuel + 1) E s rx.head? rx.tail false with
      _ | ⟨ret1, s1⟩
    · rw [hl] at hr
      cases hr
    · rw [hl] at hr
      simp only [Option.map_some', Option.some.injEq, Prod.mk.injEq] at hr
      obtain ⟨-, hb, hs⟩ := hr
      subst hs
      obtain ⟨t, ht, hpre⟩ := trace_le_once_loop L (fuel + 1) now _ _ _ _ _ _ _ hl
      rw [hw] at ht
      have hpre2 := (trace_le_wakeup_transition _ _ _ _ _ ht).trans hpre
      refine ⟨hb.symm, hpre2, ?_⟩
      intro hst hz hreq
      exact hpre2.subset (wakeup_step_keepalive _ now s id hst hz hreq)

theorem wireup_once_gate_witness :
    ∃ s', wireup_once layout_example 8 (fun _ => once_env_ok) keepalive_interval one_live_wire
        [] true = some (0, false, s') ∧
      ext_call.tag_send (some 1)
        { op := OP_KEEPALIVE, sender_id := 0, addrlen := 0, addr := [] } WIREUP_MSG_HDRLEN
        (tx_tag.peer (some 0)) ∈ s'.trace :=
  have h := wireup_once_gate layout_example 7 (fun _ => once_env_ok) keepalive_interval
    one_live_wire [] true 0 (by decide) (by decide)
  ⟨_, rfl, ((h.2.1 (Or.inr rfl)).2 0 false _ rfl).2.2 (by decide) rfl (Or.inl (by decide))⟩

theorem ref_set_ref_sentinel (s : wiring_t) (r : wiring_ref_t) :
    (s.set_ref ref_ptr.sentinel r).ref ref_ptr.sentinel = r := rfl

/-- When the sentinel is the head of the bin under reclamation and of the bin
of `last_epoch`, and its `next` link designates the sentinel itself, the loop
over the references pops it and pushes it back for ever. -/
theorem reclaim_bin_refs_sentinel_spins (epoch last_epoch : Nat) :
    ∀ (fuel : Nat) (s : wiring_t), s.garbage_sched.bin.length = NBINS →
      (s.getbin (epoch % NBINS)).first_ref = ref_ptr.sentinel →
      (s.getbin (last_epoch % NBINS)).first_ref = ref_ptr.sentinel →
      s.sentinel.busy = false → s.sentinel.epoch ≠ UINT64_MAX →
      s.sentinel.next = ref_ptr.sentinel →
      reclaim_bin_refs fuel s epoch last_epoch = none := by
  intro fuel
  induction fuel with
  | zero => intro s _ _ _ _ _ _; rfl
  | succ k ih =>
    intro s hlen hfirst hlast hbusy hepoch hnext
    have he : epoch % NBINS < s.garbage_sched.bin.length := by
      rw [hlen]; exact Nat.mod_lt _ (by decide)
    have hl : last_epoch % NBINS < s.garbage_sched.bin.length := by
      rw [hlen]; exact Nat.mod_lt _ (by decide)
    have hsr : s.ref ref_ptr.sentinel = s.sentinel := rfl
    have hholds : wiring_ref_holds_epoch s.sentinel epoch = false := by
      simp [wiring_ref_holds_epoch, hbusy]
    unfold reclaim_bin_refs
    simp only [hfirst, reduceCtorEq, if_false, hsr, hholds, Bool.false_eq_true, ref_setbin,
      hepoch, hnext]
    apply ih
    · simpa [bin_length_setbin, bin_length_set_ref] using hlen
    · rw [getbin_setbin]
      split
      · rfl
      · rw [getbin_set_ref, getbin_setbin, if_pos ⟨rfl, he⟩]
    · rw [getbin_setbin, if_pos ⟨rfl, by simpa [bin_length_setbin, bin_length_set_ref] using hl⟩]
    · exact hbusy
    · exact hepoch
    · have key : ∀ b : wiring_garbage_bin_t, b.first_ref = ref_ptr.sentinel →
          ((s.setbin (epoch % NBINS) b).getbin (last_epoch % NBINS)).first_ref =
            ref_ptr.sentinel := by
        intro b hb
        rw [getbin_setbin]
        split
        · exact hb
        · exact hlast
      exact key _ rfl

/-- C25: reclamation does not end once bins are reused. No reference is ever
initialized and every call succeeds. After four growths and a driver pass
every bin's stack holds the sentinel; the pass after the fifth growth treats
the sentinel heading bin `4 % 4` as a reference and moves it onto bin
`5 % 4`, whose head is the sentinel, so that the sentinel's `next` designates
the sentinel itself; after the sixth growth (window `[5, 6)`, work available)
`wiring_reclaim` returns for no amount of fuel and no results of the calls it
makes. -/
theorem reclaim_spins_on_sentinel :
    ∃ s5 s6, five_growths = some s5 ∧ s5.sentinel.next = ref_ptr.sentinel ∧
      six_growths = some s6 ∧
      s6.garbage_sched.epoch_first = 5 ∧ s6.garbage_sched.epoch_last = 6 ∧
      s6.garbage_sched.work_available = 1 ∧
      (∀ i, (s6.ref (ref_ptr.user i)).busy = false) ∧
      ∀ (fuel : Nat) (fenv : Nat → env_t), wiring_reclaim fuel fenv s6 false = none := by
  refine ⟨_, _, rfl, ?_, rfl, ?_, ?_, ?_, ?_, ?_⟩
  · decide
  · decide
  · decide
  · decide
  · intro i
    rfl
  · intro fuel fenv
    apply wiring_reclaim_spins
    · decide
    · decide
    · intro f
      apply reclaim_bin_refs_sentinel_spins <;> decide

/-- With an empty epoch window, forced reclamation pops and pushes back for
ever a reference that is idle, not freed and alone on the stack of the
current bin. -/
theorem wiring_reclaim_finalize_spins (s : wiring_t) (n : Nat)
    (hw : s.garbage_sched.epoch_first = s.garbage_sched.epoch_last)
    (hlen : s.garbage_sched.epoch_last % NBINS < s.garbage_sched.bin.length)
    (hfirst : (s.getbin (s.garbage_sched.epoch_last % NBINS)).first_ref = ref_ptr.user n)
    (hbusy : (s.ref (ref_ptr.user n)).busy = false)
    (hepoch : (s.ref (ref_ptr.user n)).epoch ≠ UINT64_MAX)
    (hnext : (s.ref (ref_ptr.user n)).next = ref_ptr.null)
    (fuel : Nat) (fenv : Nat → env_t) : wiring_reclaim fuel fenv s true = none := by
  unfold wiring_reclaim
  simp only [Bool.not_true, Bool.false_and, Bool.false_eq_true, if_false]
  cases fuel with
  | zero => rfl
  | succ k =>
    have he : reclaim_epochs (k + 1) fenv (k + 1) s s.garbage_sched.epoch_first
        s.garbage_sched.epoch_last = some (s.garbage_sched.epoch_first, false, s) := by
      unfold reclaim_epochs
      rw [if_pos hw]
    rw [he]
    simp only [hw, Nat.lt_irrefl, if_false]
    unfold wiring_reclaim_bin_for_epoch
    have hsp : ∀ a b c : Nat,
        reclaim_bin_refs (k + 1)
          { s with garbage_sched := ⟨a, b, c, s.garbage_sched.bin⟩ } s.garbage_sched.epoch_last
          s.garbage_sched.epoch_last = none := by
      intro a b c
      exact reclaim_bin_refs_spins n _ _ rfl (k + 1) _ hlen hfirst hbusy hepoch hnext
    rw [hsp]

/-- C21: forced reclamation does not end when an idle reference is attached.
After `wiring_init` and `wiring_ref_init` of reference 0 the window is empty
and the reference is idle, not freed and the head of the stack of bin 0;
`wiring_reclaim` with `finalize = true`, as `wiring_teardown` calls it,
returns for no amount of fuel and no results of the calls it makes: the
reference is popped from bin `0 % 4` and pushed back on bin `0 % 4` for
ever. -/
theorem forced_reclaim_spins_on_idle_ref :
    idle_ref_wiring.garbage_sched.epoch_first = 0 ∧
      idle_ref_wiring.garbage_sched.epoch_last = 0 ∧
      (idle_ref_wiring.getbin 0).first_ref = ref_ptr.user 0 ∧
      (idle_ref_wiring.ref (ref_ptr.user 0)).busy = false ∧
      (idle_ref_wiring.ref (ref_ptr.user 0)).epoch = 0 ∧
      ∀ (fuel : Nat) (fenv : Nat → env_t),
        wiring_reclaim fuel fenv idle_ref_wiring true = none := by
  refine ⟨by decide, by decide, by decide, by decide, by decide, ?_⟩
  intro fuel fenv
  apply wiring_reclaim_finalize_spins idle_ref_wiring 0 <;> decide

/-- C22: `wiring_ref_init` on a reclaimed bin. After four growths and a driver
pass the window is `[4, 4)` and the head of the stack of bin `4 % 4` is the
sentinel; the memory of reference 0 holds a stored epoch of 77.
`wiring_ref_init` then attaches the reference to that bin on top of the
sentinel and leaves its stored epoch at 77 instead of `epoch.last = 4`. -/
theorem ref_init_attaches_to_reclaimed_bin :
    ∃ s s', reclaimed_window = some s ∧ ref_init_on_sentinel = some s' ∧
      s.garbage_sched.epoch_last = 4 ∧
      (s.getbin (4 % NBINS)).first_ref = ref_ptr.sentinel ∧
      (s.ref (ref_ptr.user 0)).epoch = 77 ∧
      s'.garbage_sched.epoch_last = 4 ∧
      (s'.getbin (4 % NBINS)).first_ref = ref_ptr.user 0 ∧
      (s'.ref (ref_ptr.user 0)).next = ref_ptr.sentinel ∧
      (s'.ref (ref_ptr.user 0)).epoch = 77 ∧
      (s'.ref (ref_ptr.user 0)).busy = false := by
  refine ⟨_, _, rfl, rfl, ?_, ?_, ?_, ?_, ?_, ?_, ?_, ?_⟩ <;> decide

/-- C26: a LIVE wire on a closing list. After `wiring_init` a REQ is received
and the transport refuses the send of the ACK: `wireup_respond` returns no
wire, and leaves wire 0 on the closing list of bin 0 in state LIVE. -/
theorem live_wire_on_closing_list :
    ∃ s, respond_send_fails = some (none, s) ∧
      (s.storage.getw 0).state = wire_state_t.LIVE ∧ closing_list s 0 = [0] := by
  refine ⟨_, rfl, ?_, ?_⟩ <;> decide

/-- C28: a message to a FREE slot. After `wiring_init` slot 0 is FREE and the
head of the free list; dispatching a KEEPALIVE whose tag selects slot 0 leaves
the slot in CLOSING, still on the free list and on no closing list. -/
theorem message_changes_free_slot :
    (wiring_example.storage.getw 0).state = wire_state_t.FREE ∧
      keepalive_example.op = OP_KEEPALIVE ∧ keepalive_example.addrlen = 0 ∧
      keepalive_example.sender_id < SENDER_ID_MAX ∧
      ((wireup_msg_transition env_ok 0 wiring_example 0 keepalive_example).storage.getw 0).state =
        wire_state_t.CLOSING ∧
      free_list (wireup_msg_transition env_ok 0 wiring_example 0 keepalive_example) = [0] ∧
      ∀ b, b < NBINS →
        closing_list (wireup_msg_transition env_ok 0 wiring_example 0 keepalive_example) b =
          [] := by
  decide

/-- C29: a keepalive that is not rearmed. Wire 0 is LIVE and at the head of
the wakeup queue with due `keepalive_interval`; in the wakeup drain at that
time `zalloc` fails in `send_keepalive`: the wire stays LIVE, nothing is sent,
and the wire is left off the wakeup queue, which is empty. -/
theorem keepalive_not_rearmed :
    (one_live_wire.storage.getw 0).state = wire_state_t.LIVE ∧
      wiring_wakeup_peek one_live_wire.storage = some 0 ∧
      (one_live_wire.storage.link 0 timo_t.timo_wakeup).due = keepalive_interval ∧
      ∃ s, wireup_wakeup_transition 8 (fun _ => env_no_memory) keepalive_interval one_live_wire =
          some s ∧
        (s.storage.getw 0).state = wire_state_t.LIVE ∧
        s.trace = one_live_wire.trace ∧
        wiring_wakeup_peek s.storage = none ∧
        s.storage.link 0 timo_t.timo_wakeup = { prev := some 0, next := some 0, due := 0 } := by
  refine ⟨by decide, by decide, by decide, _, rfl, ?_, ?_, ?_, ?_⟩ <;> decide

theorem testBit_bit_run (j k i : Nat) :
    (bit_run j k).testBit i = (decide (j ≤ i) && decide (i < j + k)) := by
  unfold bit_run
  rw [Nat.testBit_mul_pow_two, Nat.testBit_two_pow_sub_one]
  by_cases h : j ≤ i
  · simp [h]
    omega
  · simp [h]

theorem bit_run_pos (j k : Nat) (hk : 0 < k) : 2 ^ j ≤ bit_run j k := by
  unfold bit_run
  have : 1 ≤ 2 ^ k - 1 := by
    have := Nat.one_lt_two_pow (Nat.pos_iff_ne_zero.mp hk)
    omega
  calc 2 ^ j = 2 ^ j * 1 := (Nat.mul_one _).symm
    _ ≤ 2 ^ j * (2 ^ k - 1) := Nat.mul_le_mul_left _ this

theorem bit_run_lt (j k : Nat) : bit_run j k < 2 ^ (j + k) := by
  unfold bit_run
  rw [Nat.pow_add]
  apply Nat.mul_lt_mul_of_pos_left _ (Nat.two_pow_pos j)
  have := Nat.two_pow_pos k
  omega

theorem bit_run_pred (j k : Nat) (hk : 0 < k) :
    bit_run j k - 1 = 2 ^ (j + 1) * (2 ^ (k - 1) - 1) + (2 ^ j - 1) := by
  obtain ⟨k', rfl⟩ : ∃ k', k = k' + 1 := ⟨k - 1, by omega⟩
  unfold bit_run
  have h1 : 0 < 2 ^ j := Nat.two_pow_pos _
  have h2 : 0 < 2 ^ k' := Nat.two_pow_pos _
  simp only [Nat.add_sub_cancel, Nat.pow_succ]
  have e1 : 2 ^ j * (2 ^ k' * 2 - 1) = 2 ^ j * 2 ^ k' * 2 - 2 ^ j := by
    rw [Nat.mul_sub, Nat.mul_one, Nat.mul_assoc]
  have e2 : 2 ^ j * 2 * (2 ^ k' - 1) = 2 ^ j * 2 ^ k' * 2 - 2 ^ j * 2 := by
    rw [Nat.mul_sub, Nat.mul_one]
    congr 1
    ring
  rw [e1, e2]
  have h3 : 2 ^ j * 2 ≤ 2 ^ j * 2 ^ k' * 2 := by
    have : 2 ^ j * 1 ≤ 2 ^ j * 2 ^ k' := Nat.mul_le_mul_left _ h2
    omega
  omega

theorem lowest_set_bit_run (j k : Nat) (hk : 0 < k) (hjk : j + k ≤ 64) :
    LOWEST_SET_BIT (bit_run j k) = 2 ^ j := by
  have hpos := bit_run_pos j k hk
  have h1 : 0 < 2 ^ j := Nat.two_pow_pos _
  have hlt : bit_run j k < 2 ^ 64 :=
    Nat.lt_of_lt_of_le (bit_run_lt j k) (Nat.pow_le_pow_right (by decide) hjk)
  have hm : (bit_run j k + 2 ^ 64 - 1) % 2 ^ 64 = bit_run j k - 1 := by
    have : bit_run j k + 2 ^ 64 - 1 = (bit_run j k - 1) + 2 ^ 64 := by omega
    rw [this, Nat.add_mod_right]
    exact Nat.mod_eq_of_lt (by omega)
  unfold LOWEST_SET_BIT
  rw [hm]
  apply Nat.eq_of_testBit_eq
  intro i
  have hb : 2 ^ j - 1 < 2 ^ (j + 1) := by
    have : 2 ^ j < 2 ^ (j + 1) := Nat.pow_lt_pow_right (by decide) (by omega)
    omega
  rw [Nat.testBit_xor, Nat.testBit_and, bit_run_pred j k hk,
    Nat.testBit_mul_pow_two_add _ hb, testBit_bit_run, Nat.testBit_two_pow,
    Nat.testBit_two_pow_sub_one]
  by_cases h : i < j + 1
  · simp only [h, if_true, Nat.testBit_two_pow_sub_one]
    by_cases h2 : i < j
    · have : ¬ j ≤ i := by omega
      have : ¬ j = i := by omega
      simp [*]
    · have e : j = i := by omega
      subst e
      simp [hk]
  · simp only [h, if_false]
    have h3 : j ≤ i := by omega
    have h4 : ¬ j = i := by omega
    by_cases h5 : i < j + k
    · have : i - (j + 1) < k - 1 := by omega
      simp [*]
    · have : ¬ i - (j + 1) < k - 1 := by omega
      simp [*]

theorem shiftout_mask_run (j k : Nat) (hk : 0 < k) (hjk : j + k ≤ 64) :
    SHIFTOUT_MASK (bit_run j k) = 2 ^ k - 1 := by
  unfold SHIFTOUT_MASK SHIFTOUT
  rw [Nat.and_self, lowest_set_bit_run j k hk hjk]
  unfold bit_run
  exact Nat.mul_div_cancel_left _ (Nat.two_pow_pos j)

theorem shiftin_run (j k x : Nat) (hk : 0 < k) (hjk : j + k ≤ 64) (hx : x ≤ 2 ^ k - 1) :
    SHIFTIN x (bit_run j k) = 2 ^ j * x := by
  unfold SHIFTIN
  rw [lowest_set_bit_run j k hk hjk, Nat.mul_comm]
  apply Nat.mod_eq_of_lt
  have h1 : x < 2 ^ k := by
    have := Nat.two_pow_pos k
    omega
  calc 2 ^ j * x < 2 ^ j * 2 ^ k := Nat.mul_lt_mul_of_pos_left h1 (Nat.two_pow_pos j)
    _ = 2 ^ (j + k) := (Nat.pow_add 2 j k).symm
    _ ≤ 2 ^ 64 := Nat.pow_le_pow_right (by decide) hjk

theorem shifted_and_run (j k x : Nat) (hx : x ≤ 2 ^ k - 1) :
    2 ^ j * x &&& bit_run j k = 2 ^ j * x := by
  have h1 : x < 2 ^ k := by
    have := Nat.two_pow_pos k
    omega
  apply Nat.eq_of_testBit_eq
  intro i
  rw [Nat.testBit_and, testBit_bit_run, Nat.testBit_mul_pow_two]
  by_cases h : j ≤ i
  · by_cases h2 : i < j + k
    · simp [h, h2]
    · have h3 : x.testBit (i - j) = false := by
        apply Nat.testBit_lt_two_pow
        exact Nat.lt_of_lt_of_le h1 (Nat.pow_le_pow_right (by decide) (by omega))
      simp [h, h2, h3]
  · have : ¬ i ≥ j := h
    simp [h]

/-- C24: the tag round trip. For the mask of `k > 0` consecutive bits starting
at bit `j`, within 64 bits, and every `x <= SHIFTOUT_MASK(mask)`:
`SHIFTOUT(SHIFTIN(x, mask), mask) = x` and `SHIFTIN(x, mask)` has no bit
outside the mask. Consequently, when the channel mask has no bit in common
with the id mask and the channel value lies within the channel mask, the tag
`chnl | SHIFTIN(id, id_mask)` has channel field `chnl` and `TAG_GET_ID`
extracts `id` from it. -/
theorem tag_round_trip (j k x : Nat) (hk : 0 < k) (hjk : j + k ≤ 64)
    (hx : x ≤ SHIFTOUT_MASK (bit_run j k)) :
    SHIFTOUT (SHIFTIN x (bit_run j k)) (bit_run j k) = x ∧
      SHIFTIN x (bit_run j k) &&& bit_run j k = SHIFTIN x (bit_run j k) ∧
      ∀ chnl chnl_mask : Nat, chnl_mask &&& bit_run j k = 0 → chnl &&& chnl_mask = chnl →
        (chnl ||| SHIFTIN x (bit_run j k)) &&& chnl_mask = chnl ∧
        TAG_GET_ID (bit_run j k) (chnl ||| SHIFTIN x (bit_run j k)) = x := by
  rw [shiftout_mask_run j k hk hjk] at hx
  have hin := shiftin_run j k x hk hjk hx
  have hand := shifted_and_run j k x hx
  have hout : ∀ y, y &&& bit_run j k = 2 ^ j * x → SHIFTOUT y (bit_run j k) = x := by
    intro y hy
    unfold SHIFTOUT
    rw [hy, lowest_set_bit_run j k hk hjk]
    exact Nat.mul_div_cancel_left _ (Nat.two_pow_pos j)
  rw [hin]
  refine ⟨hout _ hand, hand, ?_⟩
  intro chnl chnl_mask hdis hch
  have h1 : chnl &&& bit_run j k = 0 := by
    rw [← hch, Nat.and_assoc, hdis, Nat.and_zero]
  have h2 : 2 ^ j * x &&& chnl_mask = 0 := by
    rw [← hand, Nat.and_assoc, Nat.and_comm (bit_run j k), hdis, Nat.and_zero]
  constructor
  · rw [Nat.and_comm, Nat.and_or_distrib_left, Nat.and_comm chnl_mask chnl, hch,
      Nat.and_comm chnl_mask, h2, Nat.or_zero]
  · unfold TAG_GET_ID
    apply hout
    rw [Nat.and_comm, Nat.and_or_distrib_left, Nat.and_comm _ chnl, h1, Nat.zero_or,
      Nat.and_comm, hand]

theorem tag_round_trip_witness :
    SHIFTOUT (SHIFTIN 5 (bit_run 3 4)) (bit_run 3 4) = 5 ∧
      TAG_GET_ID (bit_run 3 4) (bit_run 7 2 ||| SHIFTIN 5 (bit_run 3 4)) = 5 :=
  have h := tag_round_trip 3 4 5 (by decide) (by decide) (by decide)
  ⟨h.1, (h.2.2 (bit_run 7 2) (bit_run 7 2) (by decide) (by decide)).2⟩

theorem req_free_wireup_transition (cb_ret : Bool) (s : wiring_t) (id : Nat)
    (nstate : wire_state_t) : (wireup_transition cb_ret s id nstate).req_free = s.req_free := by
  unfold wireup_transition
  simp only
  split <;> rfl

theorem msg_storage_transition (cb_ret : Bool) (st : wstorage_t) (id : Nat)
    (nstate : wire_state_t) (i : Nat) :
    ((wireup_storage_transition cb_ret st id nstate).1.getw i).msg = (st.getw i).msg ∧
      ((wireup_storage_transition cb_ret st id nstate).1.getw i).msglen = (st.getw i).msglen := by
  have hg : ∀ w : wire_t, w.msg = (st.getw id).msg → w.msglen = (st.getw id).msglen →
      ((st.setw id w).getw i).msg = (st.getw i).msg ∧
      ((st.setw id w).getw i).msglen = (st.getw i).msglen := by
    intro w hw1 hw2
    rw [getw_setw]
    split
    · rename_i h
      rw [hw1, hw2, h.1]
      exact ⟨rfl, rfl⟩
    · exact ⟨rfl, rfl⟩
  rcases hcb : (st.getw id).cb with _ | fn
  · simp only [wireup_storage_transition, hcb]
    exact hg _ rfl rfl
  · by_cases hs : (st.getw id).state = nstate
    · simp only [wireup_storage_transition, hcb, hs, if_true]
      exact hg _ rfl rfl
    · cases nstate <;> cases cb_ret <;>
        simp only [wireup_storage_transition, hcb, hs, if_false] <;> exact hg _ rfl rfl

/-- No call is made for a transition to the state the wire is in. -/
theorem storage_transition_same_state (cb_ret : Bool) (st : wstorage_t) (id : Nat)
    (nstate : wire_state_t) (hs : (st.getw id).state = nstate) :
    (wireup_storage_transition cb_ret st id nstate).2 = none := by
  rcases hcb : (st.getw id).cb with _ | fn
  · simp [wireup_storage_transition, hcb]
  · simp [wireup_storage_transition, hcb, hs]

/-- The wiring after `wiring_close_wire` and the transition to CLOSING, for a
wire that was not CLOSING. -/
theorem close_then_closing (cb_ret : Bool) (t : wiring_t) (id : Nat)
    (hid : id < t.storage.nwires) (hbins : t.garbage_sched.bin.length = NBINS)
    (he : wiring_timeout_remove_assert t.storage id timo_t.timo_expire = true)
    (hw : wiring_timeout_remove_assert t.storage id timo_t.timo_wakeup = true)
    (hst : (t.storage.getw id).state ≠ wire_state_t.CLOSING) :
    ((wireup_transition cb_ret (wiring_close_wire t id) id wire_state_t.CLOSING).storage.getw
        id).state = wire_state_t.CLOSING ∧
      (∀ which,
        ((wireup_transition cb_ret (wiring_close_wire t id) id
          wire_state_t.CLOSING).storage.link id which).next = some id ∧
        ((wireup_transition cb_ret (wiring_close_wire t id) id
          wire_state_t.CLOSING).storage.link id which).prev = some id) ∧
      ((wireup_transition cb_ret (wiring_close_wire t id) id wire_state_t.CLOSING).getbin
        (t.garbage_sched.epoch_last % NBINS)).first_closed = some id ∧
      ((wireup_transition cb_ret (wiring_close_wire t id) id wire_state_t.CLOSING).storage.getw
        id).next = (t.getbin (t.garbage_sched.epoch_last % NBINS)).first_closed ∧
      (wireup_transition cb_ret (wiring_close_wire t id) id
        wire_state_t.CLOSING).garbage_sched.epoch_last = t.garbage_sched.epoch_last ∧
      (wireup_transition cb_ret (wiring_close_wire t id) id wire_state_t.CLOSING).trace =
        t.trace ++
          (match (t.storage.getw id).cb with
          | none => []
          | some fn =>
            [ext_call.cb fn
              { event := wire_event_t.wire_ev_closed, ep := none, sender_id := sender_id_nil }
              (t.storage.getw id).cb_arg]) ∧
      (wireup_transition cb_ret (wiring_close_wire t id) id wire_state_t.CLOSING).req_free =
        t.req_free := by
  obtain ⟨c1, c2, c3, c4, c5, c6, c7⟩ := close_wire_spec t id hid hbins he hw
  obtain ⟨fl, -, fg⟩ := transition_frame cb_ret (wiring_close_wire t id) id wire_state_t.CLOSING
  have ks : ((wiring_close_wire t id).storage.getw id).state = (t.storage.getw id).state := by
    have := congrArg wire_t.state c2
    exact this
  have kc : ((wiring_close_wire t id).storage.getw id).cb = (t.storage.getw id).cb := by
    have := congrArg wire_t.cb c2
    exact this
  have ka : ((wiring_close_wire t id).storage.getw id).cb_arg = (t.storage.getw id).cb_arg := by
    have := congrArg wire_t.cb_arg c2
    exact this
  have kn : ((wiring_close_wire t id).storage.getw id).next =
      (t.getbin (t.garbage_sched.epoch_last % NBINS)).first_closed := by
    have := congrArg wire_t.next c2
    exact this
  have hlive : ((wiring_close_wire t id).storage.getw id).state ≠ wire_state_t.CLOSING := by
    rw [ks]
    exact hst
  refine ⟨state_wireup_transition _ _ _ _ (by rw [c1]; exact hid), ?_, ?_, ?_, ?_, ?_, ?_⟩
  · intro which
    rw [link_eq_of_tlink_eq (fl.wires id).1 (fl.wires id).2.1 which]
    exact c3 which
  · unfold wiring_t.getbin
    rw [fg]
    exact c4
  · rw [(fl.wires id).2.2.2]
    exact kn
  · rw [fg]
    exact c5
  · rw [trace_wireup_transition, c7, storage_transition_closing _ _ _ hlive, kc, ka]
  · rw [req_free_wireup_transition]
    rfl

theorem free_request_get_with_storage (h : Option Nat) (s : wiring_t) (st : wstorage_t) :
    wiring_free_request_get h { s with storage := st } =
      ((wiring_free_request_get h s).1, { (wiring_free_request_get h s).2 with storage := st }) := by
  unfold wiring_free_request_get
  cases s with
  | mk storage assoc garbage_sched req_free req_outst accept_cb accept_cb_arg refs sentinel trace =>
    cases req_free <;> rfl

theorem garbage_wireup_transition (cb_ret : Bool) (s : wiring_t) (id : Nat)
    (nstate : wire_state_t) :
    (wireup_transition cb_ret s id nstate).garbage_sched = s.garbage_sched :=
  (transition_frame cb_ret s id nstate).2.2

/-- The wire after a round of the wakeup drain for an INITIAL wire, and the
calls made. -/
theorem retry_round_fields (e : env_t) (now : Nat) (s : wiring_t) (id : Nat) (m : wireup_msg_t)
    (hid : id < s.storage.nwires)
    (hst : (s.storage.getw id).state = wire_state_t.INITIAL)
    (hmsg : (s.storage.getw id).msg = some m)
    (hbins : s.garbage_sched.bin.length = NBINS)
    (he : wiring_timeout_remove_assert s.storage id timo_t.timo_expire = true)
    (hw : wiring_timeout_remove_assert s.storage id timo_t.timo_wakeup = true) :
    (s.req_free = [] → e.header_alloc = none →
        ((wakeup_step e now s id).storage.getw id).state = wire_state_t.CLOSING ∧
        (∀ which, ((wakeup_step e now s id).storage.link id which).next = some id ∧
          ((wakeup_step e now s id).storage.link id which).prev = some id) ∧
        ((wakeup_step e now s id).getbin (s.garbage_sched.epoch_last % NBINS)).first_closed =
          some id ∧
        ((wakeup_step e now s id).storage.getw id).next =
          (s.getbin (s.garbage_sched.epoch_last % NBINS)).first_closed ∧
        (wakeup_step e now s id).req_free = [] ∧
        (wakeup_step e now s id).trace =
          s.trace ++
            (match (s.storage.getw id).cb with
            | none => []
            | some fn =>
              [ext_call.cb fn
                { event := wire_event_t.wire_ev_closed, ep := none, sender_id := sender_id_nil }
                (s.storage.getw id).cb_arg])) ∧
      ∀ req s1, wiring_free_request_get e.header_alloc s = (some req, s1) →
        (e.nbx = ucs_status_ptr_t.err →
          ((wakeup_step e now s id).storage.getw id).state = wire_state_t.CLOSING ∧
          (∀ which, ((wakeup_step e now s id).storage.link id which).next = some id ∧
            ((wakeup_step e now s id).storage.link id which).prev = some id) ∧
          ((wakeup_step e now s id).getbin (s.garbage_sched.epoch_last % NBINS)).first_closed =
            some id ∧
          ((wakeup_step e now s id).storage.getw id).next =
            (s.getbin (s.garbage_sched.epoch_last % NBINS)).first_closed ∧
          (wakeup_step e now s id).req_free = req :: s1.req_free ∧
          (wakeup_step e now s id).trace =
            s.trace ++
              [ext_call.tag_send (s.storage.getw id).ep m (s.storage.getw id).msglen
                tx_tag.start] ++
              (match (s.storage.getw id).cb with
              | none => []
              | some fn =>
                [ext_call.cb fn
                  { event := wire_event_t.wire_ev_closed, ep := none,
                    sender_id := sender_id_nil }
                  (s.storage.getw id).cb_arg])) ∧
        (e.nbx ≠ ucs_status_ptr_t.err →
          ((wakeup_step e now s id).storage.getw id).state = wire_state_t.INITIAL ∧
          ((wakeup_step e now s id).storage.getw id).msg = some m ∧
          ((wakeup_step e now s id).storage.getw id).msglen = (s.storage.getw id).msglen ∧
          ((wakeup_step e now s id).storage.thead timo_t.timo_wakeup).last = some id ∧
          ((wakeup_step e now s id).storage.link id timo_t.timo_wakeup).due =
            (now + retry_interval) % 2 ^ 64 ∧
          (now + retry_interval < 2 ^ 64 →
            ((wakeup_step e now s id).storage.link id timo_t.timo_wakeup).due =
              now + retry_interval) ∧
          (wakeup_step e now s id).storage.link id timo_t.timo_expire =
            s.storage.link id timo_t.timo_expire ∧
          (wakeup_step e now s id).storage.thead timo_t.timo_expire =
            s.storage.thead timo_t.timo_expire ∧
          (wakeup_step e now s id).trace =
            s.trace ++
              [ext_call.tag_send (s.storage.getw id).ep m (s.storage.getw id).msglen
                tx_tag.start]) := by
  -- the wiring after the removal from the wakeup queue
  have hcore := (same_core_timeout_remove s.storage id timo_t.timo_wakeup).wires id
  obtain ⟨k1, -, k3, k4, k5, k6, k7, -⟩ := core_eq_fields _ _ hcore
  have hnw : (wiring_timeout_remove s.storage id timo_t.timo_wakeup).nwires = s.storage.nwires :=
    nwires_timeout_remove _ _ _
  have hoth := timeout_remove_other s.storage id timo_t.timo_wakeup timo_t.timo_expire
    (by decide) id
  have hself := timeout_remove_self s.storage id timo_t.timo_wakeup hid hw
  have he1 : wiring_timeout_remove_assert (wiring_timeout_remove s.storage id timo_t.timo_wakeup)
      id timo_t.timo_expire = true := by
    unfold wiring_timeout_remove_assert
    rw [hoth.2]
    exact he
  have hw1 : wiring_timeout_remove_assert (wiring_timeout_remove s.storage id timo_t.timo_wakeup)
      id timo_t.timo_wakeup = true := by
    unfold wiring_timeout_remove_assert
    rw [hself.1, hself.2]
    simp
  have hstep : wakeup_step e now s id =
      wireup_transition e.cb_ret
        (retry e now { s with storage := wiring_wakeup_remove s.storage id } id).2 id
        (retry e now { s with storage := wiring_wakeup_remove s.storage id } id).1 := by
    unfold wakeup_step
    simp only
    unfold wiring_wakeup_remove
    rw [k1, hst]
    rfl
  have hni : wire_state_t.INITIAL ≠ wire_state_t.CLOSING := by decide
  rw [hstep]
  unfold wiring_wakeup_remove
  clear hstep hcore hself
  obtain ⟨ho1, ho2⟩ := hoth
  generalize wiring_timeout_remove s.storage id timo_t.timo_wakeup = st1 at *
  have hs1 : (st1.getw id).state ≠ wire_state_t.CLOSING := by rw [k1, hst]; exact hni
  have hid1 : id < st1.nwires := by rw [hnw]; exact hid
  constructor
  · intro hf hh
    have hr : retry e now { s with storage := st1 } id =
        (wire_state_t.CLOSING, wiring_close_wire { s with storage := st1 } id) := by
      simp only [retry, wireup_send, wiring_free_request_get, hf, hh]
    rw [hr]
    obtain ⟨c1, c2, c3, c4, -, c6, c7⟩ := close_then_closing e.cb_ret
      { s with storage := st1 } id hid1 hbins he1 hw1 hs1
    simp only at c1 c2 c3 c4 c6 c7
    rw [k5, k6] at c6
    exact ⟨c1, c2, c3, c4, c7.trans hf, c6⟩
  · intro req s1 hget
    have hget1 := free_request_get_with_storage e.header_alloc s st1
    rw [hget] at hget1
    simp only at hget1
    have g1 : s1.trace = s.trace := by
      have := trace_free_request_get s e.header_alloc
      rw [hget] at this
      exact this
    have g2 : s1.garbage_sched = s.garbage_sched := by
      have := garbage_free_request_get s e.header_alloc
      rw [hget] at this
      exact this
    generalize hc : ext_call.tag_send (s.storage.getw id).ep m (s.storage.getw id).msglen
      tx_tag.start = c
    have hsend : ∀ t : wiring_t, (ext_call.tag_send (st1.getw id).ep
        ((st1.getw id).msg.getD default) (st1.getw id).msglen tx_tag.start) = c := by
      intro _
      rw [k7, k3, k4, hmsg, ← hc]
      rfl
    constructor
    · intro herr
      have hr : retry e now { s with storage := st1 } id =
          (wire_state_t.CLOSING, wiring_close_wire
            (wiring_free_request_put (({ s1 with storage := st1 } : wiring_t).log c) req) id) := by
        simp only [retry, wireup_send, hget1, herr, hsend s]
      rw [hr]
      have f1 : (wiring_free_request_put (({ s1 with storage := st1 } : wiring_t).log c)
          req).storage = st1 := rfl
      have f2 : (wiring_free_request_put (({ s1 with storage := st1 } : wiring_t).log c)
          req).garbage_sched = s.garbage_sched := g2
      have f3 : (wiring_free_request_put (({ s1 with storage := st1 } : wiring_t).log c)
          req).trace = s.trace ++ [c] := by
        show s1.trace ++ [c] = _
        rw [g1]
      have f4 : (wiring_free_request_put (({ s1 with storage := st1 } : wiring_t).log c)
          req).req_free = req :: s1.req_free := rfl
      clear hr
      generalize wiring_free_request_put (({ s1 with storage := st1 } : wiring_t).log c) req = t
        at f1 f2 f3 f4 ⊢
      obtain ⟨c1, c2, c3, c4, -, c6, c7⟩ := close_then_closing e.cb_ret t id
        (by rw [f1]; exact hid1) (by rw [f2]; exact hbins) (by rw [f1]; exact he1)
        (by rw [f1]; exact hw1) (by rw [f1]; exact hs1)
      have e2 : ∀ b, t.getbin b = s.getbin b := by
        intro b
        unfold wiring_t.getbin
        rw [f2]
      rw [f2] at c3 c4
      rw [e2] at c4
      rw [f1, k5, k6, f3] at c6
      exact ⟨c1, c2, c3, c4, c7.trans f4, c6⟩
    · intro hok
      have hr : ∃ t3 : wiring_t, t3.storage = st1 ∧ t3.trace = s.trace ++ [c] ∧
          retry e now { s with storage := st1 } id =
            (wire_state_t.INITIAL,
              { t3 with storage := wiring_wakeup_put st1 id ((now + retry_interval) % 2 ^ 64) }) := by
        rcases hn : e.nbx with _ | _ | _
        · exact absurd hn hok
        · refine ⟨wiring_free_request_put (({ s1 with storage := st1 } : wiring_t).log c) req,
            rfl, ?_, ?_⟩
          · show s1.trace ++ [c] = _
            rw [g1]
          · simp only [retry, wireup_send, hget1, hn, hsend s]
            rfl
        · refine ⟨wiring_outst_request_put (({ s1 with storage := st1 } : wiring_t).log c) req,
            rfl, ?_, ?_⟩
          · show s1.trace ++ [c] = _
            rw [g1]
          · simp only [retry, wireup_send, hget1, hn, hsend s]
            rfl
      obtain ⟨t3, ht1, ht2, hr⟩ := hr
      rw [hr]
      simp only
      generalize hdue : (now + retry_interval) % 2 ^ 64 = due
      have pc := (same_core_timeout_put st1 id timo_t.timo_wakeup due).wires id
      obtain ⟨p1, -, p3, p4, -, -, -, -⟩ := core_eq_fields _ _ pc
      have pt := timeout_put_tail st1 id timo_t.timo_wakeup due hid1
      have po := timeout_put_other st1 id timo_t.timo_wakeup timo_t.timo_expire due (by decide) id
      have pn : (wiring_timeout_put st1 id timo_t.timo_wakeup due).nwires = st1.nwires :=
        (same_core_timeout_put st1 id timo_t.timo_wakeup due).nwires
      unfold wiring_wakeup_put
      obtain ⟨fl, -, -⟩ := transition_frame e.cb_ret
        { t3 with storage := wiring_timeout_put st1 id timo_t.timo_wakeup due } id
        wire_state_t.INITIAL
      have hm := msg_storage_transition e.cb_ret
        (wiring_timeout_put st1 id timo_t.timo_wakeup due) id wire_state_t.INITIAL id
      have hlk : ∀ which, (wireup_transition e.cb_ret
          { t3 with storage := wiring_timeout_put st1 id timo_t.timo_wakeup due } id
          wire_state_t.INITIAL).storage.link id which =
          (wiring_timeout_put st1 id timo_t.timo_wakeup due).link id which := fun which =>
        link_eq_of_tlink_eq (fl.wires id).1 (fl.wires id).2.1 which
      have hth : ∀ which, (wireup_transition e.cb_ret
          { t3 with storage := wiring_timeout_put st1 id timo_t.timo_wakeup due } id
          wire_state_t.INITIAL).storage.thead which =
          (wiring_timeout_put st1 id timo_t.timo_wakeup due).thead which := fun which =>
        thead_eq_of fl.thead_expire fl.thead_wakeup which
      have hsame : ((wiring_timeout_put st1 id timo_t.timo_wakeup due).getw id).state =
          wire_state_t.INITIAL := by rw [p1, k1, hst]
      refine ⟨state_wireup_transition _ _ _ _ (by show id < (wiring_timeout_put _ _ _ _).nwires
                                                  rw [pn]; exact hid1),
        ?_, ?_, ?_, ?_, ?_, ?_, ?_, ?_⟩
      · rw [storage_wireup_transition]
        show ((wireup_storage_transition _ (wiring_timeout_put _ _ _ _) _ _).1.getw id).msg = _
        rw [hm.1, p3, k3, hmsg]
      · rw [storage_wireup_transition]
        show ((wireup_storage_transition _ (wiring_timeout_put _ _ _ _) _ _).1.getw id).msglen = _
        rw [hm.2, p4, k4]
      · rw [hth]
        exact pt.1
      · rw [hlk]
        exact pt.2
      · intro hlt
        rw [hlk, pt.2, ← hdue]
        exact Nat.mod_eq_of_lt hlt
      · rw [hlk, po.2, ho2]
      · rw [hth, po.1, ho1]
      · rw [trace_wireup_transition]
        show t3.trace ++ (wireup_storage_transition _ (wiring_timeout_put _ _ _ _) _ _).2.toList = _
        rw [storage_transition_same_state _ _ _ _ hsame, ht2]
        simp

theorem bins_kept.kept_refl (s : wiring_t) : bins_kept s s :=
  ⟨rfl, rfl, rfl, fun _ => ⟨rfl, rfl⟩⟩

theorem bins_kept.kept_trans {s1 s2 s3 : wiring_t} (h1 : bins_kept s1 s2) (h2 : bins_kept s2 s3) :
    bins_kept s1 s3 :=
  ⟨h2.len.trans h1.len, h2.first.trans h1.first, h2.last.trans h1.last,
    fun b => ⟨(h2.bin b).1.trans (h1.bin b).1, (h2.bin b).2.trans (h1.bin b).2⟩⟩

theorem bins_kept_of_garbage_eq {s s' : wiring_t} (h : s'.garbage_sched = s.garbage_sched) :
    bins_kept s s' :=
  ⟨by rw [h], by rw [h], by rw [h], fun b => by rw [getbin_congr h]; exact ⟨rfl, rfl⟩⟩

theorem bins_kept_setbin (s : wiring_t) (i : Nat) (b : wiring_garbage_bin_t)
    (h1 : b.storage = (s.getbin i).storage) (h2 : b.assoc = (s.getbin i).assoc) :
    bins_kept s (s.setbin i b) := by
  refine ⟨bin_length_setbin s i b, rfl, rfl, fun j => ?_⟩
  rw [getbin_setbin]
  split
  · rename_i h
    rw [h.1, h1, h2]
    exact ⟨rfl, rfl⟩
  · exact ⟨rfl, rfl⟩

theorem bins_kept_set_ref (s : wiring_t) (p : ref_ptr) (r : wiring_ref_t) :
    bins_kept s (s.set_ref p r) :=
  ⟨bin_length_set_ref s p r, by cases p <;> rfl, by cases p <;> rfl,
    fun b => by rw [getbin_set_ref]; exact ⟨rfl, rfl⟩⟩

theorem bins_kept_reclaim_bin_refs (epoch last_epoch : Nat) :
    ∀ (fuel : Nat) (s : wiring_t) (r : Bool × wiring_t),
      reclaim_bin_refs fuel s epoch last_epoch = some r → bins_kept s r.2 := by
  intro fuel
  induction fuel with
  | zero => intro s r h; simp [reclaim_bin_refs] at h
  | succ k ih =>
    intro s r h
    unfold reclaim_bin_refs at h
    simp only at h
    split at h
    · simp only [Option.some.injEq] at h
      subst h
      exact bins_kept.kept_refl s
    · split at h
      · simp only [Option.some.injEq] at h
        subst h
        exact bins_kept.kept_refl s
      · split at h
        · have h1 := ih _ _ h
          refine bins_kept.kept_trans ?_ h1
          refine bins_kept.kept_trans ?_ (bins_kept_of_garbage_eq (garbage_log _ _))
          exact bins_kept_setbin s _ _ rfl rfl
        · have h1 := ih _ _ h
          refine bins_kept.kept_trans ?_ h1
          refine bins_kept.kept_trans ?_ (bins_kept_setbin _ _ _ rfl rfl)
          refine bins_kept.kept_trans ?_ (bins_kept_set_ref _ _ _)
          exact bins_kept_setbin s _ _ rfl rfl

/-- What `wiring_reclaim_bin_for_epoch` does to the bins: nothing to their
retired tables when it returns false; when it returns true the bin of the
epoch is empty and the other bins are as they were. -/
theorem reclaim_bin_for_epoch_bins (fuel : Nat) (fenv : Nat → env_t) (s : wiring_t)
    (epoch last_epoch : Nat) (r : Bool × Bool × wiring_t)
    (h : wiring_reclaim_bin_for_epoch fuel fenv s epoch last_epoch = some r) :
    r.2.2.garbage_sched.bin.length = s.garbage_sched.bin.length ∧
      r.2.2.garbage_sched.epoch_first = s.garbage_sched.epoch_first ∧
      r.2.2.garbage_sched.epoch_last = s.garbage_sched.epoch_last ∧
      (r.1 = false → ∀ b, (r.2.2.getbin b).storage = (s.getbin b).storage ∧
        (r.2.2.getbin b).assoc = (s.getbin b).assoc) ∧
      (r.1 = true →
        (∀ b, b ≠ epoch % NBINS → (r.2.2.getbin b).storage = (s.getbin b).storage ∧
          (r.2.2.getbin b).assoc = (s.getbin b).assoc) ∧
        (epoch % NBINS < s.garbage_sched.bin.length →
          (r.2.2.getbin (epoch % NBINS)).storage = none ∧
          (r.2.2.getbin (epoch % NBINS)).assoc = none)) := by
  unfold wiring_reclaim_bin_for_epoch at h
  split at h
  · cases h
  · rename_i s1 h1
    simp only [Option.some.injEq] at h
    subst h
    have hk := bins_kept_reclaim_bin_refs epoch last_epoch fuel s _ h1
    exact ⟨hk.len, hk.first, hk.last, fun _ => hk.bin, fun hf => (by cases hf)⟩
  · rename_i s1 h1
    have hk : bins_kept s s1 := bins_kept_reclaim_bin_refs epoch last_epoch fuel s _ h1
    split at h
    · cases h
    · rename_i progress s2 h2
      simp only [Option.some.injEq] at h
      subst h
      obtain ⟨-, c2⟩ := reclaim_bin_closed_rel fenv fuel s1 _ _ h2
      have hk2 : bins_kept s s2 := hk.kept_trans (bins_kept_of_garbage_eq c2)
      refine ⟨?_, hk2.first, hk2.last, fun hf => (by cases hf), fun _ => ⟨?_, ?_⟩⟩
      · show (wiring_t.setbin s2 _ _).garbage_sched.bin.length = _
        rw [bin_length_setbin]
        exact hk2.len
      · intro b hb
        show ((wiring_t.setbin s2 _ _).getbin b).storage = _ ∧ _
        rw [getbin_setbin, if_neg (fun hc => hb hc.1)]
        exact hk2.bin b
      · intro hlt
        show ((wiring_t.setbin s2 _ _).getbin (epoch % NBINS)).storage = none ∧ _
        rw [getbin_setbin, if_pos ⟨rfl, by rw [hk2.len]; exact hlt⟩]
        exact ⟨rfl, rfl⟩

theorem bins_shrunk_of_kept {s s' : wiring_t} (h : bins_kept s s') : bins_shrunk s s' :=
  ⟨h.len, h.first, h.last, fun b => Or.inl (h.bin b)⟩

theorem bins_shrunk.shrunk_trans {s1 s2 s3 : wiring_t} (h1 : bins_shrunk s1 s2)
    (h2 : bins_shrunk s2 s3) : bins_shrunk s1 s3 := by
  refine ⟨h2.len.trans h1.len, h2.first.trans h1.first, h2.last.trans h1.last, fun b => ?_⟩
  rcases h2.bin b with h | h
  · rcases h1.bin b with g | g
    · exact Or.inl ⟨h.1.trans g.1, h.2.trans g.2⟩
    · exact Or.inr ⟨h.1.trans g.1, h.2.trans g.2⟩
  · exact Or.inr h

theorem reclaim_bin_for_epoch_shrunk (fuel : Nat) (fenv : Nat → env_t) (s : wiring_t)
    (epoch last_epoch : Nat) (r : Bool × Bool × wiring_t)
    (hlen : s.garbage_sched.bin.length = NBINS)
    (h : wiring_reclaim_bin_for_epoch fuel fenv s epoch last_epoch = some r) :
    bins_shrunk s r.2.2 := by
  obtain ⟨hl, hf, hla, hfalse, htrue⟩ := reclaim_bin_for_epoch_bins fuel fenv s epoch last_epoch r h
  refine ⟨hl, hf, hla, fun b => ?_⟩
  rcases hr : r.1 with _ | _
  · exact Or.inl (hfalse hr b)
  · by_cases hb : b = epoch % NBINS
    · subst hb
      refine Or.inr ((htrue hr).2 ?_)
      rw [hlen]
      exact Nat.mod_lt _ (by decide)
    · exact Or.inl ((htrue hr).1 b hb)

theorem window_ok_of_shrunk {s s' : wiring_t} (h : window_ok s) (hs : bins_shrunk s s') :
    window_ok s' where
  le := by rw [hs.first, hs.last]; exact h.le
  bound := by rw [hs.first, hs.last]; exact h.bound
  bins := hs.len.trans h.bins
  empty := by
    intro b hb he
    rw [hs.first, hs.last] at he
    rcases hs.bin b with g | g
    · rw [g.1, g.2]
      exact h.empty b hb he
    · exact g

/-- The loop of `wiring_reclaim` over the epochs: it stops inside the window,
keeps the epochs, and leaves the bins of the epochs it passed empty. -/
theorem reclaim_epochs_bins (fuel : Nat) (fenv : Nat → env_t) (last : Nat) :
    ∀ (k : Nat) (s : wiring_t) (epoch : Nat) (r : Nat × Bool × wiring_t),
      s.garbage_sched.bin.length = NBINS → epoch ≤ last →
      reclaim_epochs fuel fenv k s epoch last = some r →
      epoch ≤ r.1 ∧ r.1 ≤ last ∧ bins_shrunk s r.2.2 ∧
      ∀ e, epoch ≤ e → e < r.1 →
        (r.2.2.getbin (e % NBINS)).storage = none ∧ (r.2.2.getbin (e % NBINS)).assoc = none := by
  intro k
  induction k with
  | zero => intro s epoch r _ _ h; simp [reclaim_epochs] at h
  | succ k ih =>
    intro s epoch r hlen hle h
    unfold reclaim_epochs at h
    split at h
    · simp only [Option.some.injEq] at h
      subst h
      exact ⟨le_refl _, hle, bins_shrunk_of_kept (bins_kept.kept_refl s),
        fun e h1 h2 => absurd h2 (by simp only; omega)⟩
    · rename_i hne
      split at h
      · cases h
      · rename_i progress s1 h1
        simp only [Option.some.injEq] at h
        subst h
        exact ⟨le_refl _, hle, reclaim_bin_for_epoch_shrunk fuel fenv s epoch last _ hlen h1,
          fun e h1 h2 => absurd h2 (by simp only; omega)⟩
      · rename_i progress s1 h1
        have hs1 := reclaim_bin_for_epoch_shrunk fuel fenv s epoch last _ hlen h1
        obtain ⟨-, -, -, -, htrue⟩ := reclaim_bin_for_epoch_bins fuel fenv s epoch last _ h1
        have hemp := (htrue rfl).2 (by rw [hlen]; exact Nat.mod_lt _ (by decide))
        split at h
        · cases h
        · rename_i e progress1 s2 h2
          simp only [Option.some.injEq] at h
          subst h
          obtain ⟨g1, g2, g3, g4⟩ := ih s1 (epoch + 1) _ (hs1.len.trans hlen) (by omega) h2
          refine ⟨by simp only; simp only at g1; omega, g2, hs1.shrunk_trans g3, ?_⟩
          intro e1 he1 he2
          by_cases hq : e1 = epoch
          · subst hq
            rcases g3.bin (e1 % NBINS) with q | q
            · exact ⟨q.1.trans hemp.1, q.2.trans hemp.2⟩
            · exact q
          · exact g4 e1 (by omega) he2

/-- `wiring_reclaim` keeps the window well-formed, keeps `epoch.last` and does
not move `epoch.first` backwards. -/
theorem wiring_reclaim_window (fuel : Nat) (fenv : Nat → env_t) (s : wiring_t) (finalize : Bool)
    (r : Bool × Bool × wiring_t) (hw : window_ok s)
    (h : wiring_reclaim fuel fenv s finalize = some r) : window_ok r.2.2 := by
  unfold wiring_reclaim at h
  simp only at h
  split at h
  · simp only [Option.some.injEq] at h
    subst h
    exact hw
  · split at h
    · cases h
    · rename_i epoch progress s1 h1
      obtain ⟨g1, g2, g3, g4⟩ := reclaim_epochs_bins fuel fenv _ _ _ _ _ hw.bins hw.le h1
      simp only at g1 g2 g3 g4
      have hw2 : window_ok
          { s1 with garbage_sched :=
            { s1.garbage_sched with
              epoch_first := epoch
              work_available := (s1.garbage_sched.work_available + 2 ^ 64 -
                s.garbage_sched.work_available) % 2 ^ 64 } } := by
        refine ⟨?_, ?_, ?_, ?_⟩
        · show epoch ≤ s1.garbage_sched.epoch_last
          rw [g3.last]
          exact g2
        · show s1.garbage_sched.epoch_last - epoch ≤ NBINS
          rw [g3.last]
          have := hw.bound
          omega
        · exact g3.len.trans hw.bins
        · intro b hb he
          have he2 : ∀ e, epoch ≤ e → e < s.garbage_sched.epoch_last → e % NBINS ≠ b := by
            intro e q1 q2
            exact he e q1 (by show e < s1.garbage_sched.epoch_last; rw [g3.last]; exact q2)
          show (s1.getbin b).storage = none ∧ (s1.getbin b).assoc = none
          rcases g3.bin b with q | q
          · by_cases hex : ∃ e, s.garbage_sched.epoch_first ≤ e ∧
                e < s.garbage_sched.epoch_last ∧ e % NBINS = b
            · obtain ⟨e, q1, q2, q3⟩ := hex
              have q4 : e < epoch := by
                by_contra hc
                exact he2 e (by omega) q2 q3
              have q5 := g4 e q1 q4
              rw [q3] at q5
              exact q5
            · rw [q.1, q.2]
              exact hw.empty b hb (fun e q1 q2 q3 => hex ⟨e, q1, q2, q3⟩)
          · exact q
      split at h
      · simp only [Option.some.injEq] at h
        subst h
        exact hw2
      · split at h
        · simp only [Option.some.injEq] at h
          subst h
          exact hw2
        · split at h
          · cases h
          · rename_i r1 progress1 s3 h3
            simp only [Option.some.injEq] at h
            subst h
            exact window_ok_of_shrunk hw2
              (reclaim_bin_for_epoch_shrunk fuel fenv _ _ _ (r1, progress1, s3) hw2.bins h3)

/-- The loop at the head of `wiring_garbage_add` keeps the window well-formed
and ends with a window that is not full. -/
theorem garbage_make_room_window (fuel : Nat) (fenv : Nat → env_t) :
    ∀ (k : Nat) (s s' : wiring_t), window_ok s → garbage_make_room fuel fenv k s = some s' →
      window_ok s' ∧ s'.garbage_sched.epoch_last - s'.garbage_sched.epoch_first ≠ NBINS := by
  intro k
  induction k with
  | zero => intro s s' _ h; simp [garbage_make_room] at h
  | succ k ih =>
    intro s s' hw h
    unfold garbage_make_room at h
    split at h
    · split at h
      · cases h
      · rename_i r hr
        exact ih _ _ (wiring_reclaim_window fuel fenv s false r hw hr) h
    · rename_i hne
      simp only [Option.some.injEq] at h
      subst h
      exact ⟨hw, hne⟩

/-- Storing retired tables in the bin of `epoch.last` of a window that is not
full, and advancing `epoch.last`, keeps the window well-formed. -/
theorem window_ok_store (s : wiring_t) (b : wiring_garbage_bin_t) (wa : Nat) (hw : window_ok s)
    (hne : s.garbage_sched.epoch_last - s.garbage_sched.epoch_first ≠ NBINS) :
    window_ok { (s.setbin (s.garbage_sched.epoch_last % NBINS) b) with
      garbage_sched := { (s.setbin (s.garbage_sched.epoch_last % NBINS) b).garbage_sched with epoch_last := s.garbage_sched.epoch_last + 1, work_available := wa } } := by
  have h1 := hw.le
  have h2 := hw.bound
  refine ⟨?_, ?_, ?_, ?_⟩
  · show s.garbage_sched.epoch_first ≤ s.garbage_sched.epoch_last + 1
    omega
  · show s.garbage_sched.epoch_last + 1 - s.garbage_sched.epoch_first ≤ NBINS
    omega
  · show (s.setbin _ b).garbage_sched.bin.length = NBINS
    rw [bin_length_setbin]
    exact hw.bins
  · intro j hj he
    have he1 : ∀ e, s.garbage_sched.epoch_first ≤ e → e < s.garbage_sched.epoch_last + 1 →
        e % NBINS ≠ j := he
    show ((s.setbin (s.garbage_sched.epoch_last % NBINS) b).getbin j).storage = none ∧
      ((s.setbin (s.garbage_sched.epoch_last % NBINS) b).getbin j).assoc = none
    rw [getbin_setbin, if_neg (fun hc => he1 _ h1 (by omega) hc.1.symm)]
    exact hw.empty j hj (fun e q1 q2 => he1 e q1 (by omega))

theorem garbage_add_window (fuel : Nat) (fenv : Nat → env_t) (s s' : wiring_t)
    (storage : wstorage_t) (assoc : List Ptr) (hw : window_ok s)
    (h : wiring_garbage_add fuel fenv s storage assoc = some s') : window_ok s' := by
  unfold wiring_garbage_add at h
  split at h
  · cases h
  · rename_i s1 h1
    simp only [Option.some.injEq] at h
    subst h
    obtain ⟨g1, g2⟩ := garbage_make_room_window fuel fenv _ _ _ hw h1
    exact window_ok_store s1 _ _ g1 g2

theorem window_ok_garbage_init (s : wiring_t) (g : wiring_garbage_schedule_t)
    (h : s.garbage_sched = wiring_garbage_init g) : window_ok s := by
  refine ⟨?_, ?_, ?_, ?_⟩
  · rw [h]; exact le_refl _
  · rw [h]; exact Nat.zero_le _
  · rw [h]; rfl
  · intro b hb _
    unfold wiring_t.getbin
    rw [h]
    have hb4 : b < 4 := hb
    interval_cases b <;> exact ⟨rfl, rfl⟩

/-- Every state reachable from `wiring_garbage_init` has a well-formed
window. -/
theorem garbage_reach_window (s : wiring_t) (h : garbage_reach s) : window_ok s := by
  induction h with
  | init s g h => exact window_ok_garbage_init s g h
  | add fuel fenv s s' storage assoc _ h ih => exact garbage_add_window fuel fenv s s' storage assoc ih h
  | reclaim fuel fenv s finalize r _ h ih => exact wiring_reclaim_window fuel fenv s finalize r ih h
  | other s s' _ hlen hf hl hb ih =>
    exact window_ok_of_shrunk ih ⟨hlen, hf, hl, fun b => Or.inl (hb b)⟩

/-- C23: in every state reachable from `wiring_garbage_init` by
`wiring_garbage_add` and `wiring_reclaim` (and by steps that leave the epochs
and the retired tables of the bins alone), `epoch.first ≤ epoch.last` and
`epoch.last - epoch.first ≤ 4`. When the window is not full, the bin
`epoch.last mod 4` holds no retired table and no association array, and
`wiring_garbage_add` returns with the given table and array stored in that
bin, the other bins as they were, `epoch.last` larger by exactly 1 and
`epoch.first` unchanged. -/
theorem epoch_window_bounded (s : wiring_t) (h : garbage_reach s) :
    s.garbage_sched.epoch_first ≤ s.garbage_sched.epoch_last ∧
    s.garbage_sched.epoch_last - s.garbage_sched.epoch_first ≤ 4 ∧
    (s.garbage_sched.epoch_last - s.garbage_sched.epoch_first ≠ 4 →
      (s.getbin (s.garbage_sched.epoch_last % 4)).storage = none ∧
      (s.getbin (s.garbage_sched.epoch_last % 4)).assoc = none ∧
      ∀ (fuel : Nat) (fenv : Nat → env_t) (storage : wstorage_t) (assoc : List Ptr),
        ∃ s', wiring_garbage_add (fuel + 1) fenv s storage assoc = some s' ∧
          s'.garbage_sched.epoch_last = s.garbage_sched.epoch_last + 1 ∧
          s'.garbage_sched.epoch_first = s.garbage_sched.epoch_first ∧
          (s'.getbin (s.garbage_sched.epoch_last % 4)).storage = some storage ∧
          (s'.getbin (s.garbage_sched.epoch_last % 4)).assoc = some assoc ∧
          ∀ b, b ≠ s.garbage_sched.epoch_last % 4 → s'.getbin b = s.getbin b) := by
  have hw := garbage_reach_window s h
  have h1 := hw.le
  have h2 : s.garbage_sched.epoch_last - s.garbage_sched.epoch_first ≤ 4 := hw.bound
  refine ⟨h1, h2, fun hne => ?_⟩
  have hlt : s.garbage_sched.epoch_last % 4 < s.garbage_sched.bin.length := by
    rw [hw.bins]
    exact Nat.mod_lt _ (by decide)
  have hemp := hw.empty (s.garbage_sched.epoch_last % 4) (Nat.mod_lt _ (by decide))
    (fun e q1 q2 => by
      show e % 4 ≠ s.garbage_sched.epoch_last % 4
      omega)
  refine ⟨hemp.1, hemp.2, fun fuel fenv storage assoc => ?_⟩
  have hne2 : s.garbage_sched.epoch_last - s.garbage_sched.epoch_first ≠ NBINS := hne
  unfold wiring_garbage_add garbage_make_room
  simp only [if_neg hne2]
  refine ⟨_, rfl, rfl, rfl, ?_, ?_, ?_⟩
  · show ((s.setbin (s.garbage_sched.epoch_last % 4) _).getbin _).storage = some storage
    rw [getbin_setbin, if_pos ⟨rfl, hlt⟩]
  · show ((s.setbin (s.garbage_sched.epoch_last % 4) _).getbin _).assoc = some assoc
    rw [getbin_setbin, if_pos ⟨rfl, hlt⟩]
  · intro b hb
    show (s.setbin (s.garbage_sched.epoch_last % 4) _).getbin b = s.getbin b
    rw [getbin_setbin, if_neg (fun hc => hb hc.1)]

theorem epoch_window_bounded_witness :
    garbage_reach one_retired ∧
    one_retired.garbage_sched.epoch_first = 0 ∧ one_retired.garbage_sched.epoch_last = 1 ∧
    (one_retired.garbage_sched.epoch_first ≤ one_retired.garbage_sched.epoch_last ∧
    one_retired.garbage_sched.epoch_last - one_retired.garbage_sched.epoch_first ≤ 4 ∧
    (one_retired.garbage_sched.epoch_last - one_retired.garbage_sched.epoch_first ≠ 4 →
      (one_retired.getbin (one_retired.garbage_sched.epoch_last % 4)).storage = none ∧
      (one_retired.getbin (one_retired.garbage_sched.epoch_last % 4)).assoc = none ∧
      ∀ (fuel : Nat) (fenv : Nat → env_t) (storage : wstorage_t) (assoc : List Ptr),
        ∃ s', wiring_garbage_add (fuel + 1) fenv one_retired storage assoc = some s' ∧
          s'.garbage_sched.epoch_last = one_retired.garbage_sched.epoch_last + 1 ∧
          s'.garbage_sched.epoch_first = one_retired.garbage_sched.epoch_first ∧
          (s'.getbin (one_retired.garbage_sched.epoch_last % 4)).storage = some storage ∧
          (s'.getbin (one_retired.garbage_sched.epoch_last % 4)).assoc = some assoc ∧
          ∀ b, b ≠ one_retired.garbage_sched.epoch_last % 4 →
            s'.getbin b = one_retired.getbin b)) :=
  have hr : garbage_reach one_retired :=
    garbage_reach.add 1 (fun _ => env_ok) wiring_example one_retired wiring_example.storage
      wiring_example.assoc (garbage_reach.init wiring_example _ rfl) rfl
  ⟨hr, rfl, rfl, epoch_window_bounded one_retired hr⟩

theorem setw_getw_self (st : wstorage_t) (id : Nat) : st.setw id (st.getw id) = st := by
  cases st with
  | mk ff te tw wire =>
    simp only [wstorage_t.setw, wstorage_t.getw]
    congr
    apply List.ext_getElem?
    intro j
    rw [List.getElem?_set, List.getD_eq_getElem?_getD]
    by_cases h : id = j
    · subst h
      by_cases h2 : id < wire.length
      · simp [h2, List.getElem?_eq_getElem h2]
      · simp [h2, List.getElem?_eq_none (Nat.le_of_not_lt h2)]
    · simp [h]

/-- A transition to the state the wire is in changes nothing and makes no
call. -/
theorem transition_same_state (cb_ret : Bool) (s : wiring_t) (id : Nat) (nstate : wire_state_t)
    (h : (s.storage.getw id).state = nstate) : wireup_transition cb_ret s id nstate = s := by
  subst h
  have hst : wireup_storage_transition cb_ret s.storage id (s.storage.getw id).state =
      (s.storage, none) := by
    unfold wireup_storage_transition
    simp only [if_true]
    have hw : ({ s.storage.getw id with state := (s.storage.getw id).state } : wire_t) =
        s.storage.getw id := rfl
    rw [hw, setw_getw_self]
    cases (s.storage.getw id).cb <;> rfl
  unfold wireup_transition
  simp only [hst]

/-- C31: messages for an INITIAL wire. For a wire of the table in INITIAL,
selected by a tag id below `SENDER_ID_MAX`: a STOP whose `sender_id` is below
`SENDER_ID_MAX` closes the wire (state CLOSING, both timeout links
designating the wire itself, the wire at the head of the closing list of bin
`epoch.last % NBINS` and linked to the previous head, its association entry
`NULL`, and no call made but the `closed` callback when one is installed);
a message whose `sender_id` is not below `SENDER_ID_MAX`, or whose `op` is
neither ACK nor STOP, or an ACK with `addrlen != 0`, leaves the whole wiring
as it was, so the wire stays INITIAL with its sender id, pending message,
timeout links and association entry. -/
theorem initial_wire_receive (e : env_t) (now : Nat) (s : wiring_t) (id : Nat)
    (msg : wireup_msg_t) (hid : id < s.storage.nwires) (hmax : id < SENDER_ID_MAX)
    (hst : (s.storage.getw id).state = wire_state_t.INITIAL) :
    (msg.sender_id < SENDER_ID_MAX → msg.op = OP_STOP →
      s.garbage_sched.bin.length = NBINS →
      wiring_timeout_remove_assert s.storage id timo_t.timo_expire = true →
      wiring_timeout_remove_assert s.storage id timo_t.timo_wakeup = true →
      ((wireup_msg_transition e now s id msg).storage.getw id).state = wire_state_t.CLOSING ∧
      (∀ which,
        ((wireup_msg_transition e now s id msg).storage.link id which).next = some id ∧
        ((wireup_msg_transition e now s id msg).storage.link id which).prev = some id) ∧
      ((wireup_msg_transition e now s id msg).getbin
        (s.garbage_sched.epoch_last % NBINS)).first_closed = some id ∧
      ((wireup_msg_transition e now s id msg).storage.getw id).next =
        (s.getbin (s.garbage_sched.epoch_last % NBINS)).first_closed ∧
      (wireup_msg_transition e now s id msg).garbage_sched.epoch_last =
        s.garbage_sched.epoch_last ∧
      (wireup_msg_transition e now s id msg).assoc = s.assoc.set id Ptr.null ∧
      (wireup_msg_transition e now s id msg).trace =
        s.trace ++
          (match (s.storage.getw id).cb with
          | none => []
          | some fn =>
            [ext_call.cb fn
              { event := wire_event_t.wire_ev_closed, ep := none, sender_id := sender_id_nil }
              (s.storage.getw id).cb_arg])) ∧
    ((SENDER_ID_MAX ≤ msg.sender_id ∨ (msg.op ≠ OP_ACK ∧ msg.op ≠ OP_STOP) ∨
        (msg.op = OP_ACK ∧ msg.addrlen ≠ 0)) →
      wireup_msg_transition e now s id msg = s) := by
  have h1 : ¬ id ≥ SENDER_ID_MAX := by omega
  have h2 : ¬ id ≥ s.storage.nwires := by omega
  constructor
  · intro hsid hop hbins he hw
    have h3 : ¬ msg.sender_id ≥ SENDER_ID_MAX := by omega
    have hrecv : state_receive now (s.storage.getw id).state s id msg =
        (wire_state_t.CLOSING, wiring_close_wire s id) := by
      rw [hst]
      show start_life now s id msg = _
      unfold start_life
      rw [if_neg h3, if_pos hop]
    have htr : wireup_msg_transition e now s id msg =
        wireup_transition e.cb_ret (wiring_close_wire s id) id wire_state_t.CLOSING := by
      unfold wireup_msg_transition
      simp only [if_neg h1, if_neg h2, hrecv]
    have hne : (s.storage.getw id).state ≠ wire_state_t.CLOSING := by
      rw [hst]
      decide
    obtain ⟨k1, k2, k3, k4, k5, k6, -⟩ := close_then_closing e.cb_ret s id hid hbins he hw hne
    rw [htr]
    refine ⟨k1, k2, k3, k4, k5, ?_, k6⟩
    rw [(transition_frame e.cb_ret (wiring_close_wire s id) id wire_state_t.CLOSING).2.1]
    exact (close_wire_spec s id hid hbins he hw).2.2.2.2.2.1
  · intro hdrop
    have hrecv : state_receive now (s.storage.getw id).state s id msg =
        ((s.storage.getw id).state, s) := by
      rw [hst]
      show start_life now s id msg = _
      unfold start_life
      simp only [hst]
      rcases hdrop with h | h | h
      · rw [if_pos h]
      · by_cases h3 : msg.sender_id ≥ SENDER_ID_MAX
        · rw [if_pos h3]
        · rw [if_neg h3, if_neg h.2, if_pos h.1]
      · by_cases h3 : msg.sender_id ≥ SENDER_ID_MAX
        · rw [if_pos h3]
        · have h4 : ¬ msg.op = OP_STOP := by rw [h.1]; decide
          have h5 : ¬ msg.op ≠ OP_ACK := fun hn => hn h.1
          rw [if_neg h3, if_neg h4, if_neg h5, if_pos h.2]
    unfold wireup_msg_transition
    simp only [if_neg h1, if_neg h2, hrecv]
    exact transition_same_state _ _ _ _ rfl

theorem initial_wire_receive_witness :
    ((wireup_msg_transition env_ok 0 started_with_callback 0 stop_example).storage.getw 0).state =
        wire_state_t.CLOSING ∧
      (wireup_msg_transition env_ok 0 started_with_callback 0 stop_example).assoc =
        started_with_callback.assoc.set 0 Ptr.null ∧
      wireup_msg_transition env_ok 0 started_with_callback 0 ack_with_address =
        started_with_callback ∧
      wireup_msg_transition env_ok 0 started_with_callback 0 keepalive_example =
        started_with_callback :=
  have a := (initial_wire_receive env_ok 0 started_with_callback 0 stop_example (by decide)
    (by decide) (by decide)).1 (by decide) (by decide) (by decide) (by decide) (by decide)
  have b := (initial_wire_receive env_ok 0 started_with_callback 0 ack_with_address (by decide)
    (by decide) (by decide)).2 (Or.inr (Or.inr (by decide)))
  have c := (initial_wire_receive env_ok 0 started_with_callback 0 keepalive_example (by decide)
    (by decide) (by decide)).2 (Or.inr (Or.inl (by decide)))
  ⟨a.1, a.2.2.2.2.2.1, b, c⟩

/-- The wiring after the dispatch of a matching KEEPALIVE to a LIVE wire. -/
theorem keepalive_fields (e : env_t) (now : Nat) (s : wiring_t) (id p : Nat)
    (msg : wireup_msg_t) (hid : id < s.storage.nwires) (hmax : id < SENDER_ID_MAX)
    (hst : (s.storage.getw id).state = wire_state_t.LIVE)
    (hp : (s.storage.getw id).id = some p) (hq : p < SENDER_ID_MAX)
    (hop : msg.op = OP_KEEPALIVE) (hlen : msg.addrlen = 0) (hsid : msg.sender_id = p) :
    (continue_life now s id msg).1 = wire_state_t.LIVE ∧
      wireup_msg_transition e now s id msg =
        { s with storage := wiring_expiration_put (wiring_expiration_remove s.storage id) id (gettimeout now now) } ∧
      ((wireup_msg_transition e now s id msg).storage.thead timo_t.timo_expire).last = some id ∧
      ((wireup_msg_transition e now s id msg).storage.link id timo_t.timo_expire).due =
        min (now + timeout_interval) UINT64_MAX ∧
      (wireup_msg_transition e now s id msg).storage.thead timo_t.timo_wakeup =
        s.storage.thead timo_t.timo_wakeup ∧
      (∀ i, (wireup_msg_transition e now s id msg).storage.link i timo_t.timo_wakeup =
        s.storage.link i timo_t.timo_wakeup) ∧
      (∀ i, ((wireup_msg_transition e now s id msg).storage.getw i).core =
        (s.storage.getw i).core) ∧
      (wireup_msg_transition e now s id msg).assoc = s.assoc ∧
      (wireup_msg_transition e now s id msg).garbage_sched = s.garbage_sched ∧
      (wireup_msg_transition e now s id msg).req_free = s.req_free ∧
      (wireup_msg_transition e now s id msg).req_outst = s.req_outst ∧
      (wireup_msg_transition e now s id msg).trace = s.trace := by
  have h1 : ¬ id ≥ SENDER_ID_MAX := by omega
  have h2 : ¬ id ≥ s.storage.nwires := by omega
  have h3 : ¬ msg.sender_id ≥ SENDER_ID_MAX := by omega
  have h4 : ¬ msg.op = OP_STOP := by rw [hop]; decide
  have h5 : ¬ msg.op ≠ OP_KEEPALIVE := fun hn => hn hop
  have h6 : ¬ msg.addrlen ≠ 0 := fun hn => hn hlen
  have h7 : ¬ some msg.sender_id ≠ (s.storage.getw id).id := by
    rw [hp, hsid]
    exact fun hn => hn rfl
  have hcl : continue_life now s id msg =
      (wire_state_t.LIVE,
        { s with storage := wiring_expiration_put (wiring_expiration_remove s.storage id) id (gettimeout now now) }) := by
    unfold continue_life
    simp only [if_neg h3, if_neg h4, if_neg h5, if_neg h6, if_neg h7]
  have hcore : same_core s.storage
      (wiring_expiration_put (wiring_expiration_remove s.storage id) id (gettimeout now now)) :=
    (same_core_timeout_remove s.storage id timo_t.timo_expire).core_trans
      (same_core_timeout_put _ id timo_t.timo_expire _)
  have hlive : ((wiring_expiration_put (wiring_expiration_remove s.storage id) id
      (gettimeout now now)).getw id).state = wire_state_t.LIVE := by
    have := congrArg wire_t.state (hcore.wires id)
    exact this.trans hst
  have htr : wireup_msg_transition e now s id msg =
      { s with storage := wiring_expiration_put (wiring_expiration_remove s.storage id) id (gettimeout now now) } := by
    unfold wireup_msg_transition
    simp only [if_neg h1, if_neg h2, hst]
    show wireup_transition e.cb_ret (continue_life now s id msg).2 id
      (continue_life now s id msg).1 = _
    rw [hcl]
    exact transition_same_state _ _ _ _ hlive
  have htail := timeout_put_tail (wiring_expiration_remove s.storage id) id timo_t.timo_expire
    (gettimeout now now) (by
      show id < (wiring_timeout_remove s.storage id timo_t.timo_expire).nwires
      rw [nwires_timeout_remove]
      exact hid)
  refine ⟨by rw [hcl], htr, ?_, ?_, ?_, ?_, ?_, ?_, ?_, ?_, ?_, ?_⟩
  · rw [htr]
    exact htail.1
  · rw [htr, ← gettimeout_saturates]
    exact htail.2
  · rw [htr]
    show (wiring_timeout_put (wiring_timeout_remove s.storage id timo_t.timo_expire) id
      timo_t.timo_expire _).thead timo_t.timo_wakeup = _
    rw [(timeout_put_other _ id timo_t.timo_expire timo_t.timo_wakeup _ (by decide) 0).1,
      (timeout_remove_other _ id timo_t.timo_expire timo_t.timo_wakeup (by decide) 0).1]
  · intro i
    rw [htr]
    show (wiring_timeout_put (wiring_timeout_remove s.storage id timo_t.timo_expire) id
      timo_t.timo_expire _).link i timo_t.timo_wakeup = _
    rw [(timeout_put_other _ id timo_t.timo_expire timo_t.timo_wakeup _ (by decide) i).2,
      (timeout_remove_other _ id timo_t.timo_expire timo_t.timo_wakeup (by decide) i).2]
  · intro i
    rw [htr]
    exact hcore.wires i
  · rw [htr]
  · rw [htr]
  · rw [htr]
  · rw [htr]
  · rw [htr]

/-- C33: malformed messages are dropped without effect. `wireup_rx_msg`
returns with the wiring exactly as it was when the buffer is shorter than the
8-byte header, when `op` is none of ACK, KEEPALIVE, REQ, STOP, when the buffer
is shorter than the header and the `addrlen` bytes it announces, when `op` is
REQ and `addrlen = 0` or `sender_id` is not below `SENDER_ID_MAX`, and when
`op` is ACK, KEEPALIVE or STOP and the id field of the tag is not below
`SENDER_ID_MAX` or not below the table count. -/
theorem malformed_message_dropped (L : layout_t) (fuel : Nat) (e : env_t) (fenv : Nat → env_t)
    (now : Nat) (s : wiring_t) (proto_id : Nat) (buf : List Nat) (buflen : Nat)
    (h : buflen < WIREUP_MSG_HDRLEN ∨
      ((wireup_msg_view buf).op ≠ OP_ACK ∧ (wireup_msg_view buf).op ≠ OP_KEEPALIVE ∧
        (wireup_msg_view buf).op ≠ OP_REQ ∧ (wireup_msg_view buf).op ≠ OP_STOP) ∨
      buflen < WIREUP_MSG_HDRLEN + (wireup_msg_view buf).addrlen ∨
      ((wireup_msg_view buf).op = OP_REQ ∧
        ((wireup_msg_view buf).addrlen = 0 ∨ SENDER_ID_MAX ≤ (wireup_msg_view buf).sender_id)) ∨
      (((wireup_msg_view buf).op = OP_ACK ∨ (wireup_msg_view buf).op = OP_KEEPALIVE ∨
          (wireup_msg_view buf).op = OP_STOP) ∧
        (SENDER_ID_MAX ≤ proto_id ∨ s.storage.nwires ≤ proto_id))) :
    wireup_rx_msg L fuel e fenv now s proto_id buf buflen = some s := by
  unfold wireup_rx_msg
  rcases hc : wireup_rx_msg_check buf buflen with _ | msg
  · rfl
  · have hview : msg = wireup_msg_view buf ∧ ¬ buflen < WIREUP_MSG_HDRLEN ∧
        ¬ buflen < WIREUP_MSG_HDRLEN + (wireup_msg_view buf).addrlen ∧
        ((wireup_msg_view buf).op = OP_ACK ∨ (wireup_msg_view buf).op = OP_KEEPALIVE ∨
          (wireup_msg_view buf).op = OP_REQ ∨ (wireup_msg_view buf).op = OP_STOP) := by
      unfold wireup_rx_msg_check at hc
      split at hc
      · cases hc
      · rename_i h1
        simp only at hc
        split at hc
        · rename_i h2
          split at hc
          · cases hc
          · rename_i h3
            simp only [Option.some.injEq] at hc
            exact ⟨hc.symm, h1, h3, h2⟩
        · cases hc
    obtain ⟨hm, g1, g3, g2⟩ := hview
    subst hm
    simp only
    rcases h with h | h | h | h | h
    · exact absurd h g1
    · rcases g2 with g | g | g | g
      · exact absurd g h.1
      · exact absurd g h.2.1
      · exact absurd g h.2.2.1
      · exact absurd g h.2.2.2
    · exact absurd h g3
    · rw [if_pos h.1]
      unfold wireup_rx_req
      rcases h.2 with h4 | h4
      · rw [if_pos h4]
      · by_cases h5 : (wireup_msg_view buf).addrlen = 0
        · rw [if_pos h5]
        · rw [if_neg h5, if_pos h4]
    · have hnreq : ¬ (wireup_msg_view buf).op = OP_REQ := by
        rcases h.1 with g | g | g <;> rw [g] <;> decide
      rw [if_neg hnreq]
      unfold wireup_msg_transition
      rcases h.2 with h4 | h4
      · rw [if_pos h4]
      · by_cases h5 : proto_id ≥ SENDER_ID_MAX
        · rw [if_pos h5]
        · rw [if_neg h5, if_pos h4]

theorem malformed_message_dropped_witness :
    wireup_rx_msg layout_example 8 env_ok (fun _ => env_ok) 0 one_live_wire 0 [3, 0, 0] 3 =
        some one_live_wire ∧
      wireup_rx_msg layout_example 8 env_ok (fun _ => env_ok) 0 one_live_wire 0
        (wireup_msg_bytes req_example) 8 = some one_live_wire ∧
      wireup_rx_msg layout_example 8 env_ok (fun _ => env_ok) 0 one_live_wire 7
        (wireup_msg_bytes stop_example) 8 = some one_live_wire :=
  ⟨malformed_message_dropped layout_example 8 env_ok (fun _ => env_ok) 0 one_live_wire 0
      [3, 0, 0] 3 (Or.inl (by decide)),
    malformed_message_dropped layout_example 8 env_ok (fun _ => env_ok) 0 one_live_wire 0
      (wireup_msg_bytes req_example) 8 (Or.inr (Or.inr (Or.inl (by decide)))),
    malformed_message_dropped layout_example 8 env_ok (fun _ => env_ok) 0 one_live_wire 7
      (wireup_msg_bytes stop_example) 8 (Or.inr (Or.inr (Or.inr (Or.inr (by decide)))))⟩

/-- C34: a reference that ends on every bin's stack. A reference holds epoch
`e` exactly when its stored epoch is at most `e` and it is busy. Reference 0 is
initialized once and never acquired; the table grows five times with a driver
pass after each growth, and every pass returns. Before the fifth growth the
window is `[4, 4)`, reference 0 is the head of the stack of bin 0 with the
sentinel below it, and the other bins hold the sentinel alone. The pass after
the fifth growth reclaims epoch 4 with `last = 5`: it pops reference 0 from
bin 0 and then pops the sentinel as if it were a reference, and pushes both on
bin `5 % 4`. Afterwards the head of every bin's stack is the sentinel, whose
`next` is reference 0, whose `next` is the sentinel: reference 0 is on the
stack of all four bins, not of bin `5 % 4` alone. -/
theorem moved_ref_on_every_stack :
    (∀ (ref : wiring_ref_t) (e : Nat),
      wiring_ref_holds_epoch ref e = true ↔ ref.epoch ≤ e ∧ ref.busy = true) ∧
    ∃ s4 s5, four_growths_with_ref = some s4 ∧ five_growths_with_ref = some s5 ∧
      s4.garbage_sched.epoch_first = 4 ∧ s4.garbage_sched.epoch_last = 4 ∧
      (s4.ref (ref_ptr.user 0)).busy = false ∧
      ref_stack s4 0 3 = [ref_ptr.user 0, ref_ptr.sentinel] ∧
      (∀ b, b < NBINS → b ≠ 0 → ref_stack s4 b 3 = [ref_ptr.sentinel]) ∧
      s5.garbage_sched.epoch_first = 5 ∧ s5.garbage_sched.epoch_last = 5 ∧
      (s5.ref (ref_ptr.user 0)).busy = false ∧
      s5.sentinel.next = ref_ptr.user 0 ∧
      (s5.ref (ref_ptr.user 0)).next = ref_ptr.sentinel ∧
      ∀ b, b < NBINS →
        ref_stack s5 b 3 = [ref_ptr.sentinel, ref_ptr.user 0, ref_ptr.sentinel] := by
  constructor
  · intro ref e
    unfold wiring_ref_holds_epoch
    by_cases h : ref.epoch > e
    · simp only [if_pos h, Bool.false_eq_true, false_iff]
      omega
    · simp only [if_neg h]
      constructor
      · intro hb
        exact ⟨by omega, hb⟩
      · exact fun hb => hb.2
  · refine ⟨_, _, rfl, rfl, ?_, ?_, ?_, ?_, ?_, ?_, ?_, ?_, ?_, ?_, ?_⟩ <;> decide

/-- C38: a second `wireup_stop` is not without effect. After one
`wireup_stop` wire 0 is CLOSING, at the head of the closing list of bin 0,
and its `next` is nil; the second `wireup_stop` returns true and puts the
wire on the closing list again: its `next` now designates the wire itself, so
that the closing list of bin 0 is cyclic, and the table differs from the one
the first call left. -/
theorem second_stop_relinks :
    (stopped_once.storage.getw 0).state = wire_state_t.CLOSING ∧
      (stopped_once.getbin 0).first_closed = some 0 ∧
      (stopped_once.storage.getw 0).next = none ∧
      next_walk stopped_once.storage 3 (stopped_once.getbin 0).first_closed = [0] ∧
      (wireup_stop env_ok stopped_once (some 0) true).1 = true ∧
      (stopped_twice.storage.getw 0).state = wire_state_t.CLOSING ∧
      (stopped_twice.getbin 0).first_closed = some 0 ∧
      (stopped_twice.storage.getw 0).next = some 0 ∧
      next_walk stopped_twice.storage 3 (stopped_twice.getbin 0).first_closed = [0, 0, 0] ∧
      stopped_twice.storage ≠ stopped_once.storage := by
  decide

/-- C36 as stated fails when the epoch window is full. In
`early_stop_scenario` the table has 16 wires, none free, wire 0 is on the
closing list of bin 1 and the window is `[0, 4)`. `wiring_enlarge` succeeds;
its `wiring_garbage_add` first reclaims, which frees slot 0 and pushes it on
the free list in front of the new slots: the free list is 0, 16, ..., 31 and
the next free-slot request returns slot 0, not slot 16. -/
theorem enlarge_reclaimed_slot_first :
    ∃ s r, early_stop_scenario = some s ∧
      s.storage.nwires = 16 ∧ free_list s = [] ∧ closing_list s 1 = [0] ∧
      s.garbage_sched.epoch_first = 0 ∧ s.garbage_sched.epoch_last = 4 ∧
      wiring_enlarge layout_example 8 env_ok (fun _ => env_ok) s = some (true, r) ∧
      r.storage.nwires = 32 ∧
      free_list r = 0 :: List.range' 16 16 ∧
      (wiring_free_get r.storage).1 = some 0 := by
  refine ⟨_, _, rfl, ?_, ?_, ?_, ?_, ?_, rfl, ?_, ?_, ?_⟩ <;> decide

/-- The walk over the new slots of the table `wiring_enlarge` builds, from
slot `j` on, continues with the old free list. -/
theorem next_walk_new_slots (L : layout_t) (ost : wstorage_t) (oassoc : List Ptr)
    (hgt : ost.nwires < enlarge_nwires L ost.nwires) (m : Nat) :
    ∀ (d j : Nat), ost.nwires ≤ j → j + (d + 1) = enlarge_nwires L ost.nwires →
      next_walk (enlarge_tables L ost oassoc).1 (d + 1 + m) (some j) =
        List.range' j (d + 1) ++ next_walk (enlarge_tables L ost oassoc).1 m ost.first_free := by
  intro d
  induction d with
  | zero =>
    intro j hj hn
    have hw : (enlarge_tables L ost oassoc).1.getw j = { wire_fresh j with next := ost.first_free } := by
      rw [getw_enlarge_tables L ost oassoc hgt j, if_neg (by omega), if_pos (by omega)]
    have hfuel : 0 + 1 + m = m + 1 := by omega
    rw [hfuel]
    simp only [next_walk, hw]
    rfl
  | succ d ih =>
    intro j hj hn
    have hw : (enlarge_tables L ost oassoc).1.getw j = wire_fresh j := by
      rw [getw_enlarge_tables L ost oassoc hgt j, if_neg (by omega), if_neg (by omega),
        if_pos (by omega)]
    have hfuel : d + 1 + 1 + m = (d + 1 + m) + 1 := by omega
    rw [hfuel]
    simp only [next_walk, hw]
    have hnx : (wire_fresh j).next = some (j + 1) := rfl
    rw [hnx, ih (j + 1) (by omega) (by omega)]
    rfl

/-- A walk that starts in the old table stays there and meets the same slots
in the table `wiring_enlarge` builds. -/
theorem next_walk_old_slots (L : layout_t) (s : wiring_t) (hok : ids_ok s)
    (hgt : s.storage.nwires < enlarge_nwires L s.storage.nwires) :
    ∀ (m : Nat) (p : sender_id_t), (∀ id, p = some id → id < s.storage.nwires) →
      next_walk (enlarge_tables L s.storage s.assoc).1 m p = next_walk s.storage m p := by
  intro m
  induction m with
  | zero => intro p _; rfl
  | succ m ih =>
    intro p hp
    rcases p with _ | id
    · rfl
    · have hid := hp id rfl
      have hw : (enlarge_tables L s.storage s.assoc).1.getw id = s.storage.getw id := by
        rw [getw_enlarge_tables L s.storage s.assoc hgt id, if_pos hid]
      simp only [next_walk, hw]
      rw [ih _ (fun id2 h2 => hok.next id id2 h2)]

/-- The new slots and the free list after a successful `wiring_enlarge` whose
epoch window was not full at the call. -/
theorem enlarge_free_list_order (L : layout_t) (fuel : Nat) (e : env_t) (fenv : Nat → env_t)
    (s s' : wiring_t) (hok : ids_ok s)
    (hfull : s.garbage_sched.epoch_last - s.garbage_sched.epoch_first ≠ NBINS)
    (h : wiring_enlarge L fuel e fenv s = some (true, s')) :
    s.storage.nwires < s'.storage.nwires ∧
      (∀ i, s.storage.nwires ≤ i → i < s'.storage.nwires →
        (s'.storage.getw i).state = wire_state_t.FREE ∧
        (s'.storage.getw i).ep = none ∧
        (s'.storage.getw i).id = sender_id_nil ∧
        (s'.storage.getw i).msg = none ∧
        (∀ which, s'.storage.link i which = { prev := some i, next := some i, due := 0 }) ∧
        s'.assoc[i]? = some Ptr.null) ∧
      free_list s' =
        List.range' s.storage.nwires (s'.storage.nwires - s.storage.nwires) ++ free_list s ∧
      (wiring_free_get s'.storage).1 = some s.storage.nwires := by
  obtain ⟨hgt, hadd⟩ := wiring_enlarge_success L fuel e fenv s s' h
  have hfull' : (enlarge_install L s).garbage_sched.epoch_last -
      (enlarge_install L s).garbage_sched.epoch_first ≠ NBINS := hfull
  obtain ⟨hst, has⟩ := garbage_add_not_full fuel fenv (enlarge_install L s) s' _ _ hfull' hadd
  have hst' : s'.storage = (enlarge_tables L s.storage s.assoc).1 := hst
  have has' : s'.assoc = (enlarge_tables L s.storage s.assoc).2 := has
  have hnw : s'.storage.nwires = enlarge_nwires L s.storage.nwires := by
    rw [hst']
    exact nwires_enlarge_tables L s.storage s.assoc hgt
  have hff : s'.storage.first_free = some s.storage.nwires := by
    rw [hst']
    rfl
  refine ⟨by rw [hnw]; exact hgt, ?_, ?_, ?_⟩
  · intro i h1 h2
    rw [hnw] at h2
    have hw : s'.storage.getw i = wire_fresh i ∨
        s'.storage.getw i = { wire_fresh i with next := s.storage.first_free } := by
      rw [hst', getw_enlarge_tables L s.storage s.assoc hgt i, if_neg (by omega)]
      by_cases h3 : i + 1 = enlarge_nwires L s.storage.nwires
      · rw [if_pos h3]
        exact Or.inr rfl
      · rw [if_neg h3, if_pos h2]
        exact Or.inl rfl
    have hassoc : s'.assoc[i]? = some Ptr.null := by
      rw [has']
      simp only [enlarge_tables]
      have hl : (s.assoc.take s.storage.nwires).length = s.storage.nwires := by
        rw [List.length_take, hok.assoc]
        exact Nat.min_self _
      rw [List.getElem?_append_right (by rw [hl]; exact h1), hl]
      rw [List.getElem?_replicate]
      rw [if_pos (by omega)]
    rcases hw with hw | hw
    · refine ⟨by rw [hw]; rfl, by rw [hw]; rfl, by rw [hw]; rfl, by rw [hw]; rfl, ?_, hassoc⟩
      intro which
      unfold wstorage_t.link
      rw [hw]
      cases which <;> rfl
    · refine ⟨by rw [hw]; rfl, by rw [hw]; rfl, by rw [hw]; rfl, by rw [hw]; rfl, ?_, hassoc⟩
      intro which
      unfold wstorage_t.link
      rw [hw]
      cases which <;> rfl
  · unfold free_list
    rw [hff, hnw, hst']
    obtain ⟨d, hd⟩ : ∃ d, s.storage.nwires + (d + 1) = enlarge_nwires L s.storage.nwires :=
      ⟨enlarge_nwires L s.storage.nwires - s.storage.nwires - 1, by omega⟩
    have hsplit : enlarge_nwires L s.storage.nwires = d + 1 + s.storage.nwires := by omega
    have hlen : enlarge_nwires L s.storage.nwires - s.storage.nwires = d + 1 := by omega
    rw [hlen]
    nth_rewrite 1 [hsplit]
    rw [next_walk_new_slots L s.storage s.assoc hgt s.storage.nwires d s.storage.nwires
      (le_refl _) hd]
    rw [next_walk_old_slots L s hok hgt _ _ (fun id hid => hok.free id hid)]
  · exact (wiring_free_get_some _ _ hff).1

/-- The count `wiring_enlarge` computes when doubling the table's size does
not overflow `size_t`. -/
theorem enlarge_nwires_double (L : layout_t) (n : Nat) (hw : 0 < L.sizeof_wire_t)
    (hsz : 2 * (L.sizeof_wstorage_t + n * L.sizeof_wire_t) ≤ L.SIZE_MAX) :
    enlarge_nwires L n = min (SENDER_ID_MAX - 1) (2 * n) := by
  unfold enlarge_nwires twice_or_max
  have h1 : ¬ L.sizeof_wstorage_t + n * L.sizeof_wire_t > L.SIZE_MAX / 2 := by omega
  simp only [if_neg h1]
  have h2 : 2 * (L.sizeof_wstorage_t + n * L.sizeof_wire_t) - L.sizeof_wstorage_t -
      L.sizeof_wstorage_t = 2 * n * L.sizeof_wire_t := by
    rw [Nat.mul_add, Nat.mul_assoc]
    omega
  rw [h2, Nat.mul_div_cancel _ hw]

/-- C35: the size of the grown table. For a table of `n >= 1` wires whose
byte size does not overflow `size_t` when doubled: a successful
`wiring_enlarge` leaves a table of exactly `min (SENDER_ID_MAX - 1) (2 * n)`
wires, which is more than `n`; when that number is not greater than `n`
(which is when `n >= SENDER_ID_MAX - 1`) or an allocation fails,
`wiring_enlarge` returns `NULL` and leaves the wiring as it was; and when the
number is greater than `n`, the allocations succeed and the epoch window is
not full, `wiring_enlarge` succeeds. In particular, on the table of one wire
that `wiring_init` leaves, the first `wireup_start` does not grow the table
and the second grows it once, to two wires. -/
theorem enlarge_size (L : layout_t) (fuel : Nat) (e : env_t) (fenv : Nat → env_t) (s : wiring_t)
    (hn : 1 ≤ s.storage.nwires) (hw : 0 < L.sizeof_wire_t)
    (hsz : 2 * (L.sizeof_wstorage_t + s.storage.nwires * L.sizeof_wire_t) ≤ L.SIZE_MAX) :
    (∀ s', wiring_enlarge L fuel e fenv s = some (true, s') →
        s'.storage.nwires = min (SENDER_ID_MAX - 1) (2 * s.storage.nwires) ∧
        s.storage.nwires < s'.storage.nwires) ∧
      (min (SENDER_ID_MAX - 1) (2 * s.storage.nwires) ≤ s.storage.nwires ↔
        SENDER_ID_MAX - 1 ≤ s.storage.nwires) ∧
      (min (SENDER_ID_MAX - 1) (2 * s.storage.nwires) ≤ s.storage.nwires ∨
          e.malloc_st_ok = false ∨ e.malloc_assoc_ok = false →
        wiring_enlarge L fuel e fenv s = some (false, s)) ∧
      (s.storage.nwires < min (SENDER_ID_MAX - 1) (2 * s.storage.nwires) →
        e.malloc_st_ok = true → e.malloc_assoc_ok = true →
        s.garbage_sched.epoch_last - s.garbage_sched.epoch_first ≠ NBINS →
        ∃ s', wiring_enlarge L (fuel + 1) e fenv s = some (true, s')) ∧
      ∃ s1 s2, starts_example 1 wiring_example = some s1 ∧
        starts_example 2 wiring_example = some s2 ∧
        wiring_example.storage.nwires = 1 ∧ wiring_example.garbage_sched.epoch_last = 0 ∧
        s1.storage.nwires = 1 ∧ s1.garbage_sched.epoch_last = 0 ∧
        s2.storage.nwires = 2 ∧ s2.garbage_sched.epoch_last = 1 := by
  have hdbl := enlarge_nwires_double L s.storage.nwires hw hsz
  refine ⟨?_, ?_, ?_, ?_, ?_⟩
  · intro s' h
    obtain ⟨hgt, hadd⟩ := wiring_enlarge_success L fuel e fenv s s' h
    have hrel := (garbage_add_good fuel fenv _ _ _ _ hadd).1
    have hnw : (enlarge_install L s).storage.nwires = enlarge_nwires L s.storage.nwires :=
      nwires_enlarge_tables L s.storage s.assoc hgt
    rw [hrel.nwires, hnw]
    exact ⟨hdbl, hgt⟩
  · omega
  · intro hc
    unfold wiring_enlarge
    simp only
    rcases hc with hc | hc | hc
    · rw [← hdbl] at hc
      have := Nat.mul_le_mul_right L.sizeof_wire_t hc
      rw [if_pos (by omega)]
    · split
      · rfl
      · simp [hc]
    · split
      · rfl
      · split
        · rfl
        · simp [hc]
  · intro hgt h1 h2 hfull
    rw [← hdbl] at hgt
    have := Nat.mul_lt_mul_of_pos_right hgt hw
    unfold wiring_enlarge
    simp only [h1, h2]
    rw [if_neg (by omega)]
    simp only [Bool.not_true, Bool.false_eq_true, if_false]
    unfold wiring_garbage_add garbage_make_room
    simp only [if_neg hfull]
    exact ⟨_, rfl⟩
  · refine ⟨_, _, rfl, rfl, ?_, ?_, ?_, ?_, ?_, ?_⟩ <;> decide

theorem enlarge_size_witness :
    ∃ s', wiring_enlarge layout_example 8 env_ok (fun _ => env_ok) one_live_wire =
        some (true, s') ∧ one_live_wire.storage.nwires = 1 ∧ s'.storage.nwires = 2 ∧
      wiring_enlarge layout_example 8 env_no_table (fun _ => env_ok) one_live_wire =
        some (false, one_live_wire) :=
  have h := enlarge_size layout_example 8 env_ok (fun _ => env_ok) one_live_wire (by decide)
    (by decide) (by decide)
  have g := enlarge_size layout_example 8 env_no_table (fun _ => env_ok) one_live_wire
    (by decide) (by decide) (by decide)
  ⟨_, rfl, by decide, (h.1 _ rfl).1.trans (by decide), g.2.2.1 (Or.inr (Or.inl (by decide)))⟩

theorem hash_loop_eq_foldl (bytes : List Nat) (hb : ∀ c ∈ bytes, c ≠ 0) :
    ∀ result, fs_proc_string_hash_loop (bytes ++ [0]) result =
      bytes.foldl (fun h c => (h * 33 + c) % 2 ^ 32) result := by
  induction bytes with
  | nil => intro result; rfl
  | cons c p ih =>
    intro result
    have hc : c ≠ 0 := hb c (List.mem_cons_self _ _)
    have hstep : ((result <<< 5) % 2 ^ 32 + result + c) % 2 ^ 32 =
        (result * 33 + c) % 2 ^ 32 := by
      rw [Nat.shiftLeft_eq]
      omega
    show fs_proc_string_hash_loop (c :: (p ++ [0])) result = _
    simp only [fs_proc_string_hash_loop, if_neg hc, List.foldl_cons, hstep]
    exact ih (fun d hd => hb d (List.mem_cons_of_mem _ hd)) _

/-- C39: a negative hash. For every string without an inner NUL the loop of
`fs_proc_string_hash` computes the djb2 hash modulo `2 ^ 32`; for the string
`"commit"` that hash is 4142136814, which is not below `2 ^ 31`, and the
value returned as `int` is -152830482. -/
theorem string_hash_negative :
    (∀ bytes : List Nat, (∀ c ∈ bytes, c ≠ 0) →
      fs_proc_string_hash_loop (bytes ++ [0]) 5381 = djb2 bytes) ∧
      fs_proc_string_hash_loop commit_string 5381 = 4142136814 ∧
      fs_proc_string_hash commit_string = -152830482 ∧
      fs_proc_string_hash commit_string < 0 := by
  refine ⟨fun bytes hb => hash_loop_eq_foldl bytes hb 5381, ?_, ?_, ?_⟩ <;> decide

theorem length_bytes_le : ∀ (n v : Nat), (bytes_le n v).length = n
  | 0, _ => rfl
  | n + 1, v => by simp [bytes_le, length_bytes_le n]

theorem val_le_bytes_le : ∀ (n v : Nat), val_le (bytes_le n v) = v % 256 ^ n
  | 0, v => by simp [bytes_le, val_le, Nat.mod_one]
  | n + 1, v => by
    simp only [bytes_le, val_le, val_le_bytes_le n]
    rw [Nat.pow_succ', Nat.mod_mul]

theorem bytes_le_lt : ∀ (n v b : Nat), b ∈ bytes_le n v → b < 256
  | 0, _, b, h => by simp [bytes_le] at h
  | n + 1, v, b, h => by
    simp only [bytes_le, List.mem_cons] at h
    rcases h with h | h
    · rw [h]
      exact Nat.mod_lt _ (by decide)
    · exact bytes_le_lt n _ b h

theorem val_le_lt : ∀ l : List Nat, (∀ b ∈ l, b < 256) → val_le l < 256 ^ l.length
  | [], _ => by simp [val_le]
  | b :: l, h => by
    have h1 := h b (List.mem_cons_self _ _)
    have h2 := val_le_lt l (fun c hc => h c (List.mem_cons_of_mem _ hc))
    simp only [val_le, List.length_cons, Nat.pow_succ]
    omega

theorem bytes_le_val_le : ∀ l : List Nat, (∀ b ∈ l, b < 256) →
    bytes_le l.length (val_le l) = l
  | [], _ => rfl
  | b :: l, h => by
    have h1 := h b (List.mem_cons_self _ _)
    have h2 := bytes_le_val_le l (fun c hc => h c (List.mem_cons_of_mem _ hc))
    simp only [val_le, List.length_cons, bytes_le]
    have e1 : (b + 256 * val_le l) % 256 = b := by omega
    have e2 : (b + 256 * val_le l) / 256 = val_le l := by omega
    rw [e1, e2, h2]

theorem val_of_bytes_of (be : Bool) (n v : Nat) : val_of be (bytes_of be n v) = v % 256 ^ n := by
  cases be
  · exact val_le_bytes_le n v
  · simp only [val_of, bytes_of, if_true, List.reverse_reverse]
    exact val_le_bytes_le n v

theorem htonl_lt (be : Bool) (x : Nat) : htonl be x < 2 ^ 32 := by
  cases be
  · have h := val_le_lt (bytes_le 4 x).reverse (fun b hb =>
      bytes_le_lt 4 x b (List.mem_reverse.mp hb))
    rw [List.length_reverse, length_bytes_le] at h
    exact h
  · exact Nat.mod_lt _ (by decide)

theorem ntohl_htonl (be : Bool) (x : Nat) (hx : x < 2 ^ 32) : ntohl be (htonl be x) = x := by
  cases be
  · have hb : ∀ b ∈ (bytes_le 4 x).reverse, b < 256 := fun b hb =>
      bytes_le_lt 4 x b (List.mem_reverse.mp hb)
    have h1 := bytes_le_val_le (bytes_le 4 x).reverse hb
    rw [List.length_reverse, length_bytes_le] at h1
    show val_le (bytes_le 4 (val_le (bytes_le 4 x).reverse)).reverse = x
    rw [h1, List.reverse_reverse, val_le_bytes_le]
    exact Nat.mod_eq_of_lt hx
  · show x % 2 ^ 32 % 2 ^ 32 = x
    rw [Nat.mod_mod, Nat.mod_eq_of_lt hx]

/-- The value `(a << 32) | b` of two 32-bit halves, and its halves. -/
theorem halves_or (a b : Nat) (ha : a < 2 ^ 32) (hb : b < 2 ^ 32) :
    ((a <<< 32) % 2 ^ 64) ||| b = 2 ^ 32 * a + b ∧
      (2 ^ 32 * a + b) &&& 0xffffffff = b ∧ ((2 ^ 32 * a + b) >>> 32) % 2 ^ 32 = a ∧
      2 ^ 32 * a + b < 2 ^ 64 := by
  have h1 : (a <<< 32) % 2 ^ 64 = 2 ^ 32 * a := by
    rw [Nat.shiftLeft_eq, Nat.mul_comm]
    apply Nat.mod_eq_of_lt
    omega
  have h2 : (0xffffffff : Nat) = 2 ^ 32 - 1 := by decide
  refine ⟨?_, ?_, ?_, by omega⟩
  · rw [h1]
    exact (Nat.mul_add_lt_is_or hb a).symm
  · rw [h2, Nat.and_pow_two_sub_one_eq_mod]
    omega
  · rw [Nat.shiftRight_eq_div_pow]
    omega

/-- The conversion of the 64-bit id: decoding undoes encoding. -/
theorem uint64_dec_enc (be : Bool) (x : Nat) (hx : x < 2 ^ 64) :
    hg_core_header_proc_hg_uint64_t_dec be (hg_core_header_proc_hg_uint64_t_enc be x) = x ∧
      hg_core_header_proc_hg_uint64_t_enc be x < 2 ^ 64 := by
  have h2 : (0xffffffff : Nat) = 2 ^ 32 - 1 := by decide
  have hlo : x &&& 0xffffffff = x % 2 ^ 32 := by
    rw [h2, Nat.and_pow_two_sub_one_eq_mod]
  have hhi : (x >>> 32) % 2 ^ 32 = x / 2 ^ 32 := by
    rw [Nat.shiftRight_eq_div_pow]
    apply Nat.mod_eq_of_lt
    omega
  have e := halves_or (htonl be (x % 2 ^ 32)) (htonl be (x / 2 ^ 32)) (htonl_lt _ _)
    (htonl_lt _ _)
  have henc : hg_core_header_proc_hg_uint64_t_enc be x =
      2 ^ 32 * htonl be (x % 2 ^ 32) + htonl be (x / 2 ^ 32) := by
    unfold hg_core_header_proc_hg_uint64_t_enc
    rw [hlo, hhi]
    exact e.1
  refine ⟨?_, by rw [henc]; exact e.2.2.2⟩
  unfold hg_core_header_proc_hg_uint64_t_dec
  rw [henc, e.2.1, e.2.2.1, ntohl_htonl be _ (by omega),
    ntohl_htonl be _ (Nat.mod_lt _ (by decide))]
  rw [(halves_or (x / 2 ^ 32) (x % 2 ^ 32) (by omega) (Nat.mod_lt _ (by decide))).1]
  omega

/-- The conversion of an 8-bit member through the buffer. -/
theorem uint8_dec_enc (be : Bool) (x : Nat) (hx : x < 256) :
    bytes_of be 1 (hg_core_header_proc_hg_uint8_t_enc x) = [x] ∧
      hg_core_header_proc_hg_uint8_t_dec (val_of be [x]) = x := by
  have h2 : (0xff : Nat) = 2 ^ 8 - 1 := by decide
  have h3 : x &&& 0xff = x := by
    rw [h2, Nat.and_pow_two_sub_one_eq_mod]
    exact Nat.mod_eq_of_lt hx
  have h4 : x % 256 = x := Nat.mod_eq_of_lt hx
  constructor
  · unfold hg_core_header_proc_hg_uint8_t_enc
    rw [h3]
    cases be <;> simp [bytes_of, bytes_le, h4]
  · unfold hg_core_header_proc_hg_uint8_t_dec
    have : val_of be [x] = x := by cases be <;> simp [val_of, val_le]
    rw [this, h3]

theorem eight_bytes : ∀ l : List Nat, l.length = 8 →
    ∃ b0 b1 b2 b3 b4 b5 b6 b7, l = [b0, b1, b2, b3, b4, b5, b6, b7]
  | [b0, b1, b2, b3, b4, b5, b6, b7], _ => ⟨b0, b1, b2, b3, b4, b5, b6, b7, rfl⟩
  | [], h => by simp at h
  | [_], h => by simp at h
  | [_, _], h => by simp at h
  | [_, _, _], h => by simp at h
  | [_, _, _, _], h => by simp at h
  | [_, _, _, _, _], h => by simp at h
  | [_, _, _, _, _, _], h => by simp at h
  | [_, _, _, _, _, _, _], h => by simp at h
  | _ :: _ :: _ :: _ :: _ :: _ :: _ :: _ :: _ :: _, h => by simp at h

theorem twelve_bytes (l : List Nat) (h : 12 ≤ l.length) :
    ∃ a0 a1 p a10 a11 rest, p.length = 8 ∧
      l = a0 :: a1 :: (p ++ a10 :: a11 :: rest) := by
  match l, h with
  | a0 :: a1 :: b0 :: b1 :: b2 :: b3 :: b4 :: b5 :: b6 :: b7 :: a10 :: a11 :: rest, _ =>
    exact ⟨a0, a1, [b0, b1, b2, b3, b4, b5, b6, b7], a10, a11, rest, rfl, rfl⟩
  | [], h => simp at h
  | [_], h => simp at h
  | [_, _], h => simp at h
  | [_, _, _], h => simp at h
  | [_, _, _, _], h => simp at h
  | [_, _, _, _, _], h => simp at h
  | [_, _, _, _, _, _], h => simp at h
  | [_, _, _, _, _, _, _], h => simp at h
  | [_, _, _, _, _, _, _, _], h => simp at h
  | [_, _, _, _, _, _, _, _, _], h => simp at h
  | [_, _, _, _, _, _, _, _, _, _], h => simp at h
  | [_, _, _, _, _, _, _, _, _, _, _], h => simp at h

/-- What encoding writes: the twelve bytes of the five members, in front of
the bytes of the buffer from offset 12 on. -/
theorem request_proc_encode (be : Bool) (sizeof_request : Nat) (buf : List Nat) (buf_size : Nat)
    (h : hg_core_header_request) (hsz : 12 ≤ sizeof_request) (hlen : sizeof_request ≤ buf_size)
    (hbuf : buf_size ≤ buf.length)
    (hhg : h.hg < 256) (hpr : h.protocol < 256) (hfl : h.flags < 256) (hck : h.cookie < 256) :
    hg_core_header_request_proc be sizeof_request hg_proc_op_t.HG_ENCODE buf buf_size h =
      (hg_return_t.HG_SUCCESS,
        h.hg :: h.protocol :: (bytes_of be 8 (hg_core_header_proc_hg_uint64_t_enc be h.id) ++
          h.flags :: h.cookie :: buf.drop 12), h) := by
  obtain ⟨a0, a1, p, a10, a11, rest, hp, rfl⟩ := twelve_bytes buf (by omega)
  obtain ⟨c0, c1, c2, c3, c4, c5, c6, c7, rfl⟩ := eight_bytes p hp
  have hB : (bytes_of be 8 (hg_core_header_proc_hg_uint64_t_enc be h.id)).length = 8 := by
    cases be <;> simp [bytes_of, length_bytes_le]
  obtain ⟨b0, b1, b2, b3, b4, b5, b6, b7, hb⟩ := eight_bytes _ hB
  unfold hg_core_header_request_proc
  rw [if_neg (by omega)]
  simp only [proc_hg_uint8_t, proc_hg_uint64_t, (uint8_dec_enc be _ hhg).1,
    (uint8_dec_enc be _ hpr).1, (uint8_dec_enc be _ hfl).1, (uint8_dec_enc be _ hck).1, hb]
  rfl

/-- What decoding reads from a buffer that holds eight bytes `B` between two
bytes and two more. -/
theorem request_proc_decode (be : Bool) (sizeof_request : Nat) (buf_size : Nat)
    (x0 x1 x10 x11 : Nat) (B rest : List Nat) (h0 : hg_core_header_request)
    (hlen : sizeof_request ≤ buf_size) (hB : B.length = 8) :
    hg_core_header_request_proc be sizeof_request hg_proc_op_t.HG_DECODE
        (x0 :: x1 :: (B ++ x10 :: x11 :: rest)) buf_size h0 =
      (hg_return_t.HG_SUCCESS, x0 :: x1 :: (B ++ x10 :: x11 :: rest),
        { hg := hg_core_header_proc_hg_uint8_t_dec (val_of be [x0])
          protocol := hg_core_header_proc_hg_uint8_t_dec (val_of be [x1])
          id := hg_core_header_proc_hg_uint64_t_dec be (val_of be B)
          flags := hg_core_header_proc_hg_uint8_t_dec (val_of be [x10])
          cookie := hg_core_header_proc_hg_uint8_t_dec (val_of be [x11]) }) := by
  obtain ⟨b0, b1, b2, b3, b4, b5, b6, b7, rfl⟩ := eight_bytes B hB
  unfold hg_core_header_request_proc
  rw [if_neg (by omega)]
  rfl

/-- C40: the round trip of the request header. On a host of either byte order,
for a header whose members fit their types (`hg`, `protocol`, `flags`,
`cookie` below `2 ^ 8`, `id` below `2 ^ 64`) and a buffer of at least
`buf_size` bytes, where `buf_size` is at least
`sizeof(struct hg_core_header_request)`, which is at least the 12 bytes of the
five members: `hg_core_header_request_proc` with `HG_ENCODE` returns
`HG_SUCCESS`, leaves the header as it is and changes only the first 12 bytes
of the buffer; `HG_DECODE` on the resulting buffer, into any header, returns
`HG_SUCCESS`, leaves the buffer as it is and yields the header that was
encoded. The conversion of the id satisfies `dec (enc x) = x` for every `x`
below `2 ^ 64`, and with a `buf_size` smaller than the header either operation
returns `HG_INVALID_ARG` and leaves buffer and header as they are. -/
theorem core_header_round_trip (be : Bool) (sizeof_request : Nat) (buf : List Nat)
    (buf_size : Nat) (h h0 : hg_core_header_request) (hsz : 12 ≤ sizeof_request)
    (hlen : sizeof_request ≤ buf_size) (hbuf : buf_size ≤ buf.length)
    (hhg : h.hg < 256) (hpr : h.protocol < 256) (hid : h.id < 2 ^ 64) (hfl : h.flags < 256)
    (hck : h.cookie < 256) :
    (hg_core_header_request_proc be sizeof_request hg_proc_op_t.HG_ENCODE buf buf_size h).1 =
        hg_return_t.HG_SUCCESS ∧
      (hg_core_header_request_proc be sizeof_request hg_proc_op_t.HG_ENCODE buf buf_size h).2.2 =
        h ∧
      (hg_core_header_request_proc be sizeof_request hg_proc_op_t.HG_ENCODE buf buf_size
        h).2.1.length = buf.length ∧
      (hg_core_header_request_proc be sizeof_request hg_proc_op_t.HG_ENCODE buf buf_size
        h).2.1.drop 12 = buf.drop 12 ∧
      hg_core_header_request_proc be sizeof_request hg_proc_op_t.HG_DECODE
          (hg_core_header_request_proc be sizeof_request hg_proc_op_t.HG_ENCODE buf buf_size
            h).2.1 buf_size h0 =
        (hg_return_t.HG_SUCCESS,
          (hg_core_header_request_proc be sizeof_request hg_proc_op_t.HG_ENCODE buf buf_size
            h).2.1, h) ∧
      (∀ x, x < 2 ^ 64 →
        hg_core_header_proc_hg_uint64_t_dec be (hg_core_header_proc_hg_uint64_t_enc be x) = x) ∧
      ∀ (op : hg_proc_op_t) (b : List Nat) (n : Nat) (hd : hg_core_header_request),
        n < sizeof_request →
        hg_core_header_request_proc be sizeof_request op b n hd =
          (hg_return_t.HG_INVALID_ARG, b, hd) := by
  have henc := request_proc_encode be sizeof_request buf buf_size h hsz hlen hbuf hhg hpr hfl hck
  have hB : (bytes_of be 8 (hg_core_header_proc_hg_uint64_t_enc be h.id)).length = 8 := by
    cases be <;> simp [bytes_of, length_bytes_le]
  obtain ⟨e1, e2⟩ := uint64_dec_enc be h.id hid
  refine ⟨by rw [henc], by rw [henc], ?_, ?_, ?_, fun x hx => (uint64_dec_enc be x hx).1, ?_⟩
  · rw [henc]
    simp only [List.length_cons, List.length_append, hB, List.length_drop]
    omega
  · rw [henc]
    show ((bytes_of be 8 (hg_core_header_proc_hg_uint64_t_enc be h.id) ++
      h.flags :: h.cookie :: buf.drop 12).drop 10) = _
    rw [List.drop_append_eq_append_drop, hB, List.drop_eq_nil_of_le (by rw [hB]; omega)]
    rfl
  · rw [henc]
    simp only
    rw [request_proc_decode be sizeof_request buf_size _ _ _ _ _ _ h0 hlen hB]
    rw [(uint8_dec_enc be _ hhg).2, (uint8_dec_enc be _ hpr).2, (uint8_dec_enc be _ hfl).2,
      (uint8_dec_enc be _ hck).2, val_of_bytes_of, Nat.mod_eq_of_lt (by
        show hg_core_header_proc_hg_uint64_t_enc be h.id < 256 ^ 8
        exact e2), e1]
  · intro op b n hd hn
    unfold hg_core_header_request_proc
    rw [if_pos hn]

theorem core_header_round_trip_witness :
    (hg_core_header_request_proc false 16 hg_proc_op_t.HG_ENCODE (List.replicate 16 0xaa) 16
        header_example).2.1 =
        [0xd3, 4, 0x11, 0x22, 0x33, 0x44, 0x55, 0x66, 0x77, 0x88, 1, 0xff, 0xaa, 0xaa, 0xaa,
          0xaa] ∧
      hg_core_header_request_proc false 16 hg_proc_op_t.HG_DECODE
          (hg_core_header_request_proc false 16 hg_proc_op_t.HG_ENCODE (List.replicate 16 0xaa)
            16 header_example).2.1 16 { hg := 0, protocol := 0, id := 0, flags := 0, cookie := 0 } =
        (hg_return_t.HG_SUCCESS,
          (hg_core_header_request_proc false 16 hg_proc_op_t.HG_ENCODE (List.replicate 16 0xaa)
            16 header_example).2.1, header_example) :=
  have h := core_header_round_trip false 16 (List.replicate 16 0xaa) 16 header_example
    { hg := 0, protocol := 0, id := 0, flags := 0, cookie := 0 } (by decide) (by decide)
    (by decide) (by decide) (by decide) (by decide) (by decide) (by decide)
  ⟨by decide, h.2.2.2.2.1⟩

theorem req_chain_set_next (next : Nat → Option Nat) (r : Nat) (v : Option Nat) :
    ∀ (l : List Nat) (p : Option Nat), r ∉ l → req_chain next p l →
      req_chain (fun x => if x = r then v else next x) p l
  | [], _, _, h => h
  | a :: l, p, hr, h => by
    have ha : a ≠ r := fun e => hr (e ▸ List.mem_cons_self _ _)
    refine ⟨h.1, ?_⟩
    simp only [if_neg ha]
    exact req_chain_set_next next r v l _ (fun hm => hr (List.mem_cons_of_mem _ hm)) h.2

/-- Storing `req` in the `next` member of the last request of a chain appends
`req` to the chain. -/
theorem req_chain_snoc (next : Nat → Option Nat) (req r : Nat) (hnext : next req = none) :
    ∀ (l : List Nat) (p : Option Nat), l.getLast? = some r → l.Nodup → req ∉ l →
      req_chain next p l →
      req_chain (fun x => if x = r then some req else next x) p (l ++ [req])
  | [], _, hl, _, _, _ => by simp at hl
  | [a], p, hl, _, hreq, h => by
    have har : a = r := by simpa using hl
    subst har
    have hne : req ≠ a := fun e => hreq (e ▸ List.mem_cons_self _ _)
    refine ⟨h.1, ?_, ?_⟩
    · simp
    · show (if req = a then some req else next req) = none
      rw [if_neg hne]
      exact hnext
  | a :: b :: l, p, hl, hnd, hreq, h => by
    have hl2 : (b :: l).getLast? = some r := by
      rw [List.getLast?_cons_cons] at hl
      exact hl
    have hrin : r ∈ b :: l := List.mem_of_getLast?_eq_some hl2
    have hnd2 := List.nodup_cons.mp hnd
    have har : a ≠ r := fun e => hnd2.1 (e ▸ hrin)
    refine ⟨h.1, ?_⟩
    simp only [if_neg har]
    exact req_chain_snoc next req r hnext (b :: l) _ hl2 hnd2.2
      (fun hm => hreq (List.mem_cons_of_mem _ hm)) h.2

theorem tail_of_snoc (l : List Nat) (req : Nat) : tail_of (l ++ [req]) = tailp_t.next_of req := by
  simp [tail_of]

/-- The request lists of `wiring_init`. -/
theorem req_lists_ok_init (next : Nat → Option Nat) : req_lists_ok (req_lists_init next) [] [] :=
  ⟨rfl, rfl, List.nodup_nil, rfl⟩

/-- `wiring_outst_request_put` appends at the tail of the queue. -/
theorem outst_request_put_ok (m : req_lists_t) (outst free : List Nat) (req : Nat)
    (hok : req_lists_ok m outst free) (h1 : req ∉ outst) (h2 : req ∉ free) :
    req_lists_ok (m.wiring_outst_request_put req) (outst ++ [req]) free := by
  have hnd := List.nodup_append.mp hok.nodup
  have hfree1 : req_chain (fun x => if x = req then none else m.next x) m.req_free_head free :=
    req_chain_set_next m.next req none free _ h2 hok.free_chain
  have hout1 : req_chain (fun x => if x = req then none else m.next x) m.req_outst_head outst :=
    req_chain_set_next m.next req none outst _ h1 hok.outst_chain
  have hnd' : (outst ++ [req] ++ free).Nodup := by
    rw [List.append_assoc]
    apply List.nodup_append.mpr
    refine ⟨hnd.1, ?_, ?_⟩
    · exact List.nodup_cons.mpr ⟨h2, hnd.2.1⟩
    · intro a ha hb
      rcases List.mem_cons.mp hb with e | hb
      · exact h1 (e ▸ ha)
      · exact hnd.2.2 ha hb
  rcases hlast : outst.getLast? with _ | r
  · have hnil : outst = [] := List.getLast?_eq_none_iff.mp hlast
    subst hnil
    have htp : m.req_outst_tailp = tailp_t.head := hok.tailp
    refine ⟨?_, ?_, hnd', ?_⟩
    · simp only [req_lists_t.wiring_outst_request_put, req_lists_t.store_tailp,
        req_lists_t.set_next, htp]
      exact ⟨rfl, by simp [req_chain]⟩
    · simp only [req_lists_t.wiring_outst_request_put, req_lists_t.store_tailp,
        req_lists_t.set_next, htp]
      exact hfree1
    · rfl
  · have htp : m.req_outst_tailp = tailp_t.next_of r := by
      rw [hok.tailp]
      simp [tail_of, hlast]
    have hrin : r ∈ outst := List.mem_of_getLast?_eq_some hlast
    have hrfree : r ∉ free := fun hm => hnd.2.2 hrin hm
    refine ⟨?_, ?_, hnd', tail_of_snoc outst req ▸ rfl⟩
    · simp only [req_lists_t.wiring_outst_request_put, req_lists_t.store_tailp,
        req_lists_t.set_next, htp]
      exact req_chain_snoc _ req r (by simp) outst _ hlast hnd.1 h1 hout1
    · simp only [req_lists_t.wiring_outst_request_put, req_lists_t.store_tailp,
        req_lists_t.set_next, htp]
      exact req_chain_set_next _ r (some req) free _ hrfree hfree1

/-- `wiring_free_request_put` pushes on the free stack and leaves the queue
alone. -/
theorem free_request_put_ok (m : req_lists_t) (outst free : List Nat) (req : Nat)
    (hok : req_lists_ok m outst free) (h1 : req ∉ outst) (h2 : req ∉ free) :
    req_lists_ok (m.wiring_free_request_put req) outst (req :: free) := by
  have hnd := List.nodup_append.mp hok.nodup
  refine ⟨?_, ?_, ?_, hok.tailp⟩
  · exact req_chain_set_next m.next req _ outst _ h1 hok.outst_chain
  · refine ⟨rfl, ?_⟩
    show req_chain (fun x => if x = req then m.req_free_head else m.next x)
      (if req = req then m.req_free_head else m.next req) free
    rw [if_pos rfl]
    exact req_chain_set_next m.next req _ free _ h2 hok.free_chain
  · apply List.nodup_append.mpr
    refine ⟨hnd.1, List.nodup_cons.mpr ⟨h2, hnd.2.1⟩, ?_⟩
    intro a ha hb
    rcases List.mem_cons.mp hb with e | hb
    · exact h1 (e ▸ ha)
    · exact hnd.2.2 ha hb

/-- `wiring_requests_check_status` returns, having moved the completed
requests at the head of the queue to the free stack, one after the other. -/
theorem requests_check_status_ok (in_progress : Nat → Bool) :
    ∀ (outst : List Nat) (fuel : Nat) (m : req_lists_t) (free : List Nat),
      req_lists_ok m outst free → outst.length < fuel →
      ∃ m', req_lists_t.wiring_requests_check_status in_progress fuel m =
          some (decide (outst.dropWhile (fun r => !in_progress r) ≠ []), m') ∧
        req_lists_ok m' (outst.dropWhile (fun r => !in_progress r))
          ((outst.takeWhile (fun r => !in_progress r)).reverse ++ free) ∧
        ∀ r ∈ outst.dropWhile (fun r => !in_progress r), m'.next r = m.next r := by
  intro outst
  induction outst with
  | nil =>
    intro fuel m free hok hf
    obtain ⟨f, rfl⟩ : ∃ f, fuel = f + 1 := ⟨fuel - 1, by simp at hf; omega⟩
    have hh : m.req_outst_head = none := hok.outst_chain
    refine ⟨m, ?_, hok, fun r hr => rfl⟩
    simp [req_lists_t.wiring_requests_check_status, hh]
  | cons r l ih =>
    intro fuel m free hok hf
    obtain ⟨f, rfl⟩ : ∃ f, fuel = f + 1 := ⟨fuel - 1, by simp at hf; omega⟩
    have hh : m.req_outst_head = some r := hok.outst_chain.1
    have hnd := List.nodup_append.mp hok.nodup
    have hnd2 := List.nodup_cons.mp hnd.1
    rcases hp : in_progress r with _ | _
    · -- the request at the head has completed
      have hrfree : r ∉ free := fun hm => hnd.2.2 (List.mem_cons_self _ _) hm
      have hok1 : req_lists_ok
          (if m.req_outst_tailp = tailp_t.next_of r then
            { m with req_outst_head := m.next r, req_outst_tailp := tailp_t.head }
          else { m with req_outst_head := m.next r }) l free := by
        have hnd1 : (l ++ free).Nodup := by
          apply List.nodup_append.mpr
          exact ⟨hnd2.2, hnd.2.1, fun a ha hb => hnd.2.2 (List.mem_cons_of_mem _ ha) hb⟩
        rcases l with _ | ⟨b, l'⟩
        · have htp : m.req_outst_tailp = tailp_t.next_of r := hok.tailp
          rw [if_pos htp]
          exact ⟨hok.outst_chain.2, hok.free_chain, hnd1, rfl⟩
        · have hlast : tail_of (r :: b :: l') = tail_of (b :: l') := by
            simp [tail_of, List.getLast?_cons_cons]
          have htp : m.req_outst_tailp = tail_of (b :: l') := by
            rw [hok.tailp, hlast]
          have hne : m.req_outst_tailp ≠ tailp_t.next_of r := by
            rw [htp]
            unfold tail_of
            rcases hl : (b :: l').getLast? with _ | x
            · simp
            · have hx : x ∈ b :: l' := List.mem_of_getLast?_eq_some hl
              simp only [ne_eq, tailp_t.next_of.injEq]
              intro e
              exact hnd2.1 (e ▸ hx)
          rw [if_neg hne]
          exact ⟨hok.outst_chain.2, hok.free_chain, hnd1, htp⟩
      have hok2 := free_request_put_ok _ l free r hok1 hnd2.1 hrfree
      obtain ⟨m', e1, e2, e3⟩ := ih f _ (r :: free) hok2 (by simp at hf; omega)
      have hdrop : (r :: l).dropWhile (fun r => !in_progress r) =
          l.dropWhile (fun r => !in_progress r) := by
        simp [List.dropWhile, hp]
      have htake : ((r :: l).takeWhile (fun r => !in_progress r)).reverse ++ free =
          (l.takeWhile (fun r => !in_progress r)).reverse ++ (r :: free) := by
        simp [List.takeWhile, hp]
      rw [hdrop, htake]
      refine ⟨m', ?_, e2, ?_⟩
      · rw [← e1]
        simp only [req_lists_t.wiring_requests_check_status, hh, hp]
        rfl
      · intro x hx
        rw [e3 x hx]
        have hxl : x ∈ l := (List.dropWhile_sublist _).subset hx
        have hxr : x ≠ r := fun e => hnd2.1 (e ▸ hxl)
        show (req_lists_t.wiring_free_request_put _ r).next x = m.next x
        simp only [req_lists_t.wiring_free_request_put, req_lists_t.set_next, if_neg hxr]
        split <;> rfl
    · -- the request at the head is in progress
      have hdrop : (r :: l).dropWhile (fun r => !in_progress r) = r :: l := by
        simp [List.dropWhile, hp]
      have htake : (r :: l).takeWhile (fun r => !in_progress r) = [] := by
        simp [List.takeWhile, hp]
      rw [hdrop, htake]
      refine ⟨m, ?_, hok, fun x hx => rfl⟩
      simp [req_lists_t.wiring_requests_check_status, hh, hp]

/-- `wiring_free_request_get` pops the free stack and leaves the queue alone. -/
theorem free_request_get_ok (m : req_lists_t) (outst : List Nat) (req : Nat) (free : List Nat)
    (header_alloc : Option Nat) (hok : req_lists_ok m outst (req :: free)) :
    (m.wiring_free_request_get header_alloc).1 = some req ∧
      req_lists_ok (m.wiring_free_request_get header_alloc).2 outst free := by
  have hh : m.req_free_head = some req := hok.free_chain.1
  have hnd := List.nodup_append.mp hok.nodup
  simp only [req_lists_t.wiring_free_request_get, hh]
  refine ⟨trivial, hok.outst_chain, hok.free_chain.2, ?_, hok.tailp⟩
  apply List.nodup_append.mpr
  exact ⟨hnd.1, (List.nodup_cons.mp hnd.2.1).2,
    fun a ha hb => hnd.2.2 ha (List.mem_cons_of_mem _ hb)⟩

/-- The lists that `wiring_requests_check_status` of the list model leaves. -/
theorem check_status_lists (in_progress : Nat → Bool) :
    ∀ (outst free : List Nat),
      wiring_requests_check_status.go in_progress outst free =
        (decide (outst.dropWhile (fun r => !in_progress r) ≠ []),
          outst.dropWhile (fun r => !in_progress r),
          (outst.takeWhile (fun r => !in_progress r)).reverse ++ free)
  | [], free => by simp [wiring_requests_check_status.go]
  | r :: l, free => by
    rcases hp : in_progress r with _ | _
    · simp only [wiring_requests_check_status.go, hp, check_status_lists in_progress l (r :: free)]
      simp [List.dropWhile, List.takeWhile, hp]
    · simp [wiring_requests_check_status.go, hp, List.dropWhile, List.takeWhile]

/-- C37: the outstanding requests are a FIFO queue. When the pointers
represent the queue `outst` and the free stack `free` (chains from both
heads, no request twice, and `req_outst_tailp` at the `next` member of the
last outstanding request, or at the head when there is none):
`wiring_outst_request_put` of a request that is on neither list leaves the
queue `outst ++ [req]`; `wiring_requests_check_status` returns, for enough
fuel, with the longest prefix of completed requests moved to the free stack
one after the other, with the queue from the first request in progress on,
whose `next` members it has not written, and returns true exactly when that
queue is not empty; `wiring_free_request_put` and `wiring_free_request_get`
push and pop the free stack; and after each of the four operations the
pointers represent the lists again, so that the tail pointer is where it
belongs. The list model of `wiring_t` computes the same lists. -/
theorem outstanding_fifo (m : req_lists_t) (outst free : List Nat)
    (hok : req_lists_ok m outst free) :
    (∀ req, req ∉ outst → req ∉ free →
      req_lists_ok (m.wiring_outst_request_put req) (outst ++ [req]) free) ∧
    (∀ (in_progress : Nat → Bool) (fuel : Nat), outst.length < fuel →
      ∃ m', req_lists_t.wiring_requests_check_status in_progress fuel m =
          some (decide (outst.dropWhile (fun r => !in_progress r) ≠ []), m') ∧
        req_lists_ok m' (outst.dropWhile (fun r => !in_progress r))
          ((outst.takeWhile (fun r => !in_progress r)).reverse ++ free) ∧
        ∀ r ∈ outst.dropWhile (fun r => !in_progress r), m'.next r = m.next r) ∧
    (∀ req, req ∉ outst → req ∉ free →
      req_lists_ok (m.wiring_free_request_put req) outst (req :: free)) ∧
    (∀ (header_alloc : Option Nat) (req : Nat) (rest : List Nat), free = req :: rest →
      (m.wiring_free_request_get header_alloc).1 = some req ∧
      req_lists_ok (m.wiring_free_request_get header_alloc).2 outst rest) ∧
    (∀ (s : wiring_t) (in_progress : Nat → Bool), s.req_outst = outst → s.req_free = free →
      (wiring_requests_check_status in_progress s).1 =
        decide (outst.dropWhile (fun r => !in_progress r) ≠ []) ∧
      (wiring_requests_check_status in_progress s).2.req_outst =
        outst.dropWhile (fun r => !in_progress r) ∧
      (wiring_requests_check_status in_progress s).2.req_free =
        (outst.takeWhile (fun r => !in_progress r)).reverse ++ free ∧
      ∀ req, (wiring_outst_request_put s req).req_outst = outst ++ [req]) := by
  refine ⟨fun req h1 h2 => outst_request_put_ok m outst free req hok h1 h2,
    fun in_progress fuel hf => requests_check_status_ok in_progress outst fuel m free hok hf,
    fun req h1 h2 => free_request_put_ok m outst free req hok h1 h2, ?_, ?_⟩
  · intro header_alloc req rest hfree
    subst hfree
    exact free_request_get_ok m outst req rest header_alloc hok
  · intro s in_progress h1 h2
    subst h1 h2
    have hl := check_status_lists in_progress s.req_outst s.req_free
    refine ⟨?_, ?_, ?_, fun req => rfl⟩
    · show (wiring_requests_check_status.go in_progress s.req_outst s.req_free).1 = _
      rw [hl]
    · show (wiring_requests_check_status.go in_progress s.req_outst s.req_free).2.1 = _
      rw [hl]
    · show (wiring_requests_check_status.go in_progress s.req_outst s.req_free).2.2 = _
      rw [hl]

theorem outstanding_fifo_witness :
    req_lists_ok two_outstanding [3, 5] [] ∧
      two_outstanding.req_outst_tailp = tailp_t.next_of 5 ∧
      ∃ m', req_lists_t.wiring_requests_check_status (fun r => r == 5) 3 two_outstanding =
          some (true, m') ∧ req_lists_ok m' [5] [3] :=
  have a := (outstanding_fifo (req_lists_init (fun _ => none)) [] [] (req_lists_ok_init _)).1 3
    (List.not_mem_nil _) (List.not_mem_nil _)
  have b : req_lists_ok two_outstanding [3, 5] [] :=
    (outstanding_fifo _ [3] [] a).1 5 (by decide) (List.not_mem_nil _)
  have c := (outstanding_fifo two_outstanding [3, 5] [] b).2.1 (fun r => r == 5) 3 (by decide)
  ⟨b, rfl, Exists.elim c fun m' hm => ⟨m', hm.1, hm.2.1⟩⟩

/-! ## The timeout queues as lists -/

/-- A queue stays well formed in a table that is at least as long, has the
same head and the same links on the old slots, and whose further slots are
linked to themselves. -/
theorem queue_wf_grow {st st' : wstorage_t} {which : timo_t} {q : List Nat}
    (hq : queue_wf st which q) (hn : st.nwires ≤ st'.nwires)
    (hh : st'.thead which = st.thead which)
    (hl : ∀ i, i < st.nwires → st'.link i which = st.link i which)
    (hnew : ∀ i, st.nwires ≤ i → i < st'.nwires →
      (st'.link i which).next = some i ∧ (st'.link i which).prev = some i) :
    queue_wf st' which q := by
  have hmem : ∀ {k a : Nat}, q[k]? = some a → a < st.nwires := fun h =>
    hq.bound _ (List.mem_iff_getElem?.mpr ⟨_, h⟩)
  refine
    { nodup := hq.nodup
      bound := fun i hi => Nat.lt_of_lt_of_le (hq.bound i hi) hn
      first := by rw [hh]; exact hq.first
      last := by rw [hh]; exact hq.last
      next := fun k a hk => by rw [hl a (hmem hk)]; exact hq.next k a hk
      prev_head := fun a hk => by rw [hl a (hmem hk)]; exact hq.prev_head a hk
      prev := fun k a hk => by rw [hl a (hmem hk)]; exact hq.prev k a hk
      off := ?_ }
  intro i hi hnot
  by_cases h : i < st.nwires
  · rw [hl i h]
    exact hq.off i h hnot
  · exact hnew i (by omega) hi

/-- A queue stays well formed in a table with the same count, head and
links. -/
theorem queue_wf_congr {st st' : wstorage_t} {which : timo_t} {q : List Nat}
    (hq : queue_wf st which q) (hn : st'.nwires = st.nwires)
    (hh : st'.thead which = st.thead which)
    (hl : ∀ i, st'.link i which = st.link i which) : queue_wf st' which q :=
  queue_wf_grow hq (by omega) hh (fun i _ => hl i) (fun i h1 h2 => by omega)

theorem thead_timeout_put (st : wstorage_t) (id : Nat) (which : timo_t) (when : Nat) :
    (wiring_timeout_put st id which when).thead which =
      { first := if (st.thead which).last = none then some id else (st.thead which).first
        last := some id } := by
  unfold wiring_timeout_put
  simp only
  rcases hl : (st.thead which).last with _ | l <;> simp [thead_set_thead]

/-- The links of queue `which` after `wiring_timeout_put`. -/
theorem link_timeout_put (st : wstorage_t) (id : Nat) (which : timo_t) (when : Nat)
    (hid : id < st.nwires)
    (hl : ∀ l, (st.thead which).last = some l → l < st.nwires ∧ l ≠ id) (j : Nat) :
    (wiring_timeout_put st id which when).link j which =
      if j = id then { prev := (st.thead which).last, next := none, due := when }
      else if (st.thead which).last = some j then { (st.link j which) with next := some id }
      else st.link j which := by
  unfold wiring_timeout_put
  simp only [link_set_thead]
  rcases hlast : (st.thead which).last with _ | l
  · simp only [link_set_thead, link_set_link, hid]
    split_ifs <;> simp_all [sender_id_nil]
  · obtain ⟨h1, h2⟩ := hl l hlast
    simp only [link_set_link, nwires_set_link, hid, h1]
    split_ifs <;> simp_all [sender_id_nil]

/-- Appending with `wiring_timeout_put` a wire that is not enqueued: the queue
holds the old wires in their order and then `id`, with the due time given, and
the dues of the other wires are unchanged. The table `st` agrees with the
well-formed table `st0` on the head and on the links of every other wire. -/
theorem queue_wf_timeout_put (st0 st : wstorage_t) (which : timo_t) (q : List Nat) (id when : Nat)
    (hq : queue_wf st0 which q) (hid : id < st0.nwires) (hnot : id ∉ q)
    (hn : st.nwires = st0.nwires) (hh : st.thead which = st0.thead which)
    (hl : ∀ i, i ≠ id → st.link i which = st0.link i which) :
    queue_wf (wiring_timeout_put st id which when) which (q ++ [id]) ∧
      ((wiring_timeout_put st id which when).link id which).due = when ∧
      ∀ j, j ≠ id → ((wiring_timeout_put st id which when).link j which).due =
        (st0.link j which).due := by
  have hnw : (wiring_timeout_put st id which when).nwires = st0.nwires :=
    (same_core_timeout_put st id which when).nwires.trans hn
  have hlast : (st.thead which).last = q.getLast? := by rw [hh]; exact hq.last
  have hfirst : (st.thead which).first = q.head? := by rw [hh]; exact hq.first
  have hne : ∀ {a : Nat}, a ∈ q → a ≠ id := fun ha h => hnot (h ▸ ha)
  have hlq : ∀ l, (st.thead which).last = some l → l ∈ q := by
    intro l h
    rw [hlast, List.getLast?_eq_getElem?] at h
    exact List.mem_iff_getElem?.mpr ⟨_, h⟩
  have hlb : ∀ l, (st.thead which).last = some l → l < st.nwires ∧ l ≠ id := fun l h =>
    ⟨by rw [hn]; exact hq.bound l (hlq l h), hne (hlq l h)⟩
  have L := link_timeout_put st id which when (by omega) hlb
  have T := thead_timeout_put st id which when
  have inj : ∀ {i j a : Nat}, q[i]? = some a → q[j]? = some a → i = j :=
    fun h1 h2 => getElem?_nodup_inj hq.nodup h1 h2
  have hlast_idx : (st.thead which).last = q[q.length - 1]? := by
    rw [hlast, List.getLast?_eq_getElem?]
  -- the link of an old wire at position `k`
  have hold : ∀ {k a : Nat}, q[k]? = some a →
      (wiring_timeout_put st id which when).link a which =
        if k + 1 = q.length then { (st0.link a which) with next := some id }
        else st0.link a which := by
    intro k a hk
    have hk1 : k < q.length := (List.getElem?_eq_some.mp hk).1
    have ha : a ≠ id := hne (List.mem_iff_getElem?.mpr ⟨_, hk⟩)
    rw [L, if_neg ha, hl a ha]
    by_cases hk2 : k + 1 = q.length
    · have : (st.thead which).last = some a := by
        rw [hlast_idx, ← hk]
        congr 1
        omega
      rw [if_pos this, if_pos hk2]
    · have : ¬ (st.thead which).last = some a := by
        rw [hlast_idx]
        intro h
        have := inj h hk
        omega
      rw [if_neg this, if_neg hk2]
  refine ⟨?_, ?_, ?_⟩
  · refine
      { nodup := ?_
        bound := ?_
        first := ?_
        last := ?_
        next := ?_
        prev_head := ?_
        prev := ?_
        off := ?_ }
    · rw [List.nodup_append]
      refine ⟨hq.nodup, List.nodup_singleton id, ?_⟩
      intro a ha hb
      rw [List.mem_singleton] at hb
      exact hne ha hb
    · intro i hi
      rw [hnw]
      rw [List.mem_append, List.mem_singleton] at hi
      rcases hi with hi | hi
      · exact hq.bound i hi
      · rw [hi]
        exact hid
    · rw [T]
      simp only
      cases q with
      | nil =>
        have : (st.thead which).last = none := by rw [hlast]; rfl
        rw [if_pos this]
        rfl
      | cons a t =>
        have : ¬ (st.thead which).last = none := by
          rw [hlast]
          simp [List.getLast?_cons_cons, List.getLast?_eq_getElem?]
        rw [if_neg this, hfirst]
        rfl
    · rw [T]
      simp
    · intro k a hk
      by_cases hk1 : k < q.length
      · rw [List.getElem?_append_left hk1] at hk
        rw [hold hk]
        by_cases hk2 : k + 1 = q.length
        · rw [if_pos hk2]
          simp only
          rw [List.getElem?_append_right (by omega)]
          have : k + 1 - q.length = 0 := by omega
          rw [this]
          rfl
        · rw [if_neg hk2, hq.next k a hk, List.getElem?_append_left (by omega)]
      · rw [List.getElem?_append_right (by omega)] at hk
        have hk0 : k - q.length = 0 := by
          by_contra h
          rw [List.getElem?_eq_none (by simp; omega)] at hk
          cases hk
        rw [hk0] at hk
        simp only [List.getElem?_cons_zero, Option.some.injEq] at hk
        subst hk
        rw [L, if_pos rfl]
        simp only
        rw [List.getElem?_eq_none (by simp; omega)]
    · intro a ha0
      cases q with
      | nil =>
        simp only [List.nil_append, List.getElem?_cons_zero, Option.some.injEq] at ha0
        subst ha0
        rw [L, if_pos rfl]
        simp only
        rw [hlast]
        rfl
      | cons b t =>
        simp only [List.cons_append, List.getElem?_cons_zero, Option.some.injEq] at ha0
        subst ha0
        have h0 : (b :: t)[0]? = some b := by simp
        rw [hold h0]
        have := hq.prev_head b h0
        split <;> exact this
    · intro k a hk
      by_cases hk1 : k + 1 < q.length
      · rw [List.getElem?_append_left hk1] at hk
        rw [hold hk, List.getElem?_append_left (by omega)]
        have := hq.prev k a hk
        split <;> exact this
      · rw [List.getElem?_append_right (by omega)] at hk
        have hk0 : k + 1 - q.length = 0 := by
          by_contra h
          rw [List.getElem?_eq_none (by simp; omega)] at hk
          cases hk
        rw [hk0] at hk
        simp only [List.getElem?_cons_zero, Option.some.injEq] at hk
        subst hk
        rw [L, if_pos rfl]
        simp only
        rw [hlast_idx, List.getElem?_append_left (by omega)]
        congr 1
        omega
    · intro i hi hnoti
      rw [hnw] at hi
      rw [List.mem_append, List.mem_singleton] at hnoti
      have h1 : i ≠ id := fun h => hnoti (Or.inr h)
      have h2 : i ∉ q := fun h => hnoti (Or.inl h)
      have h3 : ¬ (st.thead which).last = some i := fun h => h2 (hlq i h)
      rw [L, if_neg h1, if_neg h3, hl i h1]
      exact hq.off i hi h2
  · rw [L, if_pos rfl]
  · intro j hj
    rw [L, if_neg hj, ← hl j hj]
    split <;> rfl

/-- The queue after `wiring_timeout_remove` is the old one without `id`, in
the same order; the wire is linked to itself and the dues of the other wires
are unchanged. -/
theorem queue_wf_remove_erase (st : wstorage_t) (which : timo_t) (q : List Nat) (id : Nat)
    (hq : queue_wf st which q) (hid : id < st.nwires) :
    queue_wf (wiring_timeout_remove st id which) which (q.erase id) ∧
      ((wiring_timeout_remove st id which).link id which).next = some id ∧
      ((wiring_timeout_remove st id which).link id which).prev = some id ∧
      ∀ j, j ≠ id → ((wiring_timeout_remove st id which).link j which).due =
        (st.link j which).due := by
  by_cases hmem : id ∈ q
  · obtain ⟨m, hm⟩ := List.mem_iff_getElem?.mp hmem
    obtain ⟨h1, h2, h3⟩ := queue_wf_timeout_remove st which q id m hq hm
    rw [erase_eq_eraseIdx_of_getElem? hq.nodup hm]
    exact ⟨h1, by rw [h2], by rw [h2], h3⟩
  · have hoff := hq.off id hid hmem
    have hst : wiring_timeout_remove st id which = st := by
      unfold wiring_timeout_remove
      simp only [hoff.1, if_true]
    rw [hst, List.erase_of_not_mem hmem]
    exact ⟨hq, hoff.1, hoff.2, fun _ _ => rfl⟩

/-- Removing a wire and appending it again: the queue holds the other wires
in their order and then `id`; the dues of the other wires are unchanged. -/
theorem queue_wf_requeue (st : wstorage_t) (which : timo_t) (q : List Nat) (id when : Nat)
    (hq : queue_wf st which q) (hid : id < st.nwires) :
    queue_wf (wiring_timeout_put (wiring_timeout_remove st id which) id which when) which
        (q.erase id ++ [id]) ∧
      ((wiring_timeout_put (wiring_timeout_remove st id which) id which when).link id which).due =
        when ∧
      ∀ j, j ≠ id →
        ((wiring_timeout_put (wiring_timeout_remove st id which) id which when).link j which).due =
          (st.link j which).due := by
  obtain ⟨h1, _, _, h4⟩ := queue_wf_remove_erase st which q id hq hid
  have hnot : id ∉ q.erase id := fun h => (List.Nodup.mem_erase_iff hq.nodup).mp h |>.1 rfl
  obtain ⟨g1, g2, g3⟩ := queue_wf_timeout_put (wiring_timeout_remove st id which)
    (wiring_timeout_remove st id which) which (q.erase id) id when h1
    (by rw [nwires_timeout_remove]; exact hid) hnot rfl rfl (fun _ _ => rfl)
  exact ⟨g1, g2, fun j hj => (g3 j hj).trans (h4 j hj)⟩

/-- An operation on the other queue keeps a queue well formed. -/
theorem queue_wf_put_other {st : wstorage_t} {which which' : timo_t} {q : List Nat}
    (hq : queue_wf st which' q) (id when : Nat) (hne : which' ≠ which) :
    queue_wf (wiring_timeout_put st id which when) which' q :=
  queue_wf_congr hq (same_core_timeout_put st id which when).nwires
    (timeout_put_other st id which which' when hne 0).1
    (fun i => (timeout_put_other st id which which' when hne i).2)

/-- `wiring_free_get` leaves the count, the queue heads and every timeout link
as they are. -/
theorem free_get_links (st : wstorage_t) (which : timo_t) (i : Nat) :
    (wiring_free_get st).2.nwires = st.nwires ∧
      (wiring_free_get st).2.thead which = st.thead which ∧
      (wiring_free_get st).2.link i which = st.link i which := by
  unfold wiring_free_get
  rcases hff : st.first_free with _ | id
  · exact ⟨rfl, rfl, rfl⟩
  · simp only
    refine ⟨?_, ?_, ?_⟩
    · rw [nwires_setw]
      rfl
    · rw [thead_setw]
      cases which <;> rfl
    · unfold wstorage_t.link
      rw [getw_setw]
      split
      · rename_i h
        rw [h.1]
        cases which <;> rfl
      · rfl

/-- A successful `wiring_enlarge` leaves the queue heads and the timeout links
of the old slots as they are; the new slots are linked to themselves. -/
theorem enlarge_links (L : layout_t) (fuel : Nat) (e : env_t) (fenv : Nat → env_t)
    (s s' : wiring_t) (h : wiring_enlarge L fuel e fenv s = some (true, s')) (which : timo_t) :
    s.storage.nwires ≤ s'.storage.nwires ∧
      s'.storage.thead which = s.storage.thead which ∧
      (∀ i, i < s.storage.nwires → s'.storage.link i which = s.storage.link i which) ∧
      ∀ i, s.storage.nwires ≤ i → i < s'.storage.nwires →
        (s'.storage.link i which).next = some i ∧ (s'.storage.link i which).prev = some i := by
  obtain ⟨hgt, hadd⟩ := wiring_enlarge_success L fuel e fenv s s' h
  obtain ⟨hrel, _⟩ := garbage_add_good fuel fenv _ _ _ _ hadd
  have hnw : (enlarge_install L s).storage.nwires = enlarge_nwires L s.storage.nwires :=
    nwires_enlarge_tables L s.storage s.assoc hgt
  have hg : ∀ i, (enlarge_install L s).storage.getw i = _ :=
    getw_enlarge_tables L s.storage s.assoc hgt
  refine ⟨?_, ?_, ?_, ?_⟩
  · rw [hrel.nwires, hnw]
    omega
  · rw [hrel.thead]
    exact thead_enlarge_tables L s.storage s.assoc which
  · intro i hi
    rw [hrel.link]
    unfold wstorage_t.link
    rw [hg, if_pos hi]
  · intro i h1 h2
    rw [hrel.nwires, hnw] at h2
    rw [hrel.link]
    unfold wstorage_t.link
    rw [hg, if_neg (by omega)]
    split_ifs <;> cases which <;> exact ⟨rfl, rfl⟩

/-- The slot acquisition keeps every timeout queue as it is. -/
theorem queue_wf_acquire_slot (L : layout_t) (fuel : Nat) (e : env_t) (fenv : Nat → env_t)
    (s0 s1 : wiring_t) (id : Nat) (h : acquire_slot L fuel e fenv s0 = some (some id, s1))
    (which : timo_t) (q : List Nat) (hq : queue_wf s0.storage which q) :
    queue_wf s1.storage which q ∧
      ∀ j, j < s0.storage.nwires →
        (s1.storage.link j which).due = (s0.storage.link j which).due := by
  unfold acquire_slot at h
  split at h
  · rename_i id0 st hfg
    simp only [Option.some.injEq, Prod.mk.injEq] at h
    obtain ⟨_, h2⟩ := h
    subst h2
    have hst : st = (wiring_free_get s0.storage).2 := by rw [hfg]
    have f := fun i => free_get_links s0.storage which i
    rw [← hst] at f
    exact ⟨queue_wf_congr hq (f 0).1 (f 0).2.1 (fun i => (f i).2.2),
      fun j _ => by show (st.link j which).due = _; rw [(f j).2.2]⟩
  · split at h
    · cases h
    · simp at h
    · rename_i s2 h2
      simp only [Option.some.injEq, Prod.mk.injEq] at h
      obtain ⟨_, h4⟩ := h
      subst h4
      obtain ⟨e1, e2, e3, e4⟩ := enlarge_links L fuel e fenv s0 s2 h2 which
      have hq2 : queue_wf s2.storage which q := queue_wf_grow hq e1 e2 e3 e4
      have f := fun i => free_get_links s2.storage which i
      refine ⟨queue_wf_congr hq2 (f 0).1 (f 0).2.1 (fun i => (f i).2.2), fun j hj => ?_⟩
      show ((wiring_free_get s2.storage).2.link j which).due = _
      rw [(f j).2.2, e3 j hj]

/-- Writing wire `id` and putting it on both timeout queues, as
`wireup_start` and `wireup_respond` do: each queue holds the wires it held,
in their order, and then `id`; the dues of the other wires are unchanged. -/
theorem queue_wf_install (st : wstorage_t) (id : Nat) (w : wire_t) (t1 t2 : Nat)
    (hid : id < st.nwires) (which : timo_t) (q : List Nat) (hq : queue_wf st which q)
    (hnot : id ∉ q) :
    queue_wf (wiring_wakeup_put (wiring_expiration_put (st.setw id w) id t1) id t2) which
        (q ++ [id]) ∧
      ∀ j, j ≠ id →
        ((wiring_wakeup_put (wiring_expiration_put (st.setw id w) id t1) id t2).link j which).due =
          (st.link j which).due := by
  have hl0 : ∀ which i, i ≠ id → (st.setw id w).link i which = st.link i which := by
    intro which i hi
    unfold wstorage_t.link
    rw [getw_setw, if_neg (fun h => hi h.1)]
  unfold wiring_wakeup_put wiring_expiration_put
  cases which with
  | timo_expire =>
    obtain ⟨g1, _, g3⟩ := queue_wf_timeout_put st (st.setw id w) timo_t.timo_expire q id t1 hq hid
      hnot (nwires_setw _ _ _) (thead_setw _ _ _ _) (hl0 _)
    refine ⟨queue_wf_put_other g1 id t2 (by decide), fun j hj => ?_⟩
    rw [(timeout_put_other _ id timo_t.timo_wakeup timo_t.timo_expire t2 (by decide) j).2]
    exact g3 j hj
  | timo_wakeup =>
    have o := fun i => timeout_put_other (st.setw id w) id timo_t.timo_expire timo_t.timo_wakeup
      t1 (by decide) i
    obtain ⟨g1, _, g3⟩ := queue_wf_timeout_put st
      (wiring_timeout_put (st.setw id w) id timo_t.timo_expire t1) timo_t.timo_wakeup q id t2 hq
      hid hnot ((same_core_timeout_put _ _ _ _).nwires.trans (nwires_setw _ _ _))
      ((o 0).1.trans (thead_setw _ _ _ _)) (fun i hi => ((o i).2).trans (hl0 _ i hi))
    exact ⟨g1, g3⟩

/-- The call of the accept callback leaves every timeout link as it is. -/
theorem respond_accept_links (e : env_t) (s6 : wiring_t) (id rid ep : Nat) (which : timo_t)
    (i : Nat) :
    (respond_accept e s6 id rid ep).storage.nwires = s6.storage.nwires ∧
      (respond_accept e s6 id rid ep).storage.thead which = s6.storage.thead which ∧
      (respond_accept e s6 id rid ep).storage.link i which = s6.storage.link i which := by
  rcases hac : s6.accept_cb with _ | fn
  · simp only [respond_accept, hac]
    simp
  · simp only [respond_accept, hac, storage_log]
    refine ⟨nwires_setw _ _ _, thead_setw _ _ _ _, ?_⟩
    unfold wstorage_t.link
    rw [getw_setw]
    split
    · rename_i h
      rw [h.1]
      cases which <;> rfl
    · rfl

/-- The queues after a successful `wireup_start`. -/
theorem queue_wf_wireup_start (L : layout_t) (fuel : Nat) (e : env_t) (fenv : Nat → env_t)
    (now : Nat) (s : wiring_t) (laddr : List Nat) (cb : Option Nat) (cb_arg data : Ptr)
    (id : Nat) (s' : wiring_t) (hok : ids_ok s)
    (h : wireup_start L fuel e fenv now s laddr cb cb_arg data = some (some id, s'))
    (which : timo_t) (q : List Nat) (hq : queue_wf s.storage which q) (hnot : id ∉ q) :
    queue_wf s'.storage which (q ++ [id]) ∧
      ∀ j ∈ q, (s'.storage.link j which).due = (s.storage.link j which).due := by
  obtain ⟨_, ep, s1, _, hacq, hst, _⟩ :=
    wireup_start_some L fuel e fenv now s laddr cb cb_arg data id s' h
  obtain ⟨hid, _, _, _⟩ :=
    acquire_slot_spec L fuel e fenv _ s1 id (ids_ok_log s (ext_call.ep_create ep) hok) hacq
  obtain ⟨hq1, hd1⟩ := queue_wf_acquire_slot L fuel e fenv _ s1 id hacq which q hq
  rw [hst]
  obtain ⟨g1, g2⟩ := queue_wf_install s1.storage id
    { wire_zero with ep := some ep, id := sender_id_nil, state := wire_state_t.INITIAL,
                     msg := some { op := OP_REQ, sender_id := id,
                                   addrlen := laddr.length % 2 ^ 16, addr := laddr },
                     msglen := WIREUP_MSG_HDRLEN + laddr.length, cb := cb, cb_arg := cb_arg }
    (gettimeout now now) ((now + retry_interval) % 2 ^ 64) hid which q hq1 hnot
  refine ⟨g1, fun j hj => ?_⟩
  have hne : j ≠ id := fun h => hnot (h ▸ hj)
  exact (g2 j hne).trans (hd1 j (hq.bound j hj))

/-- The queues after a successful `wireup_respond`. -/
theorem queue_wf_wireup_respond (L : layout_t) (fuel : Nat) (e : env_t) (fenv : Nat → env_t)
    (now : Nat) (s : wiring_t) (rid : Nat) (raddr : List Nat) (id : Nat) (s' : wiring_t)
    (hok : ids_ok s) (h : wireup_respond L fuel e fenv now s rid raddr = some (some id, s'))
    (which : timo_t) (q : List Nat) (hq : queue_wf s.storage which q) (hnot : id ∉ q) :
    queue_wf s'.storage which (q ++ [id]) ∧
      ∀ j ∈ q, (s'.storage.link j which).due = (s.storage.link j which).due := by
  obtain ⟨ep, s1, req, s4, hacq, _, hreq, hs'⟩ :=
    wireup_respond_some L fuel e fenv now s rid raddr id s' h
  obtain ⟨hid, _, _, _⟩ := acquire_slot_spec L fuel e fenv s s1 id hok hacq
  obtain ⟨hq1, hd1⟩ := queue_wf_acquire_slot L fuel e fenv s s1 id hacq which q hq
  have f1 := storage_free_request_get (respond_install now s1 id ep rid) e.header_alloc
  rw [hreq] at f1
  simp only at f1
  generalize hs6 : request_settle
    (s4.log (ext_call.tag_send (some ep)
      { op := OP_ACK, sender_id := id, addrlen := 0, addr := [] } WIREUP_MSG_HDRLEN
      (tx_tag.peer (some rid)))) req e.nbx = s6 at hs'
  have g1 : s6.storage = (respond_install now s1 id ep rid).storage := by
    rw [← hs6, storage_request_settle, storage_log, f1]
  have a := fun i => respond_accept_links e s6 id rid ep which i
  rw [← hs', g1] at a
  obtain ⟨i1, i2⟩ := queue_wf_install s1.storage id
    { wire_zero with ep := some ep, id := some rid, state := wire_state_t.LIVE }
    (gettimeout now now) ((now + keepalive_interval) % 2 ^ 64) hid which q hq1 hnot
  have i1' : queue_wf (respond_install now s1 id ep rid).storage which (q ++ [id]) := i1
  refine ⟨queue_wf_congr i1' (a 0).1 (a 0).2.1 (fun i => (a i).2.2), fun j hj => ?_⟩
  have hne : j ≠ id := fun h => hnot (h ▸ hj)
  rw [(a j).2.2]
  exact (i2 j hne).trans (hd1 j (hq.bound j hj))

theorem queue_wf_of_check (st : wstorage_t) (which : timo_t) (q : List Nat)
    (h : queue_wf_check st which q = true) : queue_wf st which q := by
  unfold queue_wf_check at h
  simp only [Bool.and_eq_true, decide_eq_true_eq, List.all_eq_true, List.mem_range,
    Bool.or_eq_true] at h
  obtain ⟨⟨⟨⟨⟨h1, h2⟩, h3⟩, h4⟩, h5⟩, h6⟩ := h
  have hk : ∀ k a, q[k]? = some a →
      (st.link a which).next = q[k + 1]? ∧
        (st.link a which).prev = if k = 0 then none else q[k - 1]? := by
    intro k a hka
    have hlt : k < q.length := (List.getElem?_eq_some.mp hka).1
    have := h5 k hlt
    rw [hka] at this
    simpa using this
  refine
    { nodup := h1
      bound := h2
      first := h3
      last := h4
      next := fun k a hka => (hk k a hka).1
      prev_head := fun a hka => by simpa using (hk 0 a hka).2
      prev := fun k a hka => by simpa using (hk (k + 1) a hka).2
      off := ?_ }
  intro i hi hnot
  rcases h6 i hi with h | h
  · exact absurd h hnot
  · exact h

/-- Two tables related by `same_links` have the same queues. -/
theorem queue_wf_same_links {st st' : wstorage_t} (h : same_links st st') {which : timo_t}
    {q : List Nat} (hq : queue_wf st which q) : queue_wf st' which q :=
  queue_wf_congr hq h.nwires (thead_eq_of h.thead_expire h.thead_wakeup which)
    (fun i => link_eq_of_tlink_eq (h.wires i).1 (h.wires i).2.1 which)

/-- Removing a wire from a queue and appending it again leaves the other queue
as it is. -/
theorem queue_wf_requeue_other {st : wstorage_t} {which which' : timo_t} {q : List Nat}
    (hq : queue_wf st which' q) (id when : Nat) (hne : which' ≠ which) :
    queue_wf (wiring_timeout_put (wiring_timeout_remove st id which) id which when) which' q ∧
      ∀ j, (wiring_timeout_put (wiring_timeout_remove st id which) id which when).link j which' =
        st.link j which' := by
  have a := fun i => timeout_put_other (wiring_timeout_remove st id which) id which which' when
    hne i
  have b := fun i => timeout_remove_other st id which which' hne i
  refine ⟨queue_wf_congr hq ?_ ((a 0).1.trans (b 0).1) (fun i => (a i).2.trans (b i).2),
    fun j => (a j).2.trans (b j).2⟩
  rw [(same_core_timeout_put _ _ _ _).nwires, nwires_timeout_remove]

/-- The queues after `start_life` has accepted an ACK, and after the
transition that follows: each holds the other wires in their order and then
`id`; the dues of the other wires are unchanged. -/
theorem queue_wf_start_life (now : Nat) (s : wiring_t) (id : Nat) (msg : wireup_msg_t)
    (cb_ret : Bool) (hid : id < s.storage.nwires)
    (hop : msg.op = OP_ACK) (hsid : msg.sender_id < SENDER_ID_MAX) (hlen : msg.addrlen = 0)
    (which : timo_t) (q : List Nat) (hq : queue_wf s.storage which q) :
    queue_wf (start_life now s id msg).2.storage which (q.erase id ++ [id]) ∧
      (∀ j, j ≠ id → ((start_life now s id msg).2.storage.link j which).due =
        (s.storage.link j which).due) ∧
      queue_wf (wireup_transition cb_ret (start_life now s id msg).2 id
        (start_life now s id msg).1).storage which (q.erase id ++ [id]) ∧
      ∀ j, j ≠ id → ((wireup_transition cb_ret (start_life now s id msg).2 id
        (start_life now s id msg).1).storage.link j which).due = (s.storage.link j which).due := by
  have h3 : ¬ msg.sender_id ≥ SENDER_ID_MAX := by omega
  have h4 : ¬ msg.op = OP_STOP := by rw [hop]; decide
  have h5 : ¬ msg.op ≠ OP_ACK := fun hn => hn hop
  have h6 : ¬ msg.addrlen ≠ 0 := fun hn => hn hlen
  have hsl : start_life now s id msg = (wire_state_t.LIVE,
      { s with storage :=
        wiring_wakeup_put (wiring_wakeup_remove (wiring_expiration_put (wiring_expiration_remove
          (s.storage.setw id
            { (s.storage.getw id) with id := some msg.sender_id, msg := none, msglen := 0 }) id)
          id (gettimeout now now)) id) id ((now + keepalive_interval) % 2 ^ 64) }) := by
    unfold start_life
    rw [if_neg h3, if_neg h4, if_neg h5, if_neg h6]
  have key : queue_wf (start_life now s id msg).2.storage which (q.erase id ++ [id]) ∧
      ∀ j, j ≠ id → ((start_life now s id msg).2.storage.link j which).due =
        (s.storage.link j which).due := by
    rw [hsl]
    simp only
    unfold wiring_wakeup_put wiring_wakeup_remove wiring_expiration_put wiring_expiration_remove
    generalize hst1 : s.storage.setw id
      { (s.storage.getw id) with id := some msg.sender_id, msg := none, msglen := 0 } = st1
    have hl1 : ∀ which i, st1.link i which = s.storage.link i which := by
      intro which i
      rw [← hst1]
      unfold wstorage_t.link
      rw [getw_setw]
      split
      · rename_i h
        rw [h.1]
        cases which <;> rfl
      · rfl
    have hn1 : st1.nwires = s.storage.nwires := by rw [← hst1, nwires_setw]
    have ht1 : ∀ which, st1.thead which = s.storage.thead which := by
      intro which
      rw [← hst1, thead_setw]
    have hq1 : queue_wf st1 which q := queue_wf_congr hq hn1 (ht1 which) (hl1 which)
    cases which with
    | timo_expire =>
      obtain ⟨g1, _, g3⟩ := queue_wf_requeue st1 timo_t.timo_expire q id (gettimeout now now) hq1
        (by rw [hn1]; exact hid)
      obtain ⟨o1, o2⟩ := queue_wf_requeue_other g1 id ((now + keepalive_interval) % 2 ^ 64)
        (show timo_t.timo_expire ≠ timo_t.timo_wakeup by decide)
      refine ⟨o1, fun j hj => ?_⟩
      rw [o2 j, g3 j hj, hl1]
    | timo_wakeup =>
      obtain ⟨o1, o2⟩ := queue_wf_requeue_other hq1 id (gettimeout now now)
        (show timo_t.timo_wakeup ≠ timo_t.timo_expire by decide)
      obtain ⟨g1, _, g3⟩ := queue_wf_requeue _ timo_t.timo_wakeup q id
        ((now + keepalive_interval) % 2 ^ 64) o1
        (by rw [(same_core_timeout_put _ _ _ _).nwires, nwires_timeout_remove, hn1]; exact hid)
      refine ⟨g1, fun j hj => ?_⟩
      rw [g3 j hj, o2 j, hl1]
  obtain ⟨fl, -, -⟩ := transition_frame cb_ret (start_life now s id msg).2 id
    (start_life now s id msg).1
  refine ⟨key.1, key.2, queue_wf_same_links fl key.1, fun j hj => ?_⟩
  rw [link_eq_of_tlink_eq (fl.wires j).1 (fl.wires j).2.1 which]
  exact key.2 j hj

/-- A round of the wakeup drain for an INITIAL wire whose message is sent: the
table that results has the links of the old table after
`wiring_timeout_remove` and `wiring_timeout_put` on the wakeup queue. -/
theorem wakeup_step_retry_links (e : env_t) (now : Nat) (s : wiring_t) (id : Nat)
    (hst : (s.storage.getw id).state = wire_state_t.INITIAL) (req : Nat) (s1 : wiring_t)
    (hget : wiring_free_request_get e.header_alloc s = (some req, s1))
    (hok : e.nbx ≠ ucs_status_ptr_t.err) :
    same_links
      (wiring_timeout_put (wiring_timeout_remove s.storage id timo_t.timo_wakeup) id
        timo_t.timo_wakeup ((now + retry_interval) % 2 ^ 64))
      (wakeup_step e now s id).storage := by
  have hcore := (same_core_timeout_remove s.storage id timo_t.timo_wakeup).wires id
  have k1 : ((wiring_timeout_remove s.storage id timo_t.timo_wakeup).getw id).state =
      (s.storage.getw id).state := by
    have := congrArg wire_t.state hcore
    exact this
  have hstep : wakeup_step e now s id =
      wireup_transition e.cb_ret
        (retry e now { s with storage := wiring_wakeup_remove s.storage id } id).2 id
        (retry e now { s with storage := wiring_wakeup_remove s.storage id } id).1 := by
    unfold wakeup_step
    simp only
    unfold wiring_wakeup_remove
    rw [k1, hst]
    rfl
  rw [hstep]
  unfold wiring_wakeup_remove
  generalize wiring_timeout_remove s.storage id timo_t.timo_wakeup = st1
  have hget1 := free_request_get_with_storage e.header_alloc s st1
  rw [hget] at hget1
  simp only at hget1
  have hr : ∃ t3 : wiring_t, t3.storage = st1 ∧
      retry e now { s with storage := st1 } id =
        (wire_state_t.INITIAL,
          { t3 with storage := wiring_wakeup_put st1 id ((now + retry_interval) % 2 ^ 64) }) := by
    rcases hn : e.nbx with _ | _ | _
    · exact absurd hn hok
    · exact ⟨_, rfl, by simp only [retry, wireup_send, hget1, hn]; rfl⟩
    · exact ⟨_, rfl, by simp only [retry, wireup_send, hget1, hn]; rfl⟩
  obtain ⟨t3, _, hr⟩ := hr
  rw [hr]
  simp only
  obtain ⟨fl, -, -⟩ := transition_frame e.cb_ret
    { t3 with storage := wiring_wakeup_put st1 id ((now + retry_interval) % 2 ^ 64) } id
    wire_state_t.INITIAL
  exact fl

/-- The queues after a round of the wakeup drain for an INITIAL wire whose
message is sent. -/
theorem queue_wf_retry_round (e : env_t) (now : Nat) (s : wiring_t) (id : Nat)
    (hid : id < s.storage.nwires)
    (hst : (s.storage.getw id).state = wire_state_t.INITIAL) (req : Nat) (s1 : wiring_t)
    (hget : wiring_free_request_get e.header_alloc s = (some req, s1))
    (hok : e.nbx ≠ ucs_status_ptr_t.err) :
    (∀ q : List Nat, queue_wf s.storage timo_t.timo_wakeup q →
      queue_wf (wakeup_step e now s id).storage timo_t.timo_wakeup (q.erase id ++ [id]) ∧
        ∀ j, j ≠ id → ((wakeup_step e now s id).storage.link j timo_t.timo_wakeup).due =
          (s.storage.link j timo_t.timo_wakeup).due) ∧
      ∀ q : List Nat, queue_wf s.storage timo_t.timo_expire q →
        queue_wf (wakeup_step e now s id).storage timo_t.timo_expire q ∧
          ∀ j, (wakeup_step e now s id).storage.link j timo_t.timo_expire =
            s.storage.link j timo_t.timo_expire := by
  have sl := wakeup_step_retry_links e now s id hst req s1 hget hok
  have hl : ∀ which j, (wakeup_step e now s id).storage.link j which = _ := fun which j =>
    link_eq_of_tlink_eq (sl.wires j).1 (sl.wires j).2.1 which
  constructor
  · intro q hq
    obtain ⟨g1, _, g3⟩ := queue_wf_requeue s.storage timo_t.timo_wakeup q id
      ((now + retry_interval) % 2 ^ 64) hq hid
    refine ⟨queue_wf_same_links sl g1, fun j hj => ?_⟩
    rw [hl]
    exact g3 j hj
  · intro q hq
    obtain ⟨o1, o2⟩ := queue_wf_requeue_other hq id ((now + retry_interval) % 2 ^ 64)
      (show timo_t.timo_expire ≠ timo_t.timo_wakeup by decide)
    refine ⟨queue_wf_same_links sl o1, fun j => ?_⟩
    rw [hl]
    exact o2 j

/-- The timeout queues of the wiring `wiring_init` leaves are empty. -/
theorem queue_wf_wiring_example (which : timo_t) :
    queue_wf wiring_example.storage which [] :=
  queue_wf_of_check _ _ _ (by cases which <;> decide)

/-- C10: a successful `wireup_start`. When `wireup_start` returns a wire id
`id` (so `laddrlen <= UINT16_MAX` and every step succeeded), `id` is the slot
that was at the head of the free list, of the table `wiring_enlarge` left when
the list was empty; the wire at `id` is INITIAL with sender id nil, holds the
callback and its argument and the pending message
`{op = REQ, sender_id = id, addrlen = laddrlen, addr = laddr}` of length
header + `laddrlen`; it is the tail of the expire queue with due
`min (now + timeout_interval) UINT64_MAX` and the tail of the wakeup queue
with due `now + retry_interval` (in 64-bit arithmetic); `assoc[id]` is
`data`. Each timeout queue then holds the wires it held, in their order,
followed by `id` (for a queue that did not already hold `id`), and the dues of
those wires are unchanged. -/
theorem wireup_start_success (L : layout_t) (fuel : Nat) (e : env_t) (fenv : Nat → env_t)
    (now : Nat) (s : wiring_t) (laddr : List Nat) (cb : Option Nat) (cb_arg data : Ptr)
    (id : Nat) (s' : wiring_t) (hok : ids_ok s)
    (h : wireup_start L fuel e fenv now s laddr cb cb_arg data = some (some id, s')) :
    (laddr.length ≤ UINT16_MAX ∧
        (s.storage.first_free = some id ∨
          (s.storage.first_free = none ∧ ∃ ep s2, e.ep_create = some ep ∧
            wiring_enlarge L fuel e fenv (s.log (ext_call.ep_create ep)) = some (true, s2) ∧
            s2.storage.first_free = some id)) ∧
        id < s'.storage.nwires ∧
        (s'.storage.getw id).state = wire_state_t.INITIAL ∧
        (s'.storage.getw id).id = sender_id_nil ∧
        (s'.storage.getw id).cb = cb ∧ (s'.storage.getw id).cb_arg = cb_arg ∧
        (s'.storage.getw id).msg =
          some { op := OP_REQ, sender_id := id, addrlen := laddr.length, addr := laddr } ∧
        (s'.storage.getw id).msglen = WIREUP_MSG_HDRLEN + laddr.length ∧
        (s'.storage.thead timo_t.timo_expire).last = some id ∧
        (s'.storage.link id timo_t.timo_expire).due = min (now + timeout_interval) UINT64_MAX ∧
        (s'.storage.thead timo_t.timo_wakeup).last = some id ∧
        (s'.storage.link id timo_t.timo_wakeup).due = (now + retry_interval) % 2 ^ 64 ∧
        (now + retry_interval < 2 ^ 64 →
          (s'.storage.link id timo_t.timo_wakeup).due = now + retry_interval) ∧
        s'.assoc.getD id Ptr.null = data) ∧
      ∀ (which : timo_t) (q : List Nat), queue_wf s.storage which q → id ∉ q →
        queue_wf s'.storage which (q ++ [id]) ∧
          ∀ j ∈ q, (s'.storage.link j which).due = (s.storage.link j which).due :=
  ⟨wireup_start_fields L fuel e fenv now s laddr cb cb_arg data id s' hok h,
    fun which q hq hnot =>
      queue_wf_wireup_start L fuel e fenv now s laddr cb cb_arg data id s' hok h which q hq hnot⟩

theorem wireup_start_success_witness :
    ∃ s', start_example wiring_example = some (some 0, s') ∧
      (s'.storage.getw 0).state = wire_state_t.INITIAL ∧
      (s'.storage.thead timo_t.timo_wakeup).last = some 0 ∧
      s'.assoc.getD 0 Ptr.null = Ptr.obj 5 ∧
      queue_wf s'.storage timo_t.timo_expire [0] ∧ queue_wf s'.storage timo_t.timo_wakeup [0] ∧
      queue_wf_check s'.storage timo_t.timo_expire [0] = true ∧
      queue_wf_check s'.storage timo_t.timo_wakeup [0] = true :=
  have h := wireup_start_success layout_example 8 env_ok (fun _ => env_ok) 0 wiring_example
    [1, 2] none Ptr.null (Ptr.obj 5) 0 _
    (ids_ok_wiring_init 0 (fun _ => default) reclaimed_bin_sentinel_initial none Ptr.null) rfl
  ⟨_, rfl, h.1.2.2.2.1, h.1.2.2.2.2.2.2.2.2.2.2.2.1, h.1.2.2.2.2.2.2.2.2.2.2.2.2.2.2,
    (h.2 timo_t.timo_expire [] (queue_wf_wiring_example _) (List.not_mem_nil 0)).1,
    (h.2 timo_t.timo_wakeup [] (queue_wf_wiring_example _) (List.not_mem_nil 0)).1,
    by decide, by decide⟩

/-- C14: answering a request. When the allocation of the message, the slot
acquisition (slot `id`), the endpoint creation (endpoint `ep`), the request
allocation and the send succeed, `wireup_respond`, for the peer sender id
`rid`, returns the wire at slot `id`, which was at the head of the free list,
of the table `wiring_enlarge` left when the list was empty; the wire is LIVE,
holds endpoint `ep` and the peer sender id `rid`, is the tail of the expire
queue (due `min (now + timeout_interval) UINT64_MAX`) and of the wakeup queue
(due `now + keepalive_interval` in 64-bit arithmetic); after the slot
acquisition the calls made are the endpoint creation, the send of
`{op = ACK, sender_id = id, addrlen = 0}` to the tag of peer `rid`, and the
accept callback when one is registered, whose return value is then stored in
`assoc[id]`. A REQ with `addrlen != 0` and `sender_id = rid` below
`SENDER_ID_MAX` is answered by that call of `wireup_respond`. Each timeout
queue then holds the wires it held, in their order, followed by `id` (for a
queue that did not already hold `id`), and the dues of those wires are
unchanged. -/
theorem wireup_respond_success (L : layout_t) (fuel : Nat) (e : env_t) (fenv : Nat → env_t)
    (now : Nat) (s : wiring_t) (rid : Nat) (raddr : List Nat) (id ep : Nat) (s1 : wiring_t)
    (hok : ids_ok s) (hz : e.zalloc_ok = true)
    (hacq : acquire_slot L fuel e fenv s = some (some id, s1))
    (hep : e.ep_create = some ep) (hreq : s1.req_free ≠ [] ∨ e.header_alloc ≠ none)
    (hnbx : e.nbx ≠ ucs_status_ptr_t.err) :
    ((s.storage.first_free = some id ∨
          (s.storage.first_free = none ∧ ∃ s2, wiring_enlarge L fuel e fenv s = some (true, s2) ∧
            s2.storage.first_free = some id)) ∧
        ∃ s', wireup_respond L fuel e fenv now s rid raddr = some (some id, s') ∧
          id < s'.storage.nwires ∧
          (s'.storage.getw id).state = wire_state_t.LIVE ∧
          (s'.storage.getw id).ep = some ep ∧
          (s'.storage.getw id).id = some rid ∧
          (s'.storage.thead timo_t.timo_expire).last = some id ∧
          (s'.storage.link id timo_t.timo_expire).due = min (now + timeout_interval) UINT64_MAX ∧
          (s'.storage.thead timo_t.timo_wakeup).last = some id ∧
          (s'.storage.link id timo_t.timo_wakeup).due = (now + keepalive_interval) % 2 ^ 64 ∧
          (now + keepalive_interval < 2 ^ 64 →
            (s'.storage.link id timo_t.timo_wakeup).due = now + keepalive_interval) ∧
          s'.trace = s1.trace ++
            [ext_call.ep_create ep,
              ext_call.tag_send (some ep)
                { op := OP_ACK, sender_id := id, addrlen := 0, addr := [] } WIREUP_MSG_HDRLEN
                (tx_tag.peer (some rid))] ++
            (match s.accept_cb with
              | none => []
              | some fn => [ext_call.accept fn id rid ep]) ∧
          (∀ fn, s.accept_cb = some fn → s'.assoc.getD id Ptr.null = e.accept_data) ∧
          ∀ msg : wireup_msg_t, msg.addrlen ≠ 0 → msg.sender_id < SENDER_ID_MAX →
            msg.sender_id = rid → msg.addr = raddr →
            wireup_rx_req L fuel e fenv now s msg = some s') ∧
      ∀ s', wireup_respond L fuel e fenv now s rid raddr = some (some id, s') →
        ∀ (which : timo_t) (q : List Nat), queue_wf s.storage which q → id ∉ q →
          queue_wf s'.storage which (q ++ [id]) ∧
            ∀ j ∈ q, (s'.storage.link j which).due = (s.storage.link j which).due :=
  ⟨wireup_respond_fields L fuel e fenv now s rid raddr id ep s1 hok hz hacq hep hreq hnbx,
    fun s' h which q hq hnot =>
      queue_wf_wireup_respond L fuel e fenv now s rid raddr id s' hok h which q hq hnot⟩

theorem wireup_respond_success_witness :
    wireup_respond layout_example 8 env_accept (fun _ => env_ok) 0 wiring_accepting 0 [7] =
        some (some 0, accepted_example) ∧
      (accepted_example.storage.getw 0).state = wire_state_t.LIVE ∧
      (accepted_example.storage.getw 0).id = some 0 ∧
      (accepted_example.storage.link 0 timo_t.timo_wakeup).due = 0 + keepalive_interval ∧
      accepted_example.assoc.getD 0 Ptr.null = Ptr.obj 6 ∧
      queue_wf accepted_example.storage timo_t.timo_expire [0] ∧
      queue_wf accepted_example.storage timo_t.timo_wakeup [0] ∧
      queue_wf_check accepted_example.storage timo_t.timo_expire [0] = true ∧
      queue_wf_check accepted_example.storage timo_t.timo_wakeup [0] = true := by
  have h := wireup_respond_success layout_example 8 env_accept (fun _ => env_ok) 0
    wiring_accepting 0 [7] 0 1 _
    (ids_ok_wiring_init 0 (fun _ => default) reclaimed_bin_sentinel_initial (some 4) Ptr.null)
    rfl rfl rfl (Or.inr (by decide)) (by decide)
  have hr : wireup_respond layout_example 8 env_accept (fun _ => env_ok) 0 wiring_accepting 0
      [7] = some (some 0, accepted_example) := rfl
  obtain ⟨s', hs⟩ := h.1.2
  have e : accepted_example = s' := by
    have := hr.symm.trans hs.1
    simpa using this
  subst e
  exact ⟨hr, hs.2.2.1, hs.2.2.2.2.1, hs.2.2.2.2.2.2.2.2.2.1 (by decide),
    hs.2.2.2.2.2.2.2.2.2.2.2.1 4 rfl,
    (h.2 _ hr timo_t.timo_expire [] (queue_wf_of_check _ _ _ (by decide))
      (List.not_mem_nil 0)).1,
    (h.2 _ hr timo_t.timo_wakeup [] (queue_wf_of_check _ _ _ (by decide))
      (List.not_mem_nil 0)).1,
    by decide, by decide⟩

/-- C15: an ACK for an INITIAL wire. For a wire of the table in INITIAL that
holds endpoint `ep`, and a message with `op = ACK`, `sender_id` below
`SENDER_ID_MAX` and `addrlen = 0`, `start_life` returns LIVE, sets the wire's
sender id to the message's, clears the pending message, and leaves the wire
the tail of the expire queue with due `min (now + timeout_interval)
UINT64_MAX` and the tail of the wakeup queue with due `now +
keepalive_interval` (in 64-bit arithmetic); the transition that follows puts
the wire in LIVE and makes exactly one call when a callback is installed, the
callback with event `estd`, endpoint `ep` and the adopted sender id, and no
call otherwise. Dispatching the message to a slot below `SENDER_ID_MAX` is
that call of `start_life` followed by that transition. After `start_life`, and
after the transition, each timeout queue holds the other wires it held, in
their order, followed by the wire, and the dues of the other wires are
unchanged. -/
theorem start_life_ack (now : Nat) (s : wiring_t) (id : Nat) (msg : wireup_msg_t) (ep : Nat)
    (cb_ret : Bool) (hid : id < s.storage.nwires)
    (hst : (s.storage.getw id).state = wire_state_t.INITIAL)
    (hep : (s.storage.getw id).ep = some ep)
    (hop : msg.op = OP_ACK) (hsid : msg.sender_id < SENDER_ID_MAX) (hlen : msg.addrlen = 0) :
    ((start_life now s id msg).1 = wire_state_t.LIVE ∧
        ((start_life now s id msg).2.storage.getw id).id = some msg.sender_id ∧
        ((start_life now s id msg).2.storage.getw id).msg = none ∧
        ((start_life now s id msg).2.storage.getw id).msglen = 0 ∧
        ((start_life now s id msg).2.storage.thead timo_t.timo_expire).last = some id ∧
        ((start_life now s id msg).2.storage.link id timo_t.timo_expire).due =
          min (now + timeout_interval) UINT64_MAX ∧
        ((start_life now s id msg).2.storage.thead timo_t.timo_wakeup).last = some id ∧
        ((start_life now s id msg).2.storage.link id timo_t.timo_wakeup).due =
          (now + keepalive_interval) % 2 ^ 64 ∧
        (now + keepalive_interval < 2 ^ 64 →
          ((start_life now s id msg).2.storage.link id timo_t.timo_wakeup).due =
            now + keepalive_interval) ∧
        ((wireup_transition cb_ret (start_life now s id msg).2 id
          (start_life now s id msg).1).storage.getw id).state = wire_state_t.LIVE ∧
        (wireup_transition cb_ret (start_life now s id msg).2 id (start_life now s id msg).1).trace =
          s.trace ++
            (match (s.storage.getw id).cb with
            | none => []
            | some fn =>
              [ext_call.cb fn
                { event := wire_event_t.wire_ev_estd, ep := some ep,
                  sender_id := some msg.sender_id }
                (s.storage.getw id).cb_arg]) ∧
        ∀ e : env_t, id < SENDER_ID_MAX → e.cb_ret = cb_ret →
          wireup_msg_transition e now s id msg =
            wireup_transition cb_ret (start_life now s id msg).2 id (start_life now s id msg).1) ∧
      ∀ (which : timo_t) (q : List Nat), queue_wf s.storage which q →
        queue_wf (start_life now s id msg).2.storage which (q.erase id ++ [id]) ∧
          (∀ j, j ≠ id → ((start_life now s id msg).2.storage.link j which).due =
            (s.storage.link j which).due) ∧
          queue_wf (wireup_transition cb_ret (start_life now s id msg).2 id
            (start_life now s id msg).1).storage which (q.erase id ++ [id]) ∧
          ∀ j, j ≠ id → ((wireup_transition cb_ret (start_life now s id msg).2 id
            (start_life now s id msg).1).storage.link j which).due =
              (s.storage.link j which).due :=
  ⟨start_life_fields now s id msg ep cb_ret hid hst hep hop hsid hlen,
    fun which q hq => queue_wf_start_life now s id msg cb_ret hid hop hsid hlen which q hq⟩

theorem start_life_ack_witness :
    (start_life 5 started_with_callback 0 ack_example).1 = wire_state_t.LIVE ∧
      ((start_life 5 started_with_callback 0 ack_example).2.storage.getw 0).id = some 9 ∧
      ((start_life 5 started_with_callback 0 ack_example).2.storage.link 0
        timo_t.timo_wakeup).due = 5 + keepalive_interval ∧
      (wireup_transition true (start_life 5 started_with_callback 0 ack_example).2 0
        (start_life 5 started_with_callback 0 ack_example).1).trace =
        started_with_callback.trace ++
          [ext_call.cb 7
            { event := wire_event_t.wire_ev_estd, ep := some 1, sender_id := some 9 }
            (Ptr.obj 3)] ∧
      queue_wf started_with_callback.storage timo_t.timo_expire [0] ∧
      queue_wf (start_life 5 started_with_callback 0 ack_example).2.storage timo_t.timo_expire
        ([0].erase 0 ++ [0]) ∧
      queue_wf (start_life 5 started_with_callback 0 ack_example).2.storage timo_t.timo_wakeup
        ([0].erase 0 ++ [0]) ∧
      queue_wf_check (start_life 5 started_with_callback 0 ack_example).2.storage
        timo_t.timo_expire [0] = true ∧
      queue_wf_check (start_life 5 started_with_callback 0 ack_example).2.storage
        timo_t.timo_wakeup [0] = true :=
  have h := start_life_ack 5 started_with_callback 0 ack_example 1 true (by decide) (by decide)
    (by decide) (by decide) (by decide) (by decide)
  ⟨h.1.1, h.1.2.1, h.1.2.2.2.2.2.2.2.2.1 (by decide), h.1.2.2.2.2.2.2.2.2.2.2.1,
    queue_wf_of_check _ _ _ (by decide),
    (h.2 timo_t.timo_expire [0] (queue_wf_of_check _ _ _ (by decide))).1,
    (h.2 timo_t.timo_wakeup [0] (queue_wf_of_check _ _ _ (by decide))).1, by decide, by decide⟩

/-- C30: a round of the wakeup drain for an INITIAL wire. For a wire of the
table in INITIAL holding the pending message `m`, the round removes the wire
from the wakeup queue and calls `retry`. When no request is to be had, nothing
is sent; when `ucp_tag_send_nbx` returns an error, `m` with its length has
been sent to `wireup_start_tag` and the request is back at the head of the
request free list; in both cases the wire ends in CLOSING, with both timeout
links designating the wire itself, at the head of the closing list of bin
`epoch.last % NBINS`, and the only further call is the `closed` callback when
one is installed. Otherwise `m` with its length has been sent to
`wireup_start_tag` and no other call made, the wire is INITIAL, keeps its
message, is the tail of the wakeup queue with due `now + retry_interval` (in
64-bit arithmetic), and its expire link and the head of the expire queue are
as before. In that last case the wakeup queue
holds the other wires it held, in their order, followed by the wire, the dues
of the other wires are unchanged, and the expire queue holds the wires it
held, in their order. -/
theorem retry_round (e : env_t) (now : Nat) (s : wiring_t) (id : Nat) (m : wireup_msg_t)
    (hid : id < s.storage.nwires)
    (hst : (s.storage.getw id).state = wire_state_t.INITIAL)
    (hmsg : (s.storage.getw id).msg = some m)
    (hbins : s.garbage_sched.bin.length = NBINS)
    (he : wiring_timeout_remove_assert s.storage id timo_t.timo_expire = true)
    (hw : wiring_timeout_remove_assert s.storage id timo_t.timo_wakeup = true) :
    ((s.req_free = [] → e.header_alloc = none →
          ((wakeup_step e now s id).storage.getw id).state = wire_state_t.CLOSING ∧
          (∀ which, ((wakeup_step e now s id).storage.link id which).next = some id ∧
            ((wakeup_step e now s id).storage.link id which).prev = some id) ∧
          ((wakeup_step e now s id).getbin (s.garbage_sched.epoch_last % NBINS)).first_closed =
            some id ∧
          ((wakeup_step e now s id).storage.getw id).next =
            (s.getbin (s.garbage_sched.epoch_last % NBINS)).first_closed ∧
          (wakeup_step e now s id).req_free = [] ∧
          (wakeup_step e now s id).trace =
            s.trace ++
              (match (s.storage.getw id).cb with
              | none => []
              | some fn =>
                [ext_call.cb fn
                  { event := wire_event_t.wire_ev_closed, ep := none, sender_id := sender_id_nil }
                  (s.storage.getw id).cb_arg])) ∧
        ∀ req s1, wiring_free_request_get e.header_alloc s = (some req, s1) →
          (e.nbx = ucs_status_ptr_t.err →
            ((wakeup_step e now s id).storage.getw id).state = wire_state_t.CLOSING ∧
            (∀ which, ((wakeup_step e now s id).storage.link id which).next = some id ∧
              ((wakeup_step e now s id).storage.link id which).prev = some id) ∧
            ((wakeup_step e now s id).getbin (s.garbage_sched.epoch_last % NBINS)).first_closed =
              some id ∧
            ((wakeup_step e now s id).storage.getw id).next =
              (s.getbin (s.garbage_sched.epoch_last % NBINS)).first_closed ∧
            (wakeup_step e now s id).req_free = req :: s1.req_free ∧
            (wakeup_step e now s id).trace =
              s.trace ++
                [ext_call.tag_send (s.storage.getw id).ep m (s.storage.getw id).msglen
                  tx_tag.start] ++
                (match (s.storage.getw id).cb with
                | none => []
                | some fn =>
                  [ext_call.cb fn
                    { event := wire_event_t.wire_ev_closed, ep := none,
                      sender_id := sender_id_nil }
                    (s.storage.getw id).cb_arg])) ∧
          (e.nbx ≠ ucs_status_ptr_t.err →
            ((wakeup_step e now s id).storage.getw id).state = wire_state_t.INITIAL ∧
            ((wakeup_step e now s id).storage.getw id).msg = some m ∧
            ((wakeup_step e now s id).storage.getw id).msglen = (s.storage.getw id).msglen ∧
            ((wakeup_step e now s id).storage.thead timo_t.timo_wakeup).last = some id ∧
            ((wakeup_step e now s id).storage.link id timo_t.timo_wakeup).due =
              (now + retry_interval) % 2 ^ 64 ∧
            (now + retry_interval < 2 ^ 64 →
              ((wakeup_step e now s id).storage.link id timo_t.timo_wakeup).due =
                now + retry_interval) ∧
            (wakeup_step e now s id).storage.link id timo_t.timo_expire =
              s.storage.link id timo_t.timo_expire ∧
            (wakeup_step e now s id).storage.thead timo_t.timo_expire =
              s.storage.thead timo_t.timo_expire ∧
            (wakeup_step e now s id).trace =
              s.trace ++
                [ext_call.tag_send (s.storage.getw id).ep m (s.storage.getw id).msglen
                  tx_tag.start])) ∧
      ∀ req s1, wiring_free_request_get e.header_alloc s = (some req, s1) →
        e.nbx ≠ ucs_status_ptr_t.err →
        (∀ q : List Nat, queue_wf s.storage timo_t.timo_wakeup q →
          queue_wf (wakeup_step e now s id).storage timo_t.timo_wakeup (q.erase id ++ [id]) ∧
            ∀ j, j ≠ id → ((wakeup_step e now s id).storage.link j timo_t.timo_wakeup).due =
              (s.storage.link j timo_t.timo_wakeup).due) ∧
          ∀ q : List Nat, queue_wf s.storage timo_t.timo_expire q →
            queue_wf (wakeup_step e now s id).storage timo_t.timo_expire q ∧
              ∀ j, (wakeup_step e now s id).storage.link j timo_t.timo_expire =
                s.storage.link j timo_t.timo_expire :=
  ⟨retry_round_fields e now s id m hid hst hmsg hbins he hw,
    fun req s1 hget hok => queue_wf_retry_round e now s id hid hst req s1 hget hok⟩

theorem retry_round_witness :
    ((wakeup_step env_ok retry_interval started_with_callback 0).storage.getw 0).state =
        wire_state_t.INITIAL ∧
      ((wakeup_step env_ok retry_interval started_with_callback 0).storage.link 0
        timo_t.timo_wakeup).due = retry_interval + retry_interval ∧
      ((wakeup_step env_send_err retry_interval started_with_callback 0).storage.getw 0).state =
        wire_state_t.CLOSING ∧
      (wakeup_step env_send_err retry_interval started_with_callback 0).req_free = [0] ∧
      queue_wf (wakeup_step env_ok retry_interval started_with_callback 0).storage
        timo_t.timo_wakeup ([0].erase 0 ++ [0]) ∧
      queue_wf (wakeup_step env_ok retry_interval started_with_callback 0).storage
        timo_t.timo_expire [0] ∧
      queue_wf_check (wakeup_step env_ok retry_interval started_with_callback 0).storage
        timo_t.timo_wakeup [0] = true :=
  have h1 := retry_round env_ok retry_interval started_with_callback 0 _ (by decide) (by decide)
    rfl (by decide) (by decide) (by decide)
  have h2 := retry_round env_send_err retry_interval started_with_callback 0 _ (by decide)
    (by decide) rfl (by decide) (by decide) (by decide)
  have a := (h1.1.2 _ _ rfl).2 (by decide)
  have b := (h2.1.2 _ _ rfl).1 rfl
  have c := h1.2 _ _ rfl (by decide)
  ⟨a.1, a.2.2.2.2.2.1 (by decide), b.1, b.2.2.2.2.1,
    (c.1 [0] (queue_wf_of_check _ _ _ (by decide))).1,
    (c.2 [0] (queue_wf_of_check _ _ _ (by decide))).1, by decide⟩

/-- C32: a matching keepalive. For a LIVE wire of the table whose adopted peer
sender id is `p`, below `SENDER_ID_MAX`, and a message with `op = KEEPALIVE`,
`addrlen = 0` and `sender_id = p`: `continue_life` returns LIVE, and the
dispatch of the message changes the table only, by `wiring_expiration_remove`
and `wiring_expiration_put`. Afterwards the wire is the tail of the expire
queue with due `min (now + timeout_interval) UINT64_MAX`; the head of the
wakeup queue and every wire's wakeup link are as before; every wire has its
state, sender id, endpoint, pending message, callback and `next` as before;
the association array, the bins, the request lists and the calls made are
as before. The expire queue then holds the other wires it held, in their
order, followed by the wire; the expire dues of the other wires are
unchanged; the wakeup queue holds the wires it held, in their order. -/
theorem keepalive_rearms_expire (e : env_t) (now : Nat) (s : wiring_t) (id p : Nat)
    (msg : wireup_msg_t) (hid : id < s.storage.nwires) (hmax : id < SENDER_ID_MAX)
    (hst : (s.storage.getw id).state = wire_state_t.LIVE)
    (hp : (s.storage.getw id).id = some p) (hq : p < SENDER_ID_MAX)
    (hop : msg.op = OP_KEEPALIVE) (hlen : msg.addrlen = 0) (hsid : msg.sender_id = p) :
    ((continue_life now s id msg).1 = wire_state_t.LIVE ∧
        wireup_msg_transition e now s id msg =
          { s with storage := wiring_expiration_put (wiring_expiration_remove s.storage id) id (gettimeout now now) } ∧
        ((wireup_msg_transition e now s id msg).storage.thead timo_t.timo_expire).last = some id ∧
        ((wireup_msg_transition e now s id msg).storage.link id timo_t.timo_expire).due =
          min (now + timeout_interval) UINT64_MAX ∧
        (wireup_msg_transition e now s id msg).storage.thead timo_t.timo_wakeup =
          s.storage.thead timo_t.timo_wakeup ∧
        (∀ i, (wireup_msg_transition e now s id msg).storage.link i timo_t.timo_wakeup =
          s.storage.link i timo_t.timo_wakeup) ∧
        (∀ i, ((wireup_msg_transition e now s id msg).storage.getw i).core =
          (s.storage.getw i).core) ∧
        (wireup_msg_transition e now s id msg).assoc = s.assoc ∧
        (wireup_msg_transition e now s id msg).garbage_sched = s.garbage_sched ∧
        (wireup_msg_transition e now s id msg).req_free = s.req_free ∧
        (wireup_msg_transition e now s id msg).req_outst = s.req_outst ∧
        (wireup_msg_transition e now s id msg).trace = s.trace) ∧
      (∀ q : List Nat, queue_wf s.storage timo_t.timo_expire q →
        queue_wf (wireup_msg_transition e now s id msg).storage timo_t.timo_expire
            (q.erase id ++ [id]) ∧
          ∀ j, j ≠ id →
            ((wireup_msg_transition e now s id msg).storage.link j timo_t.timo_expire).due =
              (s.storage.link j timo_t.timo_expire).due) ∧
        ∀ q : List Nat, queue_wf s.storage timo_t.timo_wakeup q →
          queue_wf (wireup_msg_transition e now s id msg).storage timo_t.timo_wakeup q :=
  have hf := keepalive_fields e now s id p msg hid hmax hst hp hq hop hlen hsid
  ⟨hf, by
    rw [hf.2.1]
    show (∀ q : List Nat, queue_wf s.storage timo_t.timo_expire q →
      queue_wf (wiring_timeout_put (wiring_timeout_remove s.storage id timo_t.timo_expire) id
          timo_t.timo_expire (gettimeout now now)) timo_t.timo_expire (q.erase id ++ [id]) ∧
        ∀ j, j ≠ id →
          ((wiring_timeout_put (wiring_timeout_remove s.storage id timo_t.timo_expire) id
            timo_t.timo_expire (gettimeout now now)).link j timo_t.timo_expire).due =
            (s.storage.link j timo_t.timo_expire).due) ∧
      ∀ q : List Nat, queue_wf s.storage timo_t.timo_wakeup q →
        queue_wf (wiring_timeout_put (wiring_timeout_remove s.storage id timo_t.timo_expire) id
          timo_t.timo_expire (gettimeout now now)) timo_t.timo_wakeup q
    exact ⟨fun q hq0 =>
        have g := queue_wf_requeue s.storage timo_t.timo_expire q id (gettimeout now now) hq0 hid
        ⟨g.1, g.2.2⟩,
      fun q hq0 => (queue_wf_requeue_other hq0 id (gettimeout now now)
        (show timo_t.timo_wakeup ≠ timo_t.timo_expire by decide)).1⟩⟩

theorem keepalive_rearms_expire_witness :
    ((wireup_msg_transition env_ok 5 one_live_wire 0 keepalive_from_peer).storage.thead
        timo_t.timo_expire).last = some 0 ∧
      ((wireup_msg_transition env_ok 5 one_live_wire 0 keepalive_from_peer).storage.link 0
        timo_t.timo_expire).due = UINT64_MAX ∧
      ((wireup_msg_transition env_ok 5 one_live_wire 0 keepalive_from_peer).storage.link 0
        timo_t.timo_wakeup).due = keepalive_interval ∧
      queue_wf one_live_wire.storage timo_t.timo_expire [0] ∧
      queue_wf (wireup_msg_transition env_ok 5 one_live_wire 0 keepalive_from_peer).storage
        timo_t.timo_expire ([0].erase 0 ++ [0]) ∧
      queue_wf_check (wireup_msg_transition env_ok 5 one_live_wire 0 keepalive_from_peer).storage
        timo_t.timo_expire [0] = true :=
  have h := keepalive_rearms_expire env_ok 5 one_live_wire 0 0 keepalive_from_peer (by decide)
    (by decide) (by decide) (by decide) (by decide) (by decide) (by decide) (by decide)
  ⟨h.1.2.2.1, h.1.2.2.2.1.trans (by decide),
    (congrArg timeout_link_t.due (h.1.2.2.2.2.2.1 0)).trans (by decide),
    queue_wf_of_check _ _ _ (by decide),
    (h.2.1 [0] (queue_wf_of_check _ _ _ (by decide))).1, by decide⟩

/-! ## Expire with timeouts disabled -/

theorem next_reach_snoc {st : wstorage_t} {p : sender_id_t} {i j : Nat}
    (h : next_reach st p i) (hj : (st.getw i).next = some j) : next_reach st p j := by
  induction h with
  | head i =>
    refine next_reach.tail i j ?_
    rw [hj]
    exact next_reach.head j
  | tail i k _ ih => exact next_reach.tail i j (ih hj)

theorem wire_idle_of_without_next {w w' : wire_t} (h : w'.without_next = w.without_next)
    (hw : wire_idle w) : wire_idle w' := by
  have a1 := congrArg wire_t.state h
  have a2 := congrArg wire_t.ep h
  have a3 := congrArg wire_t.msg h
  exact ⟨a1.trans hw.1, a2.trans hw.2.1, a3.trans hw.2.2⟩

theorem touch_rel.touch_refl (T B : Nat → Prop) (s : wiring_t) : touch_rel T B s s :=
  ⟨fun _ _ => rfl, fun _ _ => rfl, fun h => h⟩

theorem touch_rel.touch_trans {T B : Nat → Prop} {a b c : wiring_t} (h1 : touch_rel T B a b)
    (h2 : touch_rel T B b c) : touch_rel T B a c :=
  ⟨fun i hi => (h2.keep i hi).trans (h1.keep i hi),
    fun i hi => (h2.idle i (wire_idle_of_without_next (h1.idle i hi) hi)).trans (h1.idle i hi),
    fun h => h2.inv (h1.inv h)⟩

/-- A change that leaves the table alone and gives no closing list a new
head. -/
theorem touch_rel_of_storage_eq {T B : Nat → Prop} {s s' : wiring_t}
    (hs : s'.storage = s.storage)
    (hc : ∀ b id, (s'.getbin b).first_closed = some id → (s.getbin b).first_closed = some id) :
    touch_rel T B s s' := by
  refine ⟨fun i _ => by rw [hs], fun i _ => by rw [hs], fun h => ?_⟩
  exact
    { free := by rw [hs]; exact h.free
      closed := fun b hb id hid => h.closed b hb id (hc b id hid)
      next := by rw [hs]; exact h.next }

theorem touch_rel_of_refs_rel {T B : Nat → Prop} {s s' : wiring_t} (h : refs_rel s s') :
    touch_rel T B s s' :=
  touch_rel_of_storage_eq h.storage (fun b id hid => by rw [← h.closed b]; exact hid)

/-- `wiring_finalize_wire` writes the wire `id` only. -/
theorem getw_finalize_other (e : env_t) (s : wiring_t) (id i : Nat) (hi : i ≠ id) :
    (wiring_finalize_wire e s id).storage.getw i = s.storage.getw i := by
  have key : ∀ s1 : wiring_t, s1.storage.getw i = s.storage.getw i → ∀ ep : Nat,
      (match wiring_free_request_get e.header_alloc s1 with
        | (none, s2) => s2
        | (some req, s2) =>
          request_settle
            (({ s2 with storage := s2.storage.setw id { (s2.storage.getw id) with ep := none } } :
              wiring_t).log (ext_call.ep_close ep)) req e.nbx).storage.getw i =
        s.storage.getw i := by
    intro s1 hl ep
    have h1 := storage_free_request_get s1 e.header_alloc
    rcases heq : wiring_free_request_get e.header_alloc s1 with ⟨_ | req, s2⟩
    all_goals rw [heq] at h1
    all_goals simp only at h1
    · simp only [h1]
      exact hl
    · simp only [storage_request_settle, storage_log, h1]
      rw [getw_setw, if_neg (fun h => hi h.1)]
      exact hl
  rcases hmsg : (s.storage.getw id).msg with _ | m <;>
    rcases hep : (s.storage.getw id).ep with _ | ep
  · simp only [wiring_finalize_wire, hmsg, hep]
  · simp only [wiring_finalize_wire, hmsg, hep]
    exact key _ rfl ep
  · simp only [wiring_finalize_wire, hmsg, hep]
    rw [getw_setw, if_neg (fun h => hi h.1)]
  · simp only [wiring_finalize_wire, hmsg, hep]
    refine key _ ?_ ep
    rw [getw_setw, if_neg (fun h => hi h.1)]

/-- `wiring_finalize_wire` finds nothing to do for a wire without endpoint and
message. -/
theorem finalize_wire_idle (e : env_t) (s : wiring_t) (id : Nat)
    (hep : (s.storage.getw id).ep = none) (hmsg : (s.storage.getw id).msg = none) :
    wiring_finalize_wire e s id = s := by
  simp only [wiring_finalize_wire, hmsg, hep]

/-- `wireup_transition` writes the wire `id` only. -/
theorem getw_transition_other (cb_ret : Bool) (s : wiring_t) (id i : Nat)
    (nstate : wire_state_t) (hi : i ≠ id) :
    (wireup_transition cb_ret s id nstate).storage.getw i = s.storage.getw i := by
  rw [storage_wireup_transition]
  unfold wireup_storage_transition
  simp only
  split
  · rw [getw_setw, if_neg (fun h => hi h.1)]
  · split
    · rw [getw_setw, if_neg (fun h => hi h.1)]
    · split
      · rw [getw_setw, if_neg (fun h => hi h.1)]
      · simp only
        rw [getw_setw, if_neg (fun h => hi h.1)]

/-- A round of the loop over a closing list writes the wire `id` only. -/
theorem getw_closed_step_other (e : env_t) (s : wiring_t) (id i : Nat) (hi : i ≠ id) :
    (closed_step e s id).storage.getw i = s.storage.getw i := by
  unfold closed_step
  simp only
  rw [getw_free_put, if_neg (fun h => hi h.1), getw_transition_other _ _ _ _ _ hi,
    getw_finalize_other _ _ _ _ hi]

/-- A round of the loop over a closing list, for an idle wire, is
`wiring_free_put`. -/
theorem closed_step_idle (e : env_t) (s : wiring_t) (id : Nat)
    (h : wire_idle (s.storage.getw id)) :
    closed_step e s id = { s with storage := wiring_free_put s.storage id } := by
  unfold closed_step
  rw [finalize_wire_idle e s id h.2.1 h.2.2, transition_same_state _ _ _ _ h.1]

theorem without_next_free_put (st : wstorage_t) (id i : Nat) :
    ((wiring_free_put st id).getw i).without_next = (st.getw i).without_next := by
  rw [getw_free_put]
  split
  · rename_i h
    rw [h.1]
    rfl
  · rfl

/-- A round of the loop over a closing list, for a wire in `T`. -/
theorem closed_step_touch {T B : Nat → Prop} (e : env_t) (s : wiring_t) (id : Nat)
    (hid : T id) : touch_rel T B s (closed_step e s id) := by
  refine ⟨fun i hi => ?_, fun i hi => ?_, fun h => ?_⟩
  · exact getw_closed_step_other e s id i (fun h => hi (h ▸ hid))
  · by_cases hii : i = id
    · subst hii
      rw [closed_step_idle e s i hi]
      exact without_next_free_put _ _ _
    · rw [getw_closed_step_other e s id i hii]
  · obtain ⟨s2, h2, hl, _, hg⟩ := closed_step_frame e s id
    rw [h2]
    refine
      { free := ?_
        closed := ?_
        next := ?_ }
    · intro j hj
      have : (wiring_free_put s2.storage id).first_free = some id := rfl
      simp only [this] at hj
      cases hj
      exact hid
    · intro b hb j hj
      have hbin : ({ s2 with storage := wiring_free_put s2.storage id } : wiring_t).getbin b =
          s.getbin b := getbin_congr hg b
      rw [hbin] at hj
      exact h.closed b hb j hj
    · intro i hi j hj
      simp only [getw_free_put] at hj
      split at hj
      · simp only at hj
        rw [hl.first_free] at hj
        exact h.free j hj
      · rw [(hl.wires i).2.2.2] at hj
        exact h.next i hi j hj

/-- The loop over a closing list that starts in `T`. -/
theorem reclaim_bin_closed_touch {T B : Nat → Prop} (fenv : Nat → env_t) :
    ∀ (fuel : Nat) (s : wiring_t) (p : sender_id_t) (r : Bool × wiring_t),
      reclaim_bin_closed fuel fenv s p = some r → touch_inv T B s →
      (∀ id, p = some id → T id) → touch_rel T B s r.2 := by
  intro fuel
  induction fuel with
  | zero => intro s p r h; simp [reclaim_bin_closed] at h
  | succ k ih =>
    intro s p r h hinv hp
    cases p with
    | none =>
      simp only [reclaim_bin_closed, Option.some.injEq] at h
      subst h
      exact touch_rel.touch_refl T B s
    | some id =>
      rw [reclaim_bin_closed_succ] at h
      split at h
      · cases h
      · rename_i r1 hr1
        simp only [Option.some.injEq] at h
        subst h
        have hid := hp id rfl
        have h1 : touch_rel T B s (closed_step (fenv id) s id) := closed_step_touch _ s id hid
        exact h1.touch_trans (ih _ _ r1 hr1 (h1.inv hinv) (fun j hj => hinv.next id hid j hj))

/-- Resetting a bin. -/
theorem touch_rel_reset_bin {T B : Nat → Prop} (s : wiring_t) (i : Nat)
    (b : wiring_garbage_bin_t) (hb : b.first_closed = none) : touch_rel T B s (s.setbin i b) := by
  refine touch_rel_of_storage_eq rfl ?_
  intro b' id hid
  rw [getbin_setbin] at hid
  split at hid
  · rw [hb] at hid
    cases hid
  · exact hid

/-- `wiring_reclaim_bin_for_epoch`, when the bin it may reclaim is in `B`. -/
theorem reclaim_bin_for_epoch_touch {T B : Nat → Prop} (fuel : Nat) (fenv : Nat → env_t)
    (s : wiring_t) (epoch last_epoch : Nat) (r : Bool × Bool × wiring_t)
    (h : wiring_reclaim_bin_for_epoch fuel fenv s epoch last_epoch = some r)
    (hinv : touch_inv T B s) (hB : r.1 = true → B (epoch % NBINS)) :
    touch_rel T B s r.2.2 := by
  unfold wiring_reclaim_bin_for_epoch at h
  split at h
  · cases h
  · rename_i s1 h1
    simp only [Option.some.injEq] at h
    subst h
    exact touch_rel_of_refs_rel (reclaim_bin_refs_rel epoch last_epoch fuel s _ h1)
  · rename_i s1 h1
    have g1 : touch_rel T B s s1 :=
      touch_rel_of_refs_rel (reclaim_bin_refs_rel epoch last_epoch fuel s _ h1)
    split at h
    · cases h
    · rename_i progress s2 h2
      simp only [Option.some.injEq] at h
      subst h
      have hinv1 := g1.inv hinv
      have g2 := reclaim_bin_closed_touch fenv fuel s1 _ _ h2 hinv1
        (fun id hid => hinv1.closed _ (hB rfl) id hid)
      exact (g1.touch_trans g2).touch_trans (touch_rel_reset_bin s2 _ _ rfl)

/-- The loop over the epochs of `wiring_reclaim`, when the bins of the epochs
it passes are in `B`. -/
theorem reclaim_epochs_touch {T B : Nat → Prop} (fuel : Nat) (fenv : Nat → env_t) :
    ∀ (k : Nat) (s : wiring_t) (epoch last : Nat) (r : Nat × Bool × wiring_t),
      reclaim_epochs fuel fenv k s epoch last = some r →
      epoch ≤ r.1 ∧
        (touch_inv T B s → (∀ ep, epoch ≤ ep → ep < r.1 → B (ep % NBINS)) →
          touch_rel T B s r.2.2) := by
  intro k
  induction k with
  | zero => intro s epoch last r h; simp [reclaim_epochs] at h
  | succ k ih =>
    intro s epoch last r h
    unfold reclaim_epochs at h
    split at h
    · simp only [Option.some.injEq] at h
      subst h
      exact ⟨le_refl _, fun _ _ => touch_rel.touch_refl T B s⟩
    · split at h
      · cases h
      · rename_i progress s1 h1
        simp only [Option.some.injEq] at h
        subst h
        refine ⟨le_refl _, fun hinv _ => ?_⟩
        exact reclaim_bin_for_epoch_touch fuel fenv s epoch last _ h1 hinv (fun hf => by cases hf)
      · rename_i progress s1 h1
        split at h
        · cases h
        · rename_i e progress1 s2 h2
          simp only [Option.some.injEq] at h
          subst h
          obtain ⟨m1, m2⟩ := ih _ _ _ _ h2
          refine ⟨by simp only at m1 ⊢; omega, fun hinv hB => ?_⟩
          simp only at m1 hB ⊢
          have g1 := reclaim_bin_for_epoch_touch fuel fenv s epoch last _ h1 hinv
            (fun _ => hB epoch (le_refl _) (by omega))
          exact g1.touch_trans (m2 (g1.inv hinv) (fun ep h3 h4 => hB ep (by omega) h4))

/-- `wiring_reclaim` without finalization, when the bins of the epochs it
takes out of the window are in `B`. -/
theorem wiring_reclaim_touch {T B : Nat → Prop} (fuel : Nat) (fenv : Nat → env_t) (s : wiring_t)
    (r : Bool × Bool × wiring_t) (h : wiring_reclaim fuel fenv s false = some r) :
    s.garbage_sched.epoch_first ≤ r.2.2.garbage_sched.epoch_first ∧
      (touch_inv T B s →
        (∀ ep, s.garbage_sched.epoch_first ≤ ep → ep < r.2.2.garbage_sched.epoch_first →
          B (ep % NBINS)) →
        touch_rel T B s r.2.2) := by
  unfold wiring_reclaim at h
  simp only at h
  split at h
  · simp only [Option.some.injEq] at h
    subst h
    exact ⟨le_refl _, fun _ _ => touch_rel.touch_refl T B s⟩
  · split at h
    · cases h
    · rename_i epoch progress s1 h1
      obtain ⟨m1, m2⟩ := reclaim_epochs_touch (T := T) (B := B) fuel fenv _ _ _ _ _ h1
      simp only [Bool.not_false, if_true, Option.some.injEq] at h
      subst h
      simp only at m1 m2 ⊢
      refine ⟨m1, fun hinv hB => ?_⟩
      refine (m2 hinv hB).touch_trans (touch_rel_of_storage_eq rfl (fun b id hid => ?_))
      exact hid

/-- The loop at the head of `wiring_garbage_add`. -/
theorem garbage_make_room_touch {T B : Nat → Prop} (fuel : Nat) (fenv : Nat → env_t) :
    ∀ (k : Nat) (s s' : wiring_t), garbage_make_room fuel fenv k s = some s' →
      s.garbage_sched.epoch_first ≤ s'.garbage_sched.epoch_first ∧
        (touch_inv T B s →
          (∀ ep, s.garbage_sched.epoch_first ≤ ep → ep < s'.garbage_sched.epoch_first →
            B (ep % NBINS)) →
          touch_rel T B s s') := by
  intro k
  induction k with
  | zero => intro s s' h; simp [garbage_make_room] at h
  | succ k ih =>
    intro s s' h
    unfold garbage_make_room at h
    split at h
    · split at h
      · cases h
      · rename_i r hr
        obtain ⟨a1, a2⟩ := wiring_reclaim_touch (T := T) (B := B) fuel fenv s r hr
        obtain ⟨b1, b2⟩ := ih _ _ h
        refine ⟨by omega, fun hinv hB => ?_⟩
        have g1 := a2 hinv (fun ep h3 h4 => hB ep h3 (by omega))
        exact g1.touch_trans (b2 (g1.inv hinv) (fun ep h3 h4 => hB ep (by omega) h4))
    · simp only [Option.some.injEq] at h
      subst h
      exact ⟨le_refl _, fun _ _ => touch_rel.touch_refl T B s⟩

/-- `wiring_garbage_add`, when the bins of the epochs it takes out of the
window are in `B`. -/
theorem garbage_add_touch {T B : Nat → Prop} (fuel : Nat) (fenv : Nat → env_t)
    (s s' : wiring_t) (storage : wstorage_t) (assoc : List Ptr)
    (h : wiring_garbage_add fuel fenv s storage assoc = some s') :
    s.garbage_sched.epoch_first ≤ s'.garbage_sched.epoch_first ∧
      (touch_inv T B s →
        (∀ ep, s.garbage_sched.epoch_first ≤ ep → ep < s'.garbage_sched.epoch_first →
          B (ep % NBINS)) →
        touch_rel T B s s') := by
  unfold wiring_garbage_add at h
  split at h
  · cases h
  · rename_i s1 h1
    simp only [Option.some.injEq] at h
    subst h
    obtain ⟨a1, a2⟩ := garbage_make_room_touch (T := T) (B := B) fuel fenv _ _ _ h1
    refine ⟨a1, fun hinv hB => ?_⟩
    refine (a2 hinv hB).touch_trans (touch_rel_of_storage_eq rfl (fun b id hid => ?_))
    have hb : ∀ t : wiring_t, t.getbin b = t.garbage_sched.getbin b := fun _ => rfl
    have hid2 : ((s1.setbin (s1.garbage_sched.epoch_last % NBINS)
        { (s1.getbin (s1.garbage_sched.epoch_last % NBINS)) with
          storage := some storage, assoc := some assoc }).getbin b).first_closed = some id := hid
    rw [getbin_setbin] at hid2
    split at hid2
    · rename_i hh
      rw [hh.1]
      exact hid2
    · exact hid2

/-- What the reclamation in a successful `wiring_enlarge` leaves alone: from
the table as installed to the table as returned, the wires outside the new
slots, the free list and the closing lists of the reclaimed bins are
unchanged, and an idle wire has changed in `next` at most. -/
theorem enlarge_touch (L : layout_t) (fuel : Nat) (e : env_t) (fenv : Nat → env_t)
    (s s' : wiring_t) (h : wiring_enlarge L fuel e fenv s = some (true, s')) :
    (∀ i, i < s.storage.nwires → ¬ reclaim_reach s s'.garbage_sched.epoch_first i →
        s'.storage.getw i = s.storage.getw i) ∧
      (∀ i, i < s.storage.nwires → wire_idle (s.storage.getw i) →
        (s'.storage.getw i).without_next = (s.storage.getw i).without_next) ∧
      ∀ i, s.storage.nwires ≤ i → i < s'.storage.nwires →
        (s'.storage.getw i).without_next = (wire_fresh i).without_next := by
  obtain ⟨hgt, hadd⟩ := wiring_enlarge_success L fuel e fenv s s' h
  have hrel := (garbage_add_good fuel fenv _ _ _ _ hadd).1
  have hnw : (enlarge_install L s).storage.nwires = enlarge_nwires L s.storage.nwires :=
    nwires_enlarge_tables L s.storage s.assoc hgt
  have hg : ∀ i, (enlarge_install L s).storage.getw i = _ :=
    getw_enlarge_tables L s.storage s.assoc hgt
  have hold : ∀ i, i < s.storage.nwires →
      (enlarge_install L s).storage.getw i = s.storage.getw i := by
    intro i hi
    rw [hg, if_pos hi]
  have hout : ∀ i, enlarge_nwires L s.storage.nwires ≤ i →
      (enlarge_install L s).storage.getw i = s.storage.getw i := by
    intro i hi
    rw [hg, if_neg (by omega), if_neg (by omega), if_neg (by omega)]
    unfold wstorage_t.getw
    rw [List.getD_eq_getElem?_getD, List.getElem?_eq_none]
    · rfl
    · show s.storage.nwires ≤ i
      omega
  have hfirst : (enlarge_install L s).garbage_sched.epoch_first = s.garbage_sched.epoch_first :=
    rfl
  have hbin : ∀ b, (enlarge_install L s).getbin b = s.getbin b := fun _ => rfl
  obtain ⟨_, a2⟩ := garbage_add_touch
    (T := fun i => (s.storage.nwires ≤ i ∧ i < enlarge_nwires L s.storage.nwires) ∨
      reclaim_reach s s'.garbage_sched.epoch_first i)
    (B := fun b => ∃ ep, s.garbage_sched.epoch_first ≤ ep ∧
      ep < s'.garbage_sched.epoch_first ∧ ep % NBINS = b)
    fuel fenv _ _ _ _ hadd
  have hinv : touch_inv
      (fun i => (s.storage.nwires ≤ i ∧ i < enlarge_nwires L s.storage.nwires) ∨
        reclaim_reach s s'.garbage_sched.epoch_first i)
      (fun b => ∃ ep, s.garbage_sched.epoch_first ≤ ep ∧
        ep < s'.garbage_sched.epoch_first ∧ ep % NBINS = b)
      (enlarge_install L s) := by
    refine
      { free := ?_
        closed := ?_
        next := ?_ }
    · intro id hid
      have : (enlarge_install L s).storage.first_free = some s.storage.nwires := rfl
      rw [this] at hid
      cases hid
      exact Or.inl ⟨le_refl _, hgt⟩
    · rintro b ⟨ep, h1, h2, h3⟩ id hid
      rw [hbin, ← h3] at hid
      refine Or.inr (Or.inr ⟨ep, h1, h2, ?_⟩)
      rw [hid]
      exact next_reach.head id
    · intro i hi j hj
      by_cases hnew : s.storage.nwires ≤ i ∧ i < enlarge_nwires L s.storage.nwires
      · rw [hg, if_neg (by omega)] at hj
        split at hj
        · simp only at hj
          refine Or.inr (Or.inl ?_)
          rw [hj]
          exact next_reach.head j
        · rw [if_pos hnew.2] at hj
          simp only [wire_fresh, Option.some.injEq] at hj
          exact Or.inl ⟨by omega, by omega⟩
      · have hr : reclaim_reach s s'.garbage_sched.epoch_first i := by
          rcases hi with hi | hi
          · exact absurd hi hnew
          · exact hi
        have hsame : (enlarge_install L s).storage.getw i = s.storage.getw i := by
          by_cases hlt : i < s.storage.nwires
          · exact hold i hlt
          · exact hout i (by omega)
        rw [hsame] at hj
        refine Or.inr ?_
        rcases hr with hr | ⟨ep, h1, h2, hr⟩
        · exact Or.inl (next_reach_snoc hr hj)
        · exact Or.inr ⟨ep, h1, h2, next_reach_snoc hr hj⟩
  have hrelT := a2 hinv (fun ep h1 h2 => ⟨ep, h1, h2, rfl⟩)
  refine ⟨fun i hi hnot => ?_, fun i hi hidle => ?_, fun i h1 h2 => ?_⟩
  · rw [hrelT.keep i (fun ht => by
      rcases ht with ht | ht
      · omega
      · exact hnot ht), hold i hi]
  · have := hrelT.idle i (by rw [hold i hi]; exact hidle)
    rw [this, hold i hi]
  · rw [hrel.nwires, hnw] at h2
    have hfresh : ((enlarge_install L s).storage.getw i).without_next =
        (wire_fresh i).without_next := by
      rw [hg, if_neg (by omega)]
      split_ifs <;> rfl
    have := hrelT.idle i (wire_idle_of_without_next hfresh ⟨rfl, rfl, rfl⟩)
    rw [this, hfresh]

/-- A walk that ends before its fuel is used up meets every slot of the
list. -/
theorem mem_walk_of_next_reach {st : wstorage_t} {p : sender_id_t} {i : Nat}
    (h : next_reach st p i) :
    ∀ n, (next_walk st n p).length < n → i ∈ next_walk st n p := by
  induction h with
  | head i =>
    intro n hn
    cases n with
    | zero => simp [next_walk] at hn
    | succ n => simp [next_walk]
  | tail i k _ ih =>
    intro n hn
    cases n with
    | zero => simp [next_walk] at hn
    | succ n =>
      simp only [next_walk, List.length_cons, Nat.add_lt_add_iff_right] at hn
      simp only [next_walk, List.mem_cons]
      exact Or.inr (ih n hn)

theorem not_next_reach_of_walk (st : wstorage_t) (n : Nat) (p : sender_id_t) (i : Nat)
    (hn : (next_walk st n p).length < n) (hi : i ∉ next_walk st n p) : ¬ next_reach st p i :=
  fun h => hi (mem_walk_of_next_reach h n hn)

/-- A slot that is neither on the free list nor on the closing list of a
bin. -/
theorem not_reclaim_reach (s : wiring_t) (first i : Nat)
    (hfree : ¬ next_reach s.storage s.storage.first_free i)
    (hb : ∀ b, b < NBINS → ¬ next_reach s.storage (s.getbin b).first_closed i) :
    ¬ reclaim_reach s first i := by
  rintro (h | ⟨ep, _, _, h⟩)
  · exact hfree h
  · exact hb (ep % NBINS) (Nat.mod_lt _ (by decide)) h

/-- C5, as amended: growth preserves ids. When `wiring_enlarge` succeeds on a
table of `old_n` wires, the table count has grown, both timeout queue heads
are unchanged, and every slot `i < old_n` has the same timeout links and
sender id as before and the same pointer in the association array. Slot `i`
is unchanged altogether (same state, endpoint, pending message, callback and
`next`) when the epoch window was not full at the call, and also when the
slot is neither on the free list nor on the closing list of a bin that the
call reclaims (the bins of the epochs from the old `epoch.first` up to the
new one). A slot that is FREE with no endpoint and no pending message, as
the slots of the free list are, keeps every member but `next`. -/
theorem enlarge_preserves (L : layout_t) (fuel : Nat) (e : env_t) (fenv : Nat → env_t)
    (s s' : wiring_t) (h : wiring_enlarge L fuel e fenv s = some (true, s')) :
    s.storage.nwires < s'.storage.nwires ∧
      (∀ which, s'.storage.thead which = s.storage.thead which) ∧
      ∀ i, i < s.storage.nwires →
        (∀ which, s'.storage.link i which = s.storage.link i which) ∧
        (s'.storage.getw i).id = (s.storage.getw i).id ∧
        s'.assoc.getD i Ptr.null = s.assoc.getD i Ptr.null ∧
        (s.garbage_sched.epoch_last - s.garbage_sched.epoch_first ≠ NBINS →
          s'.storage.getw i = s.storage.getw i) ∧
        (¬ reclaim_reach s s'.garbage_sched.epoch_first i →
          s'.storage.getw i = s.storage.getw i) ∧
        (wire_idle (s.storage.getw i) →
          (s'.storage.getw i).without_next = (s.storage.getw i).without_next) := by
  obtain ⟨a1, a2, a3⟩ := enlarge_old_slots L fuel e fenv s s' h
  obtain ⟨b1, b2, _⟩ := enlarge_touch L fuel e fenv s s' h
  refine ⟨a1, a2, fun i hi => ?_⟩
  obtain ⟨c1, c2, c3, c4⟩ := a3 i hi
  exact ⟨c1, c2, c3, c4, b1 i hi, b2 i hi⟩

theorem enlarge_preserves_witness :
    wiring_enlarge layout_example 8 env_ok (fun _ => env_ok) full_window_wiring =
        some (true, full_window_grown) ∧
      full_window_wiring.garbage_sched.epoch_last -
        full_window_wiring.garbage_sched.epoch_first = NBINS ∧
      (full_window_wiring.storage.getw 1).state = wire_state_t.INITIAL ∧
      ¬ reclaim_reach full_window_wiring full_window_grown.garbage_sched.epoch_first 1 ∧
      full_window_grown.storage.getw 1 = full_window_wiring.storage.getw 1 :=
  have h := enlarge_preserves layout_example 8 env_ok (fun _ => env_ok) full_window_wiring
    full_window_grown rfl
  have hn : ¬ reclaim_reach full_window_wiring full_window_grown.garbage_sched.epoch_first 1 :=
    not_reclaim_reach _ _ _ (not_next_reach_of_walk _ 17 _ _ (by decide) (by decide))
      (fun b hb =>
        match b, hb with
        | 0, _ => not_next_reach_of_walk _ 17 _ _ (by decide) (by decide)
        | 1, _ => not_next_reach_of_walk _ 17 _ _ (by decide) (by decide)
        | 2, _ => not_next_reach_of_walk _ 17 _ _ (by decide) (by decide)
        | 3, _ => not_next_reach_of_walk _ 17 _ _ (by decide) (by decide)
        | b + 4, hb => absurd hb (by simp [NBINS]))
  ⟨rfl, by decide, by decide, hn, (h.2.2 1 (by decide)).2.2.2.2.1 hn⟩

/-- C36, as amended: the free list after growth. When `wiring_enlarge`
succeeds on a wiring that satisfies `ids_ok` and whose table has `old_n`
wires, the new table has `n > old_n` wires, and every slot `i` in `[old_n, n)`
is FREE with a null endpoint, the nil sender id, no pending message, both
timeout links designating the slot itself with due 0, and `NULL` in the
association array. When the epoch window is not full at the call, the free
list is `old_n`, `old_n + 1`, ..., `n - 1` followed by the old free list, and
the next free-slot request returns `old_n`. -/
theorem enlarge_free_list (L : layout_t) (fuel : Nat) (e : env_t) (fenv : Nat → env_t)
    (s s' : wiring_t) (hok : ids_ok s)
    (h : wiring_enlarge L fuel e fenv s = some (true, s')) :
    s.storage.nwires < s'.storage.nwires ∧
      (∀ i, s.storage.nwires ≤ i → i < s'.storage.nwires →
        (s'.storage.getw i).state = wire_state_t.FREE ∧
        (s'.storage.getw i).ep = none ∧
        (s'.storage.getw i).id = sender_id_nil ∧
        (s'.storage.getw i).msg = none ∧
        (∀ which, s'.storage.link i which = { prev := some i, next := some i, due := 0 }) ∧
        s'.assoc[i]? = some Ptr.null) ∧
      (s.garbage_sched.epoch_last - s.garbage_sched.epoch_first ≠ NBINS →
        free_list s' =
          List.range' s.storage.nwires (s'.storage.nwires - s.storage.nwires) ++ free_list s ∧
        (wiring_free_get s'.storage).1 = some s.storage.nwires) := by
  obtain ⟨hgt, hadd⟩ := wiring_enlarge_success L fuel e fenv s s' h
  have hrel := (garbage_add_good fuel fenv _ _ _ _ hadd).1
  have hnw : (enlarge_install L s).storage.nwires = enlarge_nwires L s.storage.nwires :=
    nwires_enlarge_tables L s.storage s.assoc hgt
  obtain ⟨_, _, b3⟩ := enlarge_touch L fuel e fenv s s' h
  refine ⟨by rw [hrel.nwires, hnw]; exact hgt, ?_, ?_⟩
  · intro i h1 h2
    have hw := b3 i h1 h2
    rw [hrel.nwires, hnw] at h2
    have hassoc : s'.assoc[i]? = some Ptr.null := by
      rw [hrel.assoc]
      show (enlarge_tables L s.storage s.assoc).2[i]? = _
      simp only [enlarge_tables]
      have hl : (s.assoc.take s.storage.nwires).length = s.storage.nwires := by
        rw [List.length_take, hok.assoc]
        exact Nat.min_self _
      rw [List.getElem?_append_right (by rw [hl]; exact h1), hl]
      rw [List.getElem?_replicate]
      rw [if_pos (by omega)]
    have a1 := congrArg wire_t.state hw
    have a2 := congrArg wire_t.ep hw
    have a3 := congrArg wire_t.id hw
    have a4 := congrArg wire_t.msg hw
    have a5 := congrArg wire_t.tlink_expire hw
    have a6 := congrArg wire_t.tlink_wakeup hw
    refine ⟨a1, a2, a3, a4, ?_, hassoc⟩
    intro which
    cases which
    · exact a5
    · exact a6
  · intro hfull
    have := enlarge_free_list_order L fuel e fenv s s' hok hfull h
    exact ⟨this.2.2.1, this.2.2.2⟩

theorem enlarge_free_list_witness :
    ∃ s', wiring_enlarge layout_example 8 env_ok (fun _ => env_ok) wiring_example =
        some (true, s') ∧ free_list wiring_example = [0] ∧
      s'.storage.nwires = 2 ∧ free_list s' = [1, 0] ∧
      (wiring_free_get s'.storage).1 = some 1 ∧
      (s'.storage.getw 1).state = wire_state_t.FREE ∧ s'.assoc[1]? = some Ptr.null :=
  have h := enlarge_free_list layout_example 8 env_ok (fun _ => env_ok) wiring_example _
    (ids_ok_wiring_init 0 (fun _ => default) reclaimed_bin_sentinel_initial none Ptr.null) rfl
  ⟨_, rfl, by decide, by decide, (h.2.2 (by decide)).1.trans (by decide), (h.2.2 (by decide)).2,
    (h.2.1 1 (by decide) (by decide)).1, (h.2.1 1 (by decide) (by decide)).2.2.2.2.2⟩

end Wireup
